import Mathlib

/-!
# Simba kernel core: scheduler, suspend/resume protocol

A shallow embedding of `src/kernel/thrd.c`.  Thread control blocks live in a
memory indexed by address (`Nat`); a C pointer is an `Option Nat` with `none`
for `NULL`.  The ready list is the intrusive doubly linked list threaded through
the `prev_p`/`next_p` fields, exactly as in the source.  Loops carry a fuel
argument; running out of fuel is reported as a fault and stands for a loop that
does not terminate.
-/

namespace Simba

/-! ## Constants of `thrd.c` -/

@[reducible] def THRD_STATE_CURRENT : Nat := 0
@[reducible] def THRD_STATE_READY : Nat := 1
@[reducible] def THRD_STATE_SUSPENDED : Nat := 2
@[reducible] def THRD_STATE_RESUMED : Nat := 3
@[reducible] def THRD_STATE_TERMINATED : Nat := 4

@[reducible] def THRD_STACK_LOW_MAGIC : Nat := 0x1337
@[reducible] def THRD_FILL_PATTERN : Nat := 0x19

/-- Error numbers used by the kernel.  Their numeric values come from a header
that is not part of the sources at hand, so they are a parameter of the model. -/
structure errno_t where
  ETIMEDOUT : Int
  ESTACK : Int
  EINVAL : Int
  ESRCH : Int
  deriving DecidableEq, Repr

/-! ## Data model -/

/-- The fields of `struct thrd_t` that `thrd.c` reads and writes, except the
port block and the CPU usage sample.  `stack` is the stack interior that
follows the control block in the stack buffer, byte `0` at the lowest address.
`parent` is `parent.thrd_p`.  `children` is the singly linked list of the
children's `parent` nodes, kept as the sequence of their control blocks from
head to tail; the list macros come from a header that is not among the
sources: `LIST_SL_INIT` gives the empty list, `LIST_SL_ADD_TAIL` appends at
the tail and the iterator runs from head to tail. -/
structure thrd_t where
  prev_p : Option Nat
  next_p : Option Nat
  prio : Int
  state : Nat
  err : Int
  log_mask : Int
  name_p : String
  parent : Option Nat
  children : List Nat
  stack_low_magic : Nat
  stack_size : Nat
  stack : Nat → Nat

/-- The time struct: `seconds` and `nanoseconds`. -/
structure time_t where
  seconds : Int
  nanoseconds : Int
  deriving DecidableEq, Repr

/-- An armed timer: its timeout and the argument handed to its callback.  The
only callback `thrd.c` ever installs is `thrd_port_suspend_timer_callback`. -/
structure timer_t where
  timeout : time_t
  arg_p : Nat
  deriving DecidableEq, Repr

/-- The scheduler singleton (`struct thrd_scheduler_t`) together with the memory
holding the thread control blocks and the list of armed timers. -/
structure Kernel where
  current_p : Option Nat
  ready_p : Option Nat
  mem : Nat → thrd_t
  timers : List timer_t

/-- Ways in which a run of the code can fail to return normally. -/
inductive fault_t where
  | null_deref
  | fatal (error : Int)
  | out_of_fuel
  deriving DecidableEq, Repr

/-- How a call of `thrd_suspend_isr` leaves the calling thread: either the call
returned a value without any context switch, or the caller was swapped out
inside `thrd_reschedule` and the final `return (thrd_p->err)` is executed only
once the caller is swapped in again. -/
inductive suspend_result where
  | returned (err : Int)
  | switched
  deriving DecidableEq, Repr

/-! ## Memory writes -/

def mem_set (mem : Nat → thrd_t) (p : Nat) (v : thrd_t) : Nat → thrd_t :=
  fun q => if q = p then v else mem q

def Kernel.set_prev (k : Kernel) (p : Nat) (v : Option Nat) : Kernel :=
  { k with mem := mem_set k.mem p { k.mem p with prev_p := v } }

def Kernel.set_next (k : Kernel) (p : Nat) (v : Option Nat) : Kernel :=
  { k with mem := mem_set k.mem p { k.mem p with next_p := v } }

def Kernel.set_state (k : Kernel) (p : Nat) (v : Nat) : Kernel :=
  { k with mem := mem_set k.mem p { k.mem p with state := v } }

def Kernel.set_err (k : Kernel) (p : Nat) (v : Int) : Kernel :=
  { k with mem := mem_set k.mem p { k.mem p with err := v } }

/-! ## Ready list (`thrd.c` lines 99-156) -/

/-- The `while (ready_p != NULL)` loop of `scheduler_ready_push`, entered with a
non-null `ready_p`. -/
def scheduler_ready_push_loop (thrd_p : Nat) : Nat → Kernel → Nat → Except fault_t Kernel
  | 0, _, _ => Except.error fault_t.out_of_fuel
  | fuel + 1, k, ready_p =>
    if (k.mem thrd_p).prio < (k.mem ready_p).prio then
      -- Insert before the 'ready_p' thrd.
      let k1 := match (k.mem ready_p).prev_p with
        | some prev => k.set_next prev (some thrd_p)
        | none => { k with ready_p := some thrd_p }
      let k2 := k1.set_prev thrd_p (k1.mem ready_p).prev_p
      let k3 := k2.set_next thrd_p (some ready_p)
      let k4 := k3.set_prev ready_p (some thrd_p)
      Except.ok k4
    else
      match (k.mem ready_p).next_p with
      | none =>
        -- End of ready list.
        let k1 := k.set_next ready_p (some thrd_p)
        let k2 := k1.set_prev thrd_p (some ready_p)
        let k3 := k2.set_next thrd_p none
        Except.ok k3
      | some next => scheduler_ready_push_loop thrd_p fuel k next

/-- `scheduler_ready_push`. -/
def scheduler_ready_push (fuel : Nat) (k : Kernel) (thrd_p : Nat) : Except fault_t Kernel :=
  match k.ready_p with
  | some ready_p => scheduler_ready_push_loop thrd_p fuel k ready_p
  | none =>
    -- Empty list.
    let k1 := { k with ready_p := some thrd_p }
    let k2 := k1.set_prev thrd_p none
    let k3 := k2.set_next thrd_p none
    Except.ok k3

/-- `scheduler_ready_pop`.  The source dereferences `scheduler.ready_p` without
a check; with an empty list that is a null dereference. -/
def scheduler_ready_pop (k : Kernel) : Except fault_t (Kernel × Nat) :=
  match k.ready_p with
  | none => Except.error fault_t.null_deref
  | some thrd_p =>
    let k1 := { k with ready_p := (k.mem thrd_p).next_p }
    let k2 := match k1.ready_p with
      | some head => k1.set_prev head none
      | none => k1
    let k3 := k2.set_prev thrd_p none
    let k4 := k3.set_next thrd_p none
    Except.ok (k4, thrd_p)

/-! ## Scheduler (`thrd.c` lines 165-184) -/

/-- `thrd_self`. -/
def thrd_self (k : Kernel) : Option Nat := k.current_p

/-- `thrd_reschedule`.  The boolean tells whether the port swap was performed
(`in_p != out_p`).  The port's swap and CPU accounting touch only port state,
which is not part of the model.  A failed `ASSERTN` is the fatal path. -/
def thrd_reschedule (E : errno_t) (k : Kernel) : Except fault_t (Kernel × Bool) :=
  match thrd_self k with
  | none => Except.error fault_t.null_deref
  | some out_p =>
    if (k.mem out_p).stack_low_magic ≠ THRD_STACK_LOW_MAGIC then
      Except.error (fault_t.fatal E.ESTACK)
    else
      match scheduler_ready_pop k with
      | Except.error f => Except.error f
      | Except.ok (k1, in_p) =>
        let k2 := k1.set_state in_p THRD_STATE_CURRENT
        if in_p ≠ out_p then
          Except.ok ({ k2 with current_p := some in_p }, true)
        else
          Except.ok (k2, false)

/-! ## Suspend and resume (`thrd.c` lines 534-566, 630-660) -/

/-- `thrd_resume_isr`. -/
def thrd_resume_isr (fuel : Nat) (k : Kernel) (thrd_p : Nat) (err : Int) :
    Except fault_t (Kernel × Int) :=
  let k1 := k.set_err thrd_p err
  if (k1.mem thrd_p).state = THRD_STATE_SUSPENDED then
    let k2 := k1.set_state thrd_p THRD_STATE_READY
    match scheduler_ready_push fuel k2 thrd_p with
    | Except.error f => Except.error f
    | Except.ok k3 => Except.ok (k3, 0)
  else if (k1.mem thrd_p).state ≠ THRD_STATE_TERMINATED then
    Except.ok (k1.set_state thrd_p THRD_STATE_RESUMED, 0)
  else
    Except.ok (k1, 0)

/-- `thrd_resume`: `thrd_resume_isr` bracketed by `sys_lock`/`sys_unlock`, whose
result is discarded; the call returns 0.  The lock is a port primitive that
leaves the modelled state alone. -/
def thrd_resume (fuel : Nat) (k : Kernel) (thrd_p : Nat) (err : Int) :
    Except fault_t (Kernel × Int) :=
  match thrd_resume_isr fuel k thrd_p err with
  | Except.error f => Except.error f
  | Except.ok (k1, _) => Except.ok (k1, 0)

/-- Modelled from the spec: `timer_set_isr` of the timer collaborator, which is
not among the sources.  It arms a one-shot timer whose expiry calls the
callback with the given argument; the kernel never cancels it. -/
def timer_set_isr (k : Kernel) (timeout : time_t) (arg_p : Nat) : Kernel :=
  { k with timers := k.timers ++ [{ timeout := timeout, arg_p := arg_p }] }

/-- The tail of `thrd_suspend_isr`: `thrd_reschedule()` followed by
`return (thrd_p->err)`.  When the caller is swapped out the return statement is
deferred, see `thrd_suspend_isr_return`. -/
def thrd_suspend_isr_finish (E : errno_t) (k : Kernel) (thrd_p : Nat) :
    Except fault_t (Kernel × suspend_result) :=
  match thrd_reschedule E k with
  | Except.error f => Except.error f
  | Except.ok (k1, true) => Except.ok (k1, suspend_result.switched)
  | Except.ok (k1, false) => Except.ok (k1, suspend_result.returned (k1.mem thrd_p).err)

/-- `thrd_suspend_isr`; `timeout_p = none` is the `NULL` timeout. -/
def thrd_suspend_isr (E : errno_t) (fuel : Nat) (k : Kernel) (timeout_p : Option time_t) :
    Except fault_t (Kernel × suspend_result) :=
  match thrd_self k with
  | none => Except.error fault_t.null_deref
  | some thrd_p =>
    -- Immediatly return if the thread is already resumed.
    if (k.mem thrd_p).state = THRD_STATE_RESUMED then
      let k1 := k.set_state thrd_p THRD_STATE_READY
      match scheduler_ready_push fuel k1 thrd_p with
      | Except.error f => Except.error f
      | Except.ok k2 => thrd_suspend_isr_finish E k2 thrd_p
    else
      let k1 := k.set_state thrd_p THRD_STATE_SUSPENDED
      match timeout_p with
      | some timeout =>
        if timeout.seconds = 0 ∧ timeout.nanoseconds = 0 then
          Except.ok (k1, suspend_result.returned (-E.ETIMEDOUT))
        else
          thrd_suspend_isr_finish E (timer_set_isr k1 timeout thrd_p) thrd_p
      | none => thrd_suspend_isr_finish E k1 thrd_p

/-- The statement `return (thrd_p->err)` at the end of `thrd_suspend_isr`, run
by a thread that was swapped out in `thrd_reschedule` at the moment it is
swapped in again, in the kernel state of that moment. -/
def thrd_suspend_isr_return (k : Kernel) (thrd_p : Nat) : Int :=
  (k.mem thrd_p).err

/-- `thrd_suspend`: `thrd_suspend_isr` bracketed by `sys_lock`/`sys_unlock`. -/
def thrd_suspend (E : errno_t) (fuel : Nat) (k : Kernel) (timeout_p : Option time_t) :
    Except fault_t (Kernel × suspend_result) :=
  thrd_suspend_isr E fuel k timeout_p

/-- Modelled from the spec: `thrd_port_suspend_timer_callback` of the port layer,
which is not among the sources.  It "invokes `resume_isr(self, -TIMEDOUT)`"
on the thread passed as its argument. -/
def thrd_port_suspend_timer_callback (E : errno_t) (fuel : Nat) (k : Kernel) (arg_p : Nat) :
    Except fault_t Kernel :=
  match thrd_resume_isr fuel k arg_p (-E.ETIMEDOUT) with
  | Except.error f => Except.error f
  | Except.ok (k1, _) => Except.ok k1

/-- Modelled from the spec: expiry of the armed timer at position `i` in the
timer collaborator ("for each expired timer, fires its callback").  The
one-shot timer leaves the list and its callback runs. -/
def timer_expire (E : errno_t) (fuel : Nat) (k : Kernel) (i : Nat) : Except fault_t Kernel :=
  match k.timers.get? i with
  | none => Except.ok k
  | some timer =>
    thrd_port_suspend_timer_callback E fuel { k with timers := k.timers.eraseIdx i } timer.arg_p

/-! ## Sleep (`thrd.c` lines 586-596) -/

/-- The time struct `thrd_usleep` derives from `useconds`; `/` and `%` of C
round towards zero. -/
def thrd_usleep_timeout (useconds : Int) : time_t :=
  { seconds := Int.tdiv useconds 1000000
    nanoseconds := 1000 * Int.tmod useconds 1000000 }

/-- The statement `return (err == -ETIMEDOUT ? 0 : -1)` of `thrd_usleep`. -/
def thrd_usleep_return (E : errno_t) (err : Int) : Int :=
  if err = -E.ETIMEDOUT then 0 else -1

/-- `thrd_usleep`.  When the suspend swaps the caller out, the return statement
is deferred with it. -/
def thrd_usleep (E : errno_t) (fuel : Nat) (k : Kernel) (useconds : Int) :
    Except fault_t (Kernel × suspend_result) :=
  match thrd_suspend E fuel k (some (thrd_usleep_timeout useconds)) with
  | Except.error f => Except.error f
  | Except.ok (k1, suspend_result.returned err) =>
    Except.ok (k1, suspend_result.returned (thrd_usleep_return E err))
  | Except.ok (k1, suspend_result.switched) => Except.ok (k1, suspend_result.switched)

/-! ## Thread creation and termination (`thrd.c` lines 82-89, 190-197, 457-532) -/

@[reducible] def THRD_MONITOR_PRIO : Int := -80

/-- Build-time constants and link-time addresses that the sources at hand do
not fix: the value of `LOG_UPTO(NOTICE)`, `sizeof(struct thrd_t)`, the widths of
`size_t` and of `int`, the addresses of `main_thrd` and of the two static
stacks with their sizes, and the two address differences `thrd_module_init`
computes for the main stack. -/
structure config_t where
  LOG_UPTO_NOTICE : Int
  sizeof_thrd_t : Nat
  size_bits : Nat
  int_bits : Nat
  main_thrd : Nat
  main_stack_size : Nat
  main_fill_size : Nat
  idle_thrd_stack : Nat
  sizeof_idle_thrd_stack : Nat
  monitor_thrd_stack : Nat
  sizeof_monitor_thrd_stack : Nat

/-- The loop of `thrd_fill_pattern`, at index `i` with `n` bytes to go. -/
def thrd_fill_pattern_loop (from_p : Nat → Nat) (i : Nat) : Nat → Nat → Nat
  | 0 => from_p
  | n + 1 =>
    thrd_fill_pattern_loop (fun j => if j = i then THRD_FILL_PATTERN else from_p j) (i + 1) n

/-- `thrd_fill_pattern`. -/
def thrd_fill_pattern (from_p : Nat → Nat) (size : Nat) : Nat → Nat :=
  thrd_fill_pattern_loop from_p 0 size

/-- `thrd_spawn`.  `port_err` is what `thrd_port_spawn` returns; the port call
touches port state only.  The result is the handle `stack_p` or `NULL`. -/
def thrd_spawn (C : config_t) (fuel : Nat) (k : Kernel) (port_err : Int) (prio : Int)
    (stack_p : Nat) (stack_size : Nat) : Except fault_t (Kernel × Option Nat) :=
  -- Initialize thrd structure in the beginning of the stack.
  let thrd_p := stack_p
  let size := (stack_size + 2 ^ C.size_bits - C.sizeof_thrd_t) % 2 ^ C.size_bits
  let init : thrd_t :=
    { prev_p := none, next_p := none, prio := prio, state := THRD_STATE_READY, err := 0,
      log_mask := C.LOG_UPTO_NOTICE, name_p := "", parent := thrd_self k, children := [],
      stack_low_magic := THRD_STACK_LOW_MAGIC, stack_size := size,
      stack := thrd_fill_pattern (k.mem thrd_p).stack size }
  let k1 : Kernel := { k with mem := mem_set k.mem thrd_p init }
  match (k1.mem thrd_p).parent with
  | none => Except.error fault_t.null_deref
  | some parent_p =>
    let parent : thrd_t :=
      { k1.mem parent_p with children := (k1.mem parent_p).children ++ [thrd_p] }
    let k2 : Kernel := { k1 with mem := mem_set k1.mem parent_p parent }
    match scheduler_ready_push fuel k2 thrd_p with
    | Except.error f => Except.error f
    | Except.ok k3 => Except.ok (k3, if port_err = 0 then some stack_p else none)

/-- The scheduler as its static initialiser leaves it, over a given memory. -/
def boot_kernel (mem : Nat → thrd_t) : Kernel :=
  { current_p := none, ready_p := none, mem := mem, timers := [] }

/-- `thrd_module_init`; `idle_err` and `monitor_err` are the results of the
port's spawn for the two built-in threads. -/
def thrd_module_init (C : config_t) (fuel : Nat) (k : Kernel) (idle_err monitor_err : Int) :
    Except fault_t (Kernel × Int) :=
  -- Main function becomes a thrd.
  let main : thrd_t :=
    { prev_p := none, next_p := none, prio := 0, state := THRD_STATE_CURRENT, err := 0,
      log_mask := C.LOG_UPTO_NOTICE, name_p := "main", parent := none, children := [],
      stack_low_magic := THRD_STACK_LOW_MAGIC, stack_size := C.main_stack_size,
      stack := thrd_fill_pattern (k.mem C.main_thrd).stack C.main_fill_size }
  let k1 : Kernel := { k with mem := mem_set k.mem C.main_thrd main }
  let k2 : Kernel := { k1 with current_p := some C.main_thrd }
  match thrd_spawn C fuel k2 idle_err 127 C.idle_thrd_stack C.sizeof_idle_thrd_stack with
  | Except.error f => Except.error f
  | Except.ok (k3, _) =>
    match thrd_spawn C fuel k3 monitor_err THRD_MONITOR_PRIO C.monitor_thrd_stack
        C.sizeof_monitor_thrd_stack with
    | Except.error f => Except.error f
    | Except.ok (k4, _) => Except.ok (k4, 0)

/-- `terminate`: the calling thread marks itself Terminated and reschedules. -/
def terminate (E : errno_t) (k : Kernel) : Except fault_t (Kernel × Bool) :=
  match thrd_self k with
  | none => Except.error fault_t.null_deref
  | some thrd_p => thrd_reschedule E (k.set_state thrd_p THRD_STATE_TERMINATED)

/-! ## Stack watermark (`thrd.c` lines 199-215) -/

/-- The `while` loop of `thrd_get_used_stack` at index `i`; the first argument
bounds the number of rounds and is never exhausted when it starts at
`stack_size - i`. -/
def thrd_get_used_stack_loop (stack_size : Nat) (stack_p : Nat → Nat) : Nat → Nat → Nat
  | 0, i => i
  | n + 1, i =>
    if i < stack_size ∧ stack_p i = THRD_FILL_PATTERN then
      thrd_get_used_stack_loop stack_size stack_p n (i + 1)
    else i

/-- The conversion of a `size_t` value `n` to an `int` of `int_bits` bits: the
value itself when it fits, else its representative modulo `2 ^ int_bits` in
the two's complement range. -/
def int_of_size (int_bits : Nat) (n : Nat) : Int :=
  ((n : Int) + 2 ^ (int_bits - 1)) % 2 ^ int_bits - 2 ^ (int_bits - 1)

/-- `thrd_get_used_stack`.  The difference `stack_size - i` is a `size_t`; the
function returns it as an `int`. -/
def thrd_get_used_stack (C : config_t) (k : Kernel) (thrd_p : Nat) : Int :=
  int_of_size C.int_bits
    ((k.mem thrd_p).stack_size
      - thrd_get_used_stack_loop (k.mem thrd_p).stack_size (k.mem thrd_p).stack
          (k.mem thrd_p).stack_size 0)

/-- The body of thread `thrd_p` writes the `n` highest-addressed bytes of its
stack interior, byte `j` getting the value `bytes j`. -/
def Kernel.touch_stack (k : Kernel) (thrd_p : Nat) (n : Nat) (bytes : Nat → Nat) : Kernel :=
  let size := (k.mem thrd_p).stack_size
  let stack : Nat → Nat := fun j =>
    if size - n ≤ j ∧ j < size then bytes j else (k.mem thrd_p).stack j
  let t : thrd_t := { k.mem thrd_p with stack := stack }
  { k with mem := mem_set k.mem thrd_p t }

/-! ## Thread lookup and shell commands (`thrd.c` lines 272-384) -/

/-- The `while` loop of `get_by_name` over the children of a thread; `rec` is
the recursive call. -/
def get_by_name_children (rec : Nat → Except fault_t (Option Nat)) :
    List Nat → Except fault_t (Option Nat)
  | [] => Except.ok none
  | child_p :: rest =>
    match rec child_p with
    | Except.error f => Except.error f
    | Except.ok (some thrd_p) => Except.ok (some thrd_p)
    | Except.ok none => get_by_name_children rec rest

/-- `get_by_name`; the fuel bounds the depth of the recursion. -/
def get_by_name (mem : Nat → thrd_t) (name_p : String) : Nat → Nat → Except fault_t (Option Nat)
  | 0, _ => Except.error fault_t.out_of_fuel
  | fuel + 1, thrd_p =>
    -- Thread found?
    if (mem thrd_p).name_p = name_p then Except.ok (some thrd_p)
    else get_by_name_children (get_by_name mem name_p fuel) (mem thrd_p).children

/-- `thrd_get_by_name`: the lookup starts at `main_thrd`. -/
def thrd_get_by_name (C : config_t) (fuel : Nat) (k : Kernel) (name : String) :
    Except fault_t (Option Nat) :=
  get_by_name k.mem name fuel C.main_thrd

def Kernel.set_log_mask (k : Kernel) (p : Nat) (v : Int) : Kernel :=
  { k with mem := mem_set k.mem p { k.mem p with log_mask := v } }

/-- `thrd_cmd_set_log_mask`.  `argc` is the length of `argv`; `std_strtol`,
which is not among the sources, is a parameter giving the parsed value when it
returns 0; the result holds what was printed and the return code.  The header
that declares the `log_mask` field is not among the sources: the store of the
`long` mask into it is taken to be exact. -/
def thrd_cmd_set_log_mask (E : errno_t) (C : config_t) (std_strtol : String → Option Int)
    (fuel : Nat) (k : Kernel) (argv : List String) :
    Except fault_t (Kernel × List String × Int) :=
  if argv.length ≠ 3 then
    Except.ok (k, ["Usage: set_log_mask <thread name> <log mask>\r\n"], -E.EINVAL)
  else
    match thrd_get_by_name C fuel k (argv.getD 1 "") with
    | Except.error f => Except.error f
    | Except.ok none => Except.ok (k, [], -E.ESRCH)
    | Except.ok (some thrd_p) =>
      match std_strtol (argv.getD 2 "") with
      | none => Except.ok (k, [], -E.EINVAL)
      | some mask => Except.ok (k.set_log_mask thrd_p mask, [], 0)

/-- `struct monitor_t`. -/
structure monitor_t where
  period_us : Int
  print : Int
  deriving DecidableEq, Repr

/-- The static initialiser of `monitor`. -/
def monitor_init : monitor_t :=
  { period_us := 2000000, print := 0 }

/-- `thrd_cmd_monitor_set_period_ms`; the product is taken without overflow. -/
def thrd_cmd_monitor_set_period_ms (E : errno_t) (std_strtol : String → Option Int)
    (monitor : monitor_t) (argv : List String) : monitor_t × List String × Int :=
  if argv.length ≠ 2 then
    (monitor, ["Usage: set_period_ms <milliseconds>\r\n"], -E.EINVAL)
  else
    match std_strtol (argv.getD 1 "") with
    | none => (monitor, [], -E.EINVAL)
    | some ms => ({ monitor with period_us := 1000 * ms }, [], 0)

/-- `thrd_cmd_monitor_set_print`; the three `goto err_inval` share one exit. -/
def thrd_cmd_monitor_set_print (E : errno_t) (std_strtol : String → Option Int)
    (monitor : monitor_t) (argv : List String) : monitor_t × List String × Int :=
  if argv.length ≠ 2 then
    (monitor, ["Usage: set_print <1/0>\r\n"], -E.EINVAL)
  else
    match std_strtol (argv.getD 1 "") with
    | none => (monitor, ["Usage: set_print <1/0>\r\n"], -E.EINVAL)
    | some print =>
      if print ≠ 0 ∧ print ≠ 1 then
        (monitor, ["Usage: set_print <1/0>\r\n"], -E.EINVAL)
      else ({ monitor with print := print }, [], 0)

/-- A shell command addressed to the monitor. -/
inductive monitor_cmd where
  | set_period_ms (argv : List String)
  | set_print (argv : List String)

/-- The monitor settings after a sequence of shell commands. -/
def monitor_run (E : errno_t) (std_strtol : String → Option Int) :
    monitor_t → List monitor_cmd → monitor_t
  | m, [] => m
  | m, monitor_cmd.set_period_ms argv :: rest =>
    monitor_run E std_strtol (thrd_cmd_monitor_set_period_ms E std_strtol m argv).1 rest
  | m, monitor_cmd.set_print argv :: rest =>
    monitor_run E std_strtol (thrd_cmd_monitor_set_print E std_strtol m argv).1 rest

/-! ## Ticks (`sys.h` lines 27-50) -/

@[reducible] def SYS_TICK_FREQUENCY : Int := 100

/-- Modelled from the spec: the macro `DIV_CEIL`, which is not among the
sources; the spec reads it as the quotient rounded up ("ceil"), here for
operands of type `long` with C's division. -/
def DIV_CEIL (n d : Int) : Int :=
  Int.tdiv (n + d - 1) d

/-- `t2st` for the tick frequency `F`; `sys_tick_t` is `uint64_t`, and the sum
is taken modulo `2 ^ 64`.  The inner product, at most `10 ^ 6 * F` for a
nanosecond count below `10 ^ 9`, is taken without overflow. -/
def t2st (F : Int) (time_p : time_t) : Nat :=
  ((time_p.seconds * F
    + DIV_CEIL (DIV_CEIL time_p.nanoseconds 1000 * F) 1000000) % 2 ^ 64).toNat

/-- `st2t` for the tick frequency `F`; `tick` is a `uint64_t` and the product
is taken modulo `2 ^ 64`.  The header that declares `struct time_t` is not
among the sources: the stores into its two fields are taken to be exact, which
is the case when the values fit the fields. -/
def st2t (F : Int) (tick : Nat) : time_t :=
  { seconds := Int.tdiv (tick : Int) F
    nanoseconds := Int.tdiv ((1000000 * Int.tmod (tick : Int) F) % 2 ^ 64) F * 1000 }

/-! ## Introspection walks (`thrd.c` lines 36-42, 218-253, 401-427) -/

/-- The array `state_fmt`. -/
def state_fmt : List String :=
  ["current", "ready", "suspended", "resumed", "terminated"]

/-- One line of the thread list: the arguments `thrd_list_thrd` passes to
`std_fprintf`. -/
structure thrd_list_row_t where
  name : String
  parent_name : String
  state : String
  prio : Int
  cpu_usage : Nat
  used_stack : Int
  stack_size : Int
  log_mask : Int
  deriving DecidableEq, Repr

/-- The line `thrd_list_thrd` prints for thread `thrd_p`.  `cpu_usage` gives
`(unsigned int)thrd_p->cpu.usage`, a field of the port's accounting that is
not part of `thrd_t` here. -/
def thrd_list_row (C : config_t) (cpu_usage : Nat → Nat) (k : Kernel) (thrd_p : Nat) :
    thrd_list_row_t :=
  { name := (k.mem thrd_p).name_p
    parent_name :=
      match (k.mem thrd_p).parent with
      | some parent_p => (k.mem parent_p).name_p
      | none => ""
    state := state_fmt.getD (k.mem thrd_p).state ""
    prio := (k.mem thrd_p).prio
    cpu_usage := cpu_usage thrd_p
    used_stack := thrd_get_used_stack C k thrd_p
    stack_size := int_of_size C.int_bits (k.mem thrd_p).stack_size
    log_mask := (k.mem thrd_p).log_mask }

/-- The `while (1)` loop of `thrd_list_thrd` over the children of a thread;
`rec` is the recursive call. -/
def thrd_list_thrd_children (rec : Nat → Except fault_t (List thrd_list_row_t)) :
    List Nat → Except fault_t (List thrd_list_row_t)
  | [] => Except.ok []
  | child_p :: rest =>
    match rec child_p with
    | Except.error f => Except.error f
    | Except.ok rows =>
      match thrd_list_thrd_children rec rest with
      | Except.error f => Except.error f
      | Except.ok rows1 => Except.ok (rows ++ rows1)

/-- `thrd_list_thrd`: the lines it prints, in the order it prints them; the
fuel bounds the depth of the recursion. -/
def thrd_list_thrd (C : config_t) (cpu_usage : Nat → Nat) (k : Kernel) :
    Nat → Nat → Except fault_t (List thrd_list_row_t)
  | 0, _ => Except.error fault_t.out_of_fuel
  | fuel + 1, thrd_p =>
    match thrd_list_thrd_children (thrd_list_thrd C cpu_usage k fuel)
        (k.mem thrd_p).children with
    | Except.error f => Except.error f
    | Except.ok rows => Except.ok (thrd_list_row C cpu_usage k thrd_p :: rows)

/-- Modelled from the spec: the port's "per-thread CPU-time accounting", which
is not among the sources.  `port_usage` is what `thrd_port_cpu_usage_get`
returns for a thread, and `thrd_port_cpu_usage_reset` sets it to 0.  With it
go the two things `update_cpu_usage` writes: `usage`, the field `cpu.usage` of
each thread, and `out`, the lines printed, each a name with a usage sample. -/
structure cpu_t where
  port_usage : Nat → Nat
  usage : Nat → Nat
  out : List (String × Nat)

/-- The statements of `update_cpu_usage` before its loop, for thread `thrd_p`. -/
def update_cpu_usage_visit (mem : Nat → thrd_t) (print : Int) (s : cpu_t) (thrd_p : Nat) :
    cpu_t :=
  let s1 : cpu_t :=
    { s with usage := fun x => if x = thrd_p then s.port_usage thrd_p else s.usage x }
  let s2 : cpu_t :=
    { s1 with port_usage := fun x => if x = thrd_p then 0 else s1.port_usage x }
  if print = 1 then
    { s2 with out := s2.out ++ [((mem thrd_p).name_p, s2.usage thrd_p)] }
  else s2

/-- The `while (1)` loop of `update_cpu_usage` over the children of a thread;
`rec` is the recursive call. -/
def update_cpu_usage_children (rec : Nat → cpu_t → Except fault_t cpu_t) :
    List Nat → cpu_t → Except fault_t cpu_t
  | [], s => Except.ok s
  | child_p :: rest, s =>
    match rec child_p s with
    | Except.error f => Except.error f
    | Except.ok s1 => update_cpu_usage_children rec rest s1

/-- `update_cpu_usage`; the fuel bounds the depth of the recursion. -/
def update_cpu_usage (mem : Nat → thrd_t) (print : Int) :
    Nat → Nat → cpu_t → Except fault_t cpu_t
  | 0, _, _ => Except.error fault_t.out_of_fuel
  | fuel + 1, thrd_p, s =>
    update_cpu_usage_children (update_cpu_usage mem print fuel) (mem thrd_p).children
      (update_cpu_usage_visit mem print s thrd_p)

/-! ## The SPI client example (`examples/spi/client/main.c`) -/

/-- The value a `long` of `w` bits holds after an arithmetic result `x`: the
representative of `x` modulo `2 ^ w` in the two's complement range.  Within
the range it is `x`; outside, where C leaves the behaviour open, it is the
wrap-around the targets' compilers produce. -/
def wrap_long (w : Nat) (x : Int) : Int :=
  (x + 2 ^ (w - 1)) % 2 ^ w - 2 ^ (w - 1)

/-- `a & m` for a `long` `a` of `w` bits and a non-negative mask `m`, taken on
the two's complement representation of `a`. -/
def land_long (w : Nat) (a : Int) (m : Nat) : Int :=
  (((a % 2 ^ w).toNat &&& m : Nat) : Int)

/-- The two file-scope limits `temp_min` and `temp_max`. -/
structure limits_t where
  temp_min : Int
  temp_max : Int
  deriving DecidableEq, Repr

/-- The static initialisers of `temp_min` and `temp_max`. -/
def limits_init : limits_t :=
  { temp_min := 230000, temp_max := 290000 }

/-- `set_min_max`; `argc` is the length of `argv`, `std_strtol` gives the parsed
value when it returns 0, and the result holds the limits, what was printed and
the return code. -/
def set_min_max (w : Nat) (std_strtol : String → Option Int) (limits : limits_t)
    (argv : List String) : limits_t × List String × Int :=
  if argv.length ≠ 3 then
    (limits, ["2 argument required.\r\n"], 1)
  else
    match std_strtol (argv.getD 1 ""), std_strtol (argv.getD 2 "") with
    | some min, some max =>
      let temp_min := wrap_long w (10000 * min)
      let temp_max := wrap_long w (10000 * max)
      ({ temp_min := temp_min, temp_max := temp_max },
        ["min set to " ++ toString (Int.tdiv temp_min 10000) ++ " and max set to "
          ++ toString (Int.tdiv temp_max 10000) ++ "\r\n"], 0)
    | _, _ =>
      (limits, ["bad min or max value '" ++ argv.getD 1 "" ++ "' '" ++ argv.getD 2 ""
        ++ "'\r\n"], 1)

/-- Lines 111-112 of `main`: the temperature computed from the sensor reading
`read_temp`; `>>` on a negative `long` is the arithmetic shift
(`Int.shiftRight`). -/
def main_temp (w : Nat) (read_temp : Int) : Int :=
  let temp := read_temp
  wrap_long w
    (wrap_long w (10000 * Int.shiftRight temp 4) + wrap_long w (625 * land_long w temp 0xf))

/-- The value `main` gives `resolution` on line 121. -/
def main_resolution (w : Nat) (limits : limits_t) : Int :=
  Int.tdiv (wrap_long w (limits.temp_max - limits.temp_min)) 8

/-- Lines 114-128 of `main`: the LED state sent for the temperature `temp`,
a `uint8_t`; `none` stands for a division by zero on line 122. -/
def main_led_state (w : Nat) (limits : limits_t) (temp : Int) : Option Nat :=
  -- Update led.
  if temp ≤ limits.temp_min then some 0x1
  else if temp ≥ limits.temp_max then some 0x7
  else
    let temp1 := wrap_long w (temp - limits.temp_min)
    let resolution := Int.tdiv (wrap_long w (limits.temp_max - limits.temp_min)) 8
    if resolution = 0 then none
    else
      let temp2 := wrap_long w (Int.tdiv temp1 resolution)
      let state := (temp2 % 256).toNat
      some (if state = 0x0 then 0x1 else state)

/-! ## Sequences of list operations -/

/-- `scheduler_ready_push` of each of the given threads, in that order. -/
def pushes (fuel : Nat) : Kernel → List Nat → Except fault_t Kernel
  | k, [] => Except.ok k
  | k, t :: ts =>
    match scheduler_ready_push fuel k t with
    | Except.error f => Except.error f
    | Except.ok k1 => pushes fuel k1 ts

/-- The given number of `scheduler_ready_pop` calls in a row; the threads they
return, in that order. -/
def pops : Nat → Kernel → Except fault_t (Kernel × List Nat)
  | 0, k => Except.ok (k, [])
  | n + 1, k =>
    match scheduler_ready_pop k with
    | Except.error f => Except.error f
    | Except.ok (k1, t) =>
      match pops n k1 with
      | Except.error f => Except.error f
      | Except.ok (k2, ts) => Except.ok (k2, t :: ts)

/-- The threads met when following `next_p` from pointer `p`, for at most the
given number of steps. -/
def next_chain (mem : Nat → thrd_t) : Nat → Option Nat → List Nat
  | 0, _ => []
  | _ + 1, none => []
  | n + 1, some p => p :: next_chain mem n (mem p).next_p

/-! ## Reachable states -/

/-- The states the kernel gets into from `thrd_module_init` on the boot state
by calls of `thrd_spawn` on a fresh control block, `thrd_suspend`,
`thrd_resume` of an existing thread and `terminate`, together with the control
blocks in use.  `thrd_reschedule` runs inside suspend and terminate.  With
`poll = false` suspends with a zero-valued timeout are left out. -/
inductive reachable (E : errno_t) (C : config_t) (poll : Bool) : Kernel → List Nat → Prop
  | init (fuel : Nat) (mem : Nat → thrd_t) (idle_err monitor_err : Int) (k : Kernel) (r : Int) :
    thrd_module_init C fuel (boot_kernel mem) idle_err monitor_err = Except.ok (k, r) →
    reachable E C poll k [C.main_thrd, C.idle_thrd_stack, C.monitor_thrd_stack]
  | spawn (fuel : Nat) (k : Kernel) (live : List Nat) (port_err prio : Int)
      (stack_p stack_size : Nat) (k1 : Kernel) (r : Option Nat) :
    reachable E C poll k live → stack_p ∉ live →
    thrd_spawn C fuel k port_err prio stack_p stack_size = Except.ok (k1, r) →
    reachable E C poll k1 (live ++ [stack_p])
  | suspend (fuel : Nat) (k : Kernel) (live : List Nat) (timeout_p : Option time_t)
      (k1 : Kernel) (r : suspend_result) :
    reachable E C poll k live →
    (poll = true ∨ ∀ t, timeout_p = some t → ¬(t.seconds = 0 ∧ t.nanoseconds = 0)) →
    thrd_suspend E fuel k timeout_p = Except.ok (k1, r) →
    reachable E C poll k1 live
  | resume (fuel : Nat) (k : Kernel) (live : List Nat) (thrd_p : Nat) (err : Int)
      (k1 : Kernel) (r : Int) :
    reachable E C poll k live → thrd_p ∈ live →
    thrd_resume fuel k thrd_p err = Except.ok (k1, r) →
    reachable E C poll k1 live
  | terminate (k : Kernel) (live : List Nat) (k1 : Kernel) (b : Bool) :
    reachable E C poll k live →
    terminate E k = Except.ok (k1, b) →
    reachable E C poll k1 live

/-- The addresses of `main_thrd` and of the two static stacks differ. -/
def layout_ok (C : config_t) : Prop :=
  C.main_thrd ≠ C.idle_thrd_stack ∧ C.main_thrd ≠ C.monitor_thrd_stack ∧
    C.idle_thrd_stack ≠ C.monitor_thrd_stack

instance layout_ok_decidable (C : config_t) : Decidable (layout_ok C) :=
  inferInstanceAs (Decidable (C.main_thrd ≠ C.idle_thrd_stack ∧
    C.main_thrd ≠ C.monitor_thrd_stack ∧ C.idle_thrd_stack ≠ C.monitor_thrd_stack))

/-! ## The ready list as a sequence -/

/-- A run of list nodes: starting at pointer `p`, whose first node must have
`prev_p = prev`, the nodes `l` are linked one after the other by `next_p`, each
pointing back at its predecessor by `prev_p`, and the last `next_p` is `q`. -/
def seg (mem : Nat → thrd_t) : Option Nat → Option Nat → List Nat → Option Nat → Prop
  | _, p, [], q => p = q
  | prev, p, x :: l, q =>
    p = some x ∧ (mem x).prev_p = prev ∧ seg mem (some x) (mem x).next_p l q

/-- The pointer to the last node of a run, or `prev` when the run is empty. -/
def lastp : Option Nat → List Nat → Option Nat
  | prev, [] => prev
  | _, x :: l => lastp (some x) l

/-- The ready list of `k` is the sequence `l` of distinct thread control blocks:
`scheduler.ready_p` leads to the first, whose `prev_p` is `NULL`, and the last
`next_p` is `NULL`. -/
def ready_queue (k : Kernel) (l : List Nat) : Prop :=
  seg k.mem none k.ready_p l none ∧ l.Nodup

/-- Position of a pushed thread in a sequence of threads: before the first one
of strictly greater `prio` value, at the end if there is none. -/
def insert_by_prio (mem : Nat → thrd_t) (thrd_p : Nat) : List Nat → List Nat
  | [] => [thrd_p]
  | a :: l =>
    if (mem thrd_p).prio < (mem a).prio then thrd_p :: a :: l
    else a :: insert_by_prio mem thrd_p l

/-- The thread control block with its two list links blanked out. -/
def thrd_t.data (t : thrd_t) : thrd_t :=
  { t with prev_p := none, next_p := none }

/-- The step from `k` to `k1` rewrites list links only: the current thread, the
timers and every field of every thread other than `prev_p`/`next_p` agree. -/
def links_only (k k1 : Kernel) : Prop :=
  k1.current_p = k.current_p ∧ k1.timers = k.timers ∧ ∀ x, (k1.mem x).data = (k.mem x).data

instance seg_decidable (mem : Nat → thrd_t) :
    (prev p : Option Nat) → (l : List Nat) → (q : Option Nat) → Decidable (seg mem prev p l q)
  | _, p, [], q => inferInstanceAs (Decidable (p = q))
  | prev, p, x :: l, q =>
    have := seg_decidable mem (some x) (mem x).next_p l q
    inferInstanceAs (Decidable (p = some x ∧ (mem x).prev_p = prev ∧ seg mem (some x) (mem x).next_p l q))

instance ready_queue_decidable (k : Kernel) (l : List Nat) : Decidable (ready_queue k l) :=
  inferInstanceAs (Decidable (seg k.mem none k.ready_p l none ∧ l.Nodup))

/-! ## A concrete system, used to run the code on -/

/-- A thread control block with the given links, priority, state and latched
error, an intact canary and defaults elsewhere. -/
def tcb (prev_p next_p : Option Nat) (prio : Int) (state : Nat) (err : Int) : thrd_t :=
  { prev_p := prev_p, next_p := next_p, prio := prio, state := state, err := err,
    log_mask := 0, name_p := "", parent := none, children := [],
    stack_low_magic := THRD_STACK_LOW_MAGIC, stack_size := 0, stack := fun _ => 0 }

/-- Sample error numbers. -/
def ex_errno : errno_t :=
  { ETIMEDOUT := 110, ESTACK := 1000, EINVAL := 22, ESRCH := 3 }

/-- The system as `thrd_module_init` leaves it, plus one suspended worker:
thread 0 (main, prio 0) is running, the ready list holds thread 1 (monitor,
prio -80) and thread 2 (idle, prio 127), thread 3 (prio 10) is suspended. -/
def ex_kernel : Kernel :=
  { current_p := some 0
    ready_p := some 1
    mem := fun p =>
      if p = 0 then tcb none none 0 THRD_STATE_CURRENT 0
      else if p = 1 then tcb none (some 2) (-80) THRD_STATE_READY 0
      else if p = 2 then tcb (some 1) none 127 THRD_STATE_READY 0
      else tcb none none 10 THRD_STATE_SUSPENDED 0
    timers := [] }

/-- The same system with the running thread 0 already marked Resumed and
holding the latched error 7. -/
def ex_kernel_resumed : Kernel :=
  { ex_kernel with
    mem := fun p =>
      if p = 0 then tcb none none 0 THRD_STATE_RESUMED 7 else ex_kernel.mem p }

/-- Sample build: `main_thrd` at address 0, the monitor stack at 1, the idle
stack at 2, 32-bit `size_t` and `int`. -/
def ex_config : config_t :=
  { LOG_UPTO_NOTICE := 63, sizeof_thrd_t := 64, size_bits := 32, int_bits := 32, main_thrd := 0,
    main_stack_size := 1024, main_fill_size := 512, idle_thrd_stack := 2,
    sizeof_idle_thrd_stack := 156, monitor_thrd_stack := 1, sizeof_monitor_thrd_stack := 256 }

/-- The kernel of a successful run, with a fallback for a failed one. -/
def kernel_of {α : Type} (r : Except fault_t (Kernel × α)) (dflt : Kernel) : Kernel :=
  match r with
  | Except.ok (k, _) => k
  | Except.error _ => dflt

/-- The sample system right after `thrd_module_init`. -/
def ex_init : Kernel :=
  kernel_of (thrd_module_init ex_config 4 (boot_kernel (fun _ => tcb none none 0 0 0)) 0 0)
    (boot_kernel (fun _ => tcb none none 0 0 0))

/-- Three threads X, Y, Z (addresses 10, 11, 12) of priority 20, none of them
on the, empty, ready list. -/
def ex_fifo : Kernel :=
  { current_p := some 0
    ready_p := none
    mem := fun p => if p = 0 then tcb none none 0 THRD_STATE_CURRENT 0
      else tcb none none 20 THRD_STATE_READY 0
    timers := [] }

/-- The same three threads after X and Y have been pushed. -/
def ex_fifo_xy : Kernel :=
  { current_p := some 0
    ready_p := some 10
    mem := fun p => if p = 0 then tcb none none 0 THRD_STATE_CURRENT 0
      else if p = 10 then tcb none (some 11) 20 THRD_STATE_READY 0
      else if p = 11 then tcb (some 10) none 20 THRD_STATE_READY 0
      else tcb none none 20 THRD_STATE_READY 0
    timers := [] }

/-- The sample system after its running thread 0 (main) has polled with the
timeout `{0, 0}`. -/
def ex_poll1 : Kernel :=
  kernel_of (thrd_suspend ex_errno 8 ex_init (some ⟨0, 0⟩)) ex_init

/-- Then `thrd_resume(0, 0)` is issued, for instance from an interrupt. -/
def ex_poll2 : Kernel :=
  kernel_of (thrd_resume 8 ex_poll1 0 0) ex_init

/-- Then thread 0 suspends with no timeout and thread 1 (monitor) runs. -/
def ex_poll3 : Kernel :=
  kernel_of (thrd_suspend ex_errno 8 ex_poll2 none) ex_init

/-- Then `thrd_resume(0, 0)` is issued again. -/
def ex_poll4 : Kernel :=
  kernel_of (thrd_resume 8 ex_poll3 0 0) ex_init

/-- Then thread 1 spawns thread 3 with priority -5. -/
def ex_poll5 : Kernel :=
  kernel_of (thrd_spawn ex_config 8 ex_poll4 0 (-5) 3 256) ex_init

/-- Then thread 1 suspends with no timeout and thread 0 runs. -/
def ex_poll6 : Kernel :=
  kernel_of (thrd_suspend ex_errno 8 ex_poll5 none) ex_init

/-- Then thread 0 suspends with no timeout and thread 3 runs. -/
def ex_poll7 : Kernel :=
  kernel_of (thrd_suspend ex_errno 8 ex_poll6 none) ex_init

/-- Then thread 3 suspends with no timeout and thread 0 runs. -/
def ex_poll8 : Kernel :=
  kernel_of (thrd_suspend ex_errno 8 ex_poll7 none) ex_init

/-- Priorities do not decrease from head to tail. -/
def prio_sorted (mem : Nat → thrd_t) (l : List Nat) : Prop :=
  l.Pairwise (fun a b => (mem a).prio ≤ (mem b).prio)

/-- Thread `a` comes before thread `b` in the sequence. -/
def precedes (a b : Nat) (l : List Nat) : Prop :=
  List.Sublist [a, b] l

/-- The bookkeeping that holds in every reachable state when no suspend polls
with a zero-valued timeout: there is a running thread, in state Current or
Resumed, off the well-formed ready list; the threads on the list are Ready or
Resumed; every other thread in use is Suspended or Terminated. -/
def sched_inv (k : Kernel) (live : List Nat) : Prop :=
  ∃ c l, k.current_p = some c ∧ c ∈ live ∧ ready_queue k l ∧ c ∉ l ∧
    (∀ x ∈ l, x ∈ live) ∧
    ((k.mem c).state = THRD_STATE_CURRENT ∨ (k.mem c).state = THRD_STATE_RESUMED) ∧
    (∀ x ∈ l, (k.mem x).state = THRD_STATE_READY ∨ (k.mem x).state = THRD_STATE_RESUMED) ∧
    (∀ x ∈ live, x ≠ c → x ∉ l →
      (k.mem x).state = THRD_STATE_SUSPENDED ∨ (k.mem x).state = THRD_STATE_TERMINATED)

/-- The state `thrd_spawn` has built when it calls `scheduler_ready_push`, the
current thread being `c`: the new control block is initialised and appended to
the children of `c`. -/
def spawn_pre (C : config_t) (k : Kernel) (c : Nat) (prio : Int) (stack_p stack_size : Nat) :
    Kernel :=
  let size := (stack_size + 2 ^ C.size_bits - C.sizeof_thrd_t) % 2 ^ C.size_bits
  let init : thrd_t :=
    { prev_p := none, next_p := none, prio := prio, state := THRD_STATE_READY, err := 0,
      log_mask := C.LOG_UPTO_NOTICE, name_p := "", parent := some c, children := [],
      stack_low_magic := THRD_STACK_LOW_MAGIC, stack_size := size,
      stack := thrd_fill_pattern (k.mem stack_p).stack size }
  let m1 := mem_set k.mem stack_p init
  { k with mem := mem_set m1 c { m1 c with children := (m1 c).children ++ [stack_p] } }

/-- A state in which the running thread 0 is itself the head of the ready
list, in state Ready: what `thrd_suspend_isr` has built for a Resumed caller of
the highest priority when it calls `thrd_reschedule`. -/
def ex_kernel_self_head : Kernel :=
  { current_p := some 0
    ready_p := some 0
    mem := fun p =>
      if p = 0 then tcb none (some 2) 0 THRD_STATE_READY 7
      else if p = 2 then tcb (some 0) none 127 THRD_STATE_READY 0
      else tcb none none 10 THRD_STATE_SUSPENDED 0
    timers := [] }

/-- The subtree of thread `p`, as the `children` lists give it, has depth at
most `d`: it is a finite tree. -/
def tree_depth (mem : Nat → thrd_t) : Nat → Nat → Prop
  | 0, _ => False
  | d + 1, p => ∀ c ∈ (mem p).children, tree_depth mem d c

instance tree_depth_decidable (mem : Nat → thrd_t) :
    (d p : Nat) → Decidable (tree_depth mem d p)
  | 0, _ => isFalse (fun h => h)
  | d + 1, p =>
    have := fun c => tree_depth_decidable mem d c
    inferInstanceAs (Decidable (∀ c ∈ (mem p).children, tree_depth mem d c))

/-- The threads of the subtree of `p` down to depth `d` in pre-order: a thread
before its children, the children in list order. -/
def preorder (mem : Nat → thrd_t) : Nat → Nat → List Nat
  | 0, _ => []
  | d + 1, p => p :: (mem p).children.foldr (fun c acc => preorder mem d c ++ acc) []

/-- A sample `std_strtol`: it parses "0", "1", "7" and "250" and rejects
everything else. -/
def ex_strtol (s : String) : Option Int :=
  if s = "0" then some 0 else if s = "1" then some 1 else if s = "7" then some 7
  else if s = "250" then some 250 else none

/-- The scheduler's pointers stay inside the set `S` of thread control blocks:
the current thread, the head of the ready list, and the `next_p` link of every
member of `S` are members of `S` or `NULL`. -/
def ptr_closed (k : Kernel) (S : Nat → Prop) : Prop :=
  (∀ c, k.current_p = some c → S c) ∧ (∀ p, k.ready_p = some p → S p) ∧
    ∀ x, S x → ∀ y, (k.mem x).next_p = some y → S y

/-- The step from `k` to `k1` leaves the `parent` and `children` of every
thread control block as they are. -/
def tree_same (k k1 : Kernel) : Prop :=
  ∀ x, (k1.mem x).parent = (k.mem x).parent ∧ (k1.mem x).children = (k.mem x).children

/-- A step that keeps the pointers inside `S` and leaves the thread tree alone. -/
def tree_step (S : Nat → Prop) (k k1 : Kernel) : Prop :=
  ptr_closed k1 S ∧ tree_same k k1

/-- The thread tree over the threads in use: the scheduler's pointers stay
among them; `main` is one of them and has no parent; the children lists of
threads in use have no duplicates and hold threads in use, other than `main`,
whose `parent` is the owner of the list; every thread in use other than
`main` has a parent in use that lists it as a child. -/
def tree_inv (C : config_t) (k : Kernel) (live : List Nat) : Prop :=
  ptr_closed k (fun x => x ∈ live) ∧ C.main_thrd ∈ live ∧
    (k.mem C.main_thrd).parent = none ∧
    (∀ P ∈ live, (k.mem P).children.Nodup ∧
      ∀ T ∈ (k.mem P).children,
        T ∈ live ∧ T ≠ C.main_thrd ∧ (k.mem T).parent = some P) ∧
    (∀ T ∈ live, T ≠ C.main_thrd →
      ∃ P ∈ live, (k.mem T).parent = some P ∧ T ∈ (k.mem P).children)

/-- The sample system after thread 0 (main) has spawned a worker, thread 3,
with priority 10. -/
def ex_term1 : Kernel :=
  kernel_of (thrd_spawn ex_config 8 ex_init 0 10 3 256) ex_init

/-- Then thread 0 suspends with no timeout and thread 1 (monitor) runs. -/
def ex_term2 : Kernel :=
  kernel_of (thrd_suspend ex_errno 8 ex_term1 none) ex_init

/-- Then thread 1 suspends with no timeout and the worker runs. -/
def ex_term3 : Kernel :=
  kernel_of (thrd_suspend ex_errno 8 ex_term2 none) ex_init

/-- Then the worker polls with the timeout `{0, 0}`. -/
def ex_term4 : Kernel :=
  kernel_of (thrd_suspend ex_errno 8 ex_term3 (some ⟨0, 0⟩)) ex_init

/-- Then `thrd_resume(3, 0)` is issued, for instance from an interrupt. -/
def ex_term5 : Kernel :=
  kernel_of (thrd_resume 8 ex_term4 3 0) ex_init

/-- Then the entry function of the worker returns: `terminate`. -/
def ex_term6 : Kernel :=
  kernel_of (terminate ex_errno ex_term5) ex_init

/-- The threads in use can be numbered so that every child has a greater
number than its parent; the numbers stay below the number of threads. -/
def tree_ranked (k : Kernel) (live : List Nat) : Prop :=
  ∃ rank : Nat → Nat, (∀ x ∈ live, rank x < live.length) ∧
    ∀ P ∈ live, ∀ T ∈ (k.mem P).children, rank P < rank T

/-- A sample accounting state: every thread has used 5 units since the last
reset, no usage sample is stored and nothing is printed. -/
def ex_cpu : cpu_t :=
  { port_usage := fun _ => 5, usage := fun _ => 0, out := [] }

/-- A sample `std_strtol` for the limits of the SPI client example. -/
def ex_strtol_limits (s : String) : Option Int :=
  if s = "23" then some 23
  else if s = "29" then some 29
  else if s = "-200000" then some (-200000)
  else if s = "200000" then some 200000
  else none

/-- Following the spec's words ("highest-priority-first, FIFO within a
class"): the stable sort of the threads `ts` by ascending `prio` value, threads
of equal `prio` keeping the order they have in `ts`. -/
def stable_sort_by_prio (mem : Nat → thrd_t) (ts : List Nat) : List Nat :=
  ts.insertionSort (fun a b => (mem a).prio ≤ (mem b).prio)

/-- The sample system with an empty ready list: thread 0 has `prio` 0, thread
1 `prio` -80, thread 2 `prio` 127, every other thread `prio` 10. -/
def ex_empty : Kernel :=
  { ex_kernel with ready_p := none }

/-- The state `thrd_module_init` has built when it spawns the idle thread:
`main_thrd` is initialised and is the current thread. -/
def module_init_pre (C : config_t) (k : Kernel) : Kernel :=
  let main : thrd_t :=
    { prev_p := none, next_p := none, prio := 0, state := THRD_STATE_CURRENT, err := 0,
      log_mask := C.LOG_UPTO_NOTICE, name_p := "main", parent := none, children := [],
      stack_low_magic := THRD_STACK_LOW_MAGIC, stack_size := C.main_stack_size,
      stack := thrd_fill_pattern (k.mem C.main_thrd).stack C.main_fill_size }
  { k with mem := mem_set k.mem C.main_thrd main, current_p := some C.main_thrd }

/-- The ready list of `k`, holding the threads `l`, is well formed as a doubly
linked list: no thread is on it twice, `scheduler.ready_p` is its first node
and has `prev_p = NULL`, its last node has `next_p = NULL`, and whenever
`a.next_p = b` for a node `a` then `b` is a node with `b.prev_p = a`. -/
def well_formed_links (k : Kernel) (l : List Nat) : Prop :=
  l.Nodup ∧ k.ready_p = l.head? ∧
    (∀ h, k.ready_p = some h → (k.mem h).prev_p = none) ∧
    (∀ a, l.getLast? = some a → (k.mem a).next_p = none) ∧
    (∀ a ∈ l, ∀ b, (k.mem a).next_p = some b → b ∈ l ∧ (k.mem b).prev_p = some a)

/-! ## Memory lemmas -/

@[simp] theorem mem_set_same (mem : Nat → thrd_t) (p : Nat) (v : thrd_t) :
    mem_set mem p v p = v := by
  simp [mem_set]

@[simp] theorem mem_set_other (mem : Nat → thrd_t) (p q : Nat) (v : thrd_t) (h : q ≠ p) :
    mem_set mem p v q = mem q := by
  simp [mem_set, h]

theorem seg_congr (mem mem1 : Nat → thrd_t) :
    ∀ (l : List Nat) (prev p q : Option Nat),
      (∀ x ∈ l, (mem1 x).prev_p = (mem x).prev_p ∧ (mem1 x).next_p = (mem x).next_p) →
      seg mem prev p l q → seg mem1 prev p l q := by
  intro l
  induction l with
  | nil => intro prev p q _ h; exact h
  | cons x l ih =>
    intro prev p q hx h
    obtain ⟨h1, h2, h3⟩ := h
    have hxx := hx x (List.mem_cons_self x l)
    refine ⟨h1, by rw [hxx.1]; exact h2, ?_⟩
    rw [hxx.2]
    exact ih (some x) _ q (fun y hy => hx y (List.mem_cons_of_mem x hy)) h3

theorem seg_append (mem : Nat → thrd_t) :
    ∀ (l1 l2 : List Nat) (prev p q : Option Nat),
      seg mem prev p (l1 ++ l2) q ↔
        ∃ r, seg mem prev p l1 r ∧ seg mem (lastp prev l1) r l2 q := by
  intro l1
  induction l1 with
  | nil =>
    intro l2 prev p q
    constructor
    · intro h; exact ⟨p, rfl, h⟩
    · rintro ⟨r, h1, h2⟩
      have : p = r := h1
      subst this
      exact h2
  | cons x l ih =>
    intro l2 prev p q
    constructor
    · rintro ⟨h1, h2, h3⟩
      obtain ⟨r, h4, h5⟩ := (ih l2 (some x) _ q).1 h3
      exact ⟨r, ⟨h1, h2, h4⟩, h5⟩
    · rintro ⟨r, ⟨h1, h2, h4⟩, h5⟩
      exact ⟨h1, h2, (ih l2 (some x) _ q).2 ⟨r, h4, h5⟩⟩

theorem lastp_mem : ∀ (l : List Nat) (prev : Option Nat), l ≠ [] →
    ∃ x ∈ l, lastp prev l = some x := by
  intro l
  induction l with
  | nil => intro _ h; exact absurd rfl h
  | cons x l ih =>
    intro prev _
    cases l with
    | nil => exact ⟨x, List.mem_cons_self x [], rfl⟩
    | cons y l =>
      obtain ⟨z, hz, hl⟩ := ih (some x) (by simp)
      exact ⟨z, List.mem_cons_of_mem x hz, hl⟩

/-- Redirecting the exit pointer of a non-empty run: writing `next_p` of its
last node moves the end of the run to the written value. -/
theorem seg_redirect (mem : Nat → thrd_t) (q1 : Option Nat) :
    ∀ (l : List Nat) (prev p q : Option Nat) (last : Nat),
      l.Nodup → lastp prev l = some last → l ≠ [] → seg mem prev p l q →
      seg (mem_set mem last { mem last with next_p := q1 }) prev p l q1 := by
  intro l
  induction l with
  | nil => intro _ _ _ _ _ _ h; exact absurd rfl h
  | cons x l ih =>
    intro prev p q last hnd hlast _ hseg
    obtain ⟨h1, h2, h3⟩ := hseg
    cases l with
    | nil =>
      have hx : last = x := by
        have : some x = some last := hlast
        exact (Option.some.inj this).symm
      subst hx
      refine ⟨h1, ?_, ?_⟩
      · simp [h2]
      · simp [seg]
    | cons y l =>
      have hnd1 : (y :: l).Nodup := (List.nodup_cons.1 hnd).2
      have hxl : x ∉ y :: l := (List.nodup_cons.1 hnd).1
      obtain ⟨z, hz, hzl⟩ := lastp_mem (y :: l) (some x) (by simp)
      have hlast1 : lastp (some x) (y :: l) = some last := hlast
      have hzlast : z = last := by
        rw [hzl] at hlast1
        exact Option.some.inj hlast1
      subst hzlast
      have hne : x ≠ z := fun h => hxl (h ▸ hz)
      have := ih (some x) (mem x).next_p q z hnd1 hlast1 (by simp) h3
      refine ⟨h1, ?_, ?_⟩
      · rw [mem_set_other _ _ _ _ hne]; exact h2
      · rw [mem_set_other _ _ _ _ hne]; exact this

/-! ## Frame lemmas: list operations rewrite links only -/

theorem data_set_prev (mem : Nat → thrd_t) (p : Nat) (v : Option Nat) (x : Nat) :
    (mem_set mem p { mem p with prev_p := v } x).data = (mem x).data := by
  by_cases h : x = p
  · subst h; simp [thrd_t.data]
  · rw [mem_set_other _ _ _ _ h]

theorem data_set_next (mem : Nat → thrd_t) (p : Nat) (v : Option Nat) (x : Nat) :
    (mem_set mem p { mem p with next_p := v } x).data = (mem x).data := by
  by_cases h : x = p
  · subst h; simp [thrd_t.data]
  · rw [mem_set_other _ _ _ _ h]

theorem links_only_refl (k : Kernel) : links_only k k :=
  ⟨rfl, rfl, fun _ => rfl⟩

theorem links_only_trans {k k1 k2 : Kernel} (h1 : links_only k k1) (h2 : links_only k1 k2) :
    links_only k k2 :=
  ⟨h2.1.trans h1.1, h2.2.1.trans h1.2.1, fun x => (h2.2.2 x).trans (h1.2.2 x)⟩

theorem links_only_set_prev (k : Kernel) (p : Nat) (v : Option Nat) :
    links_only k (k.set_prev p v) :=
  ⟨rfl, rfl, fun x => data_set_prev k.mem p v x⟩

theorem links_only_set_next (k : Kernel) (p : Nat) (v : Option Nat) :
    links_only k (k.set_next p v) :=
  ⟨rfl, rfl, fun x => data_set_next k.mem p v x⟩

theorem links_only_ready (k : Kernel) (r : Option Nat) :
    links_only k { k with ready_p := r } :=
  ⟨rfl, rfl, fun _ => rfl⟩

theorem links_only_prio {k k1 : Kernel} (h : links_only k k1) (x : Nat) :
    (k1.mem x).prio = (k.mem x).prio := by
  have e := congrArg (fun t : thrd_t => t.prio) (h.2.2 x)
  exact e

theorem links_only_state {k k1 : Kernel} (h : links_only k k1) (x : Nat) :
    (k1.mem x).state = (k.mem x).state := by
  have e := congrArg (fun t : thrd_t => t.state) (h.2.2 x)
  exact e

theorem links_only_err {k k1 : Kernel} (h : links_only k k1) (x : Nat) :
    (k1.mem x).err = (k.mem x).err := by
  have e := congrArg (fun t : thrd_t => t.err) (h.2.2 x)
  exact e

theorem links_only_magic {k k1 : Kernel} (h : links_only k k1) (x : Nat) :
    (k1.mem x).stack_low_magic = (k.mem x).stack_low_magic := by
  have e := congrArg (fun t : thrd_t => t.stack_low_magic) (h.2.2 x)
  exact e

/-! ## `scheduler_ready_push` inserts by priority -/

/-- Linking `t` in front of `a`: the three writes `t.prev_p = pv`,
`t.next_p = a`, `a.prev_p = t` turn the run `a :: l2` into `t :: a :: l2`. -/
theorem seg_link_before (mem : Nat → thrd_t) (t a : Nat) (pv : Option Nat) (l2 : List Nat)
    (hta : t ≠ a) (htl : t ∉ l2) (hal : a ∉ l2)
    (h : seg mem (some a) (mem a).next_p l2 none) :
    seg ((((Kernel.mk none none mem []).set_prev t pv).set_next t (some a)).set_prev a (some t)).mem
      pv (some t) (t :: a :: l2) none := by
  have hat : a ≠ t := fun e => hta e.symm
  have e1 : (((((Kernel.mk none none mem []).set_prev t pv).set_next t (some a)).set_prev a
      (some t)).mem t).prev_p = pv := by
    simp [Kernel.set_prev, Kernel.set_next, mem_set, hta]
  have e2 : (((((Kernel.mk none none mem []).set_prev t pv).set_next t (some a)).set_prev a
      (some t)).mem t).next_p = some a := by
    simp [Kernel.set_prev, Kernel.set_next, mem_set, hta]
  have e3 : (((((Kernel.mk none none mem []).set_prev t pv).set_next t (some a)).set_prev a
      (some t)).mem a).prev_p = some t := by
    simp [Kernel.set_prev, Kernel.set_next, mem_set]
  have e4 : (((((Kernel.mk none none mem []).set_prev t pv).set_next t (some a)).set_prev a
      (some t)).mem a).next_p = (mem a).next_p := by
    simp [Kernel.set_prev, Kernel.set_next, mem_set, hat]
  refine ⟨rfl, e1, ?_⟩
  rw [e2]
  refine ⟨rfl, e3, ?_⟩
  rw [e4]
  refine seg_congr mem _ l2 _ _ _ ?_ h
  intro x hx
  have hxt : x ≠ t := fun e => htl (e ▸ hx)
  have hxa : x ≠ a := fun e => hal (e ▸ hx)
  simp [Kernel.set_prev, Kernel.set_next, mem_set, hxt, hxa]

/-- The "insert before `ready_p`" branch of `scheduler_ready_push`. -/
theorem push_before_spec (t : Nat) (k : Kernel) (l1 l2 : List Nat) (a : Nat)
    (hseg : seg k.mem none k.ready_p (l1 ++ a :: l2) none)
    (hnd : (l1 ++ a :: l2).Nodup) (ht : t ∉ l1 ++ a :: l2) (k1 : Kernel)
    (hk1 : k1 = (match (k.mem a).prev_p with
      | some prev => k.set_next prev (some t)
      | none => { k with ready_p := some t })) :
    seg (((k1.set_prev t (k1.mem a).prev_p).set_next t (some a)).set_prev a (some t)).mem
        none k1.ready_p (l1 ++ t :: a :: l2) none ∧
      links_only k (((k1.set_prev t (k1.mem a).prev_p).set_next t (some a)).set_prev a (some t)) := by
  obtain ⟨r, hs1, hr, hprev, hs2⟩ := (seg_append k.mem l1 (a :: l2) none k.ready_p none).1 hseg
  subst hr
  have hta : t ≠ a := fun e => ht (by simp [e])
  have htl1 : t ∉ l1 := fun h => ht (by simp [h])
  have htl2 : t ∉ l2 := fun h => ht (by simp [h])
  have hnd2 := List.nodup_append.1 hnd
  have hal2 : a ∉ l2 := (List.nodup_cons.1 hnd2.2.1).1
  have hal1 : a ∉ l1 := fun h => hnd2.2.2 h (List.mem_cons_self a l2)
  have hlk : links_only k k1 := by
    rw [hk1]
    split
    · exact links_only_set_next k _ _
    · exact links_only_ready k _
  refine ⟨?_, links_only_trans hlk (links_only_trans (links_only_set_prev _ _ _)
    (links_only_trans (links_only_set_next _ _ _) (links_only_set_prev _ _ _)))⟩
  by_cases hl1 : l1 = []
  · subst hl1
    have hp0 : (k.mem a).prev_p = none := hprev
    rw [hp0] at hk1
    subst hk1
    have := seg_link_before k.mem t a none l2 hta htl2 hal2 hs2
    simpa [Kernel.set_prev, Kernel.set_next, hp0] using this
  · obtain ⟨last, hlast, hlp⟩ := lastp_mem l1 none hl1
    have hp0 : (k.mem a).prev_p = some last := by rw [hprev, hlp]
    rw [hp0] at hk1
    subst hk1
    have hla : last ≠ a := fun e => hal1 (e ▸ hlast)
    have hal : a ≠ last := fun e => hla e.symm
    have hlt : last ≠ t := fun e => htl1 (e ▸ hlast)
    have hll2 : last ∉ l2 := fun h => hnd2.2.2 hlast (List.mem_cons_of_mem a h)
    have hr1 := seg_redirect k.mem (some t) l1 none k.ready_p (some a) last hnd2.1 hlp hl1 hs1
    have hpa : ((k.set_next last (some t)).mem a).prev_p = some last := by
      simp [Kernel.set_next, mem_set, hal, hp0]
    have hna : ((k.set_next last (some t)).mem a).next_p = (k.mem a).next_p := by
      simp [Kernel.set_next, mem_set, hal]
    have hs2a : seg (k.set_next last (some t)).mem (some a)
        ((k.set_next last (some t)).mem a).next_p l2 none := by
      rw [hna]
      refine seg_congr k.mem _ l2 _ _ _ ?_ hs2
      intro x hx
      have hxl : x ≠ last := fun e => hll2 (e ▸ hx)
      simp [Kernel.set_next, mem_set, hxl]
    have hb := seg_link_before (k.set_next last (some t)).mem t a (some last) l2 hta htl2 hal2 hs2a
    rw [hpa]
    refine (seg_append _ l1 (t :: a :: l2) none _ none).2 ⟨some t, ?_, ?_⟩
    · refine seg_congr (k.set_next last (some t)).mem _ l1 _ _ _ ?_ hr1
      intro x hx
      have hxt : x ≠ t := fun e => htl1 (e ▸ hx)
      have hxa : x ≠ a := fun e => hal1 (e ▸ hx)
      simp [Kernel.set_prev, Kernel.set_next, mem_set, hxt, hxa]
    · rw [hlp]
      exact hb

theorem push_loop_spec (t : Nat) (k : Kernel) :
    ∀ (l2 l1 : List Nat) (a fuel : Nat),
      seg k.mem none k.ready_p (l1 ++ a :: l2) none → (l1 ++ a :: l2).Nodup →
      t ∉ l1 ++ a :: l2 → l2.length < fuel →
      ∃ k1, scheduler_ready_push_loop t fuel k a = Except.ok k1 ∧
        seg k1.mem none k1.ready_p (l1 ++ insert_by_prio k.mem t (a :: l2)) none ∧
        links_only k k1 := by
  intro l2
  induction l2 with
  | nil =>
    intro l1 a fuel hseg hnd ht hf
    obtain ⟨f, rfl⟩ : ∃ f, fuel = f + 1 := ⟨fuel - 1, by omega⟩
    by_cases hp : (k.mem t).prio < (k.mem a).prio
    · have := push_before_spec t k l1 [] a hseg hnd ht _ rfl
      refine ⟨_, ?_, ?_, this.2⟩
      · simp only [scheduler_ready_push_loop, if_pos hp]
      · simpa [insert_by_prio, hp] using this.1
    · obtain ⟨r, hs1, hr, hprev, hs2⟩ := (seg_append k.mem l1 [a] none k.ready_p none).1 hseg
      have hnext : (k.mem a).next_p = none := hs2
      have hta : t ≠ a := fun e => ht (by simp [e])
      have hat : a ≠ t := fun e => hta e.symm
      have htl1 : t ∉ l1 := fun h => ht (by simp [h])
      have hal1 : a ∉ l1 := fun h => (List.nodup_append.1 hnd).2.2 h (List.mem_cons_self a [])
      refine ⟨((k.set_next a (some t)).set_prev t (some a)).set_next t none, ?_, ?_, ?_⟩
      · simp only [scheduler_ready_push_loop, if_neg hp, hnext]
      · have hins : insert_by_prio k.mem t [a] = [a, t] := by simp [insert_by_prio, hp]
        rw [hins]
        refine (seg_append _ l1 [a, t] none _ none).2 ⟨r, ?_, ?_⟩
        · refine seg_congr k.mem _ l1 _ _ _ ?_ hs1
          intro x hx
          have hxt : x ≠ t := fun e => htl1 (e ▸ hx)
          have hxa : x ≠ a := fun e => hal1 (e ▸ hx)
          simp [Kernel.set_prev, Kernel.set_next, mem_set, hxt, hxa]
        · refine ⟨hr, ?_, ?_⟩
          · simpa [Kernel.set_prev, Kernel.set_next, mem_set, hat] using hprev
          · have e : ((((k.set_next a (some t)).set_prev t (some a)).set_next t none).mem a).next_p
                = some t := by
              simp [Kernel.set_prev, Kernel.set_next, mem_set, hat]
            rw [e]
            refine ⟨rfl, ?_, ?_⟩
            · simp [Kernel.set_prev, Kernel.set_next, mem_set]
            · simp [Kernel.set_prev, Kernel.set_next, mem_set, seg]
      · exact links_only_trans (links_only_set_next _ _ _)
          (links_only_trans (links_only_set_prev _ _ _) (links_only_set_next _ _ _))
  | cons b l2 ih =>
    intro l1 a fuel hseg hnd ht hf
    obtain ⟨f, rfl⟩ : ∃ f, fuel = f + 1 := ⟨fuel - 1, by omega⟩
    by_cases hp : (k.mem t).prio < (k.mem a).prio
    · have := push_before_spec t k l1 (b :: l2) a hseg hnd ht _ rfl
      refine ⟨_, ?_, ?_, this.2⟩
      · simp only [scheduler_ready_push_loop, if_pos hp]
      · simpa [insert_by_prio, hp] using this.1
    · obtain ⟨r, hs1, hr, hprev, hs2⟩ :=
        (seg_append k.mem l1 (a :: b :: l2) none k.ready_p none).1 hseg
      have hnext : (k.mem a).next_p = some b := hs2.1
      have heq : l1 ++ a :: b :: l2 = (l1 ++ [a]) ++ b :: l2 := by simp
      rw [heq] at hseg hnd ht
      have hf1 : l2.length < f := by
        have : (b :: l2).length < f + 1 := hf
        simpa using this
      obtain ⟨k1, h1, h2, h3⟩ := ih (l1 ++ [a]) b f hseg hnd ht hf1
      refine ⟨k1, ?_, ?_, h3⟩
      · simp only [scheduler_ready_push_loop, if_neg hp, hnext]
        exact h1
      · have hins : insert_by_prio k.mem t (a :: b :: l2)
            = a :: insert_by_prio k.mem t (b :: l2) := by
          simp [insert_by_prio, hp]
        rw [hins]
        simpa using h2

/-- `scheduler_ready_push` on a well-formed ready list `l` that does not hold
the pushed thread returns, given fuel for the walk, with the ready list
`insert_by_prio t l`, and has rewritten list links only. -/
theorem push_spec (t : Nat) (k : Kernel) (l : List Nat) (fuel : Nat)
    (hq : ready_queue k l) (ht : t ∉ l) (hf : l.length ≤ fuel) :
    ∃ k1, scheduler_ready_push fuel k t = Except.ok k1 ∧
      ready_queue k1 (insert_by_prio k.mem t l) ∧ links_only k k1 := by
  have hmem : ∀ l : List Nat, t ∉ l → l.Nodup → (insert_by_prio k.mem t l).Nodup := by
    intro l
    induction l with
    | nil => intro _ _; simp [insert_by_prio]
    | cons a l ih =>
      intro ht hnd
      have hta : t ≠ a := fun e => ht (by simp [e])
      have htl : t ∉ l := fun h => ht (by simp [h])
      have hm : ∀ x, x ∈ insert_by_prio k.mem t l → x = t ∨ x ∈ l := by
        intro x
        clear ih hnd ht
        induction l with
        | nil => simp [insert_by_prio]
        | cons c l ih2 =>
          have htl2 : t ∉ l := fun h => htl (by simp [h])
          by_cases hp : (k.mem t).prio < (k.mem c).prio
          · simp [insert_by_prio, hp]
          · simp only [insert_by_prio, if_neg hp, List.mem_cons]
            rintro (h | h)
            · exact Or.inr (Or.inl h)
            · rcases ih2 htl2 h with h | h
              · exact Or.inl h
              · exact Or.inr (Or.inr h)
      by_cases hp : (k.mem t).prio < (k.mem a).prio
      · simp only [insert_by_prio, if_pos hp]
        exact List.nodup_cons.2 ⟨ht, hnd⟩
      · simp only [insert_by_prio, if_neg hp]
        refine List.nodup_cons.2 ⟨?_, ih htl (List.nodup_cons.1 hnd).2⟩
        intro h
        rcases hm a h with h | h
        · exact hta h.symm
        · exact (List.nodup_cons.1 hnd).1 h
  cases l with
  | nil =>
    have hr : k.ready_p = none := hq.1
    refine ⟨(({ k with ready_p := some t } : Kernel).set_prev t none).set_next t none, ?_, ?_, ?_⟩
    · simp only [scheduler_ready_push, hr]
    · refine ⟨⟨rfl, ?_, ?_⟩, by simp [insert_by_prio]⟩
      · simp [Kernel.set_prev, Kernel.set_next, mem_set]
      · simp [Kernel.set_prev, Kernel.set_next, mem_set, seg]
    · exact links_only_trans (links_only_ready k _)
        (links_only_trans (links_only_set_prev _ _ _) (links_only_set_next _ _ _))
  | cons a l =>
    have hr : k.ready_p = some a := hq.1.1
    have hf1 : l.length < fuel := hf
    obtain ⟨k1, h1, h2, h3⟩ := push_loop_spec t k l [] a fuel hq.1 hq.2 ht hf1
    refine ⟨k1, ?_, ⟨h2, hmem _ ht hq.2⟩, h3⟩
    simp only [scheduler_ready_push, hr]
    exact h1

theorem mem_insert_by_prio (mem : Nat → thrd_t) (t x : Nat) :
    ∀ l : List Nat, x ∈ insert_by_prio mem t l ↔ x = t ∨ x ∈ l := by
  intro l
  induction l with
  | nil => simp [insert_by_prio]
  | cons a l ih =>
    by_cases hp : (mem t).prio < (mem a).prio
    · simp [insert_by_prio, hp]
    · simp only [insert_by_prio, if_neg hp, List.mem_cons, ih]
      constructor
      · rintro (h | h | h)
        · exact Or.inr (Or.inl h)
        · exact Or.inl h
        · exact Or.inr (Or.inr h)
      · rintro (h | h | h)
        · exact Or.inr (Or.inl h)
        · exact Or.inl h
        · exact Or.inr (Or.inr h)

theorem insert_by_prio_ne_nil (mem : Nat → thrd_t) (t : Nat) (l : List Nat) :
    insert_by_prio mem t l ≠ [] := by
  cases l with
  | nil => simp [insert_by_prio]
  | cons a l =>
    by_cases hp : (mem t).prio < (mem a).prio <;> simp [insert_by_prio, hp]

/-- The priorities decide the insertion position, nothing else does. -/
theorem insert_by_prio_congr (mem mem1 : Nat → thrd_t) (t : Nat)
    (h : ∀ x, (mem1 x).prio = (mem x).prio) :
    ∀ l : List Nat, insert_by_prio mem1 t l = insert_by_prio mem t l := by
  intro l
  induction l with
  | nil => rfl
  | cons a l ih => simp only [insert_by_prio, h, ih]

/-- Whatever is pushed, `scheduler_ready_push` rewrites list links only. -/
theorem push_loop_links_only (t : Nat) :
    ∀ (fuel : Nat) (k : Kernel) (a : Nat) (k1 : Kernel),
      scheduler_ready_push_loop t fuel k a = Except.ok k1 → links_only k k1 := by
  intro fuel
  induction fuel with
  | zero => intro k a k1 h; simp [scheduler_ready_push_loop] at h
  | succ f ih =>
    intro k a k1 h
    by_cases hp : (k.mem t).prio < (k.mem a).prio
    · simp only [scheduler_ready_push_loop, if_pos hp] at h
      cases h
      have hlk : links_only k (match (k.mem a).prev_p with
          | some prev => k.set_next prev (some t)
          | none => { k with ready_p := some t }) := by
        split
        · exact links_only_set_next k _ _
        · exact links_only_ready k _
      exact links_only_trans hlk (links_only_trans (links_only_set_prev _ _ _)
        (links_only_trans (links_only_set_next _ _ _) (links_only_set_prev _ _ _)))
    · cases hn : (k.mem a).next_p with
      | none =>
        simp only [scheduler_ready_push_loop, if_neg hp, hn] at h
        cases h
        exact links_only_trans (links_only_set_next _ _ _)
          (links_only_trans (links_only_set_prev _ _ _) (links_only_set_next _ _ _))
      | some b =>
        simp only [scheduler_ready_push_loop, if_neg hp, hn] at h
        exact ih k b k1 h

theorem push_links_only (t : Nat) (fuel : Nat) (k k1 : Kernel)
    (h : scheduler_ready_push fuel k t = Except.ok k1) : links_only k k1 := by
  cases hr : k.ready_p with
  | none =>
    simp only [scheduler_ready_push, hr] at h
    cases h
    exact links_only_trans (links_only_ready k _)
      (links_only_trans (links_only_set_prev _ _ _) (links_only_set_next _ _ _))
  | some a =>
    simp only [scheduler_ready_push, hr] at h
    exact push_loop_links_only t fuel k a k1 h

/-- The walk of `scheduler_ready_push` over a well-formed ready list ends,
whether or not the pushed thread is already on the list. -/
theorem push_loop_returns (t : Nat) (k : Kernel) :
    ∀ (l : List Nat) (a : Nat) (prev : Option Nat) (fuel : Nat),
      seg k.mem prev (some a) (a :: l) none → l.length < fuel →
      ∃ k1, scheduler_ready_push_loop t fuel k a = Except.ok k1 := by
  intro l
  induction l with
  | nil =>
    intro a prev fuel hseg hf
    obtain ⟨f, rfl⟩ : ∃ f, fuel = f + 1 := ⟨fuel - 1, by omega⟩
    have hn : (k.mem a).next_p = none := hseg.2.2
    by_cases hp : (k.mem t).prio < (k.mem a).prio
    · exact ⟨_, by simp only [scheduler_ready_push_loop, if_pos hp]; rfl⟩
    · exact ⟨_, by simp only [scheduler_ready_push_loop, if_neg hp, hn]; rfl⟩
  | cons b l ih =>
    intro a prev fuel hseg hf
    obtain ⟨f, rfl⟩ : ∃ f, fuel = f + 1 := ⟨fuel - 1, by omega⟩
    have hn : (k.mem a).next_p = some b := hseg.2.2.1
    have hf1 : l.length < f := by
      have : (b :: l).length < f + 1 := hf
      simpa using this
    by_cases hp : (k.mem t).prio < (k.mem a).prio
    · exact ⟨_, by simp only [scheduler_ready_push_loop, if_pos hp]; rfl⟩
    · have hs : seg k.mem (some a) (some b) (b :: l) none := by
        have := hseg.2.2
        rw [hn] at this
        exact this
      obtain ⟨k1, h1⟩ := ih b (some a) f hs hf1
      exact ⟨k1, by simp only [scheduler_ready_push_loop, if_neg hp, hn]; exact h1⟩

theorem push_returns (t : Nat) (k : Kernel) (l : List Nat) (fuel : Nat)
    (hq : ready_queue k l) (hf : l.length ≤ fuel) :
    ∃ k1, scheduler_ready_push fuel k t = Except.ok k1 ∧ links_only k k1 := by
  have key : ∃ k1, scheduler_ready_push fuel k t = Except.ok k1 := by
    cases l with
    | nil =>
      have hr : k.ready_p = none := hq.1
      exact ⟨_, by simp only [scheduler_ready_push, hr]; rfl⟩
    | cons a l =>
      have hr : k.ready_p = some a := hq.1.1
      have hs : seg k.mem none (some a) (a :: l) none := by
        have := hq.1
        rw [hr] at this
        exact this
      obtain ⟨k1, h1⟩ := push_loop_returns t k l a none fuel hs hf
      exact ⟨k1, by simp only [scheduler_ready_push, hr]; exact h1⟩
  obtain ⟨k1, h1⟩ := key
  exact ⟨k1, h1, push_links_only t fuel k k1 h1⟩

/-! ## `scheduler_ready_pop` and `thrd_reschedule` -/

/-- `scheduler_ready_pop` on the ready list `h :: l` returns `h`, leaves the
ready list `l`, and rewrites list links only. -/
theorem pop_spec (k : Kernel) (h : Nat) (l : List Nat) (hq : ready_queue k (h :: l)) :
    ∃ k1, scheduler_ready_pop k = Except.ok (k1, h) ∧ ready_queue k1 l ∧ links_only k k1 := by
  obtain ⟨⟨hr, _, hs⟩, hnd⟩ := hq
  have hhl : h ∉ l := (List.nodup_cons.1 hnd).1
  have hndl : l.Nodup := (List.nodup_cons.1 hnd).2
  cases l with
  | nil =>
    have hn : (k.mem h).next_p = none := hs
    refine ⟨(({ k with ready_p := none } : Kernel).set_prev h none).set_next h none, ?_, ?_, ?_⟩
    · simp only [scheduler_ready_pop, hr, hn]
    · exact ⟨rfl, hndl⟩
    · exact links_only_trans (links_only_ready k _)
        (links_only_trans (links_only_set_prev _ _ _) (links_only_set_next _ _ _))
  | cons b l =>
    obtain ⟨hn, _, hs2⟩ := hs
    have hbh : b ≠ h := fun e => hhl (by simp [e])
    have hbl : b ∉ l := (List.nodup_cons.1 hndl).1
    refine ⟨(((({ k with ready_p := some b } : Kernel).set_prev b none).set_prev h none).set_next
      h none), ?_, ?_, ?_⟩
    · simp only [scheduler_ready_pop, hr, hn]
    · refine ⟨⟨rfl, ?_, ?_⟩, hndl⟩
      · simp [Kernel.set_prev, Kernel.set_next, mem_set, hbh]
      · have e : ((((({ k with ready_p := some b } : Kernel).set_prev b none).set_prev h none).set_next
            h none).mem b).next_p = (k.mem b).next_p := by
          simp [Kernel.set_prev, Kernel.set_next, mem_set, hbh]
        rw [e]
        refine seg_congr k.mem _ l _ _ _ ?_ hs2
        intro x hx
        have hxb : x ≠ b := fun e => hbl (e ▸ hx)
        have hxh : x ≠ h := fun e => hhl (by simp [← e, hx])
        simp [Kernel.set_prev, Kernel.set_next, mem_set, hxb, hxh]
    · exact links_only_trans (links_only_ready k _)
        (links_only_trans (links_only_set_prev _ _ _)
          (links_only_trans (links_only_set_prev _ _ _) (links_only_set_next _ _ _)))

/-- A write of the `state` or `err` field leaves the ready list as it is. -/
theorem ready_queue_set_state (k : Kernel) (p v : Nat) (l : List Nat) :
    ready_queue (k.set_state p v) l ↔ ready_queue k l := by
  have e : ∀ x, ((k.set_state p v).mem x).prev_p = (k.mem x).prev_p ∧
      ((k.set_state p v).mem x).next_p = (k.mem x).next_p := by
    intro x
    by_cases hx : x = p
    · subst hx; simp [Kernel.set_state]
    · simp [Kernel.set_state, mem_set, hx]
  constructor
  · intro h
    exact ⟨seg_congr _ _ l _ _ _ (fun x _ => ⟨(e x).1.symm, (e x).2.symm⟩) h.1, h.2⟩
  · intro h
    exact ⟨seg_congr _ _ l _ _ _ (fun x _ => e x) h.1, h.2⟩

theorem ready_queue_set_err (k : Kernel) (p : Nat) (v : Int) (l : List Nat) :
    ready_queue (k.set_err p v) l ↔ ready_queue k l := by
  have e : ∀ x, ((k.set_err p v).mem x).prev_p = (k.mem x).prev_p ∧
      ((k.set_err p v).mem x).next_p = (k.mem x).next_p := by
    intro x
    by_cases hx : x = p
    · subst hx; simp [Kernel.set_err]
    · simp [Kernel.set_err, mem_set, hx]
  constructor
  · intro h
    exact ⟨seg_congr _ _ l _ _ _ (fun x _ => ⟨(e x).1.symm, (e x).2.symm⟩) h.1, h.2⟩
  · intro h
    exact ⟨seg_congr _ _ l _ _ _ (fun x _ => e x) h.1, h.2⟩

/-- `thrd_reschedule` with an intact canary on the current thread `out` and the
ready list `h :: l`: `h` becomes the current thread in state Current, the ready
list becomes `l`, the swap flag is `h ≠ out`, and apart from list links only
the state of `h` is written. -/
theorem reschedule_spec (E : errno_t) (k : Kernel) (out h : Nat) (l : List Nat)
    (hc : k.current_p = some out)
    (hm : (k.mem out).stack_low_magic = THRD_STACK_LOW_MAGIC)
    (hq : ready_queue k (h :: l)) :
    ∃ k1, thrd_reschedule E k = Except.ok (k1, decide (h ≠ out)) ∧
      ready_queue k1 l ∧ k1.current_p = some h ∧
      (k1.mem h).state = THRD_STATE_CURRENT ∧
      (∀ x, x ≠ h → (k1.mem x).state = (k.mem x).state) ∧
      (∀ x, (k1.mem x).err = (k.mem x).err) ∧
      (∀ x, (k1.mem x).prio = (k.mem x).prio) ∧
      k1.timers = k.timers := by
  obtain ⟨k1, hp, hq1, hl⟩ := pop_spec k h l hq
  have hst : ∀ (kk : Kernel) x, x ≠ h →
      ((kk.set_state h THRD_STATE_CURRENT).mem x).state = (kk.mem x).state := by
    intro kk x hx
    simp [Kernel.set_state, mem_set, hx]
  have herr : ∀ (kk : Kernel) x, ((kk.set_state h THRD_STATE_CURRENT).mem x).err = (kk.mem x).err := by
    intro kk x
    by_cases hx : x = h
    · subst hx; simp [Kernel.set_state]
    · simp [Kernel.set_state, mem_set, hx]
  have hprio : ∀ (kk : Kernel) x,
      ((kk.set_state h THRD_STATE_CURRENT).mem x).prio = (kk.mem x).prio := by
    intro kk x
    by_cases hx : x = h
    · subst hx; simp [Kernel.set_state]
    · simp [Kernel.set_state, mem_set, hx]
  by_cases hne : h = out
  · subst hne
    refine ⟨k1.set_state h THRD_STATE_CURRENT, ?_, (ready_queue_set_state _ _ _ _).2 hq1, ?_, ?_,
      ?_, ?_, ?_, ?_⟩
    · simp [thrd_reschedule, thrd_self, hc, hm, hp]
    · exact hl.1.trans hc
    · simp [Kernel.set_state]
    · intro x hx; rw [hst k1 x hx]; exact links_only_state hl x
    · intro x; rw [herr k1 x]; exact links_only_err hl x
    · intro x; rw [hprio k1 x]; exact links_only_prio hl x
    · exact hl.2.1
  · refine ⟨{ k1.set_state h THRD_STATE_CURRENT with current_p := some h }, ?_, ?_, rfl, ?_,
      ?_, ?_, ?_, ?_⟩
    · simp [thrd_reschedule, thrd_self, hc, hm, hp, hne]
    · exact (ready_queue_set_state _ _ _ _).2 hq1
    · simp [Kernel.set_state]
    · intro x hx
      have := hst k1 x hx
      exact this.trans (links_only_state hl x)
    · intro x
      exact (herr k1 x).trans (links_only_err hl x)
    · intro x
      exact (hprio k1 x).trans (links_only_prio hl x)
    · exact hl.2.1

/-! ## Field reads after a `state` or `err` write -/

@[simp] theorem set_state_current_p (k : Kernel) (p v : Nat) :
    (k.set_state p v).current_p = k.current_p := rfl

@[simp] theorem set_state_ready_p (k : Kernel) (p v : Nat) :
    (k.set_state p v).ready_p = k.ready_p := rfl

@[simp] theorem set_state_timers (k : Kernel) (p v : Nat) :
    (k.set_state p v).timers = k.timers := rfl

@[simp] theorem set_state_state_same (k : Kernel) (p v : Nat) :
    ((k.set_state p v).mem p).state = v := by
  simp [Kernel.set_state]

theorem set_state_state_other (k : Kernel) (p v x : Nat) (h : x ≠ p) :
    ((k.set_state p v).mem x).state = (k.mem x).state := by
  simp [Kernel.set_state, mem_set, h]

@[simp] theorem set_state_err (k : Kernel) (p v x : Nat) :
    ((k.set_state p v).mem x).err = (k.mem x).err := by
  by_cases h : x = p
  · subst h; simp [Kernel.set_state]
  · simp [Kernel.set_state, mem_set, h]

@[simp] theorem set_state_prio (k : Kernel) (p v x : Nat) :
    ((k.set_state p v).mem x).prio = (k.mem x).prio := by
  by_cases h : x = p
  · subst h; simp [Kernel.set_state]
  · simp [Kernel.set_state, mem_set, h]

@[simp] theorem set_state_magic (k : Kernel) (p v x : Nat) :
    ((k.set_state p v).mem x).stack_low_magic = (k.mem x).stack_low_magic := by
  by_cases h : x = p
  · subst h; simp [Kernel.set_state]
  · simp [Kernel.set_state, mem_set, h]

@[simp] theorem set_state_prev (k : Kernel) (p v x : Nat) :
    ((k.set_state p v).mem x).prev_p = (k.mem x).prev_p := by
  by_cases h : x = p
  · subst h; simp [Kernel.set_state]
  · simp [Kernel.set_state, mem_set, h]

@[simp] theorem set_state_next (k : Kernel) (p v x : Nat) :
    ((k.set_state p v).mem x).next_p = (k.mem x).next_p := by
  by_cases h : x = p
  · subst h; simp [Kernel.set_state]
  · simp [Kernel.set_state, mem_set, h]

@[simp] theorem set_err_current_p (k : Kernel) (p : Nat) (v : Int) :
    (k.set_err p v).current_p = k.current_p := rfl

@[simp] theorem set_err_ready_p (k : Kernel) (p : Nat) (v : Int) :
    (k.set_err p v).ready_p = k.ready_p := rfl

@[simp] theorem set_err_timers (k : Kernel) (p : Nat) (v : Int) :
    (k.set_err p v).timers = k.timers := rfl

@[simp] theorem set_err_err_same (k : Kernel) (p : Nat) (v : Int) :
    ((k.set_err p v).mem p).err = v := by
  simp [Kernel.set_err]

theorem set_err_err_other (k : Kernel) (p : Nat) (v : Int) (x : Nat) (h : x ≠ p) :
    ((k.set_err p v).mem x).err = (k.mem x).err := by
  simp [Kernel.set_err, mem_set, h]

@[simp] theorem set_err_state (k : Kernel) (p : Nat) (v : Int) (x : Nat) :
    ((k.set_err p v).mem x).state = (k.mem x).state := by
  by_cases h : x = p
  · subst h; simp [Kernel.set_err]
  · simp [Kernel.set_err, mem_set, h]

@[simp] theorem set_err_prio (k : Kernel) (p : Nat) (v : Int) (x : Nat) :
    ((k.set_err p v).mem x).prio = (k.mem x).prio := by
  by_cases h : x = p
  · subst h; simp [Kernel.set_err]
  · simp [Kernel.set_err, mem_set, h]

@[simp] theorem set_err_magic (k : Kernel) (p : Nat) (v : Int) (x : Nat) :
    ((k.set_err p v).mem x).stack_low_magic = (k.mem x).stack_low_magic := by
  by_cases h : x = p
  · subst h; simp [Kernel.set_err]
  · simp [Kernel.set_err, mem_set, h]

@[simp] theorem set_err_prev (k : Kernel) (p : Nat) (v : Int) (x : Nat) :
    ((k.set_err p v).mem x).prev_p = (k.mem x).prev_p := by
  by_cases h : x = p
  · subst h; simp [Kernel.set_err]
  · simp [Kernel.set_err, mem_set, h]

@[simp] theorem set_err_next (k : Kernel) (p : Nat) (v : Int) (x : Nat) :
    ((k.set_err p v).mem x).next_p = (k.mem x).next_p := by
  by_cases h : x = p
  · subst h; simp [Kernel.set_err]
  · simp [Kernel.set_err, mem_set, h]

/-! ## The resume contract -/

/-- C1: `thrd_resume_isr(t, err)`, and `thrd_resume` which wraps it, on a
well-formed ready list `l`: the call returns 0 and leaves `scheduler.current`
alone in every case; a Suspended `t` becomes Ready and, not being on the list,
is pushed onto it at its priority position; a Current or Ready `t` becomes
Resumed while the ready list, its head pointer and every link stay as they
were. -/
theorem thrd_resume_isr_contract (fuel : Nat) (k : Kernel) (l : List Nat) (t : Nat) (err : Int)
    (hq : ready_queue k l) (hf : l.length ≤ fuel) :
    ∃ k1, thrd_resume_isr fuel k t err = Except.ok (k1, 0) ∧
      thrd_resume fuel k t err = Except.ok (k1, 0) ∧
      k1.current_p = k.current_p ∧
      ((k.mem t).state = THRD_STATE_SUSPENDED →
        (k1.mem t).state = THRD_STATE_READY ∧
        (t ∉ l → ready_queue k1 (insert_by_prio k.mem t l) ∧ t ∈ insert_by_prio k.mem t l)) ∧
      ((k.mem t).state = THRD_STATE_CURRENT ∨ (k.mem t).state = THRD_STATE_READY →
        (k1.mem t).state = THRD_STATE_RESUMED ∧ ready_queue k1 l ∧ k1.ready_p = k.ready_p ∧
        ∀ x, (k1.mem x).prev_p = (k.mem x).prev_p ∧ (k1.mem x).next_p = (k.mem x).next_p) := by
  by_cases hs : (k.mem t).state = THRD_STATE_SUSPENDED
  · have hq2 : ready_queue ((k.set_err t err).set_state t THRD_STATE_READY) l :=
      (ready_queue_set_state _ _ _ _).2 ((ready_queue_set_err _ _ _ _).2 hq)
    obtain ⟨k3, hpush, hlk⟩ := push_returns t _ l fuel hq2 hf
    have hisr : thrd_resume_isr fuel k t err = Except.ok (k3, 0) := by
      simp [thrd_resume_isr, hs, hpush]
    refine ⟨k3, hisr, by simp [thrd_resume, hisr], ?_, ?_, ?_⟩
    · rw [hlk.1]; simp
    · intro _
      refine ⟨by rw [links_only_state hlk]; simp, ?_⟩
      intro ht
      obtain ⟨k4, hpush4, hq4, _⟩ := push_spec t _ l fuel hq2 ht hf
      rw [hpush] at hpush4
      cases hpush4
      have hcongr := insert_by_prio_congr k.mem
        ((k.set_err t err).set_state t THRD_STATE_READY).mem t (by intro x; simp) l
      rw [hcongr] at hq4
      exact ⟨hq4, (mem_insert_by_prio k.mem t t l).2 (Or.inl rfl)⟩
    · rintro (h | h) <;> rw [h] at hs <;> exact absurd hs (by decide)
  · by_cases hterm : (k.mem t).state = THRD_STATE_TERMINATED
    · have hisr : thrd_resume_isr fuel k t err = Except.ok (k.set_err t err, 0) := by
        simp [thrd_resume_isr, hs, hterm]
      refine ⟨_, hisr, by simp [thrd_resume, hisr], rfl, fun h => absurd h hs, ?_⟩
      rintro (h | h) <;> rw [h] at hterm <;> exact absurd hterm (by decide)
    · have hisr : thrd_resume_isr fuel k t err
          = Except.ok ((k.set_err t err).set_state t THRD_STATE_RESUMED, 0) := by
        simp [thrd_resume_isr, hs, hterm]
      refine ⟨_, hisr, by simp [thrd_resume, hisr], rfl, fun h => absurd h hs, ?_⟩
      intro _
      refine ⟨by simp, (ready_queue_set_state _ _ _ _).2 ((ready_queue_set_err _ _ _ _).2 hq),
        rfl, fun x => by simp⟩

/-- Witness for `thrd_resume_isr_contract`: resuming the suspended thread 3 with
error 7 in the sample system. -/
theorem thrd_resume_isr_contract_witness :
    ready_queue ex_kernel [1, 2] ∧ [1, 2].length ≤ 4 ∧
    ∃ k1, thrd_resume_isr 4 ex_kernel 3 7 = Except.ok (k1, 0) ∧
      thrd_resume 4 ex_kernel 3 7 = Except.ok (k1, 0) ∧
      k1.current_p = ex_kernel.current_p ∧
      ((ex_kernel.mem 3).state = THRD_STATE_SUSPENDED →
        (k1.mem 3).state = THRD_STATE_READY ∧
        (3 ∉ [1, 2] → ready_queue k1 (insert_by_prio ex_kernel.mem 3 [1, 2]) ∧
          3 ∈ insert_by_prio ex_kernel.mem 3 [1, 2])) ∧
      ((ex_kernel.mem 3).state = THRD_STATE_CURRENT ∨ (ex_kernel.mem 3).state = THRD_STATE_READY →
        (k1.mem 3).state = THRD_STATE_RESUMED ∧ ready_queue k1 [1, 2] ∧
        k1.ready_p = ex_kernel.ready_p ∧
        ∀ x, (k1.mem x).prev_p = (ex_kernel.mem x).prev_p ∧
          (k1.mem x).next_p = (ex_kernel.mem x).next_p) :=
  ⟨by decide, by decide, thrd_resume_isr_contract 4 ex_kernel [1, 2] 3 7 (by decide) (by decide)⟩

/-! ## The suspend contract -/

/-- What `thrd_suspend_isr` does for a running thread `T` that is not marked
Resumed and passes no timeout: `T` is marked Suspended and swapped out for the
head `h` of the ready list. -/
theorem suspend_blocks_spec (E : errno_t) (fuel : Nat) (k : Kernel) (T h : Nat) (l : List Nat)
    (hc : k.current_p = some T) (hs : (k.mem T).state ≠ THRD_STATE_RESUMED)
    (hm : (k.mem T).stack_low_magic = THRD_STACK_LOW_MAGIC)
    (hq : ready_queue k (h :: l)) (hT : T ∉ h :: l) :
    ∃ k1, thrd_suspend_isr E fuel k none = Except.ok (k1, suspend_result.switched) ∧
      (k1.mem T).state = THRD_STATE_SUSPENDED ∧ ready_queue k1 l ∧
      k1.current_p = some h ∧ (k1.mem h).state = THRD_STATE_CURRENT ∧
      (∀ x, (k1.mem x).err = (k.mem x).err) ∧ k1.timers = k.timers := by
  have hhT : h ≠ T := fun e => hT (by simp [e])
  have hTh : T ≠ h := fun e => hhT e.symm
  obtain ⟨k1, hres, hq1, hc1, hs1, hst, herr, _, htm⟩ :=
    reschedule_spec E (k.set_state T THRD_STATE_SUSPENDED) T h l hc (by simpa using hm)
      ((ready_queue_set_state _ _ _ _).2 hq)
  refine ⟨k1, ?_, ?_, hq1, hc1, hs1, ?_, ?_⟩
  · simp [thrd_suspend_isr, thrd_self, hc, hs, thrd_suspend_isr_finish, hres, hhT]
  · rw [hst T hTh]; simp
  · intro x; rw [herr x]; simp
  · rw [htm]; simp

/-- What `thrd_suspend_isr` does for a running thread `T` that is marked
Resumed, whatever the timeout: `T` is made Ready and pushed, the head `h` of
the resulting ready list is popped and made current; when `h` is `T` itself
the call returns `T.err` at once, otherwise `T` stays Ready on the list. -/
theorem suspend_resumed_spec (E : errno_t) (fuel : Nat) (k : Kernel) (T : Nat) (l : List Nat)
    (timeout_p : Option time_t)
    (hc : k.current_p = some T) (hs : (k.mem T).state = THRD_STATE_RESUMED)
    (hm : (k.mem T).stack_low_magic = THRD_STACK_LOW_MAGIC)
    (hq : ready_queue k l) (hT : T ∉ l) (hf : l.length ≤ fuel) :
    ∃ k1 h rest, insert_by_prio k.mem T l = h :: rest ∧
      thrd_suspend_isr E fuel k timeout_p = Except.ok
        (k1, if h = T then suspend_result.returned (k.mem T).err else suspend_result.switched) ∧
      ready_queue k1 rest ∧ k1.current_p = some h ∧ k1.timers = k.timers ∧
      (k1.mem h).state = THRD_STATE_CURRENT ∧
      (h ≠ T → (k1.mem T).state = THRD_STATE_READY ∧ T ∈ rest) ∧
      (∀ x, (k1.mem x).err = (k.mem x).err) := by
  obtain ⟨k2, hpush, hq2, hlk⟩ := push_spec T (k.set_state T THRD_STATE_READY) l fuel
    ((ready_queue_set_state _ _ _ _).2 hq) hT hf
  rw [insert_by_prio_congr k.mem (k.set_state T THRD_STATE_READY).mem T (by intro x; simp) l] at hq2
  obtain ⟨h, rest, hins⟩ : ∃ h rest, insert_by_prio k.mem T l = h :: rest := by
    cases hi : insert_by_prio k.mem T l with
    | nil => exact absurd hi (insert_by_prio_ne_nil _ _ _)
    | cons h rest => exact ⟨h, rest, rfl⟩
  rw [hins] at hq2
  have hc2 : k2.current_p = some T := by rw [hlk.1]; simpa using hc
  have hm2 : (k2.mem T).stack_low_magic = THRD_STACK_LOW_MAGIC := by
    rw [links_only_magic hlk]; simpa using hm
  obtain ⟨k3, hres, hq3, hc3, hs3, hst, herr, _, htm⟩ := reschedule_spec E k2 T h rest hc2 hm2 hq2
  have herr3 : ∀ x, (k3.mem x).err = (k.mem x).err := by
    intro x; rw [herr x, links_only_err hlk]; simp
  refine ⟨k3, h, rest, hins, ?_, hq3, hc3, ?_, hs3, ?_, herr3⟩
  · by_cases hh : h = T
    · simp [thrd_suspend_isr, thrd_self, hc, hs, hpush, thrd_suspend_isr_finish, hres, hh]
      rw [herr3]
    · simp [thrd_suspend_isr, thrd_self, hc, hs, hpush, thrd_suspend_isr_finish, hres, hh]
  · rw [htm, hlk.2.1]; simp
  · intro hh
    refine ⟨?_, ?_⟩
    · rw [hst T (fun e => hh e.symm), links_only_state hlk]; simp
    · have hmem : T ∈ insert_by_prio k.mem T l := (mem_insert_by_prio k.mem T T l).2 (Or.inl rfl)
      rw [hins] at hmem
      rcases List.mem_cons.1 hmem with e | e
      · exact absurd e.symm hh
      · exact e

/-- C2: a running thread `T` in state Current, with a non-empty well-formed
ready list that does not hold `T` and an intact canary, calls
`thrd_suspend_isr(NULL)`: `T` becomes Suspended and stays off the ready list,
the former head `h` of the list becomes `scheduler.current` in state Current,
and `T` is swapped out, so the value it gets back is `T.err` as it stands when
`T` runs again. -/
theorem thrd_suspend_isr_null_timeout (E : errno_t) (fuel : Nat) (k : Kernel) (T h : Nat)
    (l : List Nat)
    (hc : k.current_p = some T) (hs : (k.mem T).state = THRD_STATE_CURRENT)
    (hm : (k.mem T).stack_low_magic = THRD_STACK_LOW_MAGIC)
    (hq : ready_queue k (h :: l)) (hT : T ∉ h :: l) :
    ∃ k1, thrd_suspend_isr E fuel k none = Except.ok (k1, suspend_result.switched) ∧
      (k1.mem T).state = THRD_STATE_SUSPENDED ∧ ready_queue k1 l ∧ T ∉ l ∧
      k1.current_p = some h ∧ (k1.mem h).state = THRD_STATE_CURRENT ∧
      (k1.mem T).err = (k.mem T).err ∧
      ∀ k2 : Kernel, thrd_suspend_isr_return k2 T = (k2.mem T).err := by
  obtain ⟨k1, h1, h2, h3, h4, h5, h6, _⟩ :=
    suspend_blocks_spec E fuel k T h l hc (by rw [hs]; decide) hm hq hT
  exact ⟨k1, h1, h2, h3, fun hin => hT (List.mem_cons_of_mem h hin), h4, h5, h6 T, fun _ => rfl⟩

/-- Witness for `thrd_suspend_isr_null_timeout`: thread 0 of the sample system
suspends and thread 1 takes over. -/
theorem thrd_suspend_isr_null_timeout_witness :
    ex_kernel.current_p = some 0 ∧ (ex_kernel.mem 0).state = THRD_STATE_CURRENT ∧
    (ex_kernel.mem 0).stack_low_magic = THRD_STACK_LOW_MAGIC ∧
    ready_queue ex_kernel [1, 2] ∧ 0 ∉ [1, 2] ∧
    ∃ k1, thrd_suspend_isr ex_errno 0 ex_kernel none = Except.ok (k1, suspend_result.switched) ∧
      (k1.mem 0).state = THRD_STATE_SUSPENDED ∧ ready_queue k1 [2] ∧ 0 ∉ [2] ∧
      k1.current_p = some 1 ∧ (k1.mem 1).state = THRD_STATE_CURRENT ∧
      (k1.mem 0).err = (ex_kernel.mem 0).err ∧
      ∀ k2 : Kernel, thrd_suspend_isr_return k2 0 = (k2.mem 0).err :=
  ⟨by decide, by decide, by decide, by decide, by decide,
    thrd_suspend_isr_null_timeout ex_errno 0 ex_kernel 0 1 [2] (by decide) (by decide)
      (by decide) (by decide) (by decide)⟩

/-- C3: a running thread `T` marked Resumed, with a well-formed ready list that
does not hold `T` and an intact canary, calls `thrd_suspend_isr` with any
timeout: the mark is cleared, `T` is pushed as Ready, no timer is armed, and
after the call `T` is either the current thread again in state Current (the
call has returned) or Ready on the ready list; it is never Suspended. -/
theorem thrd_suspend_isr_resumed (E : errno_t) (fuel : Nat) (k : Kernel) (T : Nat) (l : List Nat)
    (timeout_p : Option time_t)
    (hc : k.current_p = some T) (hs : (k.mem T).state = THRD_STATE_RESUMED)
    (hm : (k.mem T).stack_low_magic = THRD_STACK_LOW_MAGIC)
    (hq : ready_queue k l) (hT : T ∉ l) (hf : l.length ≤ fuel) :
    ∃ k1 r q, thrd_suspend_isr E fuel k timeout_p = Except.ok (k1, r) ∧
      ready_queue k1 q ∧ k1.timers = k.timers ∧
      (k1.mem T).state ≠ THRD_STATE_SUSPENDED ∧
      (((k1.mem T).state = THRD_STATE_CURRENT ∧ k1.current_p = some T ∧
          r = suspend_result.returned (k.mem T).err ∧ insert_by_prio k.mem T l = T :: q) ∨
        ((k1.mem T).state = THRD_STATE_READY ∧ T ∈ q ∧ r = suspend_result.switched ∧
          ∃ h, h ≠ T ∧ k1.current_p = some h ∧ insert_by_prio k.mem T l = h :: q)) := by
  obtain ⟨k1, h, rest, hins, hres, hq1, hc1, htm, hs1, hne, _⟩ :=
    suspend_resumed_spec E fuel k T l timeout_p hc hs hm hq hT hf
  refine ⟨k1, _, rest, hres, hq1, htm, ?_, ?_⟩
  · by_cases hh : h = T
    · subst hh; rw [hs1]; decide
    · rw [(hne hh).1]; decide
  · by_cases hh : h = T
    · subst hh
      exact Or.inl ⟨hs1, hc1, by simp, hins⟩
    · exact Or.inr ⟨(hne hh).1, (hne hh).2, by simp [hh], h, hh, hc1, hins⟩

/-- Witness for `thrd_suspend_isr_resumed`: thread 0 of the sample system,
marked Resumed, suspends with a 10 ms timeout. -/
theorem thrd_suspend_isr_resumed_witness :
    ex_kernel_resumed.current_p = some 0 ∧
    (ex_kernel_resumed.mem 0).state = THRD_STATE_RESUMED ∧
    (ex_kernel_resumed.mem 0).stack_low_magic = THRD_STACK_LOW_MAGIC ∧
    ready_queue ex_kernel_resumed [1, 2] ∧ 0 ∉ [1, 2] ∧ [1, 2].length ≤ 4 ∧
    ∃ k1 r q, thrd_suspend_isr ex_errno 4 ex_kernel_resumed (some ⟨0, 10000000⟩)
        = Except.ok (k1, r) ∧
      ready_queue k1 q ∧ k1.timers = ex_kernel_resumed.timers ∧
      (k1.mem 0).state ≠ THRD_STATE_SUSPENDED ∧
      (((k1.mem 0).state = THRD_STATE_CURRENT ∧ k1.current_p = some 0 ∧
          r = suspend_result.returned (ex_kernel_resumed.mem 0).err ∧
          insert_by_prio ex_kernel_resumed.mem 0 [1, 2] = 0 :: q) ∨
        ((k1.mem 0).state = THRD_STATE_READY ∧ 0 ∈ q ∧ r = suspend_result.switched ∧
          ∃ h, h ≠ 0 ∧ k1.current_p = some h ∧
            insert_by_prio ex_kernel_resumed.mem 0 [1, 2] = h :: q)) :=
  ⟨by decide, by decide, by decide, by decide, by decide, by decide,
    thrd_suspend_isr_resumed ex_errno 4 ex_kernel_resumed 0 [1, 2] (some ⟨0, 10000000⟩)
      (by decide) (by decide) (by decide) (by decide) (by decide) (by decide)⟩

/-! ## Resume before suspend -/

/-- `thrd_resume_isr` on a thread that is neither Suspended nor Terminated
latches the error and marks the thread Resumed, nothing else. -/
theorem resume_marks_spec (fuel : Nat) (k : Kernel) (t : Nat) (e : Int)
    (h1 : (k.mem t).state ≠ THRD_STATE_SUSPENDED)
    (h2 : (k.mem t).state ≠ THRD_STATE_TERMINATED) :
    thrd_resume_isr fuel k t e
      = Except.ok ((k.set_err t e).set_state t THRD_STATE_RESUMED, 0) := by
  simp [thrd_resume_isr, h1, h2]

/-- C4: race-free resume.  `T` is the running thread in state Current, the
ready list is well formed and does not hold `T`, the canary is intact.  After
`thrd_resume_isr(T, e)` the thread is marked Resumed, and its following
`thrd_suspend(NULL)` never marks it Suspended and hands `e` back: either the
call returns `e` at once, or `T` is left Ready on the ready list with `e`
latched, which is what its return statement yields when it runs again. -/
theorem race_free_resume (E : errno_t) (fuel : Nat) (k : Kernel) (T : Nat) (l : List Nat)
    (e : Int)
    (hc : k.current_p = some T) (hs : (k.mem T).state = THRD_STATE_CURRENT)
    (hm : (k.mem T).stack_low_magic = THRD_STACK_LOW_MAGIC)
    (hq : ready_queue k l) (hT : T ∉ l) (hf : l.length ≤ fuel) :
    ∃ k1 k2 r, thrd_resume_isr fuel k T e = Except.ok (k1, 0) ∧
      (k1.mem T).state = THRD_STATE_RESUMED ∧
      thrd_suspend E fuel k1 none = Except.ok (k2, r) ∧
      (k2.mem T).state ≠ THRD_STATE_SUSPENDED ∧
      (r = suspend_result.returned e ∨
        (r = suspend_result.switched ∧ (k2.mem T).state = THRD_STATE_READY ∧
          (∃ q, ready_queue k2 q ∧ T ∈ q) ∧ thrd_suspend_isr_return k2 T = e)) := by
  have hres := resume_marks_spec fuel k T e (by rw [hs]; decide) (by rw [hs]; decide)
  obtain ⟨k2, h, rest, _, hsus, hq2, _, _, hs2, hne, herr⟩ :=
    suspend_resumed_spec E fuel ((k.set_err T e).set_state T THRD_STATE_RESUMED) T l none
      (by simpa using hc) (by simp) (by simpa using hm)
      ((ready_queue_set_state _ _ _ _).2 ((ready_queue_set_err _ _ _ _).2 hq)) hT hf
  have he : (((k.set_err T e).set_state T THRD_STATE_RESUMED).mem T).err = e := by simp
  rw [he] at hsus
  refine ⟨_, k2, _, hres, by simp, hsus, ?_, ?_⟩
  · by_cases hh : h = T
    · subst hh; rw [hs2]; decide
    · rw [(hne hh).1]; decide
  · by_cases hh : h = T
    · exact Or.inl (by simp [hh])
    · refine Or.inr ⟨by simp [hh], (hne hh).1, ⟨rest, hq2, (hne hh).2⟩, ?_⟩
      show (k2.mem T).err = e
      rw [herr T, he]

/-- Witness for `race_free_resume` with `e = 7`: thread 0 of the sample system
is resumed and then suspends. -/
theorem race_free_resume_witness :
    ex_kernel.current_p = some 0 ∧ (ex_kernel.mem 0).state = THRD_STATE_CURRENT ∧
    (ex_kernel.mem 0).stack_low_magic = THRD_STACK_LOW_MAGIC ∧
    ready_queue ex_kernel [1, 2] ∧ 0 ∉ [1, 2] ∧ [1, 2].length ≤ 4 ∧
    ∃ k1 k2 r, thrd_resume_isr 4 ex_kernel 0 7 = Except.ok (k1, 0) ∧
      (k1.mem 0).state = THRD_STATE_RESUMED ∧
      thrd_suspend ex_errno 4 k1 none = Except.ok (k2, r) ∧
      (k2.mem 0).state ≠ THRD_STATE_SUSPENDED ∧
      (r = suspend_result.returned 7 ∨
        (r = suspend_result.switched ∧ (k2.mem 0).state = THRD_STATE_READY ∧
          (∃ q, ready_queue k2 q ∧ 0 ∈ q) ∧ thrd_suspend_isr_return k2 0 = 7)) :=
  ⟨by decide, by decide, by decide, by decide, by decide, by decide,
    race_free_resume ex_errno 4 ex_kernel 0 [1, 2] 7 (by decide) (by decide) (by decide)
      (by decide) (by decide) (by decide)⟩

/-- C5, as the code has it: when `T` is the running thread in state Current at
the time `thrd_resume_isr(T, e)` is issued, its next `thrd_suspend_isr`, with
any timeout, arms no timer and does not mark it Suspended; `T` is left Current
or Ready. -/
theorem resume_of_current_is_consumed (E : errno_t) (fuel : Nat) (k : Kernel) (T : Nat)
    (l : List Nat) (e : Int) (timeout_p : Option time_t)
    (hc : k.current_p = some T) (hs : (k.mem T).state = THRD_STATE_CURRENT)
    (hm : (k.mem T).stack_low_magic = THRD_STACK_LOW_MAGIC)
    (hq : ready_queue k l) (hT : T ∉ l) (hf : l.length ≤ fuel) :
    ∃ k1 k2 r, thrd_resume_isr fuel k T e = Except.ok (k1, 0) ∧
      thrd_suspend_isr E fuel k1 timeout_p = Except.ok (k2, r) ∧
      k2.timers = k.timers ∧
      (k2.mem T).state ≠ THRD_STATE_SUSPENDED ∧
      ((k2.mem T).state = THRD_STATE_CURRENT ∨ (k2.mem T).state = THRD_STATE_READY) := by
  have hres := resume_marks_spec fuel k T e (by rw [hs]; decide) (by rw [hs]; decide)
  obtain ⟨k2, h, rest, _, hsus, _, _, htm, hs2, hne, _⟩ :=
    suspend_resumed_spec E fuel ((k.set_err T e).set_state T THRD_STATE_RESUMED) T l timeout_p
      (by simpa using hc) (by simp) (by simpa using hm)
      ((ready_queue_set_state _ _ _ _).2 ((ready_queue_set_err _ _ _ _).2 hq)) hT hf
  refine ⟨_, k2, _, hres, hsus, by rw [htm]; simp, ?_, ?_⟩
  · by_cases hh : h = T
    · subst hh; rw [hs2]; decide
    · rw [(hne hh).1]; decide
  · by_cases hh : h = T
    · subst hh; exact Or.inl hs2
    · exact Or.inr (hne hh).1

/-- Witness for `resume_of_current_is_consumed`: thread 0 of the sample system
is resumed with 7 and then suspends with a 10 ms timeout. -/
theorem resume_of_current_is_consumed_witness :
    ex_kernel.current_p = some 0 ∧ (ex_kernel.mem 0).state = THRD_STATE_CURRENT ∧
    (ex_kernel.mem 0).stack_low_magic = THRD_STACK_LOW_MAGIC ∧
    ready_queue ex_kernel [1, 2] ∧ 0 ∉ [1, 2] ∧ [1, 2].length ≤ 4 ∧
    ∃ k1 k2 r, thrd_resume_isr 4 ex_kernel 0 7 = Except.ok (k1, 0) ∧
      thrd_suspend_isr ex_errno 4 k1 (some ⟨0, 10000000⟩) = Except.ok (k2, r) ∧
      k2.timers = ex_kernel.timers ∧
      (k2.mem 0).state ≠ THRD_STATE_SUSPENDED ∧
      ((k2.mem 0).state = THRD_STATE_CURRENT ∨ (k2.mem 0).state = THRD_STATE_READY) :=
  ⟨by decide, by decide, by decide, by decide, by decide, by decide,
    resume_of_current_is_consumed ex_errno 4 ex_kernel 0 [1, 2] 7 (some ⟨0, 10000000⟩)
      (by decide) (by decide) (by decide) (by decide) (by decide) (by decide)⟩

/-- C5 fails as stated: in the sample system thread 1 is Ready on the ready
list when `thrd_resume_isr(1, 7)` marks it Resumed.  The running thread 0 then
suspends, `thrd_reschedule` pops thread 1 and overwrites the mark with Current,
and the next `thrd_suspend_isr` of thread 1 marks it Suspended. -/
theorem resume_of_ready_is_lost :
    (ex_kernel.mem 1).state = THRD_STATE_READY ∧ ready_queue ex_kernel [1, 2] ∧
    ∃ k1 k2 k3, thrd_resume_isr 4 ex_kernel 1 7 = Except.ok (k1, 0) ∧
      (k1.mem 1).state = THRD_STATE_RESUMED ∧
      thrd_suspend_isr ex_errno 4 k1 none = Except.ok (k2, suspend_result.switched) ∧
      k2.current_p = some 1 ∧ (k2.mem 1).state = THRD_STATE_CURRENT ∧
      thrd_suspend_isr ex_errno 4 k2 none = Except.ok (k3, suspend_result.switched) ∧
      (k3.mem 1).state = THRD_STATE_SUSPENDED :=
  ⟨by decide, by decide, _, _, _, rfl, by decide, rfl, by decide, by decide, rfl, by decide⟩

/-! ## Zero-valued timeout -/

/-- C6, as the code has it: called by a running thread `T` that is not marked
Resumed, `thrd_suspend_isr` with a zero-valued timeout returns `-ETIMEDOUT` at
once, having done nothing but write `T.state`.  When `T` is marked Resumed the
timeout is not looked at: the call behaves as with a `NULL` timeout. -/
theorem thrd_suspend_isr_zero_timeout (E : errno_t) (fuel : Nat) (k : Kernel) (T : Nat)
    (timeout : time_t)
    (hc : k.current_p = some T) (hz : timeout.seconds = 0 ∧ timeout.nanoseconds = 0) :
    ((k.mem T).state ≠ THRD_STATE_RESUMED →
      thrd_suspend_isr E fuel k (some timeout)
        = Except.ok (k.set_state T THRD_STATE_SUSPENDED,
            suspend_result.returned (-E.ETIMEDOUT))) ∧
    ((k.mem T).state = THRD_STATE_RESUMED →
      thrd_suspend_isr E fuel k (some timeout) = thrd_suspend_isr E fuel k none) := by
  constructor
  · intro hs
    simp [thrd_suspend_isr, thrd_self, hc, hs, hz.1, hz.2]
  · intro hs
    simp [thrd_suspend_isr, thrd_self, hc, hs]

/-- Witness for `thrd_suspend_isr_zero_timeout`: thread 0 of the sample system
polls with the timeout `{0, 0}`. -/
theorem thrd_suspend_isr_zero_timeout_witness :
    ex_kernel.current_p = some 0 ∧
    ((⟨0, 0⟩ : time_t).seconds = 0 ∧ (⟨0, 0⟩ : time_t).nanoseconds = 0) ∧
    ((ex_kernel.mem 0).state ≠ THRD_STATE_RESUMED →
      thrd_suspend_isr ex_errno 0 ex_kernel (some ⟨0, 0⟩)
        = Except.ok (ex_kernel.set_state 0 THRD_STATE_SUSPENDED,
            suspend_result.returned (-ex_errno.ETIMEDOUT))) ∧
    ((ex_kernel.mem 0).state = THRD_STATE_RESUMED →
      thrd_suspend_isr ex_errno 0 ex_kernel (some ⟨0, 0⟩)
        = thrd_suspend_isr ex_errno 0 ex_kernel none) :=
  ⟨by decide, by decide,
    thrd_suspend_isr_zero_timeout ex_errno 0 ex_kernel 0 ⟨0, 0⟩ (by decide) (by decide)⟩

/-- C6 fails as stated: thread 0 of the sample system, marked Resumed with the
latched error 7, calls `thrd_suspend_isr` with the timeout `{0, 0}`.  The call
does not return `-ETIMEDOUT`: the thread is pushed as Ready and swapped out for
thread 1, and the value it gets back when it runs again is the latched 7. -/
theorem zero_timeout_when_resumed :
    ex_kernel_resumed.current_p = some 0 ∧
    (ex_kernel_resumed.mem 0).state = THRD_STATE_RESUMED ∧
    ∃ k1, thrd_suspend_isr ex_errno 4 ex_kernel_resumed (some ⟨0, 0⟩)
        = Except.ok (k1, suspend_result.switched) ∧
      suspend_result.switched ≠ suspend_result.returned (-ex_errno.ETIMEDOUT) ∧
      k1.current_p = some 1 ∧ (k1.mem 0).state = THRD_STATE_READY ∧
      thrd_suspend_isr_return k1 0 = 7 ∧ (7 : Int) ≠ -ex_errno.ETIMEDOUT :=
  ⟨by decide, by decide, _, rfl, by decide, by decide, by decide, by decide, by decide⟩

/-- C7 fails on the code: thread 0 of the sample system, running in state
Current, calls `thrd_suspend_isr` with the timeout `{0, 0}`.  The call returns
`-ETIMEDOUT` with `scheduler.current`, the ready list head and every list link
as before, but the caller, still running, is left in state Suspended. -/
theorem zero_timeout_leaves_caller_suspended :
    ex_kernel.current_p = some 0 ∧ (ex_kernel.mem 0).state = THRD_STATE_CURRENT ∧
    ∃ k1, thrd_suspend_isr ex_errno 4 ex_kernel (some ⟨0, 0⟩)
        = Except.ok (k1, suspend_result.returned (-ex_errno.ETIMEDOUT)) ∧
      k1.current_p = some 0 ∧ k1.ready_p = ex_kernel.ready_p ∧ ready_queue k1 [1, 2] ∧
      (k1.mem 0).state = THRD_STATE_SUSPENDED ∧
      (k1.mem 0).state ≠ THRD_STATE_CURRENT :=
  ⟨by decide, by decide, _, rfl, by decide, by decide, by decide, by decide, by decide⟩

/-! ## Timeout versus resume -/

/-- C8, as the code has it.  The running thread `T` (state Current, intact
canary, off the well-formed non-empty ready list) suspends with a non-zero
timeout: it is marked Suspended, swapped out, and a timer for `T` is armed.
From there, `thrd_resume(T, e)` makes `T` Ready on the ready list with `e`
latched and leaves the timer armed; the expiry of the timer instead makes `T`
Ready with `-ETIMEDOUT` latched.  In either case the return statement of the
suspend yields the latched value in every later state that has not rewritten
`T.err`. -/
theorem timeout_versus_resume (E : errno_t) (fuel : Nat) (k : Kernel) (T h : Nat)
    (l : List Nat) (timeout : time_t) (e : Int)
    (hc : k.current_p = some T) (hs : (k.mem T).state = THRD_STATE_CURRENT)
    (hm : (k.mem T).stack_low_magic = THRD_STACK_LOW_MAGIC)
    (hq : ready_queue k (h :: l)) (hT : T ∉ h :: l)
    (hz : ¬(timeout.seconds = 0 ∧ timeout.nanoseconds = 0)) (hf : l.length ≤ fuel) :
    ∃ k1, thrd_suspend E fuel k (some timeout) = Except.ok (k1, suspend_result.switched) ∧
      (k1.mem T).state = THRD_STATE_SUSPENDED ∧
      k1.timers = k.timers ++ [{ timeout := timeout, arg_p := T }] ∧
      (∃ k2, thrd_resume fuel k1 T e = Except.ok (k2, 0) ∧
        (k2.mem T).state = THRD_STATE_READY ∧ ready_queue k2 (insert_by_prio k.mem T l) ∧
        k2.timers = k1.timers ∧
        ∀ k3 : Kernel, (k3.mem T).err = (k2.mem T).err → thrd_suspend_isr_return k3 T = e) ∧
      (∃ k2, timer_expire E fuel k1 k.timers.length = Except.ok k2 ∧
        (k2.mem T).state = THRD_STATE_READY ∧ ready_queue k2 (insert_by_prio k.mem T l) ∧
        k2.timers = k.timers ∧
        ∀ k3 : Kernel, (k3.mem T).err = (k2.mem T).err →
          thrd_suspend_isr_return k3 T = -E.ETIMEDOUT) := by
  have hhT : h ≠ T := fun e => hT (by simp [e])
  have hTl : T ∉ l := fun hin => hT (List.mem_cons_of_mem h hin)
  -- the suspend
  obtain ⟨k1, hres, hq1, hc1, hs1, hst, herr, hprio, htm⟩ :=
    reschedule_spec E (timer_set_isr (k.set_state T THRD_STATE_SUSPENDED) timeout T) T h l hc
      (by simpa [timer_set_isr] using hm)
      (by
        have := (ready_queue_set_state k T THRD_STATE_SUSPENDED (h :: l)).2 hq
        exact this)
  have hsus : thrd_suspend E fuel k (some timeout) = Except.ok (k1, suspend_result.switched) := by
    simp [thrd_suspend, thrd_suspend_isr, thrd_self, hc, hs, hz, thrd_suspend_isr_finish, hres,
      hhT]
  have hT1 : (k1.mem T).state = THRD_STATE_SUSPENDED := by
    rw [hst T (fun e => hhT e.symm)]; simp [timer_set_isr]
  have htm1 : k1.timers = k.timers ++ [{ timeout := timeout, arg_p := T }] := by
    rw [htm]; simp [timer_set_isr]
  have hprio1 : ∀ x, (k1.mem x).prio = (k.mem x).prio := by
    intro x; rw [hprio x]; simp [timer_set_isr]
  -- a resume of the suspended thread in any state with the links of `k1`
  have key : ∀ (kk : Kernel) (v : Int), kk.mem = k1.mem → kk.ready_p = k1.ready_p →
      ∃ k2, thrd_resume_isr fuel kk T v = Except.ok (k2, 0) ∧
        (k2.mem T).state = THRD_STATE_READY ∧ ready_queue k2 (insert_by_prio k.mem T l) ∧
        k2.timers = kk.timers ∧ (k2.mem T).err = v := by
    intro kk v hmem hrp
    have hqk : ready_queue kk l := by
      unfold ready_queue
      rw [hmem, hrp]
      exact hq1
    have hqk2 : ready_queue ((kk.set_err T v).set_state T THRD_STATE_READY) l :=
      (ready_queue_set_state _ _ _ _).2 ((ready_queue_set_err _ _ _ _).2 hqk)
    obtain ⟨k2, hpush, hq2, hlk⟩ := push_spec T _ l fuel hqk2 hTl hf
    have hcongr := insert_by_prio_congr k.mem
      ((kk.set_err T v).set_state T THRD_STATE_READY).mem T
      (by intro x; simp [hmem, hprio1]) l
    rw [hcongr] at hq2
    refine ⟨k2, ?_, ?_, hq2, ?_, ?_⟩
    · have hsk : (kk.mem T).state = THRD_STATE_SUSPENDED := by rw [hmem]; exact hT1
      simp [thrd_resume_isr, hsk, hpush]
    · rw [links_only_state hlk]; simp
    · rw [hlk.2.1]; simp
    · rw [links_only_err hlk]; simp
  refine ⟨k1, hsus, hT1, htm1, ?_, ?_⟩
  · obtain ⟨k2, h1, h2, h3, h4, h5⟩ := key k1 e rfl rfl
    refine ⟨k2, by simp [thrd_resume, h1], h2, h3, h4, ?_⟩
    intro k3 h6
    show (k3.mem T).err = e
    rw [h6, h5]
  · obtain ⟨k2, h1, h2, h3, h4, h5⟩ :=
      key ({ k1 with timers := k1.timers.eraseIdx k.timers.length } : Kernel) (-E.ETIMEDOUT)
        rfl rfl
    have hget : k1.timers.get? k.timers.length = some (⟨timeout, T⟩ : timer_t) := by
      rw [htm1]; simp
    refine ⟨k2, ?_, h2, h3, ?_, ?_⟩
    · simp only [timer_expire, hget, thrd_port_suspend_timer_callback, h1]
    · rw [h4, htm1]
      show (k.timers ++ [(⟨timeout, T⟩ : timer_t)]).eraseIdx k.timers.length = k.timers
      rw [List.eraseIdx_append_of_length_le (le_refl _)]
      simp
    · intro k3 h6
      show (k3.mem T).err = -E.ETIMEDOUT
      rw [h6, h5]

/-- Witness for `timeout_versus_resume`: thread 0 of the sample system suspends
with a 10 ms timeout and is resumed with 3. -/
theorem timeout_versus_resume_witness :
    ex_kernel.current_p = some 0 ∧ (ex_kernel.mem 0).state = THRD_STATE_CURRENT ∧
    (ex_kernel.mem 0).stack_low_magic = THRD_STACK_LOW_MAGIC ∧
    ready_queue ex_kernel [1, 2] ∧ 0 ∉ [1, 2] ∧
    ¬((⟨0, 10000000⟩ : time_t).seconds = 0 ∧ (⟨0, 10000000⟩ : time_t).nanoseconds = 0) ∧
    [2].length ≤ 4 ∧
    ∃ k1, thrd_suspend ex_errno 4 ex_kernel (some ⟨0, 10000000⟩)
        = Except.ok (k1, suspend_result.switched) ∧
      (k1.mem 0).state = THRD_STATE_SUSPENDED ∧
      k1.timers = ex_kernel.timers ++ [{ timeout := ⟨0, 10000000⟩, arg_p := 0 }] ∧
      (∃ k2, thrd_resume 4 k1 0 3 = Except.ok (k2, 0) ∧
        (k2.mem 0).state = THRD_STATE_READY ∧
        ready_queue k2 (insert_by_prio ex_kernel.mem 0 [2]) ∧
        k2.timers = k1.timers ∧
        ∀ k3 : Kernel, (k3.mem 0).err = (k2.mem 0).err → thrd_suspend_isr_return k3 0 = 3) ∧
      (∃ k2, timer_expire ex_errno 4 k1 ex_kernel.timers.length = Except.ok k2 ∧
        (k2.mem 0).state = THRD_STATE_READY ∧
        ready_queue k2 (insert_by_prio ex_kernel.mem 0 [2]) ∧
        k2.timers = ex_kernel.timers ∧
        ∀ k3 : Kernel, (k3.mem 0).err = (k2.mem 0).err →
          thrd_suspend_isr_return k3 0 = -ex_errno.ETIMEDOUT) :=
  ⟨by decide, by decide, by decide, by decide, by decide, by decide, by decide,
    timeout_versus_resume ex_errno 4 ex_kernel 0 1 [2] ⟨0, 10000000⟩ 3 (by decide) (by decide)
      (by decide) (by decide) (by decide) (by decide) (by decide)⟩

/-- C8 fails as stated: thread 0 of the sample system suspends with a 10 ms
timeout and `thrd_resume(0, 3)` is issued while the timer is still armed.  The
resume does not disarm the timer.  Thread 0 is Ready but thread 1 keeps
running; the timer expires and its callback latches `-ETIMEDOUT` over the 3.
When thread 1 then suspends and thread 0 runs again, its suspend returns
`-ETIMEDOUT`, not 3. -/
theorem stale_timer_overrides_resume :
    ∃ k1 k2 k3 k4,
      thrd_suspend ex_errno 4 ex_kernel (some ⟨0, 10000000⟩)
        = Except.ok (k1, suspend_result.switched) ∧
      k1.timers = [{ timeout := ⟨0, 10000000⟩, arg_p := 0 }] ∧
      thrd_resume 4 k1 0 3 = Except.ok (k2, 0) ∧
      k2.timers = [{ timeout := ⟨0, 10000000⟩, arg_p := 0 }] ∧
      k2.current_p = some 1 ∧ (k2.mem 0).state = THRD_STATE_READY ∧ (k2.mem 0).err = 3 ∧
      timer_expire ex_errno 4 k2 0 = Except.ok k3 ∧
      thrd_suspend ex_errno 4 k3 none = Except.ok (k4, suspend_result.switched) ∧
      k4.current_p = some 0 ∧ (k4.mem 0).state = THRD_STATE_CURRENT ∧
      thrd_suspend_isr_return k4 0 = -ex_errno.ETIMEDOUT ∧
      thrd_suspend_isr_return k4 0 ≠ 3 :=
  ⟨_, _, _, _, rfl, by decide, rfl, by decide, by decide, by decide, by decide, rfl, rfl,
    by decide, by decide, by decide, by decide⟩

/-! ## Latching of the error code and double resume -/

/-- `thrd_resume_isr` on a well-formed ready list returns 0 with the error
latched and the thread not Suspended. -/
theorem resume_latch_spec (fuel : Nat) (k : Kernel) (l : List Nat) (t : Nat) (e : Int)
    (hq : ready_queue k l) (hf : l.length ≤ fuel) :
    ∃ k1, thrd_resume_isr fuel k t e = Except.ok (k1, 0) ∧ (k1.mem t).err = e ∧
      (k1.mem t).state ≠ THRD_STATE_SUSPENDED := by
  by_cases hs : (k.mem t).state = THRD_STATE_SUSPENDED
  · have hq2 : ready_queue ((k.set_err t e).set_state t THRD_STATE_READY) l :=
      (ready_queue_set_state _ _ _ _).2 ((ready_queue_set_err _ _ _ _).2 hq)
    obtain ⟨k3, hpush, hlk⟩ := push_returns t _ l fuel hq2 hf
    refine ⟨k3, by simp [thrd_resume_isr, hs, hpush], ?_, ?_⟩
    · rw [links_only_err hlk]; simp
    · rw [links_only_state hlk]; simp
  · by_cases hterm : (k.mem t).state = THRD_STATE_TERMINATED
    · refine ⟨k.set_err t e, by simp [thrd_resume_isr, hs, hterm], by simp, ?_⟩
      simpa using hs
    · exact ⟨_, resume_marks_spec fuel k t e hs hterm, by simp, by simp⟩

/-- A resume of a thread that is not Suspended needs no walk of the ready
list: it returns 0 with the error latched. -/
theorem resume_latch_not_suspended (fuel : Nat) (k : Kernel) (t : Nat) (e : Int)
    (hs : (k.mem t).state ≠ THRD_STATE_SUSPENDED) :
    ∃ k1, thrd_resume_isr fuel k t e = Except.ok (k1, 0) ∧ (k1.mem t).err = e := by
  by_cases hterm : (k.mem t).state = THRD_STATE_TERMINATED
  · exact ⟨k.set_err t e, by simp [thrd_resume_isr, hs, hterm], by simp⟩
  · exact ⟨_, resume_marks_spec fuel k t e hs hterm, by simp⟩

/-- C9: only the most recent `err` is latched.  On a well-formed ready list,
for a thread `t` in any state, a single `thrd_resume_isr(t, e1)` returns with
`t.err = e1`, and a following `thrd_resume_isr(t, e2)` returns with
`t.err = e2`. -/
theorem resume_latches_last_err (fuel : Nat) (k : Kernel) (l : List Nat) (t : Nat)
    (e1 e2 : Int) (hq : ready_queue k l) (hf : l.length ≤ fuel) :
    ∃ k1 k2, thrd_resume_isr fuel k t e1 = Except.ok (k1, 0) ∧ (k1.mem t).err = e1 ∧
      thrd_resume_isr fuel k1 t e2 = Except.ok (k2, 0) ∧ (k2.mem t).err = e2 := by
  obtain ⟨k1, h1, h2, h3⟩ := resume_latch_spec fuel k l t e1 hq hf
  obtain ⟨k2, h4, h5⟩ := resume_latch_not_suspended fuel k1 t e2 h3
  exact ⟨k1, k2, h1, h2, h4, h5⟩

/-- Witness for `resume_latches_last_err`: the suspended thread 3 of the sample
system is resumed with 1 and then with 2. -/
theorem resume_latches_last_err_witness :
    ready_queue ex_kernel [1, 2] ∧ [1, 2].length ≤ 4 ∧
    ∃ k1 k2, thrd_resume_isr 4 ex_kernel 3 1 = Except.ok (k1, 0) ∧ (k1.mem 3).err = 1 ∧
      thrd_resume_isr 4 k1 3 2 = Except.ok (k2, 0) ∧ (k2.mem 3).err = 2 :=
  ⟨by decide, by decide, resume_latches_last_err 4 ex_kernel [1, 2] 3 1 2 (by decide) (by decide)⟩

/-- C10, as the code has it: for a Suspended thread `t` off the well-formed
ready list, the first `thrd_resume_isr` makes it Ready and pushes it, and the
second one, finding it Ready, marks it Resumed and pushes nothing: `t` ends in
state Resumed, on the ready list exactly once, with the second error latched. -/
theorem double_resume_of_suspended (fuel : Nat) (k : Kernel) (l : List Nat) (t : Nat)
    (e1 e2 : Int) (hq : ready_queue k l) (ht : t ∉ l)
    (hs : (k.mem t).state = THRD_STATE_SUSPENDED) (hf : l.length ≤ fuel) :
    ∃ k1 k2, thrd_resume_isr fuel k t e1 = Except.ok (k1, 0) ∧
      (k1.mem t).state = THRD_STATE_READY ∧
      thrd_resume_isr fuel k1 t e2 = Except.ok (k2, 0) ∧
      (k2.mem t).state = THRD_STATE_RESUMED ∧ (k2.mem t).err = e2 ∧
      ready_queue k2 (insert_by_prio k.mem t l) ∧
      (insert_by_prio k.mem t l).count t = 1 := by
  have hq2 : ready_queue ((k.set_err t e1).set_state t THRD_STATE_READY) l :=
    (ready_queue_set_state _ _ _ _).2 ((ready_queue_set_err _ _ _ _).2 hq)
  obtain ⟨k1, hpush, hq1, hlk⟩ := push_spec t _ l fuel hq2 ht hf
  rw [insert_by_prio_congr k.mem ((k.set_err t e1).set_state t THRD_STATE_READY).mem t
    (by intro x; simp) l] at hq1
  have hst1 : (k1.mem t).state = THRD_STATE_READY := by
    rw [links_only_state hlk]; simp
  have h2 := resume_marks_spec fuel k1 t e2 (by rw [hst1]; decide) (by rw [hst1]; decide)
  refine ⟨k1, _, by simp [thrd_resume_isr, hs, hpush], hst1, h2, by simp, by simp, ?_, ?_⟩
  · exact (ready_queue_set_state _ _ _ _).2 ((ready_queue_set_err _ _ _ _).2 hq1)
  · exact List.count_eq_one_of_mem hq1.2 ((mem_insert_by_prio k.mem t t l).2 (Or.inl rfl))

/-- Witness for `double_resume_of_suspended`: the suspended thread 3 of the
sample system is resumed with 1 and then with 2. -/
theorem double_resume_of_suspended_witness :
    ready_queue ex_kernel [1, 2] ∧ 3 ∉ [1, 2] ∧
    (ex_kernel.mem 3).state = THRD_STATE_SUSPENDED ∧ [1, 2].length ≤ 4 ∧
    ∃ k1 k2, thrd_resume_isr 4 ex_kernel 3 1 = Except.ok (k1, 0) ∧
      (k1.mem 3).state = THRD_STATE_READY ∧
      thrd_resume_isr 4 k1 3 2 = Except.ok (k2, 0) ∧
      (k2.mem 3).state = THRD_STATE_RESUMED ∧ (k2.mem 3).err = 2 ∧
      ready_queue k2 (insert_by_prio ex_kernel.mem 3 [1, 2]) ∧
      (insert_by_prio ex_kernel.mem 3 [1, 2]).count 3 = 1 :=
  ⟨by decide, by decide, by decide, by decide,
    double_resume_of_suspended 4 ex_kernel [1, 2] 3 1 2 (by decide) (by decide) (by decide)
      (by decide)⟩

/-- C10 fails as stated: after `thrd_resume_isr(3, 1); thrd_resume_isr(3, 2)` on
the suspended thread 3 of the sample system, the thread is on the ready list
but its state is Resumed, not Ready. -/
theorem double_resume_leaves_resumed :
    (ex_kernel.mem 3).state = THRD_STATE_SUSPENDED ∧ ready_queue ex_kernel [1, 2] ∧
    3 ∉ [1, 2] ∧
    ∃ k1 k2, thrd_resume_isr 4 ex_kernel 3 1 = Except.ok (k1, 0) ∧
      thrd_resume_isr 4 k1 3 2 = Except.ok (k2, 0) ∧
      ready_queue k2 [1, 3, 2] ∧
      (k2.mem 3).state = THRD_STATE_RESUMED ∧ (k2.mem 3).state ≠ THRD_STATE_READY :=
  ⟨by decide, by decide, by decide, _, _, rfl, rfl, by decide, by decide, by decide⟩

/-! ## Resume of a terminated thread, and sleep -/

/-- C11, as the code has it: `thrd_resume_isr(t, err)` on a Terminated thread
returns 0 having written `t.err` and nothing else: the state and every other
field of `t`, every other thread, the scheduler and the ready list are as
before. -/
theorem thrd_resume_isr_terminated (fuel : Nat) (k : Kernel) (t : Nat) (err : Int)
    (hs : (k.mem t).state = THRD_STATE_TERMINATED) :
    ∃ k1, thrd_resume_isr fuel k t err = Except.ok (k1, 0) ∧
      k1.mem t = { k.mem t with err := err } ∧
      (∀ x, x ≠ t → k1.mem x = k.mem x) ∧
      k1.current_p = k.current_p ∧ k1.ready_p = k.ready_p ∧ k1.timers = k.timers ∧
      ∀ l, ready_queue k l → ready_queue k1 l := by
  refine ⟨k.set_err t err, ?_, ?_, ?_, rfl, rfl, rfl, ?_⟩
  · simp [thrd_resume_isr, hs]
  · simp [Kernel.set_err]
  · intro x hx
    simp [Kernel.set_err, mem_set, hx]
  · intro l hl
    exact (ready_queue_set_err _ _ _ _).2 hl

/-- Witness for `thrd_resume_isr_terminated`: thread 3 of the sample system,
marked Terminated, is resumed with 5. -/
theorem thrd_resume_isr_terminated_witness :
    ((ex_kernel.set_state 3 THRD_STATE_TERMINATED).mem 3).state = THRD_STATE_TERMINATED ∧
    ∃ k1, thrd_resume_isr 4 (ex_kernel.set_state 3 THRD_STATE_TERMINATED) 3 5
        = Except.ok (k1, 0) ∧
      k1.mem 3 = { (ex_kernel.set_state 3 THRD_STATE_TERMINATED).mem 3 with err := 5 } ∧
      (∀ x, x ≠ 3 → k1.mem x = (ex_kernel.set_state 3 THRD_STATE_TERMINATED).mem x) ∧
      k1.current_p = (ex_kernel.set_state 3 THRD_STATE_TERMINATED).current_p ∧
      k1.ready_p = (ex_kernel.set_state 3 THRD_STATE_TERMINATED).ready_p ∧
      k1.timers = (ex_kernel.set_state 3 THRD_STATE_TERMINATED).timers ∧
      ∀ l, ready_queue (ex_kernel.set_state 3 THRD_STATE_TERMINATED) l → ready_queue k1 l :=
  ⟨by decide, thrd_resume_isr_terminated 4 (ex_kernel.set_state 3 THRD_STATE_TERMINATED) 3 5
    (by decide)⟩

/-- C11 fails as stated: thread 3 of the sample system, marked Terminated with
`err = 0`, is resumed with 5; afterwards its `err` field is 5. -/
theorem resume_of_terminated_writes_err :
    ((ex_kernel.set_state 3 THRD_STATE_TERMINATED).mem 3).state = THRD_STATE_TERMINATED ∧
    ((ex_kernel.set_state 3 THRD_STATE_TERMINATED).mem 3).err = 0 ∧
    ∃ k1, thrd_resume_isr 4 (ex_kernel.set_state 3 THRD_STATE_TERMINATED) 3 5
        = Except.ok (k1, 0) ∧
      (k1.mem 3).state = THRD_STATE_TERMINATED ∧ (k1.mem 3).err = 5 ∧
      (k1.mem 3).err ≠ ((ex_kernel.set_state 3 THRD_STATE_TERMINATED).mem 3).err :=
  ⟨by decide, by decide, _, rfl, by decide, by decide, by decide⟩

/-- C12: `thrd_usleep` turns the result of its suspend into 0 exactly when
that result is `-ETIMEDOUT` and into -1 otherwise, a resume with `err = 0`
included (error numbers being non-zero); this holds for a suspend that returns
at once, and a suspend that swaps the caller out defers the same return
statement. -/
theorem thrd_usleep_result (E : errno_t) (fuel : Nat) (k : Kernel) (useconds : Int) (err : Int) :
    (thrd_usleep_return E err = 0 ↔ err = -E.ETIMEDOUT) ∧
    (err ≠ -E.ETIMEDOUT → thrd_usleep_return E err = -1) ∧
    (E.ETIMEDOUT ≠ 0 → thrd_usleep_return E 0 = -1) ∧
    (∀ k1, thrd_suspend E fuel k (some (thrd_usleep_timeout useconds))
        = Except.ok (k1, suspend_result.returned err) →
      thrd_usleep E fuel k useconds
        = Except.ok (k1, suspend_result.returned (thrd_usleep_return E err))) ∧
    (∀ k1, thrd_suspend E fuel k (some (thrd_usleep_timeout useconds))
        = Except.ok (k1, suspend_result.switched) →
      thrd_usleep E fuel k useconds = Except.ok (k1, suspend_result.switched)) := by
  refine ⟨?_, ?_, ?_, ?_, ?_⟩
  · unfold thrd_usleep_return
    by_cases h : err = -E.ETIMEDOUT
    · simp [h]
    · simp [h]
  · intro h
    simp [thrd_usleep_return, h]
  · intro h
    have h0 : (0 : Int) ≠ -E.ETIMEDOUT := by
      intro e
      apply h
      omega
    simp [thrd_usleep_return, h0]
  · intro k1 h
    simp [thrd_usleep, h]
  · intro k1 h
    simp [thrd_usleep, h]

/-- Witness for `thrd_usleep_result`: `thrd_usleep(0)` by thread 0 of the
sample system returns 0, its suspend having returned `-ETIMEDOUT` at once. -/
theorem thrd_usleep_result_witness :
    thrd_usleep ex_errno 4 ex_kernel 0
      = Except.ok (ex_kernel.set_state 0 THRD_STATE_SUSPENDED, suspend_result.returned 0) :=
  ((thrd_usleep_result ex_errno 4 ex_kernel 0 (-ex_errno.ETIMEDOUT)).2.2.2.1
    (ex_kernel.set_state 0 THRD_STATE_SUSPENDED) rfl).trans (by
      have h : thrd_usleep_return ex_errno (-ex_errno.ETIMEDOUT) = 0 := by decide
      rw [h])

/-! ## Queue order -/

theorem prio_sorted_congr (mem mem1 : Nat → thrd_t) (h : ∀ x, (mem1 x).prio = (mem x).prio)
    (l : List Nat) : prio_sorted mem1 l ↔ prio_sorted mem l := by
  unfold prio_sorted
  constructor
  · intro hp
    refine hp.imp ?_
    intro a b hab
    rw [← h a, ← h b]; exact hab
  · intro hp
    refine hp.imp ?_
    intro a b hab
    rw [h a, h b]; exact hab

/-- Where `insert_by_prio` puts the new thread in a sorted sequence: after all
threads of `prio` value at most its own, before all of a greater one. -/
theorem insert_by_prio_split (mem : Nat → thrd_t) (t : Nat) :
    ∀ l : List Nat, prio_sorted mem l →
      ∃ l1 l2, l = l1 ++ l2 ∧ insert_by_prio mem t l = l1 ++ t :: l2 ∧
        (∀ x ∈ l1, (mem x).prio ≤ (mem t).prio) ∧
        (∀ x ∈ l2, (mem t).prio < (mem x).prio) := by
  intro l
  induction l with
  | nil =>
    intro _
    exact ⟨[], [], rfl, rfl, by simp, by simp⟩
  | cons a l ih =>
    intro hs
    have hs' := List.pairwise_cons.1 hs
    by_cases hp : (mem t).prio < (mem a).prio
    · refine ⟨[], a :: l, rfl, by simp [insert_by_prio, hp], by simp, ?_⟩
      intro x hx
      rcases List.mem_cons.1 hx with e | e
      · rw [e]; exact hp
      · exact lt_of_lt_of_le hp (hs'.1 x e)
    · obtain ⟨l1, l2, h1, h2, h3, h4⟩ := ih hs'.2
      refine ⟨a :: l1, l2, by rw [h1]; rfl, by simp [insert_by_prio, hp, h2], ?_, h4⟩
      intro x hx
      rcases List.mem_cons.1 hx with e | e
      · rw [e]; exact not_lt.1 hp
      · exact h3 x e

/-- Inserting by priority keeps a sorted sequence sorted. -/
theorem insert_by_prio_sorted (mem : Nat → thrd_t) (t : Nat) :
    ∀ l : List Nat, prio_sorted mem l → prio_sorted mem (insert_by_prio mem t l) := by
  intro l
  induction l with
  | nil => intro _; simp [insert_by_prio, prio_sorted]
  | cons a l ih =>
    intro hs
    have hs' := List.pairwise_cons.1 hs
    by_cases hp : (mem t).prio < (mem a).prio
    · simp only [insert_by_prio, if_pos hp]
      refine List.pairwise_cons.2 ⟨?_, hs⟩
      intro x hx
      rcases List.mem_cons.1 hx with e | e
      · rw [e]; exact le_of_lt hp
      · exact le_of_lt (lt_of_lt_of_le hp (hs'.1 x e))
    · simp only [insert_by_prio, if_neg hp]
      refine List.pairwise_cons.2 ⟨?_, ih hs'.2⟩
      intro x hx
      rcases (mem_insert_by_prio mem t x l).1 hx with e | e
      · rw [e]; exact not_lt.1 hp
      · exact hs'.1 x e

/-- C13: queue order.  On a well-formed ready list whose priorities do not
decrease from head to tail, `scheduler_ready_push` of a thread that is not on
the list returns with a ready list that is again non-decreasing, and so does
`scheduler_ready_pop` when the list is not empty. -/
theorem queue_order_preserved (fuel : Nat) (k : Kernel) (l : List Nat) (t : Nat)
    (hq : ready_queue k l) (hs : prio_sorted k.mem l) (ht : t ∉ l) (hf : l.length ≤ fuel) :
    (∃ k1 l1, scheduler_ready_push fuel k t = Except.ok k1 ∧ ready_queue k1 l1 ∧
      prio_sorted k1.mem l1) ∧
    (l ≠ [] → ∃ k2 h l2, scheduler_ready_pop k = Except.ok (k2, h) ∧ ready_queue k2 l2 ∧
      prio_sorted k2.mem l2) := by
  constructor
  · obtain ⟨k1, h1, h2, h3⟩ := push_spec t k l fuel hq ht hf
    refine ⟨k1, _, h1, h2, ?_⟩
    exact (prio_sorted_congr k.mem k1.mem (links_only_prio h3) _).2
      (insert_by_prio_sorted k.mem t l hs)
  · intro hne
    cases l with
    | nil => exact absurd rfl hne
    | cons h l =>
      obtain ⟨k2, h1, h2, h3⟩ := pop_spec k h l hq
      refine ⟨k2, h, l, h1, h2, ?_⟩
      exact (prio_sorted_congr k.mem k2.mem (links_only_prio h3) _).2 (List.pairwise_cons.1 hs).2

/-- Witness for `queue_order_preserved`: pushing thread 3 (prio 10) onto the
ready list of the sample system, and popping that list. -/
theorem queue_order_preserved_witness :
    ready_queue ex_kernel [1, 2] ∧ prio_sorted ex_kernel.mem [1, 2] ∧ 3 ∉ [1, 2] ∧
    [1, 2].length ≤ 4 ∧
    (∃ k1 l1, scheduler_ready_push 4 ex_kernel 3 = Except.ok k1 ∧ ready_queue k1 l1 ∧
      prio_sorted k1.mem l1) ∧
    ([1, 2] ≠ [] → ∃ k2 h l2, scheduler_ready_pop ex_kernel = Except.ok (k2, h) ∧
      ready_queue k2 l2 ∧ prio_sorted k2.mem l2) :=
  ⟨by decide, by unfold prio_sorted; decide, by decide, by decide,
    queue_order_preserved 4 ex_kernel [1, 2] 3 (by decide) (by unfold prio_sorted; decide)
      (by decide) (by decide)⟩

/-- C14: on a well-formed, priority-sorted ready list `l` that does not hold
`t`, `scheduler_ready_push(t)` returns with the ready list `l1 ++ t :: l2`,
where `l = l1 ++ l2`, every thread of `l1` has a `prio` value at most that of
`t` and every thread of `l2` a greater one; only list links are rewritten. -/
theorem scheduler_ready_push_position (fuel : Nat) (k : Kernel) (l : List Nat) (t : Nat)
    (hq : ready_queue k l) (hs : prio_sorted k.mem l) (ht : t ∉ l) (hf : l.length ≤ fuel) :
    ∃ k1 l1 l2, scheduler_ready_push fuel k t = Except.ok k1 ∧ l = l1 ++ l2 ∧
      ready_queue k1 (l1 ++ t :: l2) ∧
      (∀ x ∈ l1, (k.mem x).prio ≤ (k.mem t).prio) ∧
      (∀ x ∈ l2, (k.mem t).prio < (k.mem x).prio) ∧
      links_only k k1 := by
  obtain ⟨k1, h1, h2, h3⟩ := push_spec t k l fuel hq ht hf
  obtain ⟨l1, l2, e1, e2, e3, e4⟩ := insert_by_prio_split k.mem t l hs
  rw [e2] at h2
  exact ⟨k1, l1, l2, h1, e1, h2, e3, e4, h3⟩

/-- Witness for `scheduler_ready_push_position`: thread 3 (prio 10) goes
between thread 1 (prio -80) and thread 2 (prio 127) of the sample system. -/
theorem scheduler_ready_push_position_witness :
    ready_queue ex_kernel [1, 2] ∧ prio_sorted ex_kernel.mem [1, 2] ∧ 3 ∉ [1, 2] ∧
    [1, 2].length ≤ 4 ∧
    ∃ k1 l1 l2, scheduler_ready_push 4 ex_kernel 3 = Except.ok k1 ∧ [1, 2] = l1 ++ l2 ∧
      ready_queue k1 (l1 ++ 3 :: l2) ∧
      (∀ x ∈ l1, (ex_kernel.mem x).prio ≤ (ex_kernel.mem 3).prio) ∧
      (∀ x ∈ l2, (ex_kernel.mem 3).prio < (ex_kernel.mem x).prio) ∧
      links_only ex_kernel k1 :=
  ⟨by decide, by unfold prio_sorted; decide, by decide, by decide,
    scheduler_ready_push_position 4 ex_kernel [1, 2] 3 (by decide)
      (by unfold prio_sorted; decide) (by decide) (by decide)⟩

/-- C16: on a non-empty well-formed ready list `h :: l`, `scheduler_ready_pop`
returns the head `h` and leaves exactly the tail `l` as the ready list; when
the list was priority-sorted, the `prio` value of `h` is at most that of every
thread left on the list. -/
theorem scheduler_ready_pop_head (k : Kernel) (h : Nat) (l : List Nat)
    (hq : ready_queue k (h :: l)) :
    ∃ k1, scheduler_ready_pop k = Except.ok (k1, h) ∧ ready_queue k1 l ∧
      (prio_sorted k.mem (h :: l) → ∀ x ∈ l, (k1.mem h).prio ≤ (k1.mem x).prio) := by
  obtain ⟨k1, h1, h2, h3⟩ := pop_spec k h l hq
  refine ⟨k1, h1, h2, ?_⟩
  intro hs x hx
  rw [links_only_prio h3, links_only_prio h3]
  exact (List.pairwise_cons.1 hs).1 x hx

/-- Witness for `scheduler_ready_pop_head`: popping the ready list of the
sample system returns thread 1 and leaves thread 2. -/
theorem scheduler_ready_pop_head_witness :
    ready_queue ex_kernel [1, 2] ∧
    ∃ k1, scheduler_ready_pop ex_kernel = Except.ok (k1, 1) ∧ ready_queue k1 [2] ∧
      (prio_sorted ex_kernel.mem [1, 2] → ∀ x ∈ [2], (k1.mem 1).prio ≤ (k1.mem x).prio) :=
  ⟨by decide, scheduler_ready_pop_head ex_kernel 1 [2] (by decide)⟩

/-! ## FIFO within a priority -/

theorem insert_by_prio_sublist (mem : Nat → thrd_t) (t : Nat) :
    ∀ l : List Nat, List.Sublist l (insert_by_prio mem t l) := by
  intro l
  induction l with
  | nil => simp [insert_by_prio]
  | cons a l ih =>
    by_cases hp : (mem t).prio < (mem a).prio
    · simp only [insert_by_prio, if_pos hp]
      exact List.sublist_cons_self t (a :: l)
    · simp only [insert_by_prio, if_neg hp]
      exact List.Sublist.cons₂ a ih

/-- A thread pushed onto a sorted sequence lands behind every thread of its
own priority that is already there. -/
theorem insert_by_prio_after_equal (mem : Nat → thrd_t) (a t : Nat) (l : List Nat)
    (hs : prio_sorted mem l) (ha : a ∈ l) (hp : (mem a).prio = (mem t).prio) :
    precedes a t (insert_by_prio mem t l) := by
  obtain ⟨l1, l2, e1, e2, _, e4⟩ := insert_by_prio_split mem t l hs
  have ha1 : a ∈ l1 := by
    rw [e1] at ha
    rcases List.mem_append.1 ha with h | h
    · exact h
    · have := e4 a h
      rw [hp] at this
      exact absurd this (lt_irrefl _)
  rw [e2]
  unfold precedes
  have h1 : List.Sublist [a] l1 := List.singleton_sublist.2 ha1
  have h2 : List.Sublist [t] (t :: l2) := List.singleton_sublist.2 (List.mem_cons_self t l2)
  exact List.Sublist.append h1 h2

/-- In a sequence without repetition, a prefix that holds the later of two
threads holds the earlier one too. -/
theorem precedes_take (a b : Nat) :
    ∀ (q : List Nat) (n : Nat), q.Nodup → precedes a b q → b ∈ q.take n → a ∈ q.take n := by
  intro q
  induction q with
  | nil => intro n _ h; simp [precedes] at h
  | cons x q ih =>
    intro n hnd h hb
    cases n with
    | zero => simp at hb
    | succ m =>
      have hnd' := List.nodup_cons.1 hnd
      rw [List.take_succ_cons] at hb ⊢
      unfold precedes at h
      cases h with
      | cons _ h' =>
        rcases List.mem_cons.1 hb with e | e
        · have hbq : b ∈ q := h'.subset (by simp)
          exact absurd (e ▸ hbq) hnd'.1
        · exact List.mem_cons_of_mem x (ih m hnd'.2 h' e)
      | cons₂ _ h' => exact List.mem_cons_self _ _

/-- A run of `scheduler_ready_pop` calls on a well-formed ready list returns
its threads from the head on, in list order. -/
theorem pops_spec :
    ∀ (n : Nat) (k : Kernel) (q : List Nat), ready_queue k q → n ≤ q.length →
      ∃ k1, pops n k = Except.ok (k1, q.take n) ∧ ready_queue k1 (q.drop n) ∧
        links_only k k1 := by
  intro n
  induction n with
  | zero =>
    intro k q hq _
    exact ⟨k, rfl, hq, links_only_refl k⟩
  | succ m ih =>
    intro k q hq hn
    cases q with
    | nil => simp at hn
    | cons h q =>
      obtain ⟨k1, h1, h2, h3⟩ := pop_spec k h q hq
      obtain ⟨k2, h4, h5, h6⟩ := ih k1 q h2 (by simpa using hn)
      refine ⟨k2, ?_, h5, links_only_trans h3 h6⟩
      simp [pops, h1, h4]

/-- A run of `scheduler_ready_push` calls with fresh, distinct threads inserts
them one after the other by priority. -/
theorem pushes_spec (fuel : Nat) :
    ∀ (ts : List Nat) (k : Kernel) (l : List Nat), ready_queue k l → ts.Nodup →
      (∀ t ∈ ts, t ∉ l) → l.length + ts.length ≤ fuel →
      ∃ k1, pushes fuel k ts = Except.ok k1 ∧
        ready_queue k1 (ts.foldl (fun q t => insert_by_prio k.mem t q) l) ∧
        links_only k k1 := by
  intro ts
  induction ts with
  | nil =>
    intro k l hq _ _ _
    exact ⟨k, rfl, hq, links_only_refl k⟩
  | cons t ts ih =>
    intro k l hq hnd hfresh hf
    have hnd' := List.nodup_cons.1 hnd
    have hlen : (t :: ts).length = ts.length + 1 := rfl
    obtain ⟨k1, h1, h2, h3⟩ := push_spec t k l fuel hq (hfresh t (List.mem_cons_self t ts))
      (by omega)
    have hfresh1 : ∀ x ∈ ts, x ∉ insert_by_prio k.mem t l := by
      intro x hx hin
      rcases (mem_insert_by_prio k.mem t x l).1 hin with e | e
      · exact hnd'.1 (e ▸ hx)
      · exact hfresh x (List.mem_cons_of_mem t hx) e
    have hlen1 : (insert_by_prio k.mem t l).length = l.length + 1 := by
      clear h2 hfresh1
      induction l with
      | nil => simp [insert_by_prio]
      | cons a l ihl =>
        by_cases hp : (k.mem t).prio < (k.mem a).prio
        · simp [insert_by_prio, hp]
        · have : ∀ l', (insert_by_prio k.mem t l').length = l'.length + 1 := by
            intro l'
            induction l' with
            | nil => simp [insert_by_prio]
            | cons c l' ihc =>
              by_cases hc : (k.mem t).prio < (k.mem c).prio
              · simp [insert_by_prio, hc]
              · simp [insert_by_prio, hc, ihc]
          exact this (a :: l)
    obtain ⟨k2, h4, h5, h6⟩ := ih k1 _ h2 hnd'.2 hfresh1 (by omega)
    refine ⟨k2, by simp [pushes, h1, h4], ?_, links_only_trans h3 h6⟩
    have hfun : (fun q t => insert_by_prio k1.mem t q) = (fun q t => insert_by_prio k.mem t q) := by
      funext q x
      exact insert_by_prio_congr k.mem k1.mem x (links_only_prio h3) q
    rw [hfun] at h5
    exact h5

theorem precedes_foldl_insert (mem : Nat → thrd_t) (a b : Nat) :
    ∀ (ts l : List Nat), precedes a b l →
      precedes a b (ts.foldl (fun q t => insert_by_prio mem t q) l) := by
  intro ts
  induction ts with
  | nil => intro l h; exact h
  | cons t ts ih =>
    intro l h
    exact ih _ (List.Sublist.trans h (insert_by_prio_sublist mem t l))

/-- C15: FIFO per priority.  Thread `A` is on the well-formed, priority-sorted
ready list (it was pushed earlier and has not been popped, whatever else was
pushed or popped since) when thread `B` of the same priority is pushed, and
further fresh threads `cs` may be pushed afterwards.  Then `A` comes before `B`
on the ready list, and every run of pops returns the list from its head on, so
that a run that returns `B` has returned `A`. -/
theorem fifo_per_priority (fuel : Nat) (k : Kernel) (l : List Nat) (A B : Nat) (cs : List Nat)
    (hq : ready_queue k l) (hs : prio_sorted k.mem l) (hA : A ∈ l) (hB : B ∉ l)
    (hp : (k.mem A).prio = (k.mem B).prio) (hcs : cs.Nodup)
    (hcl : ∀ c ∈ cs, c ∉ l ∧ c ≠ B) (hf : l.length + 1 + cs.length ≤ fuel) :
    ∃ k1 k2 q, scheduler_ready_push fuel k B = Except.ok k1 ∧
      pushes fuel k1 cs = Except.ok k2 ∧ ready_queue k2 q ∧ precedes A B q ∧
      ∀ n, n ≤ q.length →
        ∃ k3, pops n k2 = Except.ok (k3, q.take n) ∧ (B ∈ q.take n → A ∈ q.take n) := by
  obtain ⟨k1, h1, h2, h3⟩ := push_spec B k l fuel hq hB (by omega)
  have hpre : precedes A B (insert_by_prio k.mem B l) :=
    insert_by_prio_after_equal k.mem A B l hs hA hp
  have hfresh : ∀ c ∈ cs, c ∉ insert_by_prio k.mem B l := by
    intro c hc hin
    rcases (mem_insert_by_prio k.mem B c l).1 hin with e | e
    · exact (hcl c hc).2 e
    · exact (hcl c hc).1 e
  have hlen : (insert_by_prio k.mem B l).length ≤ l.length + 1 := by
    have hlen1 : ∀ l', (insert_by_prio k.mem B l').length = l'.length + 1 := by
      intro l'
      induction l' with
      | nil => simp [insert_by_prio]
      | cons c l' ihc =>
        by_cases hc : (k.mem B).prio < (k.mem c).prio
        · simp [insert_by_prio, hc]
        · simp [insert_by_prio, hc, ihc]
    rw [hlen1 l]
  obtain ⟨k2, h4, h5, _⟩ := pushes_spec fuel cs k1 _ h2 hcs hfresh (by omega)
  refine ⟨k1, k2, _, h1, h4, h5, ?_, ?_⟩
  · exact precedes_foldl_insert k1.mem A B cs _ hpre
  · intro n hn
    obtain ⟨k3, h6, _, _⟩ := pops_spec n k2 _ h5 hn
    exact ⟨k3, h6, precedes_take A B _ n h5.2 (precedes_foldl_insert k1.mem A B cs _ hpre)⟩

/-- Witness for `fifo_per_priority`: X, Y, Z are the threads 10, 11, 12 of
priority 20.  With X and Y on the ready list, Z is pushed; and, run from the
empty ready list, pushing X, Y, Z and popping three times returns X, Y, Z. -/
theorem fifo_per_priority_witness :
    (ready_queue ex_fifo_xy [10, 11] ∧ prio_sorted ex_fifo_xy.mem [10, 11] ∧ 10 ∈ [10, 11] ∧
      12 ∉ [10, 11] ∧ (ex_fifo_xy.mem 10).prio = (ex_fifo_xy.mem 12).prio ∧
      ([] : List Nat).Nodup ∧ (∀ c ∈ ([] : List Nat), c ∉ [10, 11] ∧ c ≠ 12) ∧
      [10, 11].length + 1 + ([] : List Nat).length ≤ 4) ∧
    (∃ k1 k2 q, scheduler_ready_push 4 ex_fifo_xy 12 = Except.ok k1 ∧
      pushes 4 k1 [] = Except.ok k2 ∧ ready_queue k2 q ∧ precedes 10 12 q ∧
      ∀ n, n ≤ q.length →
        ∃ k3, pops n k2 = Except.ok (k3, q.take n) ∧ (12 ∈ q.take n → 10 ∈ q.take n)) ∧
    (∃ k k1, pushes 4 ex_fifo [10, 11, 12] = Except.ok k ∧
      pops 3 k = Except.ok (k1, [10, 11, 12])) :=
  ⟨⟨by decide, by unfold prio_sorted; decide, by decide, by decide, by decide, by decide,
      by decide, by decide⟩,
    fifo_per_priority 4 ex_fifo_xy [10, 11] 10 12 [] (by decide)
      (by unfold prio_sorted; decide) (by decide) (by decide) (by decide) (by decide)
      (by decide) (by decide),
    ⟨_, _, rfl, rfl⟩⟩

/-! ## More fuel never changes a result -/

theorem push_loop_mono (t : Nat) :
    ∀ (fuel : Nat) (k : Kernel) (a : Nat) (k1 : Kernel) (n : Nat),
      scheduler_ready_push_loop t fuel k a = Except.ok k1 →
      scheduler_ready_push_loop t (fuel + n) k a = Except.ok k1 := by
  intro fuel
  induction fuel with
  | zero => intro k a k1 n h; simp [scheduler_ready_push_loop] at h
  | succ f ih =>
    intro k a k1 n h
    have e : f + 1 + n = (f + n) + 1 := by omega
    rw [e]
    by_cases hp : (k.mem t).prio < (k.mem a).prio
    · simp only [scheduler_ready_push_loop, if_pos hp] at h ⊢
      exact h
    · cases hn : (k.mem a).next_p with
      | none =>
        simp only [scheduler_ready_push_loop, if_neg hp, hn] at h ⊢
        exact h
      | some b =>
        simp only [scheduler_ready_push_loop, if_neg hp, hn] at h ⊢
        exact ih k b k1 n h

theorem push_mono (t : Nat) (fuel : Nat) (k k1 : Kernel) (n : Nat)
    (h : scheduler_ready_push fuel k t = Except.ok k1) :
    scheduler_ready_push (fuel + n) k t = Except.ok k1 := by
  cases hr : k.ready_p with
  | none =>
    simp only [scheduler_ready_push, hr] at h ⊢
    exact h
  | some a =>
    simp only [scheduler_ready_push, hr] at h ⊢
    exact push_loop_mono t fuel k a k1 n h

/-- Whenever `scheduler_ready_push` returns on a well-formed ready list that
does not hold the pushed thread, it has inserted the thread by priority. -/
theorem push_ok_spec (t : Nat) (k k1 : Kernel) (l : List Nat) (fuel : Nat)
    (hq : ready_queue k l) (ht : t ∉ l)
    (h : scheduler_ready_push fuel k t = Except.ok k1) :
    ready_queue k1 (insert_by_prio k.mem t l) ∧ links_only k k1 := by
  obtain ⟨k2, h2, h3, h4⟩ := push_spec t k l (fuel + l.length) hq ht (by omega)
  rw [push_mono t fuel k k1 l.length h] at h2
  cases h2
  exact ⟨h3, h4⟩

/-! ## The scheduler bookkeeping is kept by every operation -/

/-- Whenever `thrd_reschedule` returns, called in a state where the threads on
the well-formed ready list are Ready or Resumed and all other threads in use,
the caller included, are Suspended or Terminated, it leaves the bookkeeping
`sched_inv` in place. -/
theorem reschedule_inv (E : errno_t) (k k1 : Kernel) (b : Bool) (live l : List Nat) (c : Nat)
    (hc : k.current_p = some c) (hq : ready_queue k l) (hl : ∀ x ∈ l, x ∈ live)
    (hon : ∀ x ∈ l, (k.mem x).state = THRD_STATE_READY ∨ (k.mem x).state = THRD_STATE_RESUMED)
    (hoff : ∀ x ∈ live, x ∉ l →
      (k.mem x).state = THRD_STATE_SUSPENDED ∨ (k.mem x).state = THRD_STATE_TERMINATED)
    (h : thrd_reschedule E k = Except.ok (k1, b)) :
    sched_inv k1 live := by
  have hm : (k.mem c).stack_low_magic = THRD_STACK_LOW_MAGIC := by
    by_contra hne
    simp [thrd_reschedule, thrd_self, hc, hne] at h
  cases l with
  | nil =>
    have hr : k.ready_p = none := hq.1
    simp [thrd_reschedule, thrd_self, hc, hm, scheduler_ready_pop, hr] at h
  | cons hd rest =>
    obtain ⟨k2, h2, hq2, hc2, hs2, hst, _, _, _⟩ := reschedule_spec E k c hd rest hc hm hq
    rw [h] at h2
    cases h2
    have hnd := List.nodup_cons.1 hq.2
    refine ⟨hd, rest, hc2, hl hd (List.mem_cons_self hd rest), hq2, hnd.1,
      fun x hx => hl x (List.mem_cons_of_mem hd hx), Or.inl hs2, ?_, ?_⟩
    · intro x hx
      have hxh : x ≠ hd := fun e => hnd.1 (e ▸ hx)
      rw [hst x hxh]
      exact hon x (List.mem_cons_of_mem hd hx)
    · intro x hx hxh hxr
      rw [hst x hxh]
      refine hoff x hx ?_
      intro hin
      rcases List.mem_cons.1 hin with e | e
      · exact hxh e
      · exact hxr e

theorem suspend_finish_ok (E : errno_t) (k k1 : Kernel) (t : Nat) (r : suspend_result)
    (h : thrd_suspend_isr_finish E k t = Except.ok (k1, r)) :
    ∃ b, thrd_reschedule E k = Except.ok (k1, b) := by
  unfold thrd_suspend_isr_finish at h
  cases hr : thrd_reschedule E k with
  | error f => rw [hr] at h; simp at h
  | ok v =>
    obtain ⟨k2, b⟩ := v
    rw [hr] at h
    cases b with
    | true =>
      simp at h
      exact ⟨true, by rw [h.1]⟩
    | false =>
      simp at h
      exact ⟨false, by rw [h.1]⟩

/-- `thrd_resume` of a thread in use keeps `sched_inv`. -/
theorem resume_inv (fuel : Nat) (k k1 : Kernel) (live : List Nat) (t : Nat) (e : Int) (r : Int)
    (hinv : sched_inv k live) (ht : t ∈ live)
    (h : thrd_resume fuel k t e = Except.ok (k1, r)) :
    sched_inv k1 live := by
  obtain ⟨c, l, hc, hcl, hq, hcn, hl, hcs, hon, hoff⟩ := hinv
  have hisr : ∃ r1, thrd_resume_isr fuel k t e = Except.ok (k1, r1) := by
    unfold thrd_resume at h
    cases hr : thrd_resume_isr fuel k t e with
    | error f => rw [hr] at h; simp at h
    | ok v =>
      obtain ⟨k2, r2⟩ := v
      rw [hr] at h
      simp at h
      exact ⟨r2, by rw [h.1]⟩
  obtain ⟨r1, hisr⟩ := hisr
  by_cases hs : (k.mem t).state = THRD_STATE_SUSPENDED
  · -- a suspended thread is neither running nor on the ready list
    have htc : t ≠ c := by
      intro e1
      rw [e1] at hs
      rcases hcs with h1 | h1 <;> rw [h1] at hs <;> exact absurd hs (by decide)
    have htl : t ∉ l := by
      intro hin
      rcases hon t hin with h1 | h1 <;> rw [h1] at hs <;> exact absurd hs (by decide)
    have hq2 : ready_queue ((k.set_err t e).set_state t THRD_STATE_READY) l :=
      (ready_queue_set_state _ _ _ _).2 ((ready_queue_set_err _ _ _ _).2 hq)
    cases hp : scheduler_ready_push fuel ((k.set_err t e).set_state t THRD_STATE_READY) t with
    | error f => simp [thrd_resume_isr, hs, hp] at hisr
    | ok k3 =>
      simp [thrd_resume_isr, hs, hp] at hisr
      obtain ⟨hk, _⟩ := hisr
      subst hk
      obtain ⟨hq3, hlk⟩ := push_ok_spec t _ k3 l fuel hq2 htl hp
      have hstate : ∀ x, x ≠ t → (k3.mem x).state = (k.mem x).state := by
        intro x hx
        rw [links_only_state hlk, set_state_state_other _ _ _ _ hx]; simp
      have hstate_t : (k3.mem t).state = THRD_STATE_READY := by
        rw [links_only_state hlk]; simp
      refine ⟨c, _, by rw [hlk.1]; simpa using hc, hcl, hq3, ?_, ?_, ?_, ?_, ?_⟩
      · intro hin
        rcases (mem_insert_by_prio _ t c l).1 hin with e1 | e1
        · exact htc e1.symm
        · exact hcn e1
      · intro x hx
        rcases (mem_insert_by_prio _ t x l).1 hx with e1 | e1
        · rw [e1]; exact ht
        · exact hl x e1
      · rw [hstate c (fun e1 => htc e1.symm)]; exact hcs
      · intro x hx
        rcases (mem_insert_by_prio _ t x l).1 hx with e1 | e1
        · rw [e1]; exact Or.inl hstate_t
        · have hxt : x ≠ t := fun e2 => htl (e2 ▸ e1)
          rw [hstate x hxt]; exact hon x e1
      · intro x hx hxc hxl
        have hxt : x ≠ t := fun e1 => hxl ((mem_insert_by_prio _ t x l).2 (Or.inl e1))
        rw [hstate x hxt]
        exact hoff x hx hxc (fun hin => hxl ((mem_insert_by_prio _ t x l).2 (Or.inr hin)))
  · by_cases hterm : (k.mem t).state = THRD_STATE_TERMINATED
    · simp [thrd_resume_isr, hs, hterm] at hisr
      obtain ⟨hk, _⟩ := hisr
      subst hk
      refine ⟨c, l, hc, hcl, (ready_queue_set_err _ _ _ _).2 hq, hcn, hl, by simpa using hcs,
        ?_, ?_⟩
      · intro x hx; simpa using hon x hx
      · intro x hx hxc hxl; simpa using hoff x hx hxc hxl
    · rw [resume_marks_spec fuel k t e hs hterm] at hisr
      simp at hisr
      obtain ⟨hk, _⟩ := hisr
      subst hk
      have hq2 : ready_queue ((k.set_err t e).set_state t THRD_STATE_RESUMED) l :=
        (ready_queue_set_state _ _ _ _).2 ((ready_queue_set_err _ _ _ _).2 hq)
      have hstate : ∀ x, x ≠ t →
          (((k.set_err t e).set_state t THRD_STATE_RESUMED).mem x).state = (k.mem x).state := by
        intro x hx
        rw [set_state_state_other _ _ _ _ hx]; simp
      refine ⟨c, l, hc, hcl, hq2, hcn, hl, ?_, ?_, ?_⟩
      · by_cases hct : c = t
        · subst hct; exact Or.inr (by simp)
        · rw [hstate c hct]; exact hcs
      · intro x hx
        by_cases hxt : x = t
        · subst hxt; exact Or.inr (by simp)
        · rw [hstate x hxt]; exact hon x hx
      · intro x hx hxc hxl
        by_cases hxt : x = t
        · subst hxt
          rcases hoff x hx hxc hxl with h1 | h1
          · exact absurd h1 hs
          · exact absurd h1 hterm
        · rw [hstate x hxt]; exact hoff x hx hxc hxl

/-- `thrd_suspend` with a `NULL` or non-zero timeout keeps `sched_inv`. -/
theorem suspend_inv (E : errno_t) (fuel : Nat) (k k1 : Kernel) (live : List Nat)
    (timeout_p : Option time_t) (r : suspend_result)
    (hinv : sched_inv k live)
    (hnz : ∀ t, timeout_p = some t → ¬(t.seconds = 0 ∧ t.nanoseconds = 0))
    (h : thrd_suspend E fuel k timeout_p = Except.ok (k1, r)) :
    sched_inv k1 live := by
  obtain ⟨c, l, hc, hcl, hq, hcn, hl, hcs, hon, hoff⟩ := hinv
  unfold thrd_suspend at h
  by_cases hs : (k.mem c).state = THRD_STATE_RESUMED
  · -- re-push and reschedule
    cases hp : scheduler_ready_push fuel (k.set_state c THRD_STATE_READY) c with
    | error f => simp [thrd_suspend_isr, thrd_self, hc, hs, hp] at h
    | ok k2 =>
      simp only [thrd_suspend_isr, thrd_self, hc, hs, hp, if_true] at h
      obtain ⟨b, hres⟩ := suspend_finish_ok E k2 k1 c r h
      obtain ⟨hq2, hlk⟩ := push_ok_spec c _ k2 l fuel
        ((ready_queue_set_state _ _ _ _).2 hq) hcn hp
      have hstate : ∀ x, x ≠ c → (k2.mem x).state = (k.mem x).state := by
        intro x hx
        rw [links_only_state hlk, set_state_state_other _ _ _ _ hx]
      have hstate_c : (k2.mem c).state = THRD_STATE_READY := by
        rw [links_only_state hlk]; simp
      refine reschedule_inv E k2 k1 b live _ c (by rw [hlk.1]; simpa using hc) hq2 ?_ ?_ ?_ hres
      · intro x hx
        rcases (mem_insert_by_prio _ c x l).1 hx with e1 | e1
        · rw [e1]; exact hcl
        · exact hl x e1
      · intro x hx
        rcases (mem_insert_by_prio _ c x l).1 hx with e1 | e1
        · rw [e1]; exact Or.inl hstate_c
        · have hxc : x ≠ c := fun e2 => hcn (e2 ▸ e1)
          rw [hstate x hxc]; exact hon x e1
      · intro x hx hxl
        have hxc : x ≠ c := fun e1 => hxl ((mem_insert_by_prio _ c x l).2 (Or.inl e1))
        rw [hstate x hxc]
        exact hoff x hx hxc (fun hin => hxl ((mem_insert_by_prio _ c x l).2 (Or.inr hin)))
  · -- mark Suspended, possibly arm the timer, reschedule
    have key : ∀ kk : Kernel, kk.mem = (k.set_state c THRD_STATE_SUSPENDED).mem →
        kk.current_p = k.current_p → kk.ready_p = k.ready_p →
        thrd_suspend_isr_finish E kk c = Except.ok (k1, r) → sched_inv k1 live := by
      intro kk hmem hcur hrp hfin
      obtain ⟨b, hres⟩ := suspend_finish_ok E kk k1 c r hfin
      have hqk : ready_queue kk l := by
        unfold ready_queue
        rw [hmem, hrp]
        exact (ready_queue_set_state k c THRD_STATE_SUSPENDED l).2 hq
      refine reschedule_inv E kk k1 b live l c (by rw [hcur]; exact hc) hqk hl ?_ ?_ hres
      · intro x hx
        have hxc : x ≠ c := fun e1 => hcn (e1 ▸ hx)
        rw [hmem, set_state_state_other _ _ _ _ hxc]; exact hon x hx
      · intro x hx hxl
        by_cases hxc : x = c
        · subst hxc; rw [hmem]; exact Or.inl (by simp)
        · rw [hmem, set_state_state_other _ _ _ _ hxc]; exact hoff x hx hxc hxl
    cases timeout_p with
    | none =>
      simp only [thrd_suspend_isr, thrd_self, hc, hs, if_false] at h
      exact key _ rfl rfl rfl h
    | some t =>
      have hz := hnz t rfl
      simp only [thrd_suspend_isr, thrd_self, hc, hs, if_false, hz] at h
      exact key (timer_set_isr (k.set_state c THRD_STATE_SUSPENDED) t c) rfl rfl rfl h

/-- `terminate` keeps `sched_inv`. -/
theorem terminate_inv (E : errno_t) (k k1 : Kernel) (live : List Nat) (b : Bool)
    (hinv : sched_inv k live) (h : terminate E k = Except.ok (k1, b)) :
    sched_inv k1 live := by
  obtain ⟨c, l, hc, hcl, hq, hcn, hl, hcs, hon, hoff⟩ := hinv
  simp only [terminate, thrd_self, hc] at h
  refine reschedule_inv E _ k1 b live l c (by simpa using hc)
    ((ready_queue_set_state _ _ _ _).2 hq) hl ?_ ?_ h
  · intro x hx
    have hxc : x ≠ c := fun e1 => hcn (e1 ▸ hx)
    rw [set_state_state_other _ _ _ _ hxc]; exact hon x hx
  · intro x hx hxl
    by_cases hxc : x = c
    · subst hxc; exact Or.inr (by simp)
    · rw [set_state_state_other _ _ _ _ hxc]; exact hoff x hx hxc hxl

/-- The push that ends `thrd_spawn` keeps `sched_inv`: `k2` is the state
`thrd_spawn` has built from `k` when it calls `scheduler_ready_push`. -/
theorem spawn_push_inv (fuel : Nat) (k k2 k3 : Kernel) (live : List Nat) (stack_p : Nat)
    (hinv : sched_inv k live) (hfresh : stack_p ∉ live)
    (hprev : ∀ x, x ≠ stack_p → (k2.mem x).prev_p = (k.mem x).prev_p ∧
      (k2.mem x).next_p = (k.mem x).next_p ∧ (k2.mem x).state = (k.mem x).state)
    (hsp : (k2.mem stack_p).state = THRD_STATE_READY)
    (hrp : k2.ready_p = k.ready_p) (hcur : k2.current_p = k.current_p)
    (hp : scheduler_ready_push fuel k2 stack_p = Except.ok k3) :
    sched_inv k3 (live ++ [stack_p]) := by
  obtain ⟨c, l, hc, hcl, hq, hcn, hl, hcs, hon, hoff⟩ := hinv
  have hpc : stack_p ≠ c := fun e1 => hfresh (e1 ▸ hcl)
  have hcp : c ≠ stack_p := fun e1 => hpc e1.symm
  have hpl : stack_p ∉ l := fun hin => hfresh (hl stack_p hin)
  have hq2 : ready_queue k2 l := by
    refine ⟨?_, hq.2⟩
    rw [hrp]
    refine seg_congr k.mem _ l _ _ _ ?_ hq.1
    intro x hx
    have hxp : x ≠ stack_p := fun e1 => hpl (e1 ▸ hx)
    exact ⟨(hprev x hxp).1, (hprev x hxp).2.1⟩
  obtain ⟨hq3, hlk⟩ := push_ok_spec stack_p k2 k3 l fuel hq2 hpl hp
  have hstate : ∀ x, x ≠ stack_p → (k3.mem x).state = (k.mem x).state := by
    intro x hx
    rw [links_only_state hlk, (hprev x hx).2.2]
  have hstate_p : (k3.mem stack_p).state = THRD_STATE_READY := by
    rw [links_only_state hlk, hsp]
  refine ⟨c, _, by rw [hlk.1, hcur]; exact hc, List.mem_append_left _ hcl, hq3, ?_, ?_, ?_, ?_,
    ?_⟩
  · intro hin
    rcases (mem_insert_by_prio _ stack_p c l).1 hin with e1 | e1
    · exact hcp e1
    · exact hcn e1
  · intro x hx
    rcases (mem_insert_by_prio _ stack_p x l).1 hx with e1 | e1
    · rw [e1]; simp
    · exact List.mem_append_left _ (hl x e1)
  · rw [hstate c hcp]; exact hcs
  · intro x hx
    rcases (mem_insert_by_prio _ stack_p x l).1 hx with e1 | e1
    · rw [e1]; exact Or.inl hstate_p
    · have hxp : x ≠ stack_p := fun e2 => hpl (e2 ▸ e1)
      rw [hstate x hxp]; exact hon x e1
  · intro x hx hxc hxl
    have hxp : x ≠ stack_p :=
      fun e1 => hxl ((mem_insert_by_prio _ stack_p x l).2 (Or.inl e1))
    have hxlive : x ∈ live := by
      rcases List.mem_append.1 hx with e1 | e1
      · exact e1
      · exact absurd (List.mem_singleton.1 e1) hxp
    rw [hstate x hxp]
    exact hoff x hxlive hxc
      (fun hin => hxl ((mem_insert_by_prio _ stack_p x l).2 (Or.inr hin)))

/-- `thrd_spawn` on a control block that is not in use keeps `sched_inv`, the
new thread joining the threads in use. -/
theorem spawn_inv (C : config_t) (fuel : Nat) (k k1 : Kernel) (live : List Nat)
    (port_err prio : Int) (stack_p stack_size : Nat) (r : Option Nat)
    (hinv : sched_inv k live) (hfresh : stack_p ∉ live)
    (h : thrd_spawn C fuel k port_err prio stack_p stack_size = Except.ok (k1, r)) :
    sched_inv k1 (live ++ [stack_p]) := by
  obtain ⟨c, hc, hcl⟩ : ∃ c, k.current_p = some c ∧ c ∈ live := by
    obtain ⟨c, l, hc, hcl, _⟩ := hinv
    exact ⟨c, hc, hcl⟩
  have hpc : stack_p ≠ c := fun e1 => hfresh (e1 ▸ hcl)
  simp only [thrd_spawn, thrd_self, hc, mem_set_same] at h
  split at h
  · simp at h
  · rename_i k3 hp
    simp at h
    obtain ⟨hk, _⟩ := h
    subst hk
    refine spawn_push_inv fuel k _ k3 live stack_p hinv hfresh ?_ ?_ ?_ ?_ hp
    · intro x hx
      by_cases hxc : x = c
      · subst hxc; simp [mem_set, hx]
      · simp [mem_set, hx, hxc]
    · simp [mem_set, hpc]
    · rfl
    · exact hc.symm

/-- `thrd_module_init` on the boot state establishes `sched_inv`. -/
theorem module_init_inv (C : config_t) (fuel : Nat) (mem : Nat → thrd_t)
    (idle_err monitor_err : Int) (k : Kernel) (r : Int) (hC : layout_ok C)
    (h : thrd_module_init C fuel (boot_kernel mem) idle_err monitor_err = Except.ok (k, r)) :
    sched_inv k [C.main_thrd, C.idle_thrd_stack, C.monitor_thrd_stack] := by
  unfold thrd_module_init at h
  simp only at h
  split at h
  · simp at h
  · rename_i k3 r3 h3
    have hinv3 : sched_inv k3 ([C.main_thrd] ++ [C.idle_thrd_stack]) := by
      refine spawn_inv C fuel _ k3 [C.main_thrd] idle_err 127 _ _ r3 ?_ ?_ h3
      · refine ⟨C.main_thrd, [], rfl, by simp, ⟨rfl, List.nodup_nil⟩, by simp, by simp,
          Or.inl (by simp), by simp, ?_⟩
        intro x hx hxc
        exact absurd (List.mem_singleton.1 hx) hxc
      · simpa using hC.1.symm
    split at h
    · simp at h
    · rename_i k4 r4 h4
      simp at h
      obtain ⟨hk, _⟩ := h
      subst hk
      have hinv4 := spawn_inv C fuel k3 k4 _ monitor_err THRD_MONITOR_PRIO _ _ r4 hinv3
        (by
          simp only [List.cons_append, List.nil_append, List.mem_cons, List.mem_singleton,
            List.not_mem_nil, or_false]
          rintro (e1 | e1)
          · exact hC.2.1 e1.symm
          · exact hC.2.2 e1.symm) h4
      simpa using hinv4

/-- Every reachable state, suspends with a zero-valued timeout left out,
satisfies `sched_inv`. -/
theorem reachable_sched_inv (E : errno_t) (C : config_t) (hC : layout_ok C) (k : Kernel)
    (live : List Nat) (h : reachable E C false k live) : sched_inv k live := by
  induction h with
  | init fuel mem e1 e2 k r h => exact module_init_inv C fuel mem e1 e2 k r hC h
  | spawn fuel k live pe prio sp ss k1 r _ hfresh h ih =>
    exact spawn_inv C fuel k k1 live pe prio sp ss r ih hfresh h
  | suspend fuel k live tp k1 r _ hnz h ih =>
    refine suspend_inv E fuel k k1 live tp r ih ?_ h
    rcases hnz with e | e
    · exact absurd e (by decide)
    · exact e
  | resume fuel k live t e k1 r _ ht h ih => exact resume_inv fuel k k1 live t e r ih ht h
  | terminate k live k1 b _ h ih => exact terminate_inv E k k1 live b ih h

/-! ## Reachable states: who is Current, who is on the ready list -/

/-- C17, as the code has it: in every state reachable from `thrd_module_init`
through `thrd_spawn` of fresh control blocks, `thrd_suspend` with a `NULL` or
non-zero timeout, `thrd_resume` of threads in use and `terminate`, the thread
`scheduler.current` is in state Current or, once a resume has been addressed
to it, Resumed, and no other thread is in state Current. -/
theorem at_most_one_current (E : errno_t) (C : config_t) (k : Kernel) (live : List Nat)
    (hC : layout_ok C) (h : reachable E C false k live) :
    ∃ c, k.current_p = some c ∧ c ∈ live ∧
      ((k.mem c).state = THRD_STATE_CURRENT ∨ (k.mem c).state = THRD_STATE_RESUMED) ∧
      ∀ x ∈ live, (k.mem x).state = THRD_STATE_CURRENT → x = c := by
  obtain ⟨c, l, hc, hcl, _, _, _, hcs, hon, hoff⟩ := reachable_sched_inv E C hC k live h
  refine ⟨c, hc, hcl, hcs, ?_⟩
  intro x hx hs
  by_contra hxc
  by_cases hxl : x ∈ l
  · rcases hon x hxl with e | e <;> rw [e] at hs <;> exact absurd hs (by decide)
  · rcases hoff x hx hxc hxl with e | e <;> rw [e] at hs <;> exact absurd hs (by decide)

/-- Witness for `at_most_one_current`: the sample system right after
`thrd_module_init`. -/
theorem at_most_one_current_witness :
    layout_ok ex_config ∧
    reachable ex_errno ex_config false ex_init [0, 2, 1] ∧
    ∃ c, ex_init.current_p = some c ∧ c ∈ [0, 2, 1] ∧
      ((ex_init.mem c).state = THRD_STATE_CURRENT ∨
        (ex_init.mem c).state = THRD_STATE_RESUMED) ∧
      ∀ x ∈ [0, 2, 1], (ex_init.mem x).state = THRD_STATE_CURRENT → x = c :=
  ⟨by decide,
    reachable.init 4 (fun _ => tcb none none 0 0 0) 0 0 ex_init 0 rfl,
    at_most_one_current ex_errno ex_config ex_init [0, 2, 1] (by decide)
      (reachable.init 4 (fun _ => tcb none none 0 0 0) 0 0 ex_init 0 rfl)⟩

/-- C17 fails as stated: right after `thrd_module_init` of the sample system,
`thrd_resume(0, 0)` addressed to the running thread 0 (main) marks it Resumed;
in the state reached no thread at all is in state Current. -/
theorem resume_of_running_leaves_no_current :
    ∃ k, thrd_resume 4 ex_init 0 0 = Except.ok (k, 0) ∧
      reachable ex_errno ex_config false k [0, 2, 1] ∧
      k.current_p = some 0 ∧ (k.mem 0).state = THRD_STATE_RESUMED ∧
      ∀ x ∈ [0, 2, 1], (k.mem x).state ≠ THRD_STATE_CURRENT :=
  ⟨_, rfl,
    reachable.resume 4 ex_init [0, 2, 1] 0 0 _ 0
      (reachable.init 4 (fun _ => tcb none none 0 0 0) 0 0 ex_init 0 rfl) (by decide) rfl,
    by decide, by decide, by decide⟩

/-- C19, as the code has it: in every state reachable from `thrd_module_init`
through `thrd_spawn` of fresh control blocks, `thrd_suspend` with a `NULL` or
non-zero timeout, `thrd_resume` of threads in use and `terminate`, the ready
list is well formed, every thread on it is Ready or Resumed, and no Suspended
or Terminated thread is on it. -/
theorem ready_list_states (E : errno_t) (C : config_t) (k : Kernel) (live : List Nat)
    (hC : layout_ok C) (h : reachable E C false k live) :
    ∃ l, ready_queue k l ∧
      (∀ x ∈ l, x ∈ live ∧
        ((k.mem x).state = THRD_STATE_READY ∨ (k.mem x).state = THRD_STATE_RESUMED)) ∧
      (∀ x, (k.mem x).state = THRD_STATE_SUSPENDED ∨ (k.mem x).state = THRD_STATE_TERMINATED →
        x ∉ l) := by
  obtain ⟨c, l, _, _, hq, _, hl, _, hon, _⟩ := reachable_sched_inv E C hC k live h
  refine ⟨l, hq, fun x hx => ⟨hl x hx, hon x hx⟩, ?_⟩
  intro x hs hxl
  rcases hon x hxl with e | e <;> rw [e] at hs <;>
    rcases hs with hs | hs <;> exact absurd hs (by decide)

/-- Witness for `ready_list_states`: the sample system right after
`thrd_module_init`. -/
theorem ready_list_states_witness :
    layout_ok ex_config ∧
    reachable ex_errno ex_config false ex_init [0, 2, 1] ∧
    ∃ l, ready_queue ex_init l ∧
      (∀ x ∈ l, x ∈ [0, 2, 1] ∧
        ((ex_init.mem x).state = THRD_STATE_READY ∨
          (ex_init.mem x).state = THRD_STATE_RESUMED)) ∧
      (∀ x, (ex_init.mem x).state = THRD_STATE_SUSPENDED ∨
          (ex_init.mem x).state = THRD_STATE_TERMINATED → x ∉ l) :=
  ⟨by decide,
    reachable.init 4 (fun _ => tcb none none 0 0 0) 0 0 ex_init 0 rfl,
    ready_list_states ex_errno ex_config ex_init [0, 2, 1] (by decide)
      (reachable.init 4 (fun _ => tcb none none 0 0 0) 0 0 ex_init 0 rfl)⟩

/-- C19 fails as stated: right after `thrd_module_init` of the sample system,
`thrd_resume(2, 0)` addressed to the idle thread, which is Ready on the ready
list, marks it Resumed and leaves it on the list. -/
theorem resumed_thread_on_ready_list :
    ∃ k, thrd_resume 4 ex_init 2 0 = Except.ok (k, 0) ∧
      reachable ex_errno ex_config false k [0, 2, 1] ∧
      ready_queue k [1, 2] ∧ (k.mem 2).state = THRD_STATE_RESUMED :=
  ⟨_, rfl,
    reachable.resume 4 ex_init [0, 2, 1] 2 0 _ 0
      (reachable.init 4 (fun _ => tcb none none 0 0 0) 0 0 ex_init 0 rfl) (by decide) rfl,
    by decide, by decide⟩

/-! ## What a poll with a zero-valued timeout leads to -/

/-- The sample run `ex_poll1` ... `ex_poll6` is a run of the kernel from
`thrd_module_init`. -/
theorem ex_poll6_reachable : reachable ex_errno ex_config true ex_poll6 [0, 2, 1, 3] :=
  reachable.suspend 8 ex_poll5 [0, 2, 1, 3] none ex_poll6 suspend_result.switched
    (reachable.spawn 8 ex_poll4 [0, 2, 1] 0 (-5) 3 256 ex_poll5 (some 3)
      (reachable.resume 8 ex_poll3 [0, 2, 1] 0 0 ex_poll4 0
        (reachable.suspend 8 ex_poll2 [0, 2, 1] none ex_poll3 suspend_result.switched
          (reachable.resume 8 ex_poll1 [0, 2, 1] 0 0 ex_poll2 0
            (reachable.suspend 8 ex_init [0, 2, 1] (some ⟨0, 0⟩) ex_poll1
              (suspend_result.returned (-110))
              (reachable.init 4 (fun _ => tcb none none 0 0 0) 0 0 ex_init 0 rfl)
              (Or.inl rfl) rfl)
            (by decide) rfl)
          (Or.inl rfl) rfl)
        (by decide) rfl)
      (by decide) rfl)
    (Or.inl rfl) rfl

/-- C18 fails on the code.  In the sample system thread 0 (main) polls with
the timeout `{0, 0}` and keeps running marked Suspended; a resume pushes it
onto the ready list while it runs; it suspends and stays on the list; the
next resume pushes it a second time, which leaves its `prev_p` pointing at
itself; thread 3, spawned with priority -5, is then linked in through that
pointer, which cuts the idle thread 2 off; thread 1 suspends.  In the state
reached the idle thread is Ready but is not met when following `next_p` from
`scheduler.ready_p`: the walk ends after threads 3 and 0. -/
theorem poll_run_drops_ready_thread :
    thrd_module_init ex_config 4 (boot_kernel (fun _ => tcb none none 0 0 0)) 0 0
        = Except.ok (ex_init, 0) ∧
    thrd_suspend ex_errno 8 ex_init (some ⟨0, 0⟩)
        = Except.ok (ex_poll1, suspend_result.returned (-110)) ∧
    thrd_resume 8 ex_poll1 0 0 = Except.ok (ex_poll2, 0) ∧
    thrd_suspend ex_errno 8 ex_poll2 none = Except.ok (ex_poll3, suspend_result.switched) ∧
    thrd_resume 8 ex_poll3 0 0 = Except.ok (ex_poll4, 0) ∧
    thrd_spawn ex_config 8 ex_poll4 0 (-5) 3 256 = Except.ok (ex_poll5, some 3) ∧
    thrd_suspend ex_errno 8 ex_poll5 none = Except.ok (ex_poll6, suspend_result.switched) ∧
    reachable ex_errno ex_config true ex_poll6 [0, 2, 1, 3] ∧
    (ex_poll6.mem 2).state = THRD_STATE_READY ∧
    ex_poll6.ready_p = some 3 ∧ (ex_poll6.mem 3).next_p = some 0 ∧
    (ex_poll6.mem 0).next_p = none ∧
    next_chain ex_poll6.mem 8 ex_poll6.ready_p = [3, 0] ∧
    2 ∉ next_chain ex_poll6.mem 8 ex_poll6.ready_p :=
  ⟨rfl, rfl, rfl, rfl, rfl, rfl, rfl, ex_poll6_reachable, by decide, by decide, by decide,
    by decide, by decide, by decide⟩

/-- C20 fails on the code.  The sample run of `poll_run_drops_ready_thread`
goes on: thread 0 suspends and thread 3 runs, thread 3 suspends and thread 0
runs.  The idle thread has never run, suspended or terminated, yet it is
neither `scheduler.current` nor on the ready list, which is empty; the next
`thrd_suspend` of thread 0 calls `thrd_reschedule` and `scheduler_ready_pop`
dereferences the null head. -/
theorem poll_run_empties_ready_list :
    thrd_module_init ex_config 4 (boot_kernel (fun _ => tcb none none 0 0 0)) 0 0
        = Except.ok (ex_init, 0) ∧
    thrd_suspend ex_errno 8 ex_init (some ⟨0, 0⟩)
        = Except.ok (ex_poll1, suspend_result.returned (-110)) ∧
    thrd_resume 8 ex_poll1 0 0 = Except.ok (ex_poll2, 0) ∧
    thrd_suspend ex_errno 8 ex_poll2 none = Except.ok (ex_poll3, suspend_result.switched) ∧
    thrd_resume 8 ex_poll3 0 0 = Except.ok (ex_poll4, 0) ∧
    thrd_spawn ex_config 8 ex_poll4 0 (-5) 3 256 = Except.ok (ex_poll5, some 3) ∧
    thrd_suspend ex_errno 8 ex_poll5 none = Except.ok (ex_poll6, suspend_result.switched) ∧
    thrd_suspend ex_errno 8 ex_poll6 none = Except.ok (ex_poll7, suspend_result.switched) ∧
    thrd_suspend ex_errno 8 ex_poll7 none = Except.ok (ex_poll8, suspend_result.switched) ∧
    reachable ex_errno ex_config true ex_poll8 [0, 2, 1, 3] ∧
    ex_poll8.current_p = some 0 ∧ ex_poll8.ready_p = none ∧
    (ex_poll8.mem 2).state = THRD_STATE_READY ∧
    scheduler_ready_pop ex_poll8 = Except.error fault_t.null_deref ∧
    thrd_suspend ex_errno 8 ex_poll8 none = Except.error fault_t.null_deref :=
  ⟨rfl, rfl, rfl, rfl, rfl, rfl, rfl, rfl, rfl,
    reachable.suspend 8 ex_poll7 [0, 2, 1, 3] none ex_poll8 suspend_result.switched
      (reachable.suspend 8 ex_poll6 [0, 2, 1, 3] none ex_poll7 suspend_result.switched
        ex_poll6_reachable (Or.inl rfl) rfl)
      (Or.inl rfl) rfl,
    by decide, by decide, by decide, rfl, rfl⟩

/-! ## The canary check and the effect of `thrd_reschedule` -/

/-- C21: `thrd_reschedule`, called with `out` as the current thread, takes the
fatal path with error `ESTACK` if and only if `out.stack_low_magic` differs
from `0x1337`; the check comes first, so with a broken canary the fatal path is
taken whatever the ready list holds, and with an intact canary the result is
what the pop and the swap make of it, never the fatal path. -/
theorem thrd_reschedule_canary (E : errno_t) (k : Kernel) (out : Nat)
    (hc : k.current_p = some out) :
    (thrd_reschedule E k = Except.error (fault_t.fatal E.ESTACK) ↔
      (k.mem out).stack_low_magic ≠ 0x1337) ∧
    ((k.mem out).stack_low_magic = 0x1337 →
      (∀ e, thrd_reschedule E k ≠ Except.error (fault_t.fatal e)) ∧
      thrd_reschedule E k =
        match scheduler_ready_pop k with
        | Except.error f => Except.error f
        | Except.ok (k1, in_p) =>
          if in_p ≠ out then
            Except.ok ({ k1.set_state in_p THRD_STATE_CURRENT with current_p := some in_p }, true)
          else Except.ok (k1.set_state in_p THRD_STATE_CURRENT, false)) := by
  have hpop : ∀ e, scheduler_ready_pop k ≠ Except.error (fault_t.fatal e) := by
    intro e
    unfold scheduler_ready_pop
    cases k.ready_p <;> simp
  have hok : (k.mem out).stack_low_magic = 0x1337 →
      thrd_reschedule E k =
        match scheduler_ready_pop k with
        | Except.error f => Except.error f
        | Except.ok (k1, in_p) =>
          if in_p ≠ out then
            Except.ok ({ k1.set_state in_p THRD_STATE_CURRENT with current_p := some in_p }, true)
          else Except.ok (k1.set_state in_p THRD_STATE_CURRENT, false) := by
    intro hm
    simp only [thrd_reschedule, thrd_self, hc]
    rw [if_neg (by simpa using hm)]
  have hnf : (k.mem out).stack_low_magic = 0x1337 →
      ∀ e, thrd_reschedule E k ≠ Except.error (fault_t.fatal e) := by
    intro hm e
    rw [hok hm]
    cases hp : scheduler_ready_pop k with
    | error f =>
      simp only
      intro h
      have hf : f = fault_t.fatal e := by
        injection h
      exact hpop e (by rw [hp, hf])
    | ok v =>
      obtain ⟨k1, in_p⟩ := v
      simp only
      split <;> simp
  refine ⟨⟨?_, ?_⟩, fun hm => ⟨hnf hm, hok hm⟩⟩
  · intro h hm
    exact hnf hm E.ESTACK h
  · intro hm
    simp only [thrd_reschedule, thrd_self, hc]
    rw [if_pos (by simpa using hm)]

/-- Witness for `thrd_reschedule_canary`: thread 0 runs in the sample system. -/
theorem thrd_reschedule_canary_witness :
    ex_kernel.current_p = some 0 ∧
    (thrd_reschedule ex_errno ex_kernel = Except.error (fault_t.fatal ex_errno.ESTACK) ↔
      (ex_kernel.mem 0).stack_low_magic ≠ 0x1337) :=
  ⟨by decide, (thrd_reschedule_canary ex_errno ex_kernel 0 (by decide)).1⟩

/-- Apart from list links, `thrd_reschedule` writes the state of the thread it
switches to and nothing else. -/
theorem reschedule_data_spec (E : errno_t) (k : Kernel) (out h : Nat) (l : List Nat)
    (hc : k.current_p = some out)
    (hm : (k.mem out).stack_low_magic = THRD_STACK_LOW_MAGIC)
    (hq : ready_queue k (h :: l)) :
    ∃ k1, thrd_reschedule E k = Except.ok (k1, decide (h ≠ out)) ∧
      ready_queue k1 l ∧ k1.current_p = some h ∧
      (∀ x, x ≠ h → (k1.mem x).data = (k.mem x).data) ∧
      (k1.mem h).data = { (k.mem h).data with state := THRD_STATE_CURRENT } ∧
      k1.timers = k.timers := by
  obtain ⟨k1, hp, hq1, hl⟩ := pop_spec k h l hq
  have hd1 : ∀ x, x ≠ h →
      ((k1.set_state h THRD_STATE_CURRENT).mem x).data = (k.mem x).data := by
    intro x hx
    simp only [Kernel.set_state, mem_set_other _ _ _ _ hx]
    exact hl.2.2 x
  have hd2 : ((k1.set_state h THRD_STATE_CURRENT).mem h).data
      = { (k.mem h).data with state := THRD_STATE_CURRENT } := by
    have := hl.2.2 h
    simp only [Kernel.set_state, mem_set_same]
    simp only [thrd_t.data] at this ⊢
    simp only [thrd_t.mk.injEq] at this ⊢
    obtain ⟨_, _, h3, _, h5, h6, h7, h8, h9, h10, h11, h12⟩ := this
    exact ⟨trivial, trivial, h3, trivial, h5, h6, h7, h8, h9, h10, h11, h12⟩
  by_cases hne : h = out
  · subst hne
    refine ⟨k1.set_state h THRD_STATE_CURRENT, ?_, (ready_queue_set_state _ _ _ _).2 hq1, ?_,
      hd1, hd2, hl.2.1⟩
    · simp [thrd_reschedule, thrd_self, hc, hm, hp]
    · exact hl.1.trans hc
  · refine ⟨{ k1.set_state h THRD_STATE_CURRENT with current_p := some h }, ?_,
      (ready_queue_set_state _ _ _ _).2 hq1, rfl, hd1, hd2, hl.2.1⟩
    simp [thrd_reschedule, thrd_self, hc, hm, hp, hne]

/-- C30, as the code has it: with an intact canary on the current thread `out`
and the well-formed ready list `h :: l`, `thrd_reschedule` pops `h`, makes the
former tail `l` the ready list, sets `h.state` to Current and makes `h` the
`scheduler.current`; when `h` is `out` itself no swap is performed and
`scheduler.current` is unchanged.  Of every thread other than `h`, the outgoing
thread included, no field other than the list links is written; of `h` the
state is written as well, also when `h` is the outgoing thread. -/
theorem thrd_reschedule_effect (E : errno_t) (k : Kernel) (out h : Nat) (l : List Nat)
    (hc : k.current_p = some out)
    (hm : (k.mem out).stack_low_magic = THRD_STACK_LOW_MAGIC)
    (hq : ready_queue k (h :: l)) :
    ∃ k1, thrd_reschedule E k = Except.ok (k1, decide (h ≠ out)) ∧
      ready_queue k1 l ∧ k1.current_p = some h ∧
      (k1.mem h).state = THRD_STATE_CURRENT ∧
      (h = out → decide (h ≠ out) = false ∧ k1.current_p = k.current_p) ∧
      (h ≠ out → (k1.mem out).data = (k.mem out).data) ∧
      (∀ x, x ≠ h → (k1.mem x).data = (k.mem x).data) ∧
      (k1.mem h).data = { (k.mem h).data with state := THRD_STATE_CURRENT } := by
  obtain ⟨k1, h1, h2, h3, h4, h5, _⟩ := reschedule_data_spec E k out h l hc hm hq
  refine ⟨k1, h1, h2, h3, ?_, ?_, ?_, h4, h5⟩
  · have := congrArg (fun t : thrd_t => t.state) h5
    exact this
  · intro e
    exact ⟨by simp [e], by rw [h3, hc, e]⟩
  · intro hne
    exact h4 out (fun e => hne e.symm)

/-- Witness for `thrd_reschedule_effect`: thread 0 of the sample system calls
`thrd_reschedule` and thread 1 is switched to. -/
theorem thrd_reschedule_effect_witness :
    ex_kernel.current_p = some 0 ∧
    (ex_kernel.mem 0).stack_low_magic = THRD_STACK_LOW_MAGIC ∧
    ready_queue ex_kernel [1, 2] ∧
    ∃ k1, thrd_reschedule ex_errno ex_kernel = Except.ok (k1, decide (1 ≠ 0)) ∧
      ready_queue k1 [2] ∧ k1.current_p = some 1 ∧
      (k1.mem 1).state = THRD_STATE_CURRENT ∧
      (1 = 0 → decide (1 ≠ 0) = false ∧ k1.current_p = ex_kernel.current_p) ∧
      (1 ≠ 0 → (k1.mem 0).data = (ex_kernel.mem 0).data) ∧
      (∀ x, x ≠ 1 → (k1.mem x).data = (ex_kernel.mem x).data) ∧
      (k1.mem 1).data = { (ex_kernel.mem 1).data with state := THRD_STATE_CURRENT } :=
  ⟨by decide, by decide, by decide,
    thrd_reschedule_effect ex_errno ex_kernel 0 1 [2] (by decide) (by decide) (by decide)⟩

/-- C30 fails as stated: in `ex_kernel_self_head` the running thread 0 is the
head of the ready list, in state Ready with an intact canary.
`thrd_reschedule` pops it, performs no swap, and writes the state field of
this outgoing thread: Ready before, Current after. -/
theorem reschedule_writes_state_of_outgoing :
    ex_kernel_self_head.current_p = some 0 ∧
    (ex_kernel_self_head.mem 0).stack_low_magic = THRD_STACK_LOW_MAGIC ∧
    ready_queue ex_kernel_self_head [0, 2] ∧
    (ex_kernel_self_head.mem 0).state = THRD_STATE_READY ∧
    ∃ k1, thrd_reschedule ex_errno ex_kernel_self_head = Except.ok (k1, false) ∧
      k1.current_p = some 0 ∧ (k1.mem 0).state = THRD_STATE_CURRENT ∧
      (k1.mem 0).state ≠ (ex_kernel_self_head.mem 0).state :=
  ⟨by decide, by decide, by decide, by decide, _, rfl, by decide, by decide, by decide⟩

/-! ## `thrd_spawn` -/

theorem thrd_spawn_unfold (C : config_t) (fuel : Nat) (k : Kernel) (c : Nat) (port_err prio : Int)
    (stack_p stack_size : Nat) (hc : k.current_p = some c) :
    thrd_spawn C fuel k port_err prio stack_p stack_size =
      match scheduler_ready_push fuel (spawn_pre C k c prio stack_p stack_size) stack_p with
      | Except.error f => Except.error f
      | Except.ok k3 => Except.ok (k3, if port_err = 0 then some stack_p else none) := by
  simp only [thrd_spawn, thrd_self, hc, mem_set_same, spawn_pre]

theorem spawn_pre_scheduler (C : config_t) (k : Kernel) (c : Nat) (prio : Int)
    (stack_p stack_size : Nat) :
    (spawn_pre C k c prio stack_p stack_size).current_p = k.current_p ∧
    (spawn_pre C k c prio stack_p stack_size).ready_p = k.ready_p ∧
    (spawn_pre C k c prio stack_p stack_size).timers = k.timers :=
  ⟨rfl, rfl, rfl⟩

/-- The new control block as `thrd_spawn` initialises it. -/
theorem spawn_pre_new (C : config_t) (k : Kernel) (c : Nat) (prio : Int)
    (stack_p stack_size : Nat) :
    ((spawn_pre C k c prio stack_p stack_size).mem stack_p).prio = prio ∧
    ((spawn_pre C k c prio stack_p stack_size).mem stack_p).state = THRD_STATE_READY ∧
    ((spawn_pre C k c prio stack_p stack_size).mem stack_p).err = 0 ∧
    ((spawn_pre C k c prio stack_p stack_size).mem stack_p).stack_low_magic
      = THRD_STACK_LOW_MAGIC ∧
    ((spawn_pre C k c prio stack_p stack_size).mem stack_p).parent = some c ∧
    ((spawn_pre C k c prio stack_p stack_size).mem stack_p).stack_size
      = (stack_size + 2 ^ C.size_bits - C.sizeof_thrd_t) % 2 ^ C.size_bits ∧
    ((spawn_pre C k c prio stack_p stack_size).mem stack_p).stack
      = thrd_fill_pattern (k.mem stack_p).stack
          ((stack_size + 2 ^ C.size_bits - C.sizeof_thrd_t) % 2 ^ C.size_bits) := by
  by_cases h : stack_p = c
  · subst h
    simp [spawn_pre, mem_set]
  · simp [spawn_pre, mem_set, h]

/-- The rest of memory as `thrd_spawn` leaves it: the parent gets the new
thread appended to its children, nothing else is written. -/
theorem spawn_pre_old (C : config_t) (k : Kernel) (c : Nat) (prio : Int)
    (stack_p stack_size : Nat) (x : Nat) (hx : x ≠ stack_p) :
    (spawn_pre C k c prio stack_p stack_size).mem x
      = if x = c then { k.mem x with children := (k.mem x).children ++ [stack_p] }
        else k.mem x := by
  by_cases h : x = c
  · subst h
    simp [spawn_pre, mem_set, hx]
  · simp [spawn_pre, mem_set, hx, h]

theorem spawn_pre_links (C : config_t) (k : Kernel) (c : Nat) (prio : Int)
    (stack_p stack_size : Nat) (x : Nat) (hx : x ≠ stack_p) :
    ((spawn_pre C k c prio stack_p stack_size).mem x).prev_p = (k.mem x).prev_p ∧
    ((spawn_pre C k c prio stack_p stack_size).mem x).next_p = (k.mem x).next_p ∧
    ((spawn_pre C k c prio stack_p stack_size).mem x).prio = (k.mem x).prio ∧
    ((spawn_pre C k c prio stack_p stack_size).mem x).state = (k.mem x).state := by
  rw [spawn_pre_old C k c prio stack_p stack_size x hx]
  by_cases h : x = c <;> simp [h]

/-- Whenever `thrd_spawn` returns, it was called with a current thread `c`,
its result is the handle or `NULL` according to the port's result, and it has
ended with the push of the new control block. -/
theorem spawn_ok_spec (C : config_t) (fuel : Nat) (k k1 : Kernel) (port_err prio : Int)
    (stack_p stack_size : Nat) (r : Option Nat)
    (h : thrd_spawn C fuel k port_err prio stack_p stack_size = Except.ok (k1, r)) :
    ∃ c, k.current_p = some c ∧ r = (if port_err = 0 then some stack_p else none) ∧
      scheduler_ready_push fuel (spawn_pre C k c prio stack_p stack_size) stack_p
        = Except.ok k1 := by
  cases hc : k.current_p with
  | none => simp [thrd_spawn, thrd_self, hc] at h
  | some c =>
    rw [thrd_spawn_unfold C fuel k c port_err prio stack_p stack_size hc] at h
    cases hp : scheduler_ready_push fuel (spawn_pre C k c prio stack_p stack_size) stack_p with
    | error f => rw [hp] at h; simp at h
    | ok k3 =>
      rw [hp] at h
      simp at h
      exact ⟨c, rfl, h.2.symm, by rw [← h.1]; exact hp⟩

/-- C22: `thrd_spawn`, called by a running thread on a well-formed ready list
`l` that does not hold the new control block, returns; its result is the
handle `stack_p` if and only if the port's spawn returned 0, and `NULL`
otherwise.  On success the new control block has the given `prio`, state
Ready, `err` 0 and the canary `0x1337`, and is on the ready list at its
priority position: behind the threads of `prio` value at most its own, before
those of a greater one when the list was sorted. -/
theorem thrd_spawn_result (C : config_t) (fuel : Nat) (k : Kernel) (c : Nat) (l : List Nat)
    (port_err prio : Int) (stack_p stack_size : Nat)
    (hc : k.current_p = some c) (hq : ready_queue k l) (hpl : stack_p ∉ l)
    (hf : l.length ≤ fuel) :
    ∃ k1 r, thrd_spawn C fuel k port_err prio stack_p stack_size = Except.ok (k1, r) ∧
      (r = some stack_p ↔ port_err = 0) ∧ (r = none ↔ port_err ≠ 0) ∧
      (port_err = 0 →
        (k1.mem stack_p).prio = prio ∧ (k1.mem stack_p).state = THRD_STATE_READY ∧
        (k1.mem stack_p).err = 0 ∧ (k1.mem stack_p).stack_low_magic = 0x1337 ∧
        ready_queue k1 (insert_by_prio k1.mem stack_p l) ∧
        stack_p ∈ insert_by_prio k1.mem stack_p l ∧
        (prio_sorted k.mem l → ∃ l1 l2, l = l1 ++ l2 ∧
          insert_by_prio k1.mem stack_p l = l1 ++ stack_p :: l2 ∧
          (∀ x ∈ l1, (k.mem x).prio ≤ prio) ∧ (∀ x ∈ l2, prio < (k.mem x).prio))) := by
  have hq2 : ready_queue (spawn_pre C k c prio stack_p stack_size) l := by
    refine ⟨?_, hq.2⟩
    rw [(spawn_pre_scheduler C k c prio stack_p stack_size).2.1]
    refine seg_congr k.mem _ l _ _ _ ?_ hq.1
    intro x hx
    have hxp : x ≠ stack_p := fun e => hpl (e ▸ hx)
    exact ⟨(spawn_pre_links C k c prio stack_p stack_size x hxp).1,
      (spawn_pre_links C k c prio stack_p stack_size x hxp).2.1⟩
  obtain ⟨k1, hpush, hq1, hlk⟩ := push_spec stack_p _ l fuel hq2 hpl hf
  have hnew := spawn_pre_new C k c prio stack_p stack_size
  have hcongr := insert_by_prio_congr (spawn_pre C k c prio stack_p stack_size).mem k1.mem
    stack_p (links_only_prio hlk) l
  rw [← hcongr] at hq1
  refine ⟨k1, _, by rw [thrd_spawn_unfold C fuel k c port_err prio stack_p stack_size hc, hpush],
    ?_, ?_, ?_⟩
  · by_cases h0 : port_err = 0 <;> simp [h0]
  · by_cases h0 : port_err = 0 <;> simp [h0]
  · intro _
    refine ⟨by rw [links_only_prio hlk]; exact hnew.1,
      by rw [links_only_state hlk]; exact hnew.2.1,
      by rw [links_only_err hlk]; exact hnew.2.2.1,
      by rw [links_only_magic hlk]; exact hnew.2.2.2.1, hq1,
      (mem_insert_by_prio _ _ _ _).2 (Or.inl rfl), ?_⟩
    intro hs
    have hs2 : prio_sorted k1.mem l := by
      unfold prio_sorted at hs ⊢
      refine List.Pairwise.imp_of_mem ?_ hs
      intro a b ha hb hab
      have hap : a ≠ stack_p := fun e => hpl (e ▸ ha)
      have hbp : b ≠ stack_p := fun e => hpl (e ▸ hb)
      rw [links_only_prio hlk, links_only_prio hlk,
        (spawn_pre_links C k c prio stack_p stack_size a hap).2.2.1,
        (spawn_pre_links C k c prio stack_p stack_size b hbp).2.2.1]
      exact hab
    obtain ⟨l1, l2, e1, e2, e3, e4⟩ := insert_by_prio_split k1.mem stack_p l hs2
    have hpp : (k1.mem stack_p).prio = prio := by rw [links_only_prio hlk]; exact hnew.1
    have hold : ∀ x ∈ l, (k1.mem x).prio = (k.mem x).prio := by
      intro x hx
      have hxp : x ≠ stack_p := fun e => hpl (e ▸ hx)
      rw [links_only_prio hlk, (spawn_pre_links C k c prio stack_p stack_size x hxp).2.2.1]
    refine ⟨l1, l2, e1, e2, ?_, ?_⟩
    · intro x hx
      have := e3 x hx
      rw [hpp, hold x (by rw [e1]; exact List.mem_append_left _ hx)] at this
      exact this
    · intro x hx
      have := e4 x hx
      rw [hpp, hold x (by rw [e1]; exact List.mem_append_right _ hx)] at this
      exact this

/-- Witness for `thrd_spawn_result`: thread 0 of the sample system spawns a
thread of priority 10 in the control block at address 4. -/
theorem thrd_spawn_result_witness :
    ex_kernel.current_p = some 0 ∧ ready_queue ex_kernel [1, 2] ∧ 4 ∉ [1, 2] ∧
    [1, 2].length ≤ 4 ∧
    ∃ k1 r, thrd_spawn ex_config 4 ex_kernel 0 10 4 512 = Except.ok (k1, r) ∧
      (r = some 4 ↔ (0 : Int) = 0) ∧ (r = none ↔ (0 : Int) ≠ 0) ∧
      ((0 : Int) = 0 →
        (k1.mem 4).prio = 10 ∧ (k1.mem 4).state = THRD_STATE_READY ∧
        (k1.mem 4).err = 0 ∧ (k1.mem 4).stack_low_magic = 0x1337 ∧
        ready_queue k1 (insert_by_prio k1.mem 4 [1, 2]) ∧
        4 ∈ insert_by_prio k1.mem 4 [1, 2] ∧
        (prio_sorted ex_kernel.mem [1, 2] → ∃ l1 l2, [1, 2] = l1 ++ l2 ∧
          insert_by_prio k1.mem 4 [1, 2] = l1 ++ 4 :: l2 ∧
          (∀ x ∈ l1, (ex_kernel.mem x).prio ≤ 10) ∧
          (∀ x ∈ l2, 10 < (ex_kernel.mem x).prio))) :=
  ⟨by decide, by decide, by decide, by decide,
    thrd_spawn_result ex_config 4 ex_kernel 0 [1, 2] 0 10 4 512 (by decide) (by decide)
      (by decide) (by decide)⟩

/-! ## Stack fill pattern and watermark -/

theorem thrd_fill_pattern_loop_spec :
    ∀ (n : Nat) (from_p : Nat → Nat) (i j : Nat),
      thrd_fill_pattern_loop from_p i n j
        = if i ≤ j ∧ j < i + n then THRD_FILL_PATTERN else from_p j := by
  intro n
  induction n with
  | zero =>
    intro f i j
    have : ¬(i ≤ j ∧ j < i) := by omega
    simp [thrd_fill_pattern_loop, this]
  | succ n ih =>
    intro f i j
    simp only [thrd_fill_pattern_loop, ih]
    by_cases h1 : i + 1 ≤ j ∧ j < i + 1 + n
    · have h2 : i ≤ j ∧ j < i + (n + 1) := by omega
      simp [h1, h2]
    · by_cases h3 : j = i
      · have h2 : i ≤ j ∧ j < i + (n + 1) := by omega
        simp [h1, h2, h3]
      · have h2 : ¬(i ≤ j ∧ j < i + (n + 1)) := by omega
        simp [h1, h2, h3]

/-- `thrd_fill_pattern` writes the fill byte to the first `size` bytes. -/
theorem thrd_fill_pattern_spec (from_p : Nat → Nat) (size j : Nat) :
    thrd_fill_pattern from_p size j = if j < size then THRD_FILL_PATTERN else from_p j := by
  unfold thrd_fill_pattern
  rw [thrd_fill_pattern_loop_spec]
  by_cases h : j < size
  · have : 0 ≤ j ∧ j < 0 + size := by omega
    simp [h, this]
  · have : ¬(0 ≤ j ∧ j < 0 + size) := by omega
    simp [h, this]

/-- The scan of `thrd_get_used_stack` stops at the end of the run of fill bytes
that starts where it starts, or at the end of the stack interior. -/
theorem thrd_get_used_stack_loop_spec (size : Nat) (stack : Nat → Nat) :
    ∀ (n i : Nat), i + n = size →
      i ≤ thrd_get_used_stack_loop size stack n i ∧
      thrd_get_used_stack_loop size stack n i ≤ size ∧
      (∀ j, i ≤ j → j < thrd_get_used_stack_loop size stack n i →
        stack j = THRD_FILL_PATTERN) ∧
      (thrd_get_used_stack_loop size stack n i < size →
        stack (thrd_get_used_stack_loop size stack n i) ≠ THRD_FILL_PATTERN) := by
  intro n
  induction n with
  | zero =>
    intro i hi
    simp only [thrd_get_used_stack_loop]
    refine ⟨le_refl _, by omega, ?_, ?_⟩
    · intro j h1 h2; omega
    · intro h; omega
  | succ n ih =>
    intro i hi
    by_cases hcond : i < size ∧ stack i = THRD_FILL_PATTERN
    · simp only [thrd_get_used_stack_loop, if_pos hcond]
      obtain ⟨h1, h2, h3, h4⟩ := ih (i + 1) (by omega)
      refine ⟨by omega, h2, ?_, h4⟩
      intro j hj1 hj2
      by_cases e : j = i
      · rw [e]; exact hcond.2
      · exact h3 j (by omega) hj2
    · simp only [thrd_get_used_stack_loop, if_neg hcond]
      refine ⟨le_refl _, by omega, ?_, ?_⟩
      · intro j h1 h2; omega
      · intro h hs
        exact hcond ⟨h, hs⟩

theorem int_bits_split (w : Nat) (hw : 1 ≤ w) : (2 : Int) ^ w = 2 * 2 ^ (w - 1) := by
  obtain ⟨v, rfl⟩ : ∃ v, w = v + 1 := ⟨w - 1, by omega⟩
  simp [pow_succ]
  ring

/-- A value that fits an `int` is converted unchanged. -/
theorem int_of_size_id (w n : Nat) (hw : 1 ≤ w) (h : (n : Int) < 2 ^ (w - 1)) :
    int_of_size w n = n := by
  unfold int_of_size
  rw [int_bits_split w hw]
  have hn : (0 : Int) ≤ (n : Int) := Int.ofNat_nonneg n
  generalize (2 : Int) ^ (w - 1) = P at h ⊢
  rw [Int.emod_eq_of_lt (by omega) (by omega)]
  omega

/-- The conversion to `int` never gives more than the value converted. -/
theorem int_of_size_le (w n : Nat) (hw : 1 ≤ w) : int_of_size w n ≤ n := by
  unfold int_of_size
  rw [int_bits_split w hw]
  have hn : (0 : Int) ≤ (n : Int) := Int.ofNat_nonneg n
  have hP : (0 : Int) < 2 ^ (w - 1) := by positivity
  generalize (2 : Int) ^ (w - 1) = P at hP ⊢
  by_cases hlt : (n : Int) + P < 2 * P
  · rw [Int.emod_eq_of_lt (by omega) hlt]
    omega
  · have h1 := Int.emod_lt_of_pos ((n : Int) + P) (by omega : (0 : Int) < 2 * P)
    generalize ((n : Int) + P) % (2 * P) = m at h1 ⊢
    omega

/-- `thrd_get_used_stack` in terms of the maximal run of fill bytes at the low
end of the stack interior. -/
theorem used_stack_run (C : config_t) (k : Kernel) (t : Nat) :
    ∃ run : Nat, run ≤ (k.mem t).stack_size ∧
      (∀ j, j < run → (k.mem t).stack j = THRD_FILL_PATTERN) ∧
      (run < (k.mem t).stack_size → (k.mem t).stack run ≠ THRD_FILL_PATTERN) ∧
      thrd_get_used_stack C k t = int_of_size C.int_bits ((k.mem t).stack_size - run) := by
  obtain ⟨_, h2, h3, h4⟩ := thrd_get_used_stack_loop_spec (k.mem t).stack_size (k.mem t).stack
    (k.mem t).stack_size 0 (by omega)
  exact ⟨_, h2, fun j hj => h3 j (Nat.zero_le j) hj, h4, rfl⟩

/-- What `thrd_spawn` leaves in the new control block, whenever it returns. -/
theorem spawn_ok_new (C : config_t) (fuel : Nat) (k k1 : Kernel) (port_err prio : Int)
    (stack_p stack_size : Nat) (r : Option Nat)
    (h : thrd_spawn C fuel k port_err prio stack_p stack_size = Except.ok (k1, r)) :
    (k1.mem stack_p).stack_size
      = (stack_size + 2 ^ C.size_bits - C.sizeof_thrd_t) % 2 ^ C.size_bits ∧
    (k1.mem stack_p).stack
      = thrd_fill_pattern (k.mem stack_p).stack
          ((stack_size + 2 ^ C.size_bits - C.sizeof_thrd_t) % 2 ^ C.size_bits) := by
  obtain ⟨c, _, _, hp⟩ := spawn_ok_spec C fuel k k1 port_err prio stack_p stack_size r h
  have hlk := push_links_only stack_p fuel _ k1 hp
  have hd := hlk.2.2 stack_p
  have hnew := spawn_pre_new C k c prio stack_p stack_size
  have e1 : (k1.mem stack_p).stack_size
      = ((spawn_pre C k c prio stack_p stack_size).mem stack_p).stack_size := by
    have e := congrArg (fun t : thrd_t => t.stack_size) hd
    exact e
  have e2 : (k1.mem stack_p).stack
      = ((spawn_pre C k c prio stack_p stack_size).mem stack_p).stack := by
    have e := congrArg (fun t : thrd_t => t.stack) hd
    exact e
  exact ⟨e1.trans hnew.2.2.2.2.2.1, e2.trans hnew.2.2.2.2.2.2⟩

/-- C24, with the bound the conversion to `int` needs.  `thrd_get_used_stack(t)`
is the `int` conversion of `t.stack_size` minus the length `run` of the
maximal run of fill bytes `0x19` at the low end of the stack interior.  When
that difference fits an `int`, as it does whenever `t.stack_size` does, the
result is the difference itself and lies between 0 and `t.stack_size`; it is
never above `t.stack_size`.  In the state `thrd_spawn` returns in, it is 0 for
the thread just spawned. -/
theorem thrd_get_used_stack_spec (C : config_t) (k : Kernel) (t : Nat) (hw : 1 ≤ C.int_bits) :
    (∃ run : Nat, run ≤ (k.mem t).stack_size ∧
      (∀ j, j < run → (k.mem t).stack j = 0x19) ∧
      (run < (k.mem t).stack_size → (k.mem t).stack run ≠ 0x19) ∧
      thrd_get_used_stack C k t = int_of_size C.int_bits ((k.mem t).stack_size - run) ∧
      ((((k.mem t).stack_size - run : Nat) : Int) < 2 ^ (C.int_bits - 1) →
        thrd_get_used_stack C k t = (k.mem t).stack_size - run ∧
        0 ≤ thrd_get_used_stack C k t)) ∧
    (((k.mem t).stack_size : Int) < 2 ^ (C.int_bits - 1) →
      0 ≤ thrd_get_used_stack C k t ∧ thrd_get_used_stack C k t ≤ (k.mem t).stack_size) ∧
    thrd_get_used_stack C k t ≤ (k.mem t).stack_size ∧
    (∀ (fuel : Nat) (k0 : Kernel) (port_err prio : Int) (stack_size : Nat)
        (r : Option Nat),
      thrd_spawn C fuel k0 port_err prio t stack_size = Except.ok (k, r) →
      thrd_get_used_stack C k t = 0) := by
  obtain ⟨run, h1, h2, h3, h4⟩ := used_stack_run C k t
  have hle := int_of_size_le C.int_bits ((k.mem t).stack_size - run) hw
  have hcast : (((k.mem t).stack_size - run : Nat) : Int) ≤ ((k.mem t).stack_size : Int) := by
    exact_mod_cast Nat.sub_le _ _
  have hfit : (((k.mem t).stack_size - run : Nat) : Int) < 2 ^ (C.int_bits - 1) →
      thrd_get_used_stack C k t = (((k.mem t).stack_size - run : Nat) : Int) := by
    intro hf
    rw [h4, int_of_size_id C.int_bits _ hw hf]
  refine ⟨⟨run, h1, h2, h3, h4, ?_⟩, ?_, ?_, ?_⟩
  · intro hf
    have e := hfit hf
    refine ⟨?_, ?_⟩
    · rw [e]
      omega
    · rw [e]
      exact Int.ofNat_nonneg _
  · intro hs
    have e := hfit (lt_of_le_of_lt hcast hs)
    rw [e]
    exact ⟨Int.ofNat_nonneg _, hcast⟩
  · rw [h4]
    exact le_trans hle hcast
  · intro fuel k0 port_err prio stack_size r hsp
    obtain ⟨e1, e2⟩ := spawn_ok_new C fuel k0 k port_err prio t stack_size r hsp
    have hrun : run = (k.mem t).stack_size := by
      by_contra hne
      have hlt : run < (k.mem t).stack_size := by omega
      apply h3 hlt
      rw [e2, thrd_fill_pattern_spec, if_pos (by rw [← e1]; exact hlt)]
    have hpos : (0 : Int) < 2 ^ (C.int_bits - 1) := by positivity
    rw [h4, hrun, Nat.sub_self, int_of_size_id C.int_bits 0 hw (by exact_mod_cast hpos)]
    rfl

/-- Witness for `thrd_get_used_stack_spec`: thread 3, just spawned in the
sample run, has used no stack. -/
theorem thrd_get_used_stack_spec_witness :
    1 ≤ ex_config.int_bits ∧
    thrd_spawn ex_config 8 ex_poll4 0 (-5) 3 256 = Except.ok (ex_poll5, some 3) ∧
    thrd_get_used_stack ex_config ex_poll5 3 = 0 :=
  ⟨by decide, rfl,
    (thrd_get_used_stack_spec ex_config ex_poll5 3 (by decide)).2.2.2 8 ex_poll4 0 (-5) 256
      (some 3)
      (rfl : thrd_spawn ex_config 8 ex_poll4 0 (-5) 3 256 = Except.ok (ex_poll5, some 3))⟩

/-- The watermark of a thread that, since `thrd_spawn` returned, has written
the `n` highest-addressed bytes of its stack interior: the `int` conversion of
a byte count `v` of at most `n`. -/
theorem watermark_after_touch (C : config_t) (fuel : Nat) (k0 k1 : Kernel) (port_err prio : Int)
    (stack_p S : Nat) (r : Option Nat) (n : Nat) (bytes : Nat → Nat)
    (h : thrd_spawn C fuel k0 port_err prio stack_p S = Except.ok (k1, r))
    (hS : C.sizeof_thrd_t ≤ S) (hS2 : S < 2 ^ C.size_bits) (hn : n ≤ S - C.sizeof_thrd_t) :
    ∃ v : Nat,
      thrd_get_used_stack C (k1.touch_stack stack_p n bytes) stack_p
        = int_of_size C.int_bits v ∧
      v ≤ n ∧
      (0 < n → bytes (S - C.sizeof_thrd_t - n) ≠ THRD_FILL_PATTERN → v = n) ∧
      (0 < n → bytes (S - C.sizeof_thrd_t - n) = THRD_FILL_PATTERN → v < n) := by
  obtain ⟨e1, e2⟩ := spawn_ok_new C fuel k0 k1 port_err prio stack_p S r h
  have hI : (S + 2 ^ C.size_bits - C.sizeof_thrd_t) % 2 ^ C.size_bits = S - C.sizeof_thrd_t := by
    have e : S + 2 ^ C.size_bits - C.sizeof_thrd_t = (S - C.sizeof_thrd_t) + 2 ^ C.size_bits := by
      omega
    rw [e, Nat.add_mod_right]
    exact Nat.mod_eq_of_lt (by omega)
  rw [hI] at e1 e2
  have hsize : ((k1.touch_stack stack_p n bytes).mem stack_p).stack_size
      = S - C.sizeof_thrd_t := by
    simp [Kernel.touch_stack, e1]
  have hstack : ∀ j, ((k1.touch_stack stack_p n bytes).mem stack_p).stack j
      = if S - C.sizeof_thrd_t - n ≤ j ∧ j < S - C.sizeof_thrd_t then bytes j
        else if j < S - C.sizeof_thrd_t then THRD_FILL_PATTERN else (k0.mem stack_p).stack j := by
    intro j
    simp only [Kernel.touch_stack, mem_set_same, e1, e2, thrd_fill_pattern_spec]
  obtain ⟨run, h1, h2, h3, h4⟩ := used_stack_run C (k1.touch_stack stack_p n bytes) stack_p
  rw [hsize] at h1 h3 h4
  have hlow : S - C.sizeof_thrd_t - n ≤ run := by
    by_contra hlt
    have hr : run < S - C.sizeof_thrd_t := by omega
    apply h3 hr
    rw [hstack run, if_neg (by omega), if_pos hr]
  refine ⟨S - C.sizeof_thrd_t - run, h4, by omega, ?_, ?_⟩
  · intro hn0 hb
    have hhigh : run ≤ S - C.sizeof_thrd_t - n := by
      by_contra hgt
      have := h2 (S - C.sizeof_thrd_t - n) (by omega)
      rw [hstack, if_pos (by omega)] at this
      exact hb this
    omega
  · intro hn0 hb
    have hne : run ≠ S - C.sizeof_thrd_t - n := by
      intro e
      have hr : run < S - C.sizeof_thrd_t := by omega
      apply h3 hr
      rw [hstack run, if_pos (by omega), e]
      exact hb
    omega

/-- C25, as the code has it: a thread is spawned with a stack buffer of `S`
bytes, large enough for the control block, and its body then writes the `n`
highest-addressed bytes of its stack interior, `n` being a count that fits an
`int`.  `thrd_get_used_stack` reports at most `n`, and exactly `n`, hence at
least `n` and at most `S`, when the lowest-addressed byte written is not the
fill byte `0x19`. -/
theorem stack_watermark_bound (C : config_t) (fuel : Nat) (k0 k1 : Kernel) (port_err prio : Int)
    (stack_p S : Nat) (r : Option Nat) (n : Nat) (bytes : Nat → Nat)
    (h : thrd_spawn C fuel k0 port_err prio stack_p S = Except.ok (k1, r))
    (hS : C.sizeof_thrd_t ≤ S) (hS2 : S < 2 ^ C.size_bits) (hn : n ≤ S - C.sizeof_thrd_t)
    (hn0 : 0 < n) (hw : 1 ≤ C.int_bits) (hint : (n : Int) < 2 ^ (C.int_bits - 1)) :
    thrd_get_used_stack C (k1.touch_stack stack_p n bytes) stack_p ≤ n ∧
    (bytes (S - C.sizeof_thrd_t - n) ≠ 0x19 →
      thrd_get_used_stack C (k1.touch_stack stack_p n bytes) stack_p = n ∧
      (n : Int) ≤ thrd_get_used_stack C (k1.touch_stack stack_p n bytes) stack_p ∧
      thrd_get_used_stack C (k1.touch_stack stack_p n bytes) stack_p ≤ S) := by
  obtain ⟨v, hv, hvn, h2, _⟩ :=
    watermark_after_touch C fuel k0 k1 port_err prio stack_p S r n bytes h hS hS2 hn
  have hvn1 : (v : Int) ≤ (n : Int) := by exact_mod_cast hvn
  have hid : int_of_size C.int_bits v = v :=
    int_of_size_id C.int_bits v hw (lt_of_le_of_lt hvn1 hint)
  rw [hv, hid]
  refine ⟨hvn1, ?_⟩
  intro hb
  have e := h2 hn0 hb
  rw [e]
  refine ⟨rfl, le_refl _, ?_⟩
  have : n ≤ S := by omega
  exact_mod_cast this

/-- Witness for `stack_watermark_bound` with `S = 512` and 300 bytes written
(all zero): the watermark is 300. -/
theorem stack_watermark_bound_witness :
    ∃ k1, thrd_spawn ex_config 4 ex_kernel 0 10 4 512 = Except.ok (k1, some 4) ∧
      ex_config.sizeof_thrd_t ≤ 512 ∧ 512 < 2 ^ ex_config.size_bits ∧
      300 ≤ 512 - ex_config.sizeof_thrd_t ∧ 0 < 300 ∧ 1 ≤ ex_config.int_bits ∧
      ((300 : Nat) : Int) < 2 ^ (ex_config.int_bits - 1) ∧
      thrd_get_used_stack ex_config (k1.touch_stack 4 300 (fun _ => 0)) 4 ≤ 300 ∧
      ((fun _ : Nat => (0 : Nat)) (512 - ex_config.sizeof_thrd_t - 300) ≠ 0x19 →
        thrd_get_used_stack ex_config (k1.touch_stack 4 300 (fun _ => 0)) 4 = 300 ∧
        (300 : Int) ≤ thrd_get_used_stack ex_config (k1.touch_stack 4 300 (fun _ => 0)) 4 ∧
        thrd_get_used_stack ex_config (k1.touch_stack 4 300 (fun _ => 0)) 4 ≤ 512) :=
  ⟨_, rfl, by decide, by decide, by decide, by decide, by decide, by decide,
    stack_watermark_bound ex_config 4 ex_kernel _ 0 10 4 512 (some 4) 300 (fun _ => 0) rfl
      (by decide) (by decide) (by decide) (by decide) (by decide) (by decide)⟩

/-- C25 fails as stated: a thread spawned with a 512-byte stack buffer whose
body writes the 300 highest-addressed bytes of its interior, each with the
value `0x19`, has a watermark below 300. -/
theorem watermark_misses_fill_bytes :
    ∃ k1, thrd_spawn ex_config 4 ex_kernel 0 10 4 512 = Except.ok (k1, some 4) ∧
      thrd_get_used_stack ex_config (k1.touch_stack 4 300 (fun _ => 0x19)) 4 < 300 := by
  refine ⟨_, rfl, ?_⟩
  obtain ⟨v, hv, _, _, hlt⟩ :=
    watermark_after_touch ex_config 4 ex_kernel _ 0 10 4 512 (some 4) 300 (fun _ => 0x19) rfl
      (by decide) (by decide) (by decide)
  have hv300 : v < 300 := hlt (by decide) rfl
  have hvi : (v : Int) < 300 := by exact_mod_cast hv300
  have h31 : (2 : Int) ^ (ex_config.int_bits - 1) = 2147483648 := by decide
  rw [hv, int_of_size_id ex_config.int_bits v (by decide) (by rw [h31]; omega)]
  exact hvi

/-- C24 fails as stated.  On the sample build, with 32-bit `size_t` and `int`,
a thread is spawned with a stack buffer of `2^31 + 64` bytes, which leaves a
stack interior of `2^31` bytes, and its body writes all of them with the value
0.  The used size `2^31` does not fit an `int`: `thrd_get_used_stack` returns
`-2147483648`, below 0. -/
theorem used_stack_wraps_negative :
    ∃ k1, thrd_spawn ex_config 4 ex_kernel 0 10 4 2147483712 = Except.ok (k1, some 4) ∧
      ((k1.touch_stack 4 2147483648 (fun _ => 0)).mem 4).stack_size = 2147483648 ∧
      thrd_get_used_stack ex_config (k1.touch_stack 4 2147483648 (fun _ => 0)) 4
        = -2147483648 ∧
      ¬(0 ≤ thrd_get_used_stack ex_config (k1.touch_stack 4 2147483648 (fun _ => 0)) 4) := by
  refine ⟨_, rfl, ?_⟩
  obtain ⟨v, hv, _, heq, _⟩ :=
    watermark_after_touch ex_config 4 ex_kernel _ 0 10 4 2147483712 (some 4) 2147483648
      (fun _ => 0) rfl (by decide) (by decide) (by decide)
  have hvn : v = 2147483648 := heq (by decide) (by decide)
  have hval : int_of_size ex_config.int_bits 2147483648 = -2147483648 := by decide
  have hsz := (spawn_ok_new ex_config 4 ex_kernel _ 0 10 4 2147483712 (some 4) rfl).1
  rw [hv, hvn, hval]
  refine ⟨?_, rfl, by decide⟩
  simp only [Kernel.touch_stack, mem_set_same]
  rw [hsz]
  decide

/-! ## Monitor commands -/

/-- C27: `/kernel/thrd/monitor/set_period_ms` with `argc = 2` and an argument
that parses to `ms` sets `monitor.period_us` to `1000 * ms` and returns 0; with
`argc ≠ 2` or an argument that does not parse it returns `-EINVAL` and leaves
the monitor settings as they were. -/
theorem thrd_cmd_monitor_set_period_ms_spec (E : errno_t) (std_strtol : String → Option Int)
    (monitor : monitor_t) (argv : List String) :
    (∀ ms, argv.length = 2 → std_strtol (argv.getD 1 "") = some ms →
      thrd_cmd_monitor_set_period_ms E std_strtol monitor argv
        = ({ monitor with period_us := 1000 * ms }, [], 0)) ∧
    (argv.length ≠ 2 ∨ std_strtol (argv.getD 1 "") = none →
      (thrd_cmd_monitor_set_period_ms E std_strtol monitor argv).1 = monitor ∧
      (thrd_cmd_monitor_set_period_ms E std_strtol monitor argv).2.2 = -E.EINVAL) := by
  constructor
  · intro ms h1 h2
    unfold thrd_cmd_monitor_set_period_ms
    rw [if_neg (by simp [h1]), h2]
  · intro h
    by_cases h1 : argv.length = 2
    · rcases h with h | h
      · exact absurd h1 h
      · unfold thrd_cmd_monitor_set_period_ms
        rw [if_neg (by simp [h1]), h]
        exact ⟨rfl, rfl⟩
    · unfold thrd_cmd_monitor_set_period_ms
      rw [if_pos h1]
      exact ⟨rfl, rfl⟩

/-- Witness for `thrd_cmd_monitor_set_period_ms_spec`: `set_period_ms 250`
stores 250000 microseconds. -/
theorem thrd_cmd_monitor_set_period_ms_spec_witness :
    thrd_cmd_monitor_set_period_ms ex_errno ex_strtol monitor_init ["set_period_ms", "250"]
      = ({ monitor_init with period_us := 1000 * 250 }, [], 0) :=
  (thrd_cmd_monitor_set_period_ms_spec ex_errno ex_strtol monitor_init
    ["set_period_ms", "250"]).1 250 (by decide) (by decide)

/-- What `/kernel/thrd/monitor/set_print` does, case by case. -/
theorem set_print_cases (E : errno_t) (std_strtol : String → Option Int)
    (monitor : monitor_t) (argv : List String) :
    (∀ v, argv.length = 2 → std_strtol (argv.getD 1 "") = some v → (v = 0 ∨ v = 1) →
      thrd_cmd_monitor_set_print E std_strtol monitor argv
        = ({ monitor with print := v }, [], 0)) ∧
    (¬(argv.length = 2 ∧ ∃ v, std_strtol (argv.getD 1 "") = some v ∧ (v = 0 ∨ v = 1)) →
      thrd_cmd_monitor_set_print E std_strtol monitor argv
        = (monitor, ["Usage: set_print <1/0>\r\n"], -E.EINVAL)) := by
  constructor
  · intro v h1 h2 h3
    have h4 : ¬(v ≠ 0 ∧ v ≠ 1) := by
      rcases h3 with e | e <;> simp [e]
    unfold thrd_cmd_monitor_set_print
    rw [if_neg (by simp [h1]), h2]
    simp only
    rw [if_neg h4]
  · intro h
    by_cases h1 : argv.length = 2
    · cases h2 : std_strtol (argv.getD 1 "") with
      | none =>
        unfold thrd_cmd_monitor_set_print
        rw [if_neg (by simp [h1]), h2]
      | some v =>
        have h3 : v ≠ 0 ∧ v ≠ 1 := by
          constructor
          · intro e; exact h ⟨h1, v, h2, Or.inl e⟩
          · intro e; exact h ⟨h1, v, h2, Or.inr e⟩
        unfold thrd_cmd_monitor_set_print
        rw [if_neg (by simp [h1]), h2]
        simp only
        rw [if_pos h3]
    · unfold thrd_cmd_monitor_set_print
      rw [if_pos h1]

/-- C28: `/kernel/thrd/monitor/set_print` returns 0 and sets `monitor.print`
to the parsed value when `argc = 2` and the argument parses to 0 or 1; in
every other case it returns `-EINVAL` and leaves `monitor.print` as it was;
error numbers being non-zero, it returns 0 in the first case only.  Hence,
from the initial settings, `monitor.print` is 0 or 1 after any sequence of
monitor commands. -/
theorem thrd_cmd_monitor_set_print_spec (E : errno_t) (std_strtol : String → Option Int)
    (monitor : monitor_t) (argv : List String) :
    (∀ v, argv.length = 2 → std_strtol (argv.getD 1 "") = some v → (v = 0 ∨ v = 1) →
      (thrd_cmd_monitor_set_print E std_strtol monitor argv).2.2 = 0 ∧
      (thrd_cmd_monitor_set_print E std_strtol monitor argv).1 = { monitor with print := v }) ∧
    (¬(argv.length = 2 ∧ ∃ v, std_strtol (argv.getD 1 "") = some v ∧ (v = 0 ∨ v = 1)) →
      (thrd_cmd_monitor_set_print E std_strtol monitor argv).2.2 = -E.EINVAL ∧
      (thrd_cmd_monitor_set_print E std_strtol monitor argv).1 = monitor) ∧
    (E.EINVAL ≠ 0 →
      ((thrd_cmd_monitor_set_print E std_strtol monitor argv).2.2 = 0 ↔
        (argv.length = 2 ∧ ∃ v, std_strtol (argv.getD 1 "") = some v ∧ (v = 0 ∨ v = 1)))) ∧
    (∀ cmds : List monitor_cmd,
      (monitor_run E std_strtol monitor_init cmds).print = 0 ∨
      (monitor_run E std_strtol monitor_init cmds).print = 1) := by
  obtain ⟨hok, herr⟩ := set_print_cases E std_strtol monitor argv
  refine ⟨?_, ?_, ?_, ?_⟩
  · intro v h1 h2 h3
    rw [hok v h1 h2 h3]
    exact ⟨rfl, rfl⟩
  · intro h
    rw [herr h]
    exact ⟨rfl, rfl⟩
  · intro hE
    constructor
    · intro h0
      by_contra hc
      rw [herr hc] at h0
      have : -E.EINVAL = 0 := h0
      omega
    · rintro ⟨h1, v, h2, h3⟩
      rw [hok v h1 h2 h3]
  · intro cmds
    have key : ∀ (cmds : List monitor_cmd) (m : monitor_t), (m.print = 0 ∨ m.print = 1) →
        ((monitor_run E std_strtol m cmds).print = 0 ∨
          (monitor_run E std_strtol m cmds).print = 1) := by
      intro cmds
      induction cmds with
      | nil => intro m hm; exact hm
      | cons c cs ih =>
        intro m hm
        cases c with
        | set_period_ms a =>
          simp only [monitor_run]
          apply ih
          have h := thrd_cmd_monitor_set_period_ms_spec E std_strtol m a
          by_cases hc : a.length = 2 ∧ ∃ ms, std_strtol (a.getD 1 "") = some ms
          · obtain ⟨h1, ms, h2⟩ := hc
            rw [h.1 ms h1 h2]
            exact hm
          · have hc2 : a.length ≠ 2 ∨ std_strtol (a.getD 1 "") = none := by
              by_cases h1 : a.length = 2
              · right
                cases h2 : std_strtol (a.getD 1 "") with
                | none => rfl
                | some ms => exact absurd ⟨h1, ms, h2⟩ hc
              · exact Or.inl h1
            rw [(h.2 hc2).1]
            exact hm
        | set_print a =>
          simp only [monitor_run]
          apply ih
          obtain ⟨hok2, herr2⟩ := set_print_cases E std_strtol m a
          by_cases hc : a.length = 2 ∧ ∃ v, std_strtol (a.getD 1 "") = some v ∧ (v = 0 ∨ v = 1)
          · obtain ⟨h1, v, h2, h3⟩ := hc
            rw [hok2 v h1 h2 h3]
            exact h3
          · rw [herr2 hc]
            exact hm
    exact key cmds monitor_init (Or.inl rfl)

/-- Witness for `thrd_cmd_monitor_set_print_spec`: `set_print 1` is accepted
and `set_print 7` is rejected. -/
theorem thrd_cmd_monitor_set_print_spec_witness :
    ((thrd_cmd_monitor_set_print ex_errno ex_strtol monitor_init ["set_print", "1"]).2.2 = 0 ∧
      (thrd_cmd_monitor_set_print ex_errno ex_strtol monitor_init ["set_print", "1"]).1
        = { monitor_init with print := 1 }) ∧
    ((thrd_cmd_monitor_set_print ex_errno ex_strtol monitor_init ["set_print", "7"]).2.2
        = -ex_errno.EINVAL ∧
      (thrd_cmd_monitor_set_print ex_errno ex_strtol monitor_init ["set_print", "7"]).1
        = monitor_init) :=
  ⟨(thrd_cmd_monitor_set_print_spec ex_errno ex_strtol monitor_init ["set_print", "1"]).1 1
      (by decide) (by decide) (by decide),
    (thrd_cmd_monitor_set_print_spec ex_errno ex_strtol monitor_init ["set_print", "7"]).2.1
      (by decide)⟩

/-! ## Name lookup and `set_log_mask` -/

/-- On a finite tree `get_by_name`, given fuel for its depth, returns the first
thread in pre-order whose name is the one looked for, or `NULL` when there is
none. -/
theorem get_by_name_spec (mem : Nat → thrd_t) (name : String) :
    ∀ (d fuel p : Nat), tree_depth mem d p → d ≤ fuel →
      get_by_name mem name fuel p
        = Except.ok ((preorder mem d p).find? (fun x => decide ((mem x).name_p = name))) := by
  intro d
  induction d with
  | zero => intro fuel p h; exact absurd h (by simp [tree_depth])
  | succ d ih =>
    intro fuel p ht hd
    obtain ⟨f, rfl⟩ : ∃ f, fuel = f + 1 := ⟨fuel - 1, by omega⟩
    have hdf : d ≤ f := by omega
    by_cases hn : (mem p).name_p = name
    · simp [get_by_name, preorder, hn]
    · have hloop : ∀ cs : List Nat, (∀ c ∈ cs, tree_depth mem d c) →
          get_by_name_children (get_by_name mem name f) cs
            = Except.ok ((cs.foldr (fun c acc => preorder mem d c ++ acc) []).find?
                (fun x => decide ((mem x).name_p = name))) := by
        intro cs
        induction cs with
        | nil => intro _; rfl
        | cons c cs ihc =>
          intro hcs
          have h1 := ih f c (hcs c (List.mem_cons_self c cs)) hdf
          have h2 := ihc (fun x hx => hcs x (List.mem_cons_of_mem c hx))
          simp only [get_by_name_children, List.foldr_cons, List.find?_append, h1]
          cases hf : (preorder mem d c).find? (fun x => decide ((mem x).name_p = name)) with
          | some t => simp
          | none => simp [h2]
      have hcs : ∀ c ∈ (mem p).children, tree_depth mem d c := ht
      simp only [get_by_name, if_neg hn, preorder, hloop _ hcs]
      rw [List.find?_cons]
      simp [hn]

/-- C26: `/kernel/thrd/set_log_mask` on a finite thread tree.  With
`argc ≠ 3` it returns `-EINVAL`; with `argc = 3` it returns `-ESRCH` when no
thread of the tree has the given name; otherwise, for the first thread `t` in
pre-order with that name, it returns `-EINVAL` when the mask does not parse
and else sets `t.log_mask`, and nothing else, to the parsed mask and returns
0.  Whenever the return code is not 0 the kernel state is unchanged. -/
theorem thrd_cmd_set_log_mask_spec (E : errno_t) (C : config_t)
    (std_strtol : String → Option Int) (fuel d : Nat) (k : Kernel) (argv : List String)
    (ht : tree_depth k.mem d C.main_thrd) (hd : d ≤ fuel) :
    (argv.length ≠ 3 →
      ∃ out, thrd_cmd_set_log_mask E C std_strtol fuel k argv = Except.ok (k, out, -E.EINVAL)) ∧
    (argv.length = 3 →
      (∀ x ∈ preorder k.mem d C.main_thrd, (k.mem x).name_p ≠ argv.getD 1 "") →
      thrd_cmd_set_log_mask E C std_strtol fuel k argv = Except.ok (k, [], -E.ESRCH)) ∧
    (argv.length = 3 → ∀ t,
      (preorder k.mem d C.main_thrd).find? (fun x => decide ((k.mem x).name_p = argv.getD 1 ""))
        = some t →
      std_strtol (argv.getD 2 "") = none →
      thrd_cmd_set_log_mask E C std_strtol fuel k argv = Except.ok (k, [], -E.EINVAL)) ∧
    (argv.length = 3 → ∀ t mask,
      (preorder k.mem d C.main_thrd).find? (fun x => decide ((k.mem x).name_p = argv.getD 1 ""))
        = some t →
      std_strtol (argv.getD 2 "") = some mask →
      thrd_cmd_set_log_mask E C std_strtol fuel k argv
        = Except.ok (k.set_log_mask t mask, [], 0) ∧
      (k.mem t).name_p = argv.getD 1 "" ∧
      (k.set_log_mask t mask).mem t = { k.mem t with log_mask := mask } ∧
      (∀ x, x ≠ t → (k.set_log_mask t mask).mem x = k.mem x) ∧
      (k.set_log_mask t mask).current_p = k.current_p ∧
      (k.set_log_mask t mask).ready_p = k.ready_p ∧
      (k.set_log_mask t mask).timers = k.timers) ∧
    (∀ k1 out code,
      thrd_cmd_set_log_mask E C std_strtol fuel k argv = Except.ok (k1, out, code) →
      code ≠ 0 → k1 = k) := by
  have hlook : thrd_get_by_name C fuel k (argv.getD 1 "")
      = Except.ok ((preorder k.mem d C.main_thrd).find?
          (fun x => decide ((k.mem x).name_p = argv.getD 1 ""))) :=
    get_by_name_spec k.mem (argv.getD 1 "") d fuel C.main_thrd ht hd
  have h1 : argv.length ≠ 3 →
      thrd_cmd_set_log_mask E C std_strtol fuel k argv
        = Except.ok (k, ["Usage: set_log_mask <thread name> <log mask>\r\n"], -E.EINVAL) := by
    intro h
    unfold thrd_cmd_set_log_mask
    rw [if_pos h]
  have h2 : argv.length = 3 →
      (preorder k.mem d C.main_thrd).find? (fun x => decide ((k.mem x).name_p = argv.getD 1 ""))
        = none →
      thrd_cmd_set_log_mask E C std_strtol fuel k argv = Except.ok (k, [], -E.ESRCH) := by
    intro h hf
    unfold thrd_cmd_set_log_mask
    rw [if_neg (by simp [h]), hlook, hf]
  have h3 : argv.length = 3 → ∀ t,
      (preorder k.mem d C.main_thrd).find? (fun x => decide ((k.mem x).name_p = argv.getD 1 ""))
        = some t →
      std_strtol (argv.getD 2 "") = none →
      thrd_cmd_set_log_mask E C std_strtol fuel k argv = Except.ok (k, [], -E.EINVAL) := by
    intro h t hf hs
    unfold thrd_cmd_set_log_mask
    rw [if_neg (by simp [h]), hlook, hf]
    simp only
    rw [hs]
  have h4 : argv.length = 3 → ∀ t mask,
      (preorder k.mem d C.main_thrd).find? (fun x => decide ((k.mem x).name_p = argv.getD 1 ""))
        = some t →
      std_strtol (argv.getD 2 "") = some mask →
      thrd_cmd_set_log_mask E C std_strtol fuel k argv
        = Except.ok (k.set_log_mask t mask, [], 0) := by
    intro h t mask hf hs
    unfold thrd_cmd_set_log_mask
    rw [if_neg (by simp [h]), hlook, hf]
    simp only
    rw [hs]
  refine ⟨fun h => ⟨_, h1 h⟩, ?_, h3, ?_, ?_⟩
  · intro h hall
    refine h2 h ?_
    rw [List.find?_eq_none]
    intro x hx
    simpa using hall x hx
  · intro h t mask hf hs
    refine ⟨h4 h t mask hf hs, ?_, ?_, ?_, rfl, rfl, rfl⟩
    · have := List.find?_some hf
      simpa using this
    · simp [Kernel.set_log_mask]
    · intro x hx
      simp [Kernel.set_log_mask, mem_set, hx]
  · intro k1 out code hcmd hcode
    by_cases h : argv.length = 3
    · cases hf : (preorder k.mem d C.main_thrd).find?
          (fun x => decide ((k.mem x).name_p = argv.getD 1 "")) with
      | none =>
        rw [h2 h hf] at hcmd
        simp at hcmd
        exact hcmd.1.symm
      | some t =>
        cases hs : std_strtol (argv.getD 2 "") with
        | none =>
          rw [h3 h t hf hs] at hcmd
          simp at hcmd
          exact hcmd.1.symm
        | some mask =>
          rw [h4 h t mask hf hs] at hcmd
          simp at hcmd
          exact absurd hcmd.2.2.symm hcode
    · rw [h1 h] at hcmd
      simp at hcmd
      exact hcmd.1.symm

/-- Witness for `thrd_cmd_set_log_mask_spec`: `set_log_mask main 7` in the
sample system right after `thrd_module_init`. -/
theorem thrd_cmd_set_log_mask_spec_witness :
    tree_depth ex_init.mem 2 ex_config.main_thrd ∧ 2 ≤ 4 ∧
    thrd_cmd_set_log_mask ex_errno ex_config ex_strtol 4 ex_init ["set_log_mask", "main", "7"]
      = Except.ok (ex_init.set_log_mask 0 7, [], 0) :=
  ⟨by decide, by decide,
    ((thrd_cmd_set_log_mask_spec ex_errno ex_config ex_strtol 4 2 ex_init
      ["set_log_mask", "main", "7"] (by decide) (by decide)).2.2.2.1 rfl 0 7 (by decide)
        (by decide)).1⟩

/-! ## Time to ticks -/

/-- `DIV_CEIL` of a non-negative numerator by a positive denominator is the
quotient rounded up. -/
theorem DIV_CEIL_spec (n d : Int) (hn : 0 ≤ n) (hd : 0 < d) :
    d * (DIV_CEIL n d - 1) < n ∧ n ≤ d * DIV_CEIL n d := by
  unfold DIV_CEIL
  rw [Int.tdiv_eq_ediv (by omega) (by omega)]
  have h1 := Int.emod_add_ediv (n + d - 1) d
  have h2 := Int.emod_nonneg (n + d - 1) (by omega : d ≠ 0)
  have h3 := Int.emod_lt_of_pos (n + d - 1) hd
  constructor
  · have : d * (((n + d - 1) / d) - 1) = d * ((n + d - 1) / d) - d := by ring
    rw [this]
    omega
  · omega

/-- C29: for a time struct with `seconds ≥ 0` and `0 ≤ nanoseconds < 10^9`
whose tick count fits the 64-bit `sys_tick_t`, `t2st` returns
`seconds * F + c2`, where `c1` is `nanoseconds / 1000` rounded up and `c2` is
`c1 * F / 10^6` rounded up; so `t2st(t) * 10^9 ≥ (seconds * 10^9 +
nanoseconds) * F`: the duration is never rounded down. -/
theorem t2st_rounds_up (F : Int) (t : time_t) (hF : 0 < F) (hs : 0 ≤ t.seconds)
    (hn : 0 ≤ t.nanoseconds) (hn2 : t.nanoseconds < 1000000000)
    (hfit : t.seconds * F + F < 2 ^ 64) :
    ∃ c1 c2 : Int,
      (1000 * (c1 - 1) < t.nanoseconds ∧ t.nanoseconds ≤ 1000 * c1) ∧
      (1000000 * (c2 - 1) < c1 * F ∧ c1 * F ≤ 1000000 * c2) ∧
      (t2st F t : Int) = t.seconds * F + c2 ∧
      (t2st F t : Int) * 1000000000 ≥ (t.seconds * 1000000000 + t.nanoseconds) * F := by
  obtain ⟨a1, a2⟩ := DIV_CEIL_spec t.nanoseconds 1000 hn (by norm_num)
  have hc1 : 0 ≤ DIV_CEIL t.nanoseconds 1000 := by omega
  have hc1u : DIV_CEIL t.nanoseconds 1000 ≤ 1000000 := by omega
  have hX : 0 ≤ DIV_CEIL t.nanoseconds 1000 * F := mul_nonneg hc1 (le_of_lt hF)
  have hXu : DIV_CEIL t.nanoseconds 1000 * F ≤ 1000000 * F :=
    mul_le_mul_of_nonneg_right hc1u (le_of_lt hF)
  obtain ⟨b1, b2⟩ := DIV_CEIL_spec (DIV_CEIL t.nanoseconds 1000 * F) 1000000 hX (by norm_num)
  have hc2 : 0 ≤ DIV_CEIL (DIV_CEIL t.nanoseconds 1000 * F) 1000000 := by omega
  have hc2u : DIV_CEIL (DIV_CEIL t.nanoseconds 1000 * F) 1000000 ≤ F := by omega
  have hsF : 0 ≤ t.seconds * F := mul_nonneg hs (le_of_lt hF)
  have hval : (t2st F t : Int)
      = t.seconds * F + DIV_CEIL (DIV_CEIL t.nanoseconds 1000 * F) 1000000 := by
    unfold t2st
    rw [Int.toNat_of_nonneg (Int.emod_nonneg _ (by norm_num))]
    exact Int.emod_eq_of_lt (by omega) (by omega)
  refine ⟨DIV_CEIL t.nanoseconds 1000, DIV_CEIL (DIV_CEIL t.nanoseconds 1000 * F) 1000000,
    ⟨a1, a2⟩, ⟨b1, b2⟩, hval, ?_⟩
  rw [hval]
  have e1 : t.nanoseconds * F ≤ 1000 * DIV_CEIL t.nanoseconds 1000 * F :=
    mul_le_mul_of_nonneg_right a2 (le_of_lt hF)
  nlinarith

/-- Witness for `t2st_rounds_up` at `F = 100`: the timeout of
`thrd_usleep(100000)` is `{0 s, 100000000 ns}` and converts to exactly 10
ticks. -/
theorem t2st_rounds_up_witness :
    thrd_usleep_timeout 100000 = { seconds := 0, nanoseconds := 100000000 } ∧
    t2st SYS_TICK_FREQUENCY (thrd_usleep_timeout 100000) = 10 ∧
    ∃ c1 c2 : Int,
      (1000 * (c1 - 1) < (thrd_usleep_timeout 100000).nanoseconds ∧
        (thrd_usleep_timeout 100000).nanoseconds ≤ 1000 * c1) ∧
      (1000000 * (c2 - 1) < c1 * 100 ∧ c1 * 100 ≤ 1000000 * c2) ∧
      (t2st 100 (thrd_usleep_timeout 100000) : Int)
        = (thrd_usleep_timeout 100000).seconds * 100 + c2 ∧
      (t2st 100 (thrd_usleep_timeout 100000) : Int) * 1000000000
        ≥ ((thrd_usleep_timeout 100000).seconds * 1000000000
            + (thrd_usleep_timeout 100000).nanoseconds) * 100 :=
  ⟨by decide, by decide,
    t2st_rounds_up 100 (thrd_usleep_timeout 100000) (by decide) (by decide) (by decide)
      (by decide) (by decide)⟩

/-- C29 fails as stated: with `seconds = 2^62` and no nanoseconds, a time
struct in the stated range, the product `seconds * 100` is a multiple of
`2^64` and wraps in the 64-bit `sys_tick_t`: `t2st` returns 0 ticks, which
rounds the duration down. -/
theorem t2st_wraps_for_large_seconds :
    (0 : Int) ≤ 4611686018427387904 ∧ (0 : Int) ≤ 0 ∧ (0 : Int) < 1000000000 ∧
    t2st SYS_TICK_FREQUENCY { seconds := 4611686018427387904, nanoseconds := 0 } = 0 ∧
    ¬((t2st SYS_TICK_FREQUENCY { seconds := 4611686018427387904, nanoseconds := 0 } : Int)
        * 1000000000
      ≥ (4611686018427387904 * 1000000000 + 0) * SYS_TICK_FREQUENCY) := by
  decide

/-! ## The thread tree -/

theorem tree_same_refl (k : Kernel) : tree_same k k := fun _ => ⟨rfl, rfl⟩

theorem tree_same_trans {k k1 k2 : Kernel} (h1 : tree_same k k1) (h2 : tree_same k1 k2) :
    tree_same k k2 :=
  fun x => ⟨(h2 x).1.trans (h1 x).1, (h2 x).2.trans (h1 x).2⟩

theorem tree_same_set (k : Kernel) (p : Nat) (t : thrd_t)
    (hp : t.parent = (k.mem p).parent) (hc : t.children = (k.mem p).children) :
    tree_same k { k with mem := mem_set k.mem p t } := by
  intro x
  by_cases h : x = p
  · subst h
    simp only [mem_set_same]
    exact ⟨hp, hc⟩
  · show (mem_set k.mem p t x).parent = _ ∧ (mem_set k.mem p t x).children = _
    rw [mem_set_other _ _ _ _ h]
    exact ⟨rfl, rfl⟩

theorem tree_same_of_links_only {k k1 : Kernel} (h : links_only k k1) : tree_same k k1 := by
  intro x
  have e1 := congrArg (fun t : thrd_t => t.parent) (h.2.2 x)
  have e2 := congrArg (fun t : thrd_t => t.children) (h.2.2 x)
  exact ⟨e1, e2⟩

theorem tree_step_then {S : Nat → Prop} {k k1 k2 : Kernel} (h1 : tree_step S k k1)
    (h2 : ptr_closed k1 S → tree_step S k1 k2) : tree_step S k k2 :=
  ⟨(h2 h1.1).1, tree_same_trans h1.2 (h2 h1.1).2⟩

theorem tree_step_mem (S : Nat → Prop) (k : Kernel) (p : Nat) (t : thrd_t)
    (hk : ptr_closed k S) (hn : S p → ∀ y, t.next_p = some y → S y)
    (hp : t.parent = (k.mem p).parent) (hc : t.children = (k.mem p).children) :
    tree_step S k { k with mem := mem_set k.mem p t } := by
  refine ⟨⟨hk.1, hk.2.1, ?_⟩, tree_same_set k p t hp hc⟩
  intro x hx y hy
  by_cases h : x = p
  · subst h
    simp only [mem_set_same] at hy
    exact hn hx y hy
  · simp only [mem_set_other _ _ _ _ h] at hy
    exact hk.2.2 x hx y hy

theorem tree_step_set_prev (S : Nat → Prop) (k : Kernel) (p : Nat) (v : Option Nat)
    (hk : ptr_closed k S) : tree_step S k (k.set_prev p v) :=
  tree_step_mem S k p { k.mem p with prev_p := v } hk (fun hp y hy => hk.2.2 p hp y hy) rfl rfl

theorem tree_step_set_next (S : Nat → Prop) (k : Kernel) (p : Nat) (v : Option Nat)
    (hk : ptr_closed k S) (hv : ∀ y, v = some y → S y) : tree_step S k (k.set_next p v) :=
  tree_step_mem S k p { k.mem p with next_p := v } hk (fun _ y hy => hv y hy) rfl rfl

theorem tree_step_set_state (S : Nat → Prop) (k : Kernel) (p : Nat) (v : Nat)
    (hk : ptr_closed k S) : tree_step S k (k.set_state p v) :=
  tree_step_mem S k p { k.mem p with state := v } hk (fun hp y hy => hk.2.2 p hp y hy) rfl rfl

theorem tree_step_set_err (S : Nat → Prop) (k : Kernel) (p : Nat) (v : Int)
    (hk : ptr_closed k S) : tree_step S k (k.set_err p v) :=
  tree_step_mem S k p { k.mem p with err := v } hk (fun hp y hy => hk.2.2 p hp y hy) rfl rfl

theorem tree_step_ready (S : Nat → Prop) (k : Kernel) (r : Option Nat)
    (hk : ptr_closed k S) (hv : ∀ y, r = some y → S y) :
    tree_step S k { k with ready_p := r } :=
  ⟨⟨hk.1, hv, hk.2.2⟩, fun _ => ⟨rfl, rfl⟩⟩

theorem tree_step_current (S : Nat → Prop) (k : Kernel) (r : Option Nat)
    (hk : ptr_closed k S) (hv : ∀ y, r = some y → S y) :
    tree_step S k { k with current_p := r } :=
  ⟨⟨hv, hk.2.1, hk.2.2⟩, fun _ => ⟨rfl, rfl⟩⟩

theorem tree_step_timer (S : Nat → Prop) (k : Kernel) (timeout : time_t) (arg_p : Nat)
    (hk : ptr_closed k S) : tree_step S k (timer_set_isr k timeout arg_p) :=
  ⟨⟨hk.1, hk.2.1, hk.2.2⟩, fun _ => ⟨rfl, rfl⟩⟩

theorem push_loop_step (S : Nat → Prop) (t : Nat) (ht : S t) :
    ∀ (fuel : Nat) (k : Kernel) (a : Nat) (k1 : Kernel), ptr_closed k S → S a →
      scheduler_ready_push_loop t fuel k a = Except.ok k1 → tree_step S k k1 := by
  intro fuel
  induction fuel with
  | zero => intro k a k1 _ _ h; simp [scheduler_ready_push_loop] at h
  | succ f ih =>
    intro k a k1 hk ha h
    by_cases hp : (k.mem t).prio < (k.mem a).prio
    · simp only [scheduler_ready_push_loop, if_pos hp] at h
      cases h
      have hm : tree_step S k (match (k.mem a).prev_p with
          | some prev => k.set_next prev (some t)
          | none => { k with ready_p := some t }) := by
        split
        · exact tree_step_set_next S k _ _ hk (by intro y hy; cases hy; exact ht)
        · exact tree_step_ready S k _ hk (by intro y hy; cases hy; exact ht)
      exact tree_step_then hm (fun c1 => tree_step_then (tree_step_set_prev S _ _ _ c1)
        (fun c2 => tree_step_then
          (tree_step_set_next S _ _ _ c2 (by intro y hy; cases hy; exact ha))
          (fun c3 => tree_step_set_prev S _ _ _ c3)))
    · cases hn : (k.mem a).next_p with
      | none =>
        simp only [scheduler_ready_push_loop, if_neg hp, hn] at h
        cases h
        exact tree_step_then
          (tree_step_set_next S k _ _ hk (by intro y hy; cases hy; exact ht))
          (fun c1 => tree_step_then (tree_step_set_prev S _ _ _ c1)
            (fun c2 => tree_step_set_next S _ _ _ c2 (by intro y hy; cases hy)))
      | some b =>
        simp only [scheduler_ready_push_loop, if_neg hp, hn] at h
        exact ih k b k1 hk (hk.2.2 a ha b hn) h

theorem push_step (S : Nat → Prop) (t : Nat) (ht : S t) (fuel : Nat) (k k1 : Kernel)
    (hk : ptr_closed k S) (h : scheduler_ready_push fuel k t = Except.ok k1) :
    tree_step S k k1 := by
  cases hr : k.ready_p with
  | none =>
    simp only [scheduler_ready_push, hr] at h
    cases h
    exact tree_step_then (tree_step_ready S k _ hk (by intro y hy; cases hy; exact ht))
      (fun c1 => tree_step_then (tree_step_set_prev S _ _ _ c1)
        (fun c2 => tree_step_set_next S _ _ _ c2 (by intro y hy; cases hy)))
  | some a =>
    simp only [scheduler_ready_push, hr] at h
    exact push_loop_step S t ht fuel k a k1 hk (hk.2.1 a hr) h

theorem pop_step (S : Nat → Prop) (k k1 : Kernel) (t : Nat) (hk : ptr_closed k S)
    (h : scheduler_ready_pop k = Except.ok (k1, t)) : tree_step S k k1 ∧ S t := by
  cases hr : k.ready_p with
  | none => simp [scheduler_ready_pop, hr] at h
  | some a =>
    have ha : S a := hk.2.1 a hr
    cases hn : (k.mem a).next_p with
    | none =>
      simp only [scheduler_ready_pop, hr, hn] at h
      cases h
      exact ⟨tree_step_then (tree_step_ready S k _ hk (by intro y hy; cases hy))
        (fun c1 => tree_step_then (tree_step_set_prev S _ _ _ c1)
          (fun c2 => tree_step_set_next S _ _ _ c2 (by intro y hy; cases hy))), ha⟩
    | some b =>
      simp only [scheduler_ready_pop, hr, hn] at h
      have hb : S b := hk.2.2 a ha b hn
      cases h
      exact ⟨tree_step_then (tree_step_ready S k _ hk (by intro y hy; cases hy; exact hb))
        (fun c1 => tree_step_then (tree_step_set_prev S _ _ _ c1)
          (fun c2 => tree_step_then (tree_step_set_prev S _ _ _ c2)
            (fun c3 => tree_step_set_next S _ _ _ c3 (by intro y hy; cases hy)))), ha⟩

theorem reschedule_step (S : Nat → Prop) (E : errno_t) (k k1 : Kernel) (b : Bool)
    (hk : ptr_closed k S) (h : thrd_reschedule E k = Except.ok (k1, b)) :
    tree_step S k k1 := by
  unfold thrd_reschedule at h
  cases hc : thrd_self k with
  | none => rw [hc] at h; simp at h
  | some out =>
    rw [hc] at h
    simp only at h
    by_cases hm : (k.mem out).stack_low_magic ≠ THRD_STACK_LOW_MAGIC
    · rw [if_pos hm] at h; simp at h
    · rw [if_neg hm] at h
      cases hp : scheduler_ready_pop k with
      | error f => rw [hp] at h; simp at h
      | ok p =>
        obtain ⟨k0, t⟩ := p
        rw [hp] at h
        simp only at h
        obtain ⟨s0, ht⟩ := pop_step S k k0 t hk hp
        have s1 := tree_step_then s0 (fun c => tree_step_set_state S k0 t THRD_STATE_CURRENT c)
        by_cases hio : t ≠ out
        · rw [if_pos hio] at h
          cases h
          exact tree_step_then s1
            (fun c => tree_step_current S _ (some t) c (by intro y hy; cases hy; exact ht))
        · rw [if_neg hio] at h
          cases h
          exact s1

theorem resume_isr_step (S : Nat → Prop) (fuel : Nat) (k k1 : Kernel) (t : Nat) (err r : Int)
    (ht : S t) (hk : ptr_closed k S)
    (h : thrd_resume_isr fuel k t err = Except.ok (k1, r)) : tree_step S k k1 := by
  unfold thrd_resume_isr at h
  simp only at h
  have s1 := tree_step_set_err S k t err hk
  by_cases h1 : ((k.set_err t err).mem t).state = THRD_STATE_SUSPENDED
  · rw [if_pos h1] at h
    have s2 := tree_step_then s1 (fun c => tree_step_set_state S _ t THRD_STATE_READY c)
    cases hp : scheduler_ready_push fuel ((k.set_err t err).set_state t THRD_STATE_READY) t with
    | error f => rw [hp] at h; simp at h
    | ok k3 =>
      rw [hp] at h
      simp only [Except.ok.injEq, Prod.mk.injEq] at h
      rw [← h.1]
      exact tree_step_then s2 (fun c => push_step S t ht fuel _ k3 c hp)
  · rw [if_neg h1] at h
    by_cases h2 : ((k.set_err t err).mem t).state ≠ THRD_STATE_TERMINATED
    · rw [if_pos h2] at h
      cases h
      exact tree_step_then s1 (fun c => tree_step_set_state S _ t _ c)
    · rw [if_neg h2] at h
      cases h
      exact s1

theorem resume_step (S : Nat → Prop) (fuel : Nat) (k k1 : Kernel) (t : Nat) (err r : Int)
    (ht : S t) (hk : ptr_closed k S)
    (h : thrd_resume fuel k t err = Except.ok (k1, r)) : tree_step S k k1 := by
  unfold thrd_resume at h
  cases hr : thrd_resume_isr fuel k t err with
  | error f => rw [hr] at h; simp at h
  | ok p =>
    obtain ⟨k0, r0⟩ := p
    rw [hr] at h
    simp only [Except.ok.injEq, Prod.mk.injEq] at h
    rw [← h.1]
    exact resume_isr_step S fuel k k0 t err r0 ht hk hr

theorem suspend_finish_step (S : Nat → Prop) (E : errno_t) (k k1 : Kernel) (t : Nat)
    (r : suspend_result) (hk : ptr_closed k S)
    (h : thrd_suspend_isr_finish E k t = Except.ok (k1, r)) : tree_step S k k1 := by
  unfold thrd_suspend_isr_finish at h
  cases hr : thrd_reschedule E k with
  | error f => rw [hr] at h; simp at h
  | ok p =>
    obtain ⟨k0, b⟩ := p
    rw [hr] at h
    have s := reschedule_step S E k k0 b hk hr
    cases b with
    | true =>
      simp only [Except.ok.injEq, Prod.mk.injEq] at h
      rw [← h.1]
      exact s
    | false =>
      simp only [Except.ok.injEq, Prod.mk.injEq] at h
      rw [← h.1]
      exact s

theorem suspend_isr_step (S : Nat → Prop) (E : errno_t) (fuel : Nat) (k k1 : Kernel)
    (timeout_p : Option time_t) (r : suspend_result) (hk : ptr_closed k S)
    (h : thrd_suspend_isr E fuel k timeout_p = Except.ok (k1, r)) : tree_step S k k1 := by
  unfold thrd_suspend_isr at h
  cases hc : thrd_self k with
  | none => rw [hc] at h; simp at h
  | some t =>
    have ht : S t := hk.1 t hc
    rw [hc] at h
    simp only at h
    by_cases h1 : (k.mem t).state = THRD_STATE_RESUMED
    · rw [if_pos h1] at h
      have s1 := tree_step_set_state S k t THRD_STATE_READY hk
      cases hp : scheduler_ready_push fuel (k.set_state t THRD_STATE_READY) t with
      | error f => rw [hp] at h; simp at h
      | ok k2 =>
        rw [hp] at h
        simp only at h
        exact tree_step_then s1 (fun c1 => tree_step_then (push_step S t ht fuel _ k2 c1 hp)
          (fun c2 => suspend_finish_step S E k2 k1 t r c2 h))
    · rw [if_neg h1] at h
      have s1 := tree_step_set_state S k t THRD_STATE_SUSPENDED hk
      cases timeout_p with
      | none =>
        simp only at h
        exact tree_step_then s1 (fun c1 => suspend_finish_step S E _ k1 t r c1 h)
      | some timeout =>
        simp only at h
        by_cases hz : timeout.seconds = 0 ∧ timeout.nanoseconds = 0
        · rw [if_pos hz] at h
          simp only [Except.ok.injEq, Prod.mk.injEq] at h
          rw [← h.1]
          exact s1
        · rw [if_neg hz] at h
          exact tree_step_then s1 (fun c1 => tree_step_then (tree_step_timer S _ timeout t c1)
            (fun c2 => suspend_finish_step S E _ k1 t r c2 h))

theorem terminate_step (S : Nat → Prop) (E : errno_t) (k k1 : Kernel) (b : Bool)
    (hk : ptr_closed k S) (h : terminate E k = Except.ok (k1, b)) : tree_step S k k1 := by
  unfold terminate at h
  cases hc : thrd_self k with
  | none => rw [hc] at h; simp at h
  | some t =>
    rw [hc] at h
    simp only at h
    exact tree_step_then (tree_step_set_state S k t THRD_STATE_TERMINATED hk)
      (fun c => reschedule_step S E _ k1 b c h)

/-- Every set of pointers is closed in the set of all addresses. -/
theorem ptr_closed_univ (k : Kernel) : ptr_closed k (fun _ => True) :=
  ⟨fun _ _ => trivial, fun _ _ => trivial, fun _ _ _ _ => trivial⟩

theorem tree_inv_step (C : config_t) (k k1 : Kernel) (live : List Nat)
    (hinv : tree_inv C k live) (hs : tree_step (fun x => x ∈ live) k k1) :
    tree_inv C k1 live := by
  obtain ⟨_, hmain, hroot, hch, hpar⟩ := hinv
  obtain ⟨hcl, hsame⟩ := hs
  refine ⟨hcl, hmain, by rw [(hsame _).1]; exact hroot, ?_, ?_⟩
  · intro P hP
    rw [(hsame P).2]
    obtain ⟨hnd, hT⟩ := hch P hP
    refine ⟨hnd, fun T hTm => ?_⟩
    obtain ⟨a, b, c⟩ := hT T hTm
    exact ⟨a, b, by rw [(hsame T).1]; exact c⟩
  · intro T hT hTm
    obtain ⟨P, hP, hp1, hp2⟩ := hpar T hT hTm
    exact ⟨P, hP, by rw [(hsame T).1]; exact hp1, by rw [(hsame P).2]; exact hp2⟩

/-- What `thrd_spawn` leaves at an older control block: only the children list
of the current thread changes, by the new entry at its tail. -/
theorem spawn_pre_tree_old (C : config_t) (k : Kernel) (c : Nat) (prio : Int)
    (stack_p stack_size : Nat) (x : Nat) (hx : x ≠ stack_p) :
    ((spawn_pre C k c prio stack_p stack_size).mem x).parent = (k.mem x).parent ∧
    ((spawn_pre C k c prio stack_p stack_size).mem x).children
      = (if x = c then (k.mem x).children ++ [stack_p] else (k.mem x).children) ∧
    ((spawn_pre C k c prio stack_p stack_size).mem x).next_p = (k.mem x).next_p := by
  rw [spawn_pre_old C k c prio stack_p stack_size x hx]
  by_cases h : x = c <;> simp [h]

/-- The tree fields of the new control block. -/
theorem spawn_pre_tree_new (C : config_t) (k : Kernel) (c : Nat) (prio : Int)
    (stack_p stack_size : Nat) (hc : stack_p ≠ c) :
    ((spawn_pre C k c prio stack_p stack_size).mem stack_p).parent = some c ∧
    ((spawn_pre C k c prio stack_p stack_size).mem stack_p).children = [] ∧
    ((spawn_pre C k c prio stack_p stack_size).mem stack_p).next_p = none := by
  simp [spawn_pre, mem_set, hc]

theorem spawn_pre_tree_inv (C : config_t) (k : Kernel) (live : List Nat) (c : Nat) (prio : Int)
    (stack_p stack_size : Nat) (hinv : tree_inv C k live) (hc : c ∈ live)
    (hfresh : stack_p ∉ live) :
    tree_inv C (spawn_pre C k c prio stack_p stack_size) (live ++ [stack_p]) := by
  obtain ⟨hcl, hmain, hroot, hch, hpar⟩ := hinv
  have hsc : stack_p ≠ c := fun e => hfresh (e ▸ hc)
  have hold := fun x (hx : x ≠ stack_p) => spawn_pre_tree_old C k c prio stack_p stack_size x hx
  have hnew := spawn_pre_tree_new C k c prio stack_p stack_size hsc
  have hne : ∀ x ∈ live, x ≠ stack_p := fun x hx e => hfresh (e ▸ hx)
  have hkeep : ∀ P ∈ live, ∀ T ∈ (k.mem P).children,
      T ∈ live ++ [stack_p] ∧ T ≠ C.main_thrd ∧
        ((spawn_pre C k c prio stack_p stack_size).mem T).parent = some P := by
    intro P hP T hTm
    obtain ⟨a, b, d⟩ := (hch P hP).2 T hTm
    exact ⟨List.mem_append_left _ a, b, by rw [(hold T (hne T a)).1]; exact d⟩
  refine ⟨⟨?_, ?_, ?_⟩, List.mem_append_left _ hmain, ?_, ?_, ?_⟩
  · intro y hy
    exact List.mem_append_left _ (hcl.1 y hy)
  · intro y hy
    exact List.mem_append_left _ (hcl.2.1 y hy)
  · intro x hx y hy
    rcases List.mem_append.1 hx with hx | hx
    · rw [(hold x (hne x hx)).2.2] at hy
      exact List.mem_append_left _ (hcl.2.2 x hx y hy)
    · have e : x = stack_p := by simpa using hx
      rw [e, hnew.2.2] at hy
      cases hy
  · rw [(hold _ (hne _ hmain)).1]
    exact hroot
  · intro P hP
    rcases List.mem_append.1 hP with hP | hP
    · obtain ⟨hnd, hT⟩ := hch P hP
      have hspP : stack_p ∉ (k.mem P).children := fun h => hfresh (hT stack_p h).1
      rw [(hold P (hne P hP)).2.1]
      by_cases hPc : P = c
      · rw [if_pos hPc]
        refine ⟨?_, ?_⟩
        · rw [List.nodup_append]
          refine ⟨hnd, List.nodup_singleton stack_p, ?_⟩
          intro a ha hb
          have e : a = stack_p := by simpa using hb
          exact hspP (e ▸ ha)
        · intro T hTm
          rcases List.mem_append.1 hTm with hTm | hTm
          · exact hkeep P hP T hTm
          · have e : T = stack_p := by simpa using hTm
            rw [e]
            exact ⟨by simp, fun e1 => hfresh (e1 ▸ hmain), by rw [hnew.1, hPc]⟩
      · rw [if_neg hPc]
        exact ⟨hnd, fun T hTm => hkeep P hP T hTm⟩
    · have e : P = stack_p := by simpa using hP
      rw [e, hnew.2.1]
      exact ⟨List.nodup_nil, by simp⟩
  · intro T hT hTm
    rcases List.mem_append.1 hT with hT | hT
    · obtain ⟨P, hP, hp1, hp2⟩ := hpar T hT hTm
      refine ⟨P, List.mem_append_left _ hP, by rw [(hold T (hne T hT)).1]; exact hp1, ?_⟩
      rw [(hold P (hne P hP)).2.1]
      by_cases hPc : P = c
      · rw [if_pos hPc]
        exact List.mem_append_left _ hp2
      · rw [if_neg hPc]
        exact hp2
    · have e : T = stack_p := by simpa using hT
      rw [e]
      refine ⟨c, List.mem_append_left _ hc, hnew.1, ?_⟩
      rw [(hold c (fun e1 => hsc e1.symm)).2.1, if_pos rfl]
      simp

theorem spawn_tree_inv (C : config_t) (fuel : Nat) (k k1 : Kernel) (live : List Nat)
    (port_err prio : Int) (stack_p stack_size : Nat) (r : Option Nat)
    (hinv : tree_inv C k live) (hfresh : stack_p ∉ live)
    (h : thrd_spawn C fuel k port_err prio stack_p stack_size = Except.ok (k1, r)) :
    tree_inv C k1 (live ++ [stack_p]) := by
  obtain ⟨c, hc, _, hp⟩ := spawn_ok_spec C fuel k k1 port_err prio stack_p stack_size r h
  have hcl : c ∈ live := hinv.1.1 c hc
  have hpre := spawn_pre_tree_inv C k live c prio stack_p stack_size hinv hcl hfresh
  exact tree_inv_step C _ k1 _ hpre
    (push_step (fun x => x ∈ live ++ [stack_p]) stack_p (by simp) fuel _ k1 hpre.1 hp)

theorem module_init_tree_inv (C : config_t) (fuel : Nat) (mem : Nat → thrd_t)
    (idle_err monitor_err : Int) (k : Kernel) (r : Int) (hC : layout_ok C)
    (h : thrd_module_init C fuel (boot_kernel mem) idle_err monitor_err = Except.ok (k, r)) :
    tree_inv C k [C.main_thrd, C.idle_thrd_stack, C.monitor_thrd_stack] := by
  unfold thrd_module_init at h
  simp only at h
  split at h
  · simp at h
  · rename_i k3 r3 h3
    have hinv3 : tree_inv C k3 ([C.main_thrd] ++ [C.idle_thrd_stack]) := by
      refine spawn_tree_inv C fuel _ k3 [C.main_thrd] idle_err 127 _ _ r3 ?_ ?_ h3
      · refine ⟨⟨?_, ?_, ?_⟩, by simp, by simp, ?_, ?_⟩
        · intro c hc
          simp at hc
          simp [hc]
        · intro p hp
          simp [boot_kernel] at hp
        · intro x hx y hy
          have e : x = C.main_thrd := by simpa using hx
          rw [e] at hy
          simp at hy
        · intro P hP
          have e : P = C.main_thrd := by simpa using hP
          rw [e]
          simp
        · intro T hT hTm
          exact absurd (by simpa using hT) hTm
      · simpa using hC.1.symm
    split at h
    · simp at h
    · rename_i k4 r4 h4
      simp only [Except.ok.injEq, Prod.mk.injEq] at h
      rw [← h.1]
      refine spawn_tree_inv C fuel k3 k4 _ monitor_err THRD_MONITOR_PRIO _ _ r4 hinv3 ?_ h4
      have h2 := hC.2.1
      have h3 := hC.2.2
      simp
      exact ⟨fun e => h2 e.symm, fun e => h3 e.symm⟩

/-- The thread tree is consistent in every state reachable from
`thrd_module_init`, zero-valued timeouts included. -/
theorem reachable_tree_inv (E : errno_t) (C : config_t) (hC : layout_ok C) (poll : Bool)
    (k : Kernel) (live : List Nat) (h : reachable E C poll k live) : tree_inv C k live := by
  induction h with
  | init fuel mem e1 e2 k r h => exact module_init_tree_inv C fuel mem e1 e2 k r hC h
  | spawn fuel k live pe prio sp ss k1 r _ hfresh h ih =>
    exact spawn_tree_inv C fuel k k1 live pe prio sp ss r ih hfresh h
  | suspend fuel k live tp k1 r _ _ h ih =>
    exact tree_inv_step C k k1 live ih (suspend_isr_step _ E fuel k k1 tp r ih.1 h)
  | resume fuel k live t e k1 r _ ht h ih =>
    exact tree_inv_step C k k1 live ih (resume_step _ fuel k k1 t e r ht ih.1 h)
  | terminate k live k1 b _ h ih =>
    exact tree_inv_step C k k1 live ih (terminate_step _ E k k1 b ih.1 h)

/-- C23: tree consistency.  In every state reachable from `thrd_module_init`
(zero-valued timeouts included) `main` has no parent and is in no children
list, and every other thread `T` in use has a parent in use whose children
list holds `T` exactly once.  From such a state `thrd_spawn` of a fresh
control block sets its `parent` to the current thread and appends it, not
listed before, at the tail of that thread's children list, leaving all other
children lists alone; and `scheduler_ready_push`, `scheduler_ready_pop`,
`thrd_reschedule`, `thrd_resume_isr`, `thrd_suspend_isr` and `terminate`
change no `parent` and no children list. -/
theorem tree_consistency (E : errno_t) (C : config_t) (poll : Bool) (k : Kernel)
    (live : List Nat) (hC : layout_ok C) (h : reachable E C poll k live) :
    (k.mem C.main_thrd).parent = none ∧
    (∀ P ∈ live, C.main_thrd ∉ (k.mem P).children) ∧
    (∀ T ∈ live, T ≠ C.main_thrd →
      ∃ P ∈ live, (k.mem T).parent = some P ∧ (k.mem P).children.count T = 1) ∧
    (∀ (fuel : Nat) (port_err prio : Int) (stack_p stack_size : Nat) (k1 : Kernel)
        (r : Option Nat), stack_p ∉ live →
      thrd_spawn C fuel k port_err prio stack_p stack_size = Except.ok (k1, r) →
      ∃ c, k.current_p = some c ∧ c ∈ live ∧
        (k1.mem stack_p).parent = some c ∧
        stack_p ∉ (k.mem c).children ∧
        (k1.mem c).children = (k.mem c).children ++ [stack_p] ∧
        (k1.mem stack_p).children = [] ∧
        ∀ x, x ≠ c → x ≠ stack_p → (k1.mem x).children = (k.mem x).children) ∧
    (∀ (fuel t : Nat) (k1 : Kernel),
      scheduler_ready_push fuel k t = Except.ok k1 → tree_same k k1) ∧
    (∀ (k1 : Kernel) (t : Nat), scheduler_ready_pop k = Except.ok (k1, t) → tree_same k k1) ∧
    (∀ (k1 : Kernel) (b : Bool), thrd_reschedule E k = Except.ok (k1, b) → tree_same k k1) ∧
    (∀ (fuel t : Nat) (err : Int) (k1 : Kernel) (r : Int),
      thrd_resume_isr fuel k t err = Except.ok (k1, r) → tree_same k k1) ∧
    (∀ (fuel : Nat) (timeout_p : Option time_t) (k1 : Kernel) (r : suspend_result),
      thrd_suspend_isr E fuel k timeout_p = Except.ok (k1, r) → tree_same k k1) ∧
    (∀ (k1 : Kernel) (b : Bool), terminate E k = Except.ok (k1, b) → tree_same k k1) := by
  obtain ⟨hcl, hmain, hroot, hch, hpar⟩ := reachable_tree_inv E C hC poll k live h
  refine ⟨hroot, fun P hP hm => ((hch P hP).2 _ hm).2.1 rfl, ?_, ?_, ?_, ?_, ?_, ?_, ?_, ?_⟩
  · intro T hT hTm
    obtain ⟨P, hP, hp1, hp2⟩ := hpar T hT hTm
    exact ⟨P, hP, hp1, List.count_eq_one_of_mem (hch P hP).1 hp2⟩
  · intro fuel port_err prio stack_p stack_size k1 r hfresh hs
    obtain ⟨c, hc, _, hp⟩ := spawn_ok_spec C fuel k k1 port_err prio stack_p stack_size r hs
    have hcl1 : c ∈ live := hcl.1 c hc
    have hsc : stack_p ≠ c := fun e => hfresh (e ▸ hcl1)
    have hsame := tree_same_of_links_only (push_links_only stack_p fuel _ k1 hp)
    have hnew := spawn_pre_tree_new C k c prio stack_p stack_size hsc
    have hold := fun x (hx : x ≠ stack_p) => spawn_pre_tree_old C k c prio stack_p stack_size x hx
    refine ⟨c, hc, hcl1, ?_, fun hm => hfresh ((hch c hcl1).2 _ hm).1, ?_, ?_, ?_⟩
    · rw [(hsame _).1]
      exact hnew.1
    · rw [(hsame c).2, (hold c (fun e => hsc e.symm)).2.1, if_pos rfl]
    · rw [(hsame _).2]
      exact hnew.2.1
    · intro x hx1 hx2
      rw [(hsame x).2, (hold x hx2).2.1, if_neg hx1]
  · intro fuel t k1 hp
    exact tree_same_of_links_only (push_links_only t fuel k k1 hp)
  · intro k1 t hp
    exact (pop_step (fun _ => True) k k1 t (ptr_closed_univ k) hp).1.2
  · intro k1 b hp
    exact (reschedule_step (fun _ => True) E k k1 b (ptr_closed_univ k) hp).2
  · intro fuel t err k1 r hp
    exact (resume_isr_step (fun _ => True) fuel k k1 t err r trivial (ptr_closed_univ k) hp).2
  · intro fuel timeout_p k1 r hp
    exact (suspend_isr_step (fun _ => True) E fuel k k1 timeout_p r (ptr_closed_univ k) hp).2
  · intro k1 b hp
    exact (terminate_step (fun _ => True) E k k1 b (ptr_closed_univ k) hp).2

/-- Witness for `tree_consistency`: the state `ex_poll6` of the sample run,
reached through polls with a zero-valued timeout, two resumes and the spawn of
thread 3. -/
theorem tree_consistency_witness :
    layout_ok ex_config ∧ reachable ex_errno ex_config true ex_poll6 [0, 2, 1, 3] ∧
    (ex_poll6.mem 0).parent = none ∧
    (∀ P ∈ [0, 2, 1, 3], 0 ∉ (ex_poll6.mem P).children) ∧
    (∀ T ∈ [0, 2, 1, 3], T ≠ 0 →
      ∃ P ∈ [0, 2, 1, 3], (ex_poll6.mem T).parent = some P ∧
        (ex_poll6.mem P).children.count T = 1) :=
  ⟨by decide, ex_poll6_reachable,
    (tree_consistency ex_errno ex_config true ex_poll6 [0, 2, 1, 3] (by decide)
      ex_poll6_reachable).1,
    (tree_consistency ex_errno ex_config true ex_poll6 [0, 2, 1, 3] (by decide)
      ex_poll6_reachable).2.1,
    (tree_consistency ex_errno ex_config true ex_poll6 [0, 2, 1, 3] (by decide)
      ex_poll6_reachable).2.2.1⟩

/-! ## The timeout of `thrd_usleep` -/

/-- C35: for `useconds ≥ 0` the time struct `thrd_usleep` passes to
`thrd_suspend` has `seconds = useconds / 10^6` and `nanoseconds = 1000 *
(useconds mod 10^6)`; it represents the duration exactly, `seconds * 10^9 +
nanoseconds = 1000 * useconds`, is normalised, `0 ≤ nanoseconds < 10^9`, and is
zero-valued exactly when `useconds = 0`.  Whatever `thrd_suspend` makes of the
kernel with that timeout is what `thrd_usleep` makes of it. -/
theorem thrd_usleep_timeout_exact (useconds : Int) (h : 0 ≤ useconds) :
    (thrd_usleep_timeout useconds).seconds = useconds / 1000000 ∧
    (thrd_usleep_timeout useconds).nanoseconds = 1000 * (useconds % 1000000) ∧
    (thrd_usleep_timeout useconds).seconds * 1000000000
      + (thrd_usleep_timeout useconds).nanoseconds = 1000 * useconds ∧
    0 ≤ (thrd_usleep_timeout useconds).nanoseconds ∧
    (thrd_usleep_timeout useconds).nanoseconds < 1000000000 ∧
    (((thrd_usleep_timeout useconds).seconds = 0 ∧
      (thrd_usleep_timeout useconds).nanoseconds = 0) ↔ useconds = 0) ∧
    (∀ (E : errno_t) (fuel : Nat) (k k1 : Kernel) (r : suspend_result),
      thrd_suspend E fuel k
          (some { seconds := useconds / 1000000, nanoseconds := 1000 * (useconds % 1000000) })
        = Except.ok (k1, r) →
      ∃ r1, thrd_usleep E fuel k useconds = Except.ok (k1, r1)) := by
  have e1 : (thrd_usleep_timeout useconds).seconds = useconds / 1000000 := by
    show Int.tdiv useconds 1000000 = _
    exact Int.tdiv_eq_ediv h (by norm_num)
  have e2 : (thrd_usleep_timeout useconds).nanoseconds = 1000 * (useconds % 1000000) := by
    show 1000 * Int.tmod useconds 1000000 = _
    rw [Int.tmod_eq_emod h (by norm_num)]
  have e3 : thrd_usleep_timeout useconds
      = { seconds := useconds / 1000000, nanoseconds := 1000 * (useconds % 1000000) } := by
    have : thrd_usleep_timeout useconds
        = { seconds := (thrd_usleep_timeout useconds).seconds,
            nanoseconds := (thrd_usleep_timeout useconds).nanoseconds } := rfl
    rw [this, e1, e2]
  refine ⟨e1, e2, ?_, ?_, ?_, ?_, ?_⟩
  · rw [e1, e2]; omega
  · rw [e2]; omega
  · rw [e2]; omega
  · rw [e1, e2]; omega
  · intro E fuel k k1 r hs
    unfold thrd_usleep
    rw [e3, hs]
    cases r with
    | returned err => exact ⟨_, rfl⟩
    | switched => exact ⟨_, rfl⟩

/-- Witness for `thrd_usleep_timeout_exact`: 1.5 seconds. -/
theorem thrd_usleep_timeout_exact_witness :
    (0 : Int) ≤ 1500000 ∧
    (thrd_usleep_timeout 1500000).seconds = 1 ∧
    (thrd_usleep_timeout 1500000).nanoseconds = 500000000 :=
  ⟨by decide,
    (thrd_usleep_timeout_exact 1500000 (by decide)).1.trans (by decide),
    (thrd_usleep_timeout_exact 1500000 (by decide)).2.1.trans (by decide)⟩

/-! ## Ticks to time and back -/

/-- C39: for a tick frequency `F > 0` that divides `10^6` (such as the default
100) and every tick count `n` of the 64-bit `sys_tick_t`, `st2t(n)` is
normalised, `seconds = n / F` and `0 ≤ nanoseconds < 10^9`, and `t2st` of it is
`n` again. -/
theorem tick_time_round_trip (F : Int) (n : Nat) (hF : 0 < F) (hdiv : F ∣ 1000000)
    (hn : n < 2 ^ 64) :
    t2st F (st2t F n) = n ∧
    (st2t F n).seconds = (n : Int) / F ∧
    0 ≤ (st2t F n).nanoseconds ∧ (st2t F n).nanoseconds < 1000000000 := by
  obtain ⟨m, hm⟩ := hdiv
  have hFle : F ≤ 1000000 := Int.le_of_dvd (by norm_num) ⟨m, hm⟩
  have hn0 : (0 : Int) ≤ (n : Int) := Int.ofNat_nonneg n
  have hr0 : 0 ≤ (n : Int) % F := Int.emod_nonneg _ (by omega)
  have hrF : (n : Int) % F < F := Int.emod_lt_of_pos _ hF
  have hm0 : 0 ≤ m := by
    by_contra hneg
    have : F * m < 0 := mul_neg_of_pos_of_neg hF (by omega)
    omega
  have hmr0 : 0 ≤ m * ((n : Int) % F) := mul_nonneg hm0 hr0
  have hprod : 1000000 * ((n : Int) % F) = F * (m * ((n : Int) % F)) := by
    rw [hm]; ring
  have hprodlt : 1000000 * ((n : Int) % F) < 2 ^ 64 := by
    have : 1000000 * ((n : Int) % F) ≤ 1000000 * 1000000 := by
      apply mul_le_mul_of_nonneg_left _ (by norm_num)
      omega
    have h2 : (1000000 : Int) * 1000000 < 2 ^ 64 := by norm_num
    omega
  have hsec : (st2t F n).seconds = (n : Int) / F := by
    show Int.tdiv (n : Int) F = _
    exact Int.tdiv_eq_ediv hn0 (le_of_lt hF)
  have hns : (st2t F n).nanoseconds = m * ((n : Int) % F) * 1000 := by
    show Int.tdiv ((1000000 * Int.tmod (n : Int) F) % 2 ^ 64) F * 1000 = _
    rw [Int.tmod_eq_emod hn0 (le_of_lt hF),
      Int.emod_eq_of_lt (by omega) hprodlt,
      Int.tdiv_eq_ediv (by omega) (le_of_lt hF), hprod,
      Int.mul_ediv_cancel_left _ (by omega : F ≠ 0)]
  have hmrlt : m * ((n : Int) % F) < 1000000 := by
    have h1 : F * (m * ((n : Int) % F)) < F * 1000000 := by
      rw [← hprod]
      have : 1000000 * ((n : Int) % F) < 1000000 * F :=
        mul_lt_mul_of_pos_left hrF (by norm_num)
      linarith
    exact lt_of_mul_lt_mul_left h1 (le_of_lt hF)
  have hc1 : DIV_CEIL (m * ((n : Int) % F) * 1000) 1000 = m * ((n : Int) % F) := by
    obtain ⟨a1, a2⟩ := DIV_CEIL_spec (m * ((n : Int) % F) * 1000) 1000 (by omega) (by norm_num)
    omega
  have hc2 : DIV_CEIL (m * ((n : Int) % F) * F) 1000000 = (n : Int) % F := by
    have e : m * ((n : Int) % F) * F = 1000000 * ((n : Int) % F) := by
      rw [hprod]; ring
    rw [e]
    obtain ⟨a1, a2⟩ := DIV_CEIL_spec (1000000 * ((n : Int) % F)) 1000000
      (mul_nonneg (by norm_num) hr0) (by norm_num)
    have key : ∀ c r : Int, 1000000 * (c - 1) < 1000000 * r → 1000000 * r ≤ 1000000 * c →
        c = r := by
      intro c r h1 h2
      omega
    exact key _ _ a1 a2
  have hsum : (n : Int) / F * F + (n : Int) % F = (n : Int) := by
    have := Int.emod_add_ediv (n : Int) F
    linarith [mul_comm F ((n : Int) / F)]
  refine ⟨?_, hsec, by rw [hns]; omega, by rw [hns]; omega⟩
  unfold t2st
  rw [hsec, hns, hc1, hc2, hsum]
  have hlt : (n : Int) < 2 ^ 64 := by exact_mod_cast hn
  rw [Int.emod_eq_of_lt hn0 hlt]
  exact Int.toNat_ofNat n

/-- Witness for `tick_time_round_trip` at 100 Hz: 1234 ticks are 12 s and
340 ms. -/
theorem tick_time_round_trip_witness :
    (0 : Int) < 100 ∧ (100 : Int) ∣ 1000000 ∧ 1234 < 2 ^ 64 ∧
    st2t 100 1234 = { seconds := 12, nanoseconds := 340000000 } ∧
    t2st 100 (st2t 100 1234) = 1234 :=
  ⟨by decide, by decide, by decide, by decide,
    (tick_time_round_trip 100 1234 (by decide) (by decide) (by decide)).1⟩

/-! ## `thrd_spawn` whatever the port answers -/

/-- The effect of `thrd_spawn` on a well-formed ready list `l` that does not
hold the new control block: the call returns, the new block is on the list at
its priority position, and relative to the state built before the push only
list links have changed. -/
theorem spawn_effect (C : config_t) (fuel : Nat) (k : Kernel) (c : Nat) (l : List Nat)
    (port_err prio : Int) (stack_p stack_size : Nat)
    (hc : k.current_p = some c) (hq : ready_queue k l) (hpl : stack_p ∉ l)
    (hf : l.length ≤ fuel) :
    ∃ k1, thrd_spawn C fuel k port_err prio stack_p stack_size
        = Except.ok (k1, if port_err = 0 then some stack_p else none) ∧
      ready_queue k1 (insert_by_prio k1.mem stack_p l) ∧
      links_only (spawn_pre C k c prio stack_p stack_size) k1 := by
  have hq2 : ready_queue (spawn_pre C k c prio stack_p stack_size) l := by
    refine ⟨?_, hq.2⟩
    rw [(spawn_pre_scheduler C k c prio stack_p stack_size).2.1]
    refine seg_congr k.mem _ l _ _ _ ?_ hq.1
    intro x hx
    have hxp : x ≠ stack_p := fun e => hpl (e ▸ hx)
    exact ⟨(spawn_pre_links C k c prio stack_p stack_size x hxp).1,
      (spawn_pre_links C k c prio stack_p stack_size x hxp).2.1⟩
  obtain ⟨k1, hpush, hq1, hlk⟩ := push_spec stack_p _ l fuel hq2 hpl hf
  have hcongr := insert_by_prio_congr (spawn_pre C k c prio stack_p stack_size).mem k1.mem
    stack_p (links_only_prio hlk) l
  rw [← hcongr] at hq1
  exact ⟨k1, by rw [thrd_spawn_unfold C fuel k c port_err prio stack_p stack_size hc, hpush],
    hq1, hlk⟩

/-- C37: `thrd_spawn` is not atomic on failure.  Called by the running thread
`c` on a well-formed ready list, with a port whose spawn returns a non-zero
code, it returns `NULL`, and the kernel state it leaves is the one it leaves
when the port accepts: the new control block is the last entry of the
children list of `c`, has `c` as parent, is in state Ready and is on the ready
list at its priority position. -/
theorem thrd_spawn_not_atomic (C : config_t) (fuel : Nat) (k : Kernel) (c : Nat) (l : List Nat)
    (port_err prio : Int) (stack_p stack_size : Nat)
    (hc : k.current_p = some c) (hq : ready_queue k l) (hpl : stack_p ∉ l)
    (hsc : stack_p ≠ c) (hf : l.length ≤ fuel) (he : port_err ≠ 0) :
    ∃ k1, thrd_spawn C fuel k port_err prio stack_p stack_size = Except.ok (k1, none) ∧
      thrd_spawn C fuel k 0 prio stack_p stack_size = Except.ok (k1, some stack_p) ∧
      (k1.mem c).children = (k.mem c).children ++ [stack_p] ∧
      (k1.mem stack_p).parent = some c ∧
      (k1.mem stack_p).state = THRD_STATE_READY ∧
      ready_queue k1 (insert_by_prio k1.mem stack_p l) ∧
      stack_p ∈ insert_by_prio k1.mem stack_p l := by
  obtain ⟨k1, h1, hq1, hlk⟩ :=
    spawn_effect C fuel k c l port_err prio stack_p stack_size hc hq hpl hf
  obtain ⟨k2, h2, _, _⟩ := spawn_effect C fuel k c l 0 prio stack_p stack_size hc hq hpl hf
  rw [if_neg he] at h1
  rw [if_pos rfl] at h2
  have e12 : k2 = k1 := by
    rw [thrd_spawn_unfold C fuel k c port_err prio stack_p stack_size hc] at h1
    rw [thrd_spawn_unfold C fuel k c 0 prio stack_p stack_size hc] at h2
    cases hp : scheduler_ready_push fuel (spawn_pre C k c prio stack_p stack_size) stack_p with
    | error f => rw [hp] at h1; simp at h1
    | ok k3 =>
      rw [hp] at h1 h2
      simp only [Except.ok.injEq, Prod.mk.injEq] at h1 h2
      exact h2.1.symm.trans h1.1
  rw [e12] at h2
  have hsame := tree_same_of_links_only hlk
  refine ⟨k1, h1, h2, ?_, ?_, ?_, hq1, (mem_insert_by_prio _ _ _ _).2 (Or.inl rfl)⟩
  · rw [(hsame c).2,
      (spawn_pre_tree_old C k c prio stack_p stack_size c (fun e => hsc e.symm)).2.1, if_pos rfl]
  · rw [(hsame stack_p).1]
    exact (spawn_pre_tree_new C k c prio stack_p stack_size hsc).1
  · rw [links_only_state hlk]
    exact (spawn_pre_new C k c prio stack_p stack_size).2.1

/-- Witness for `thrd_spawn_not_atomic`: in the sample system the port rejects
the stack at address 4 with the code -1. -/
theorem thrd_spawn_not_atomic_witness :
    ex_kernel.current_p = some 0 ∧ ready_queue ex_kernel [1, 2] ∧ 4 ∉ [1, 2] ∧ 4 ≠ 0 ∧
    [1, 2].length ≤ 4 ∧ (-1 : Int) ≠ 0 ∧
    ∃ k1, thrd_spawn ex_config 4 ex_kernel (-1) 10 4 512 = Except.ok (k1, none) ∧
      thrd_spawn ex_config 4 ex_kernel 0 10 4 512 = Except.ok (k1, some 4) ∧
      (k1.mem 0).children = (ex_kernel.mem 0).children ++ [4] ∧
      (k1.mem 4).parent = some 0 ∧
      (k1.mem 4).state = THRD_STATE_READY ∧
      ready_queue k1 (insert_by_prio k1.mem 4 [1, 2]) ∧
      4 ∈ insert_by_prio k1.mem 4 [1, 2] :=
  ⟨by decide, by decide, by decide, by decide, by decide, by decide,
    thrd_spawn_not_atomic ex_config 4 ex_kernel 0 [1, 2] (-1) 10 4 512 (by decide) (by decide)
      (by decide) (by decide) (by decide) (by decide)⟩

/-! ## Well-formedness of the doubly linked ready list -/

/-- A run of list nodes that ends in `NULL`, read pointer by pointer. -/
theorem seg_pointers (mem : Nat → thrd_t) :
    ∀ (l : List Nat) (prev p : Option Nat), seg mem prev p l none →
      p = l.head? ∧ (∀ h, p = some h → (mem h).prev_p = prev) ∧
      (∀ a, l.getLast? = some a → (mem a).next_p = none) ∧
      (∀ a ∈ l, ∀ b, (mem a).next_p = some b → b ∈ l ∧ (mem b).prev_p = some a) := by
  intro l
  induction l with
  | nil =>
    intro prev p h
    have hp : p = none := h
    refine ⟨hp, ?_, ?_, ?_⟩
    · intro h1 e; rw [hp] at e; cases e
    · intro a e; simp at e
    · intro a ha; simp at ha
  | cons x l ih =>
    intro prev p h
    obtain ⟨hp, hprev, hs⟩ := h
    obtain ⟨i1, i2, i3, i4⟩ := ih (some x) (mem x).next_p hs
    refine ⟨by rw [hp]; rfl, ?_, ?_, ?_⟩
    · intro h1 e
      rw [hp] at e
      cases e
      exact hprev
    · intro a e
      cases l with
      | nil =>
        simp at e
        rw [← e]
        exact i1
      | cons y l1 =>
        rw [List.getLast?_cons_cons] at e
        exact i3 a e
    · intro a ha b hb
      rcases List.mem_cons.1 ha with e | ha1
      · rw [e] at hb
        have hbl : l.head? = some b := by rw [← i1]; exact hb
        have hbm : b ∈ l := List.mem_of_mem_head? hbl
        exact ⟨List.mem_cons_of_mem _ hbm, by rw [e]; exact i2 b hb⟩
      · obtain ⟨j1, j2⟩ := i4 a ha1 b hb
        exact ⟨List.mem_cons_of_mem _ j1, j2⟩

theorem ready_queue_well_formed (k : Kernel) (l : List Nat) (hq : ready_queue k l) :
    well_formed_links k l := by
  obtain ⟨i1, i2, i3, i4⟩ := seg_pointers k.mem l none k.ready_p hq.1
  exact ⟨hq.2, i1, i2, i3, i4⟩

/-- The thread `scheduler_ready_pop` returns is left with both links `NULL`. -/
theorem pop_clears_links (k k1 : Kernel) (t : Nat)
    (h : scheduler_ready_pop k = Except.ok (k1, t)) :
    (k1.mem t).prev_p = none ∧ (k1.mem t).next_p = none := by
  cases hr : k.ready_p with
  | none => simp [scheduler_ready_pop, hr] at h
  | some a =>
    cases hn : (k.mem a).next_p with
    | none =>
      simp only [scheduler_ready_pop, hr, hn] at h
      cases h
      simp [Kernel.set_prev, Kernel.set_next, mem_set]
    | some b =>
      simp only [scheduler_ready_pop, hr, hn] at h
      cases h
      simp [Kernel.set_prev, Kernel.set_next, mem_set]

/-- C38: the ready list stays a well-formed doubly linked list.  From a
well-formed ready list holding the threads `l`, `scheduler_ready_push` of a
thread that is not on it (given fuel for the walk) returns and leaves a
well-formed list, holding the thread at its priority position; and
`scheduler_ready_pop` on a non-empty list returns its head, leaves the tail as
a well-formed list, and leaves the popped thread with `prev_p = next_p =
NULL`.  Well-formed, read pointer by pointer: no thread twice,
`scheduler.ready_p` is the first node and has `prev_p = NULL`, the last node
has `next_p = NULL`, and `b.prev_p = a` whenever `a.next_p = b`. -/
theorem ready_list_stays_well_formed (k : Kernel) (l : List Nat) (hq : ready_queue k l) :
    well_formed_links k l ∧
    (∀ (fuel t : Nat), t ∉ l → l.length ≤ fuel →
      ∃ k1, scheduler_ready_push fuel k t = Except.ok k1 ∧
        ready_queue k1 (insert_by_prio k.mem t l) ∧
        well_formed_links k1 (insert_by_prio k.mem t l)) ∧
    (∀ (h : Nat) (l1 : List Nat), l = h :: l1 →
      ∃ k1, scheduler_ready_pop k = Except.ok (k1, h) ∧
        ready_queue k1 l1 ∧ well_formed_links k1 l1 ∧
        (k1.mem h).prev_p = none ∧ (k1.mem h).next_p = none) := by
  refine ⟨ready_queue_well_formed k l hq, ?_, ?_⟩
  · intro fuel t ht hf
    obtain ⟨k1, hp, hq1, _⟩ := push_spec t k l fuel hq ht hf
    exact ⟨k1, hp, hq1, ready_queue_well_formed k1 _ hq1⟩
  · intro h l1 e
    rw [e] at hq
    obtain ⟨k1, hp, hq1, _⟩ := pop_spec k h l1 hq
    obtain ⟨c1, c2⟩ := pop_clears_links k k1 h hp
    exact ⟨k1, hp, hq1, ready_queue_well_formed k1 _ hq1, c1, c2⟩

/-- Witness for `ready_list_stays_well_formed`: the ready list `[1, 2]` of the
sample system; popping it returns thread 1 with both links cleared. -/
theorem ready_list_stays_well_formed_witness :
    ready_queue ex_kernel [1, 2] ∧ well_formed_links ex_kernel [1, 2] ∧
    ∃ k1, scheduler_ready_pop ex_kernel = Except.ok (k1, 1) ∧
      ready_queue k1 [2] ∧ well_formed_links k1 [2] ∧
      (k1.mem 1).prev_p = none ∧ (k1.mem 1).next_p = none :=
  ⟨by decide, (ready_list_stays_well_formed ex_kernel [1, 2] (by decide)).1,
    (ready_list_stays_well_formed ex_kernel [1, 2] (by decide)).2.2 1 [2] rfl⟩

/-! ## The state after `thrd_module_init` -/

theorem thrd_module_init_unfold (C : config_t) (fuel : Nat) (k : Kernel)
    (idle_err monitor_err : Int) :
    thrd_module_init C fuel k idle_err monitor_err =
      match thrd_spawn C fuel (module_init_pre C k) idle_err 127 C.idle_thrd_stack
          C.sizeof_idle_thrd_stack with
      | Except.error f => Except.error f
      | Except.ok (k3, _) =>
        match thrd_spawn C fuel k3 monitor_err THRD_MONITOR_PRIO C.monitor_thrd_stack
            C.sizeof_monitor_thrd_stack with
        | Except.error f => Except.error f
        | Except.ok (k4, _) => Except.ok (k4, 0) := rfl

theorem links_only_name {k k1 : Kernel} (h : links_only k k1) (x : Nat) :
    (k1.mem x).name_p = (k.mem x).name_p := by
  have e := congrArg (fun t : thrd_t => t.name_p) (h.2.2 x)
  exact e

theorem spawn_pre_name (C : config_t) (k : Kernel) (c : Nat) (prio : Int)
    (stack_p stack_size : Nat) (x : Nat) (hx : x ≠ stack_p) :
    ((spawn_pre C k c prio stack_p stack_size).mem x).name_p = (k.mem x).name_p := by
  rw [spawn_pre_old C k c prio stack_p stack_size x hx]
  by_cases h : x = c <;> simp [h]

/-- C34: `thrd_module_init`, run on the scheduler as its static initialiser
leaves it, with the three static control blocks at distinct addresses and
fuel for one step of the push loop, returns 0 whatever the port answers.
Afterwards `scheduler.current_p` is `main_thrd`, which has state Current,
`prio` 0, the name "main", no parent and the children list [idle, monitor];
the ready list is [monitor, idle]; the monitor thread has `prio`
`THRD_MONITOR_PRIO = -80`, the idle thread `prio` 127, and both are Ready with
`main_thrd` as parent. -/
theorem thrd_module_init_state (C : config_t) (fuel : Nat) (mem : Nat → thrd_t)
    (idle_err monitor_err : Int) (hC : layout_ok C) (hf : 1 ≤ fuel) :
    ∃ k, thrd_module_init C fuel (boot_kernel mem) idle_err monitor_err = Except.ok (k, 0) ∧
      k.current_p = some C.main_thrd ∧
      (k.mem C.main_thrd).state = THRD_STATE_CURRENT ∧
      (k.mem C.main_thrd).prio = 0 ∧
      (k.mem C.main_thrd).name_p = "main" ∧
      (k.mem C.main_thrd).parent = none ∧
      (k.mem C.main_thrd).children = [C.idle_thrd_stack, C.monitor_thrd_stack] ∧
      ready_queue k [C.monitor_thrd_stack, C.idle_thrd_stack] ∧
      THRD_MONITOR_PRIO = -80 ∧
      (k.mem C.monitor_thrd_stack).prio = THRD_MONITOR_PRIO ∧
      (k.mem C.monitor_thrd_stack).state = THRD_STATE_READY ∧
      (k.mem C.monitor_thrd_stack).parent = some C.main_thrd ∧
      (k.mem C.idle_thrd_stack).prio = 127 ∧
      (k.mem C.idle_thrd_stack).state = THRD_STATE_READY ∧
      (k.mem C.idle_thrd_stack).parent = some C.main_thrd := by
  obtain ⟨hmi, hmm, him⟩ := hC
  have hc2 : (module_init_pre C (boot_kernel mem)).current_p = some C.main_thrd := rfl
  have hq2 : ready_queue (module_init_pre C (boot_kernel mem)) [] := ⟨rfl, List.nodup_nil⟩
  have hmain2 : (module_init_pre C (boot_kernel mem)).mem C.main_thrd
      = { prev_p := none, next_p := none, prio := 0, state := THRD_STATE_CURRENT, err := 0,
          log_mask := C.LOG_UPTO_NOTICE, name_p := "main", parent := none, children := [],
          stack_low_magic := THRD_STACK_LOW_MAGIC, stack_size := C.main_stack_size,
          stack := thrd_fill_pattern ((boot_kernel mem).mem C.main_thrd).stack
            C.main_fill_size } := by
    simp [module_init_pre, mem_set]
  obtain ⟨k3, h3, hq3, hlk3⟩ := spawn_effect C fuel (module_init_pre C (boot_kernel mem))
    C.main_thrd [] idle_err 127 C.idle_thrd_stack C.sizeof_idle_thrd_stack hc2 hq2 (by simp)
    (by simp)
  have hc3 : k3.current_p = some C.main_thrd := hlk3.1.trans hc2
  have hq3a : ready_queue k3 [C.idle_thrd_stack] := hq3
  obtain ⟨k4, h4, hq4, hlk4⟩ := spawn_effect C fuel k3 C.main_thrd [C.idle_thrd_stack]
    monitor_err THRD_MONITOR_PRIO C.monitor_thrd_stack C.sizeof_monitor_thrd_stack hc3 hq3a
    (by simpa using fun e => him e.symm) (by simpa using hf)
  have hs3 := tree_same_of_links_only hlk3
  have hs4 := tree_same_of_links_only hlk4
  have hidle_main : C.main_thrd ≠ C.idle_thrd_stack := hmi
  have hmon_main : C.main_thrd ≠ C.monitor_thrd_stack := hmm
  have hidle_mon : C.idle_thrd_stack ≠ C.monitor_thrd_stack := him
  have old3 := spawn_pre_links C (module_init_pre C (boot_kernel mem)) C.main_thrd 127
    C.idle_thrd_stack C.sizeof_idle_thrd_stack C.main_thrd hidle_main
  have old4 := spawn_pre_links C k3 C.main_thrd THRD_MONITOR_PRIO
    C.monitor_thrd_stack C.sizeof_monitor_thrd_stack C.main_thrd hmon_main
  have old4i := spawn_pre_links C k3 C.main_thrd THRD_MONITOR_PRIO
    C.monitor_thrd_stack C.sizeof_monitor_thrd_stack C.idle_thrd_stack hidle_mon
  have new3 := spawn_pre_new C (module_init_pre C (boot_kernel mem)) C.main_thrd 127
    C.idle_thrd_stack C.sizeof_idle_thrd_stack
  have new4 := spawn_pre_new C k3 C.main_thrd THRD_MONITOR_PRIO
    C.monitor_thrd_stack C.sizeof_monitor_thrd_stack
  have t3 := spawn_pre_tree_old C (module_init_pre C (boot_kernel mem)) C.main_thrd 127
    C.idle_thrd_stack C.sizeof_idle_thrd_stack C.main_thrd hidle_main
  have t4 := spawn_pre_tree_old C k3 C.main_thrd THRD_MONITOR_PRIO
    C.monitor_thrd_stack C.sizeof_monitor_thrd_stack C.main_thrd hmon_main
  have t4i := spawn_pre_tree_old C k3 C.main_thrd THRD_MONITOR_PRIO
    C.monitor_thrd_stack C.sizeof_monitor_thrd_stack C.idle_thrd_stack hidle_mon
  have pmon : (k4.mem C.monitor_thrd_stack).prio = THRD_MONITOR_PRIO := by
    rw [links_only_prio hlk4]; exact new4.1
  have pidle : (k4.mem C.idle_thrd_stack).prio = 127 := by
    rw [links_only_prio hlk4, old4i.2.2.1, links_only_prio hlk3]; exact new3.1
  refine ⟨k4, ?_, hlk4.1.trans hc3, ?_, ?_, ?_, ?_, ?_, ?_, rfl, pmon, ?_, ?_, pidle, ?_, ?_⟩
  · rw [thrd_module_init_unfold, h3]
    simp only
    rw [h4]
  · rw [links_only_state hlk4, old4.2.2.2, links_only_state hlk3, old3.2.2.2, hmain2]
  · rw [links_only_prio hlk4, old4.2.2.1, links_only_prio hlk3, old3.2.2.1, hmain2]
  · rw [links_only_name hlk4, spawn_pre_name _ _ _ _ _ _ _ hmon_main, links_only_name hlk3,
      spawn_pre_name _ _ _ _ _ _ _ hidle_main, hmain2]
  · rw [(hs4 _).1, t4.1, (hs3 _).1, t3.1, hmain2]
  · rw [(hs4 _).2, t4.2.1, if_pos rfl, (hs3 _).2, t3.2.1, if_pos rfl, hmain2]
    rfl
  · have e : insert_by_prio k4.mem C.monitor_thrd_stack [C.idle_thrd_stack]
        = [C.monitor_thrd_stack, C.idle_thrd_stack] := by
      have hlt : (k4.mem C.monitor_thrd_stack).prio < (k4.mem C.idle_thrd_stack).prio := by
        rw [pmon, pidle]
        decide
      simp [insert_by_prio, hlt]
    rw [e] at hq4
    exact hq4
  · rw [links_only_state hlk4]; exact new4.2.1
  · rw [(hs4 _).1]; exact new4.2.2.2.2.1
  · rw [links_only_state hlk4, old4i.2.2.2, links_only_state hlk3]; exact new3.2.1
  · rw [(hs4 _).1, t4i.1, (hs3 _).1]; exact new3.2.2.2.2.1

/-- Witness for `thrd_module_init_state`: the sample build, with both stacks
accepted by the port. -/
theorem thrd_module_init_state_witness :
    layout_ok ex_config ∧ 1 ≤ 4 ∧
    ∃ k, thrd_module_init ex_config 4 (boot_kernel (fun _ => tcb none none 0 0 0)) 0 0
        = Except.ok (k, 0) ∧
      k.current_p = some 0 ∧ (k.mem 0).children = [2, 1] ∧ ready_queue k [1, 2] :=
  ⟨by decide, by decide,
    match thrd_module_init_state ex_config 4 (fun _ => tcb none none 0 0 0) 0 0 (by decide)
      (by decide) with
    | ⟨k, h1, h2, _, _, _, _, h7, h8, _⟩ => ⟨k, h1, h2, h7, h8⟩⟩

/-! ## Pushes onto an empty list sort stably -/

/-- Inserting `t` behind its equals and `a` in front of its equals commute. -/
theorem insert_by_prio_orderedInsert (mem : Nat → thrd_t) (a t : Nat) :
    ∀ l : List Nat,
      insert_by_prio mem t (l.orderedInsert (fun a b => (mem a).prio ≤ (mem b).prio) a)
        = (insert_by_prio mem t l).orderedInsert (fun a b => (mem a).prio ≤ (mem b).prio) a := by
  intro l
  induction l with
  | nil =>
    by_cases h : (mem t).prio < (mem a).prio
    · have h2 : ¬(mem a).prio ≤ (mem t).prio := by omega
      simp [List.orderedInsert, insert_by_prio, h, h2]
    · have h2 : (mem a).prio ≤ (mem t).prio := by omega
      simp [List.orderedInsert, insert_by_prio, h, h2]
  | cons b l ih =>
    by_cases hab : (mem a).prio ≤ (mem b).prio
    · by_cases htb : (mem t).prio < (mem b).prio
      · by_cases hta : (mem t).prio < (mem a).prio
        · have h2 : ¬(mem a).prio ≤ (mem t).prio := by omega
          simp [List.orderedInsert, insert_by_prio, hab, htb, hta, h2]
        · have h2 : (mem a).prio ≤ (mem t).prio := by omega
          simp [List.orderedInsert, insert_by_prio, hab, htb, hta, h2]
      · have hta : ¬(mem t).prio < (mem a).prio := by omega
        simp [List.orderedInsert, insert_by_prio, hab, htb, hta]
    · by_cases htb : (mem t).prio < (mem b).prio
      · have h2 : ¬(mem a).prio ≤ (mem t).prio := by omega
        simp [List.orderedInsert, insert_by_prio, hab, htb, h2]
      · simp only [List.orderedInsert, insert_by_prio, if_neg hab, if_neg htb, ih]

theorem foldl_insert_orderedInsert (mem : Nat → thrd_t) (a : Nat) :
    ∀ (ts l : List Nat),
      ts.foldl (fun q t => insert_by_prio mem t q)
          (l.orderedInsert (fun a b => (mem a).prio ≤ (mem b).prio) a)
        = (ts.foldl (fun q t => insert_by_prio mem t q) l).orderedInsert
            (fun a b => (mem a).prio ≤ (mem b).prio) a := by
  intro ts
  induction ts with
  | nil => intro l; rfl
  | cons t ts ih =>
    intro l
    simp only [List.foldl_cons]
    rw [insert_by_prio_orderedInsert mem a t l, ih]

/-- Inserting the threads one after the other, each behind its equals, gives
the stable sort. -/
theorem foldl_insert_eq_stable_sort (mem : Nat → thrd_t) :
    ∀ ts : List Nat,
      ts.foldl (fun q t => insert_by_prio mem t q) [] = stable_sort_by_prio mem ts := by
  intro ts
  induction ts with
  | nil => rfl
  | cons a ts ih =>
    have e : insert_by_prio mem a []
        = ([] : List Nat).orderedInsert (fun a b => (mem a).prio ≤ (mem b).prio) a := rfl
    simp only [List.foldl_cons]
    rw [e, foldl_insert_orderedInsert mem a ts [], ih]
    rfl

/-- C31: pushing the pairwise distinct threads `ts`, in that order, onto an
empty ready list (with fuel for the walks) leaves the ready list holding
exactly the stable sort of `ts` by ascending `prio`, and `ts.length` pops in
a row then return that sequence and leave the list empty.  The stable sort is
a permutation of `ts`, has non-decreasing `prio` values, and keeps every pair
`a` before `b` of `ts` with `a.prio ≤ b.prio` in that order. -/
theorem pushes_pops_stable_sort (fuel : Nat) (k : Kernel) (ts : List Nat)
    (he : k.ready_p = none) (hnd : ts.Nodup) (hf : ts.length ≤ fuel) :
    ∃ k1, pushes fuel k ts = Except.ok k1 ∧
      ready_queue k1 (stable_sort_by_prio k.mem ts) ∧
      (∃ k2, pops ts.length k1 = Except.ok (k2, stable_sort_by_prio k.mem ts) ∧
        k2.ready_p = none) ∧
      List.Perm (stable_sort_by_prio k.mem ts) ts ∧
      prio_sorted k.mem (stable_sort_by_prio k.mem ts) ∧
      (∀ a b, precedes a b ts → (k.mem a).prio ≤ (k.mem b).prio →
        precedes a b (stable_sort_by_prio k.mem ts)) := by
  have hq : ready_queue k [] := ⟨he, List.nodup_nil⟩
  obtain ⟨k1, hp, hq1, _⟩ := pushes_spec fuel ts k [] hq hnd (by simp) (by simpa using hf)
  rw [foldl_insert_eq_stable_sort] at hq1
  have hlen : (stable_sort_by_prio k.mem ts).length = ts.length :=
    List.length_insertionSort _ ts
  obtain ⟨k2, hpop, hq2, _⟩ :=
    pops_spec ts.length k1 (stable_sort_by_prio k.mem ts) hq1 (by rw [hlen])
  rw [← hlen, List.take_length] at hpop
  rw [← hlen, List.drop_length] at hq2
  haveI : IsTotal Nat (fun a b => (k.mem a).prio ≤ (k.mem b).prio) :=
    ⟨fun a b => le_total _ _⟩
  haveI : IsTrans Nat (fun a b => (k.mem a).prio ≤ (k.mem b).prio) :=
    ⟨fun a b c h1 h2 => le_trans h1 h2⟩
  refine ⟨k1, hp, hq1, ⟨k2, by rw [← hlen]; exact hpop, hq2.1⟩,
    List.perm_insertionSort _ ts, List.sorted_insertionSort _ ts, ?_⟩
  intro a b hab hle
  exact List.pair_sublist_insertionSort hle hab

/-- Witness for `pushes_pops_stable_sort`: threads 3, 2, 4, 1, 0 of priority
10, 127, 10, -80, 0 end up as 1, 0, 3, 4, 2. -/
theorem pushes_pops_stable_sort_witness :
    ex_empty.ready_p = none ∧ [3, 2, 4, 1, 0].Nodup ∧ [3, 2, 4, 1, 0].length ≤ 8 ∧
    stable_sort_by_prio ex_empty.mem [3, 2, 4, 1, 0] = [1, 0, 3, 4, 2] ∧
    ∃ k1, pushes 8 ex_empty [3, 2, 4, 1, 0] = Except.ok k1 ∧
      ready_queue k1 (stable_sort_by_prio ex_empty.mem [3, 2, 4, 1, 0]) :=
  ⟨rfl, by decide, by decide, by decide,
    match pushes_pops_stable_sort 8 ex_empty [3, 2, 4, 1, 0] rfl (by decide) (by decide) with
    | ⟨k1, h1, h2, _⟩ => ⟨k1, h1, h2⟩⟩

/-! ## Lookup by name -/

theorem tree_depth_mono (mem : Nat → thrd_t) :
    ∀ (d p : Nat), tree_depth mem d p → tree_depth mem (d + 1) p := by
  intro d
  induction d with
  | zero => intro p h; exact absurd h (by simp [tree_depth])
  | succ d ih =>
    intro p h c hc
    exact ih c (h c hc)

theorem tree_depth_le (mem : Nat → thrd_t) (d e p : Nat) (h : tree_depth mem d p)
    (hde : d ≤ e) : tree_depth mem e p := by
  induction hde with
  | refl => exact h
  | step _ ih => exact tree_depth_mono mem _ p ih

/-- On a tree of depth at most `d` the pre-order walk to depth `d` is the walk
of the whole tree: a deeper walk finds nothing more. -/
theorem preorder_stable (mem : Nat → thrd_t) :
    ∀ (d e p : Nat), tree_depth mem d p → d ≤ e → preorder mem e p = preorder mem d p := by
  intro d
  induction d with
  | zero => intro e p h; exact absurd h (by simp [tree_depth])
  | succ d ih =>
    intro e p h hde
    obtain ⟨f, rfl⟩ : ∃ f, e = f + 1 := ⟨e - 1, by omega⟩
    have hdf : d ≤ f := by omega
    have hloop : ∀ cs : List Nat, (∀ c ∈ cs, tree_depth mem d c) →
        cs.foldr (fun c acc => preorder mem f c ++ acc) []
          = cs.foldr (fun c acc => preorder mem d c ++ acc) [] := by
      intro cs
      induction cs with
      | nil => intro _; rfl
      | cons c cs ihc =>
        intro hcs
        simp only [List.foldr_cons]
        rw [ih f c (hcs c (List.mem_cons_self c cs)) hdf,
          ihc (fun x hx => hcs x (List.mem_cons_of_mem c hx))]
    have hcs : ∀ c ∈ (mem p).children, tree_depth mem d c := h
    simp only [preorder, hloop _ hcs]

/-- C32: on a finite thread tree rooted at `main_thrd`, of depth at most `d`,
`thrd_get_by_name(name)` with fuel for that depth returns.  Its result is
`NULL` if and only if no thread of the tree has the name `name`; otherwise it
is the first thread with that name in the pre-order walk of the tree from
`main_thrd`, a thread before its children and the children in list order.
The walk to depth `d` is the walk of the whole tree. -/
theorem thrd_get_by_name_spec (C : config_t) (fuel d : Nat) (k : Kernel) (name : String)
    (ht : tree_depth k.mem d C.main_thrd) (hd : d ≤ fuel) :
    ∃ r, thrd_get_by_name C fuel k name = Except.ok r ∧
      (r = none ↔ ∀ x ∈ preorder k.mem d C.main_thrd, (k.mem x).name_p ≠ name) ∧
      (∀ t, r = some t →
        (k.mem t).name_p = name ∧
        ∃ l1 l2, preorder k.mem d C.main_thrd = l1 ++ t :: l2 ∧
          ∀ x ∈ l1, (k.mem x).name_p ≠ name) ∧
      (∀ e, d ≤ e → preorder k.mem e C.main_thrd = preorder k.mem d C.main_thrd) ∧
      (∀ e p, preorder k.mem (e + 1) p
        = p :: (k.mem p).children.foldr (fun c acc => preorder k.mem e c ++ acc) []) := by
  refine ⟨_, get_by_name_spec k.mem name d fuel C.main_thrd ht hd, ?_, ?_,
    fun e he => preorder_stable k.mem d e C.main_thrd ht he, fun _ _ => rfl⟩
  · rw [List.find?_eq_none]
    constructor
    · intro h x hx
      simpa using h x hx
    · intro h x hx
      simpa using h x hx
  · intro t ht1
    obtain ⟨h1, l1, l2, h2, h3⟩ := List.find?_eq_some.1 ht1
    refine ⟨by simpa using h1, l1, l2, h2, ?_⟩
    intro x hx
    simpa using h3 x hx

/-- Witness for `thrd_get_by_name_spec`: right after `thrd_module_init` in the
sample system the idle and monitor threads still have the name "" that
`thrd_spawn` gave them; the lookup finds the idle thread, the first child of
`main`. -/
theorem thrd_get_by_name_spec_witness :
    tree_depth ex_init.mem 2 ex_config.main_thrd ∧ 2 ≤ 4 ∧
    preorder ex_init.mem 2 ex_config.main_thrd = [0, 2, 1] ∧
    thrd_get_by_name ex_config 4 ex_init "" = Except.ok (some 2) ∧
    ∃ r, thrd_get_by_name ex_config 4 ex_init "" = Except.ok r ∧
      (r = none ↔ ∀ x ∈ preorder ex_init.mem 2 ex_config.main_thrd,
        (ex_init.mem x).name_p ≠ "") :=
  ⟨by decide, by decide, by decide, rfl,
    match thrd_get_by_name_spec ex_config 4 2 ex_init "" (by decide) (by decide) with
    | ⟨r, h1, h2, _⟩ => ⟨r, h1, h2⟩⟩

/-! ## The SPI client example -/

theorem two_pow_split (w : Nat) (hw : 1 ≤ w) : (2 : Int) ^ w = 2 * 2 ^ (w - 1) := by
  obtain ⟨v, rfl⟩ : ∃ v, w = v + 1 := ⟨w - 1, by omega⟩
  simp [pow_succ]
  ring

theorem two_pow_ge (w : Nat) (hw : 32 ≤ w) : (2147483648 : Int) ≤ 2 ^ (w - 1) := by
  have h : (2 : Int) ^ 31 ≤ 2 ^ (w - 1) := pow_le_pow_right₀ (by norm_num) (by omega)
  have e : (2 : Int) ^ 31 = 2147483648 := by norm_num
  omega

/-- Within the range of a `long` nothing wraps. -/
theorem wrap_long_id (w : Nat) (x : Int) (hw : 1 ≤ w) (h1 : -2 ^ (w - 1) ≤ x)
    (h2 : x < 2 ^ (w - 1)) : wrap_long w x = x := by
  unfold wrap_long
  rw [two_pow_split w hw]
  generalize (2 : Int) ^ (w - 1) = P at h1 h2 ⊢
  rw [Int.emod_eq_of_lt (by omega) (by omega)]
  omega

/-- On the two's complement representation `a & 0xf` is `a mod 16`. -/
theorem land_long_15 (w : Nat) (a : Int) (hw : 4 ≤ w) : land_long w a 0xf = a % 16 := by
  unfold land_long
  have h0 : 0 ≤ a % 2 ^ w := Int.emod_nonneg _ (by positivity)
  have h1 : (a % 2 ^ w).toNat &&& 0xf = (a % 2 ^ w).toNat % 16 :=
    Nat.and_pow_two_sub_one_eq_mod _ 4
  rw [h1]
  push_cast
  rw [Int.toNat_of_nonneg h0]
  have hd : (16 : Int) ∣ 2 ^ w := by
    have : (2 : Int) ^ 4 ∣ 2 ^ w := pow_dvd_pow 2 hw
    simpa using this
  exact Int.emod_emod_of_dvd a hd

theorem main_temp_eq (w : Nat) (raw : Int) (hw : 32 ≤ w)
    (hraw : -32768 ≤ raw ∧ raw < 32768) : main_temp w raw = 625 * raw := by
  have hP := two_pow_ge w hw
  unfold main_temp
  simp only
  have e4 : Int.shiftRight raw 4 = raw / 16 :=
    (Int.shiftRight_eq_div_pow raw 4).trans (by norm_num)
  rw [land_long_15 w raw (by omega), e4]
  rw [wrap_long_id w (10000 * (raw / 16)) (by omega) (by omega) (by omega),
    wrap_long_id w (625 * (raw % 16)) (by omega) (by omega) (by omega),
    wrap_long_id w _ (by omega) (by omega) (by omega)]
  omega

theorem main_led_state_else (w : Nat) (min max t : Int) (hw : 32 ≤ w)
    (hspan : 10000 * max - 10000 * min < 2 ^ (w - 1))
    (h1 : 10000 * min < t) (h2 : t < 10000 * max) :
    main_resolution w { temp_min := 10000 * min, temp_max := 10000 * max } = 1250 * (max - min) ∧
    0 < main_resolution w { temp_min := 10000 * min, temp_max := 10000 * max } ∧
    ∃ s, main_led_state w { temp_min := 10000 * min, temp_max := 10000 * max } t = some s ∧
      1 ≤ s ∧ s ≤ 7 := by
  have hP := two_pow_ge w hw
  have hD : wrap_long w (10000 * max - 10000 * min) = 10000 * max - 10000 * min :=
    wrap_long_id w _ (by omega) (by omega) hspan
  have hR : Int.tdiv (10000 * max - 10000 * min) 8 = 1250 * (max - min) := by
    rw [Int.tdiv_eq_ediv (by omega) (by norm_num)]
    omega
  have hRpos : 0 < 1250 * (max - min) := by omega
  have ht1 : wrap_long w (t - 10000 * min) = t - 10000 * min :=
    wrap_long_id w _ (by omega) (by omega) (by omega)
  have hq : Int.tdiv (t - 10000 * min) (1250 * (max - min))
      = (t - 10000 * min) / (1250 * (max - min)) :=
    Int.tdiv_eq_ediv (by omega) (by omega)
  have hq0 : 0 ≤ (t - 10000 * min) / (1250 * (max - min)) :=
    Int.ediv_nonneg (by omega) (by omega)
  have hq8 : (t - 10000 * min) / (1250 * (max - min)) < 8 :=
    Int.ediv_lt_of_lt_mul hRpos (by omega)
  have hwq : wrap_long w ((t - 10000 * min) / (1250 * (max - min)))
      = (t - 10000 * min) / (1250 * (max - min)) :=
    wrap_long_id w _ (by omega) (by omega) (by omega)
  refine ⟨?_, ?_, ?_⟩
  · unfold main_resolution
    simp only
    rw [hD, hR]
  · unfold main_resolution
    simp only
    rw [hD, hR]
    exact hRpos
  · unfold main_led_state
    simp only
    rw [if_neg (by omega), if_neg (by omega), hD, hR, if_neg (by omega), ht1, hq, hwq]
    generalize (t - 10000 * min) / (1250 * (max - min)) = q at hq0 hq8
    refine ⟨_, rfl, ?_, ?_⟩
    · split <;> omega
    · split <;> omega

/-- C40, with the bound the code needs.  `long` has `w ≥ 32` bits; the limits
are `temp_min = 10000 * min` and `temp_max = 10000 * max`, both in the range
of a `long` and with a difference `temp_max - temp_min` that does not overflow
it; the sensor reading is a 16-bit value.  Then the computed temperature is
`625 * raw`; the LED state is `0x1` when `temp ≤ temp_min` and `0x7` when
`temp ≥ temp_max`; in the remaining case, the only one that divides,
`resolution` is `1250 * (max - min) > 0`; the state sent is always in 1..7.
Limits of this form are the initial ones and the ones `set_min_max` installs
from arguments that parse to `min` and `max`. -/
theorem main_led_state_range (w : Nat) (min max raw : Int) (hw : 32 ≤ w)
    (hraw : -32768 ≤ raw ∧ raw < 32768)
    (hmin : -2 ^ (w - 1) ≤ 10000 * min ∧ 10000 * min < 2 ^ (w - 1))
    (hmax : -2 ^ (w - 1) ≤ 10000 * max ∧ 10000 * max < 2 ^ (w - 1))
    (hspan : 10000 * max - 10000 * min < 2 ^ (w - 1)) :
    main_temp w raw = 625 * raw ∧
    (main_temp w raw ≤ 10000 * min →
      main_led_state w { temp_min := 10000 * min, temp_max := 10000 * max } (main_temp w raw)
        = some 0x1) ∧
    (10000 * min < main_temp w raw → 10000 * max ≤ main_temp w raw →
      main_led_state w { temp_min := 10000 * min, temp_max := 10000 * max } (main_temp w raw)
        = some 0x7) ∧
    (10000 * min < main_temp w raw → main_temp w raw < 10000 * max →
      main_resolution w { temp_min := 10000 * min, temp_max := 10000 * max }
        = 1250 * (max - min) ∧
      0 < main_resolution w { temp_min := 10000 * min, temp_max := 10000 * max }) ∧
    (∃ s, main_led_state w { temp_min := 10000 * min, temp_max := 10000 * max }
        (main_temp w raw) = some s ∧ 1 ≤ s ∧ s ≤ 7) ∧
    (∀ (std_strtol : String → Option Int) (limits : limits_t) (argv : List String),
      argv.length = 3 → std_strtol (argv.getD 1 "") = some min →
      std_strtol (argv.getD 2 "") = some max →
      (set_min_max w std_strtol limits argv).1
        = { temp_min := 10000 * min, temp_max := 10000 * max } ∧
      (set_min_max w std_strtol limits argv).2.2 = 0) ∧
    limits_init = { temp_min := 10000 * 23, temp_max := 10000 * 29 } := by
  have hlow : ∀ t, t ≤ 10000 * min →
      main_led_state w { temp_min := 10000 * min, temp_max := 10000 * max } t = some 0x1 := by
    intro t ht
    unfold main_led_state
    simp only
    rw [if_pos ht]
  have hhigh : ∀ t, 10000 * min < t → 10000 * max ≤ t →
      main_led_state w { temp_min := 10000 * min, temp_max := 10000 * max } t = some 0x7 := by
    intro t ht1 ht2
    unfold main_led_state
    simp only
    rw [if_neg (by omega), if_pos ht2]
  refine ⟨main_temp_eq w raw hw hraw, hlow _, hhigh _, ?_, ?_, ?_, by decide⟩
  · intro h1 h2
    obtain ⟨e1, e2, _⟩ := main_led_state_else w min max _ hw hspan h1 h2
    exact ⟨e1, e2⟩
  · by_cases h1 : main_temp w raw ≤ 10000 * min
    · exact ⟨1, hlow _ h1, by decide, by decide⟩
    · by_cases h2 : 10000 * max ≤ main_temp w raw
      · exact ⟨7, hhigh _ (by omega) h2, by decide, by decide⟩
      · exact (main_led_state_else w min max _ hw hspan (by omega) (by omega)).2.2
  · intro std_strtol limits argv h3 hs1 hs2
    unfold set_min_max
    rw [if_neg (by simp [h3]), hs1, hs2]
    simp only
    rw [wrap_long_id w _ (by omega) hmin.1 hmin.2, wrap_long_id w _ (by omega) hmax.1 hmax.2]
    simp

/-- Witness for `main_led_state_range`: a 32-bit `long`, the initial limits 23
and 29 degrees, and the reading 401 (25.0625 degrees). -/
theorem main_led_state_range_witness :
    32 ≤ 32 ∧ ((-32768 : Int) ≤ 401 ∧ (401 : Int) < 32768) ∧
    main_temp 32 401 = 250625 ∧
    main_led_state 32 limits_init (main_temp 32 401) = some 2 ∧
    (set_min_max 32 ex_strtol_limits limits_init ["set_min_max", "23", "29"]).1 = limits_init ∧
    ∃ s, main_led_state 32 { temp_min := 10000 * 23, temp_max := 10000 * 29 } (main_temp 32 401)
      = some s ∧ 1 ≤ s ∧ s ≤ 7 :=
  ⟨by decide, by decide, by decide, by decide, by decide,
    (main_led_state_range 32 23 29 401 (by decide) (by decide) (by decide) (by decide)
      (by decide)).2.2.2.2.1⟩

/-- C40 fails for wide limits.  With a 32-bit `long`, `set_min_max -200000
200000` installs `temp_min = -2000000000` and `temp_max = 2000000000`, both of
the form `10000 * min` and in range.  For the reading 0 the temperature 0 lies
strictly between them, `temp_max - temp_min` overflows, `resolution` comes out
negative and the LED state sent is 202.  A 64-bit `long` shows the same with
the limits `-9 * 10^14` and `9 * 10^14`. -/
theorem wide_limits_overflow :
    (set_min_max 32 ex_strtol_limits limits_init ["set_min_max", "-200000", "200000"]).1
      = { temp_min := 10000 * -200000, temp_max := 10000 * 200000 } ∧
    (-2 ^ 31 ≤ (10000 * -200000 : Int) ∧ (10000 * 200000 : Int) < 2 ^ 31) ∧
    main_temp 32 0 = 625 * 0 ∧
    ((10000 * -200000 : Int) < main_temp 32 0 ∧ main_temp 32 0 < 10000 * 200000) ∧
    main_resolution 32 { temp_min := 10000 * -200000, temp_max := 10000 * 200000 }
      = -36870912 ∧
    main_led_state 32 { temp_min := 10000 * -200000, temp_max := 10000 * 200000 }
      (main_temp 32 0) = some 202 ∧
    main_led_state 64
      { temp_min := 10000 * -900000000000000, temp_max := 10000 * 900000000000000 }
      (main_temp 64 0) = some 95 := by
  decide

/-! ## The pre-order walk of the thread tree -/

theorem mem_foldr_preorder (mem : Nat → thrd_t) (d z : Nat) :
    ∀ cs : List Nat, z ∈ cs.foldr (fun c acc => preorder mem d c ++ acc) [] ↔
      ∃ c ∈ cs, z ∈ preorder mem d c := by
  intro cs
  induction cs with
  | nil => simp
  | cons c cs ih =>
    simp only [List.foldr_cons, List.mem_append, ih, List.mem_cons]
    constructor
    · rintro (h | ⟨c1, h1, h2⟩)
      · exact ⟨c, Or.inl rfl, h⟩
      · exact ⟨c1, Or.inr h1, h2⟩
    · rintro ⟨c1, h1 | h1, h2⟩
      · exact Or.inl (h1 ▸ h2)
      · exact Or.inr ⟨c1, h1, h2⟩

theorem mem_preorder_succ (mem : Nat → thrd_t) (d p z : Nat) :
    z ∈ preorder mem (d + 1) p ↔ z = p ∨ ∃ c ∈ (mem p).children, z ∈ preorder mem d c := by
  simp only [preorder, List.mem_cons, mem_foldr_preorder]

theorem preorder_self (mem : Nat → thrd_t) (d p : Nat) (hd : 0 < d) : p ∈ preorder mem d p := by
  obtain ⟨e, rfl⟩ : ∃ e, d = e + 1 := ⟨d - 1, by omega⟩
  exact (mem_preorder_succ mem e p p).2 (Or.inl rfl)

theorem tree_depth_pos (mem : Nat → thrd_t) (d p : Nat) (h : tree_depth mem d p) : 0 < d := by
  cases d with
  | zero => exact absurd h (by simp [tree_depth])
  | succ d => omega

/-- The walk from a thread in use meets threads in use only. -/
theorem preorder_live (C : config_t) (k : Kernel) (live : List Nat) (hinv : tree_inv C k live) :
    ∀ (d y : Nat), y ∈ live → ∀ z ∈ preorder k.mem d y, z ∈ live := by
  intro d
  induction d with
  | zero => intro y _ z hz; simp [preorder] at hz
  | succ d ih =>
    intro y hy z hz
    rcases (mem_preorder_succ k.mem d y z).1 hz with e | ⟨c, hc, hzc⟩
    · rw [e]; exact hy
    · exact ih c ((hinv.2.2.2.1 y hy).2 c hc).1 z hzc

/-- The walk from `y` meets `y` and threads of greater rank. -/
theorem preorder_rank (C : config_t) (k : Kernel) (live : List Nat) (rank : Nat → Nat)
    (hinv : tree_inv C k live)
    (hr : ∀ P ∈ live, ∀ T ∈ (k.mem P).children, rank P < rank T) :
    ∀ (d y : Nat), y ∈ live → ∀ z ∈ preorder k.mem d y, z = y ∨ rank y < rank z := by
  intro d
  induction d with
  | zero => intro y _ z hz; simp [preorder] at hz
  | succ d ih =>
    intro y hy z hz
    rcases (mem_preorder_succ k.mem d y z).1 hz with e | ⟨c, hc, hzc⟩
    · exact Or.inl e
    · have hcl := ((hinv.2.2.2.1 y hy).2 c hc).1
      have h1 := hr y hy c hc
      rcases ih c hcl z hzc with e | h2
      · rw [e]; exact Or.inr h1
      · exact Or.inr (by omega)

/-- A thread met by the walk from `y`, other than `y`, has its parent in the
walk. -/
theorem preorder_parent (C : config_t) (k : Kernel) (live : List Nat)
    (hinv : tree_inv C k live) :
    ∀ (d y : Nat), y ∈ live → ∀ z ∈ preorder k.mem d y, z ≠ y →
      ∃ Q, (k.mem z).parent = some Q ∧ Q ∈ preorder k.mem d y := by
  intro d
  induction d with
  | zero => intro y _ z hz; simp [preorder] at hz
  | succ d ih =>
    intro y hy z hz hzy
    rcases (mem_preorder_succ k.mem d y z).1 hz with e | ⟨c, hc, hzc⟩
    · exact absurd e hzy
    · obtain ⟨hcl, _, hcp⟩ := (hinv.2.2.2.1 y hy).2 c hc
      by_cases hzc1 : z = c
      · rw [hzc1]
        exact ⟨y, hcp, preorder_self k.mem (d + 1) y (by omega)⟩
      · obtain ⟨Q, hQ, hQc⟩ := ih c hcl z hzc hzc1
        exact ⟨Q, hQ, (mem_preorder_succ k.mem d y Q).2 (Or.inr ⟨c, hc, hQc⟩)⟩

/-- Two walks that meet a common thread are nested. -/
theorem preorder_nested (C : config_t) (k : Kernel) (live : List Nat)
    (hinv : tree_inv C k live) (z : Nat) :
    ∀ (d1 d2 T1 T2 : Nat), T1 ∈ live → T2 ∈ live →
      z ∈ preorder k.mem d1 T1 → z ∈ preorder k.mem d2 T2 →
      T1 ∈ preorder k.mem d2 T2 ∨ T2 ∈ preorder k.mem d1 T1 := by
  intro d1
  induction d1 with
  | zero => intro d2 T1 T2 _ _ h1; simp [preorder] at h1
  | succ d1 ih =>
    intro d2 T1 T2 hT1 hT2 h1 h2
    cases d2 with
    | zero => simp [preorder] at h2
    | succ d2 =>
      rcases (mem_preorder_succ k.mem d1 T1 z).1 h1 with e1 | ⟨c1, hc1, hz1⟩
      · exact Or.inl (e1 ▸ h2)
      · rcases (mem_preorder_succ k.mem d2 T2 z).1 h2 with e2 | ⟨c2, hc2, hz2⟩
        · exact Or.inr (e2 ▸ h1)
        · obtain ⟨hc1l, _, hc1p⟩ := (hinv.2.2.2.1 T1 hT1).2 c1 hc1
          obtain ⟨hc2l, _, hc2p⟩ := (hinv.2.2.2.1 T2 hT2).2 c2 hc2
          rcases ih d2 c1 c2 hc1l hc2l hz1 hz2 with h | h
          · left
            by_cases e : c1 = c2
            · have e3 : T1 = T2 := by
                rw [e, hc2p] at hc1p
                exact (Option.some.inj hc1p).symm
              rw [e3]
              exact preorder_self k.mem (d2 + 1) T2 (by omega)
            · obtain ⟨Q, hQ, hQc⟩ := preorder_parent C k live hinv d2 c2 hc2l c1 h e
              have e3 : Q = T1 := by
                rw [hc1p] at hQ
                exact (Option.some.inj hQ).symm
              rw [e3] at hQc
              exact (mem_preorder_succ k.mem d2 T2 T1).2 (Or.inr ⟨c2, hc2, hQc⟩)
          · right
            by_cases e : c2 = c1
            · have e3 : T2 = T1 := by
                rw [e, hc1p] at hc2p
                exact (Option.some.inj hc2p).symm
              rw [e3]
              exact preorder_self k.mem (d1 + 1) T1 (by omega)
            · obtain ⟨Q, hQ, hQc⟩ := preorder_parent C k live hinv d1 c1 hc1l c2 h e
              have e3 : Q = T2 := by
                rw [hc2p] at hQ
                exact (Option.some.inj hQ).symm
              rw [e3] at hQc
              exact (mem_preorder_succ k.mem d1 T1 T2).2 (Or.inr ⟨c1, hc1, hQc⟩)

/-- The walks from two different children of a thread meet no common thread. -/
theorem preorder_siblings (C : config_t) (k : Kernel) (live : List Nat) (rank : Nat → Nat)
    (hinv : tree_inv C k live)
    (hr : ∀ P ∈ live, ∀ T ∈ (k.mem P).children, rank P < rank T)
    (d P T1 T2 z : Nat) (hP : P ∈ live) (h1 : T1 ∈ (k.mem P).children)
    (h2 : T2 ∈ (k.mem P).children) (hne : T1 ≠ T2)
    (hz1 : z ∈ preorder k.mem d T1) (hz2 : z ∈ preorder k.mem d T2) : False := by
  obtain ⟨hT1l, _, hT1p⟩ := (hinv.2.2.2.1 P hP).2 T1 h1
  obtain ⟨hT2l, _, hT2p⟩ := (hinv.2.2.2.1 P hP).2 T2 h2
  have key : ∀ A B : Nat, A ∈ (k.mem P).children → B ∈ (k.mem P).children → A ≠ B →
      A ∈ live → B ∈ live → (k.mem A).parent = some P → A ∈ preorder k.mem d B → False := by
    intro A B hA hB hAB hAl hBl hAp hAB1
    obtain ⟨Q, hQ, hQB⟩ := preorder_parent C k live hinv d B hBl A hAB1 hAB
    have e : Q = P := by
      rw [hAp] at hQ
      exact (Option.some.inj hQ).symm
    rw [e] at hQB
    have hlt := hr P hP B hB
    rcases preorder_rank C k live rank hinv hr d B hBl P hQB with e1 | h3
    · rw [e1] at hlt
      omega
    · omega
  rcases preorder_nested C k live hinv z d d T1 T2 hT1l hT2l hz1 hz2 with h | h
  · exact key T1 T2 h1 h2 hne hT1l hT2l hT1p h
  · exact key T2 T1 h2 h1 (fun e => hne e.symm) hT2l hT1l hT2p h

/-- The walk from a thread in use meets no thread twice. -/
theorem preorder_nodup (C : config_t) (k : Kernel) (live : List Nat) (rank : Nat → Nat)
    (hinv : tree_inv C k live)
    (hr : ∀ P ∈ live, ∀ T ∈ (k.mem P).children, rank P < rank T) :
    ∀ (d y : Nat), y ∈ live → (preorder k.mem d y).Nodup := by
  intro d
  induction d with
  | zero => intro y _; simp [preorder]
  | succ d ih =>
    intro y hy
    have hsub : ∀ cs : List Nat, cs.Nodup → (∀ c ∈ cs, c ∈ (k.mem y).children) →
        (cs.foldr (fun c acc => preorder k.mem d c ++ acc) []).Nodup := by
      intro cs
      induction cs with
      | nil => intro _ _; simp
      | cons c cs ihc =>
        intro hnd hcs
        have hc := hcs c (List.mem_cons_self c cs)
        have hcl := ((hinv.2.2.2.1 y hy).2 c hc).1
        simp only [List.foldr_cons]
        rw [List.nodup_append]
        refine ⟨ih c hcl, ihc (List.nodup_cons.1 hnd).2
          (fun x hx => hcs x (List.mem_cons_of_mem c hx)), ?_⟩
        intro z hz1 hz2
        obtain ⟨c1, hc1, hz3⟩ := (mem_foldr_preorder k.mem d z cs).1 hz2
        have hne : c ≠ c1 := fun e => (List.nodup_cons.1 hnd).1 (e ▸ hc1)
        exact preorder_siblings C k live rank hinv hr d y c c1 z hy hc
          (hcs c1 (List.mem_cons_of_mem c hc1)) hne hz1 hz3
    show (y :: (k.mem y).children.foldr (fun c acc => preorder k.mem d c ++ acc) []).Nodup
    rw [List.nodup_cons]
    refine ⟨?_, hsub _ (hinv.2.2.2.1 y hy).1 (fun c hc => hc)⟩
    intro hmem
    obtain ⟨c, hc, hyc⟩ := (mem_foldr_preorder k.mem d y _).1 hmem
    have hcl := ((hinv.2.2.2.1 y hy).2 c hc).1
    have hlt := hr y hy c hc
    rcases preorder_rank C k live rank hinv hr d c hcl y hyc with e | h3
    · rw [e] at hlt
      omega
    · omega

/-- With ranks below the number of threads the tree is finite. -/
theorem tree_depth_of_rank (C : config_t) (k : Kernel) (live : List Nat) (rank : Nat → Nat)
    (hinv : tree_inv C k live) (hb : ∀ x ∈ live, rank x < live.length)
    (hr : ∀ P ∈ live, ∀ T ∈ (k.mem P).children, rank P < rank T) :
    ∀ (n y : Nat), y ∈ live → live.length - rank y ≤ n → tree_depth k.mem n y := by
  intro n
  induction n with
  | zero =>
    intro y hy h
    have := hb y hy
    omega
  | succ n ih =>
    intro y hy h c hc
    have hcl := ((hinv.2.2.2.1 y hy).2 c hc).1
    have hlt := hr y hy c hc
    exact ih c hcl (by omega)

/-- The walk of a finite tree meets the children of every thread it meets. -/
theorem preorder_children (mem : Nat → thrd_t) :
    ∀ (d r : Nat), tree_depth mem d r → ∀ P ∈ preorder mem d r,
      ∀ T ∈ (mem P).children, T ∈ preorder mem d r := by
  intro d
  induction d with
  | zero => intro r h; exact absurd h (by simp [tree_depth])
  | succ d ih =>
    intro r h P hP T hT
    have hch : ∀ c ∈ (mem r).children, tree_depth mem d c := h
    rcases (mem_preorder_succ mem d r P).1 hP with e | ⟨c, hc, hPc⟩
    · rw [e] at hT
      exact (mem_preorder_succ mem d r T).2 (Or.inr ⟨T, hT,
        preorder_self mem d T (tree_depth_pos mem d T (hch T hT))⟩)
    · exact (mem_preorder_succ mem d r T).2 (Or.inr ⟨c, hc, ih c (hch c hc) P hPc T hT⟩)

/-- The walk from `main_thrd` meets every thread in use. -/
theorem preorder_covers (C : config_t) (k : Kernel) (live : List Nat) (rank : Nat → Nat)
    (hinv : tree_inv C k live) (d : Nat) (hd : tree_depth k.mem d C.main_thrd)
    (hr : ∀ P ∈ live, ∀ T ∈ (k.mem P).children, rank P < rank T) :
    ∀ (n T : Nat), T ∈ live → rank T ≤ n → T ∈ preorder k.mem d C.main_thrd := by
  intro n
  induction n with
  | zero =>
    intro T hT hn
    by_cases e : T = C.main_thrd
    · rw [e]
      exact preorder_self k.mem d _ (tree_depth_pos k.mem d _ hd)
    · obtain ⟨P, hP, _, hTP⟩ := hinv.2.2.2.2 T hT e
      have := hr P hP T hTP
      omega
  | succ n ih =>
    intro T hT hn
    by_cases e : T = C.main_thrd
    · rw [e]
      exact preorder_self k.mem d _ (tree_depth_pos k.mem d _ hd)
    · obtain ⟨P, hP, _, hTP⟩ := hinv.2.2.2.2 T hT e
      have hlt := hr P hP T hTP
      exact preorder_children k.mem d C.main_thrd hd P (ih P hP (by omega)) T hTP

theorem sublist_foldr_preorder (mem : Nat → thrd_t) (d c : Nat) :
    ∀ cs : List Nat, c ∈ cs →
      List.Sublist (preorder mem d c) (cs.foldr (fun c acc => preorder mem d c ++ acc) []) := by
  intro cs
  induction cs with
  | nil => intro h; simp at h
  | cons a cs ih =>
    intro h
    simp only [List.foldr_cons]
    rcases List.mem_cons.1 h with e | h1
    · rw [e]
      exact List.sublist_append_left _ _
    · exact (ih h1).trans (List.sublist_append_right _ _)

theorem children_sublist_foldr (mem : Nat → thrd_t) (d : Nat) :
    ∀ cs : List Nat, (∀ c ∈ cs, tree_depth mem d c) →
      List.Sublist cs (cs.foldr (fun c acc => preorder mem d c ++ acc) []) := by
  intro cs
  induction cs with
  | nil => intro _; simp
  | cons a cs ih =>
    intro h
    simp only [List.foldr_cons]
    have ha := tree_depth_pos mem d a (h a (List.mem_cons_self a cs))
    obtain ⟨e, rfl⟩ : ∃ e, d = e + 1 := ⟨d - 1, by omega⟩
    have h1 : List.Sublist [a] (preorder mem (e + 1) a) := by
      show List.Sublist [a] (a :: _)
      exact List.Sublist.cons₂ a (List.nil_sublist _)
    have h2 := ih (fun c hc => h c (List.mem_cons_of_mem a hc))
    exact List.Sublist.append h1 h2

/-- In the walk of a finite tree every thread comes before its children, and
these come in list order. -/
theorem preorder_order (mem : Nat → thrd_t) :
    ∀ (d r : Nat), tree_depth mem d r → ∀ P ∈ preorder mem d r,
      List.Sublist (P :: (mem P).children) (preorder mem d r) := by
  intro d
  induction d with
  | zero => intro r h; exact absurd h (by simp [tree_depth])
  | succ d ih =>
    intro r h P hP
    have hch : ∀ c ∈ (mem r).children, tree_depth mem d c := h
    rcases (mem_preorder_succ mem d r P).1 hP with e | ⟨c, hc, hPc⟩
    · rw [e]
      show List.Sublist (r :: (mem r).children) (r :: _)
      exact List.Sublist.cons₂ r (children_sublist_foldr mem d _ hch)
    · have h1 := ih c (hch c hc) P hPc
      have h2 := sublist_foldr_preorder mem d c _ hc
      show List.Sublist (P :: (mem P).children) (r :: _)
      exact List.Sublist.cons r (h1.trans h2)

/-- In a state with a consistent, ranked thread tree the walk from `main_thrd`
to depth `live.length` is the walk of the whole tree and meets every thread in
use exactly once. -/
theorem tree_walk_spec (C : config_t) (k : Kernel) (live : List Nat)
    (hinv : tree_inv C k live) (hnd : live.Nodup) (hrk : tree_ranked k live) :
    tree_depth k.mem live.length C.main_thrd ∧
    (preorder k.mem live.length C.main_thrd).Nodup ∧
    List.Perm (preorder k.mem live.length C.main_thrd) live := by
  obtain ⟨rank, hb, hr⟩ := hrk
  have hmain := hinv.2.1
  have hd : tree_depth k.mem live.length C.main_thrd :=
    tree_depth_of_rank C k live rank hinv hb hr live.length C.main_thrd hmain (by omega)
  have hn := preorder_nodup C k live rank hinv hr live.length C.main_thrd hmain
  refine ⟨hd, hn, (List.perm_ext_iff_of_nodup hn hnd).2 ?_⟩
  intro a
  constructor
  · exact preorder_live C k live hinv live.length C.main_thrd hmain a
  · intro ha
    exact preorder_covers C k live rank hinv live.length hd hr (rank a) a ha (le_refl _)

/-! ## The thread tree of a reachable state is ranked -/

theorem module_init_pre_tree_inv (C : config_t) (mem : Nat → thrd_t) :
    tree_inv C (module_init_pre C (boot_kernel mem)) [C.main_thrd] := by
  have hmain : (module_init_pre C (boot_kernel mem)).mem C.main_thrd
      = { prev_p := none, next_p := none, prio := 0, state := THRD_STATE_CURRENT, err := 0,
          log_mask := C.LOG_UPTO_NOTICE, name_p := "main", parent := none, children := [],
          stack_low_magic := THRD_STACK_LOW_MAGIC, stack_size := C.main_stack_size,
          stack := thrd_fill_pattern ((boot_kernel mem).mem C.main_thrd).stack
            C.main_fill_size } := by
    simp [module_init_pre, mem_set]
  refine ⟨⟨?_, ?_, ?_⟩, by simp, by rw [hmain], ?_, ?_⟩
  · intro c hc
    have e : some C.main_thrd = some c := hc
    simp [(Option.some.inj e).symm]
  · intro p hp
    have e : (none : Option Nat) = some p := hp
    cases e
  · intro x hx y hy
    have e : x = C.main_thrd := by simpa using hx
    rw [e, hmain] at hy
    cases hy
  · intro P hP
    have e : P = C.main_thrd := by simpa using hP
    rw [e, hmain]
    simp
  · intro T hT hTm
    exact absurd (by simpa using hT) hTm

theorem spawn_tree_ranked (C : config_t) (fuel : Nat) (k k1 : Kernel) (live : List Nat)
    (port_err prio : Int) (stack_p stack_size : Nat) (r : Option Nat)
    (hinv : tree_inv C k live) (hnd : live.Nodup) (hrk : tree_ranked k live)
    (hfresh : stack_p ∉ live)
    (h : thrd_spawn C fuel k port_err prio stack_p stack_size = Except.ok (k1, r)) :
    (live ++ [stack_p]).Nodup ∧ tree_ranked k1 (live ++ [stack_p]) := by
  obtain ⟨c, hc, _, hp⟩ := spawn_ok_spec C fuel k k1 port_err prio stack_p stack_size r h
  have hcl : c ∈ live := hinv.1.1 c hc
  have hsc : stack_p ≠ c := fun e => hfresh (e ▸ hcl)
  have hsame := tree_same_of_links_only (push_links_only stack_p fuel _ k1 hp)
  have hnew := spawn_pre_tree_new C k c prio stack_p stack_size hsc
  obtain ⟨rank, hb, hr⟩ := hrk
  refine ⟨?_, fun x => if x = stack_p then live.length else rank x, ?_, ?_⟩
  · rw [List.nodup_append]
    refine ⟨hnd, List.nodup_singleton _, ?_⟩
    intro a ha hb1
    have e : a = stack_p := by simpa using hb1
    exact hfresh (e ▸ ha)
  · intro x hx
    rw [List.length_append]
    by_cases e : x = stack_p
    · simp [e]
    · have hxl : x ∈ live := by
        rcases List.mem_append.1 hx with h1 | h1
        · exact h1
        · exact absurd (by simpa using h1) e
      have := hb x hxl
      simp only [if_neg e, List.length_singleton]
      omega
  · intro P hP T hT
    rw [(hsame P).2] at hT
    by_cases e : P = stack_p
    · rw [e, hnew.2.1] at hT
      simp at hT
    · have hPl : P ∈ live := by
        rcases List.mem_append.1 hP with h1 | h1
        · exact h1
        · exact absurd (by simpa using h1) e
      rw [(spawn_pre_tree_old C k c prio stack_p stack_size P e).2.1] at hT
      have hold : T ∈ (k.mem P).children → rank P < rank T ∧ T ≠ stack_p := by
        intro hT1
        have hTl := ((hinv.2.2.2.1 P hPl).2 T hT1).1
        exact ⟨hr P hPl T hT1, fun e1 => hfresh (e1 ▸ hTl)⟩
      by_cases hPc : P = c
      · rw [if_pos hPc] at hT
        rcases List.mem_append.1 hT with h1 | h1
        · obtain ⟨h2, h3⟩ := hold h1
          simp only [if_neg e, if_neg h3]
          exact h2
        · have e1 : T = stack_p := by simpa using h1
          have := hb P hPl
          simp only [if_neg e, e1, if_pos rfl]
          exact this
      · rw [if_neg hPc] at hT
        obtain ⟨h2, h3⟩ := hold hT
        simp only [if_neg e, if_neg h3]
        exact h2

theorem tree_ranked_same (k k1 : Kernel) (live : List Nat) (hs : tree_same k k1)
    (hrk : tree_ranked k live) : tree_ranked k1 live := by
  obtain ⟨rank, hb, hr⟩ := hrk
  refine ⟨rank, hb, ?_⟩
  intro P hP T hT
  rw [(hs P).2] at hT
  exact hr P hP T hT

theorem module_init_tree_ranked (C : config_t) (fuel : Nat) (mem : Nat → thrd_t)
    (idle_err monitor_err : Int) (k : Kernel) (r : Int) (hC : layout_ok C)
    (h : thrd_module_init C fuel (boot_kernel mem) idle_err monitor_err = Except.ok (k, r)) :
    [C.main_thrd, C.idle_thrd_stack, C.monitor_thrd_stack].Nodup ∧
    tree_ranked k [C.main_thrd, C.idle_thrd_stack, C.monitor_thrd_stack] := by
  rw [thrd_module_init_unfold] at h
  have hinv2 := module_init_pre_tree_inv C mem
  have hrk2 : tree_ranked (module_init_pre C (boot_kernel mem)) [C.main_thrd] := by
    refine ⟨fun _ => 0, by simp, ?_⟩
    intro P hP T hT
    have e : P = C.main_thrd := by simpa using hP
    have hch : ((module_init_pre C (boot_kernel mem)).mem C.main_thrd).children = [] := by
      simp [module_init_pre, mem_set]
    rw [e, hch] at hT
    simp at hT
  have hf1 : C.idle_thrd_stack ∉ [C.main_thrd] := by simpa using hC.1.symm
  cases h3 : thrd_spawn C fuel (module_init_pre C (boot_kernel mem)) idle_err 127
      C.idle_thrd_stack C.sizeof_idle_thrd_stack with
  | error f => rw [h3] at h; simp at h
  | ok p3 =>
    obtain ⟨k3, r3⟩ := p3
    rw [h3] at h
    simp only at h
    have hinv3 := spawn_tree_inv C fuel _ k3 [C.main_thrd] idle_err 127 _ _ r3 hinv2 hf1 h3
    obtain ⟨hnd3, hrk3⟩ := spawn_tree_ranked C fuel _ k3 [C.main_thrd] idle_err 127 _ _ r3
      hinv2 (List.nodup_singleton _) hrk2 hf1 h3
    have hf2 : C.monitor_thrd_stack ∉ [C.main_thrd] ++ [C.idle_thrd_stack] := by
      have h2 := hC.2.1
      have h3 := hC.2.2
      simp
      exact ⟨fun e => h2 e.symm, fun e => h3 e.symm⟩
    cases h4 : thrd_spawn C fuel k3 monitor_err THRD_MONITOR_PRIO C.monitor_thrd_stack
        C.sizeof_monitor_thrd_stack with
    | error f => rw [h4] at h; simp at h
    | ok p4 =>
      obtain ⟨k4, r4⟩ := p4
      rw [h4] at h
      simp only [Except.ok.injEq, Prod.mk.injEq] at h
      rw [← h.1]
      exact spawn_tree_ranked C fuel k3 k4 _ monitor_err THRD_MONITOR_PRIO _ _ r4 hinv3 hnd3
        hrk3 hf2 h4

/-- In every state reachable from `thrd_module_init` the threads in use are
pairwise distinct and their tree is ranked. -/
theorem reachable_tree_ranked (E : errno_t) (C : config_t) (hC : layout_ok C) (poll : Bool)
    (k : Kernel) (live : List Nat) (h : reachable E C poll k live) :
    live.Nodup ∧ tree_ranked k live := by
  induction h with
  | init fuel mem e1 e2 k r h => exact module_init_tree_ranked C fuel mem e1 e2 k r hC h
  | spawn fuel k live pe prio sp ss k1 r hprev hfresh h ih =>
    exact spawn_tree_ranked C fuel k k1 live pe prio sp ss r
      (reachable_tree_inv E C hC poll k live hprev) ih.1 ih.2 hfresh h
  | suspend fuel k live tp k1 r _ _ h ih =>
    exact ⟨ih.1, tree_ranked_same k k1 live
      (suspend_isr_step (fun _ => True) E fuel k k1 tp r (ptr_closed_univ k) h).2 ih.2⟩
  | resume fuel k live t e k1 r _ _ h ih =>
    exact ⟨ih.1, tree_ranked_same k k1 live
      (resume_step (fun _ => True) fuel k k1 t e r trivial (ptr_closed_univ k) h).2 ih.2⟩
  | terminate k live k1 b _ h ih =>
    exact ⟨ih.1, tree_ranked_same k k1 live
      (terminate_step (fun _ => True) E k k1 b (ptr_closed_univ k) h).2 ih.2⟩

/-! ## The introspection walks -/

/-- On a finite tree `thrd_list_thrd`, given fuel for its depth, prints the
lines of the threads of the pre-order walk, in that order. -/
theorem thrd_list_thrd_spec (C : config_t) (cpu_usage : Nat → Nat) (k : Kernel) :
    ∀ (d fuel p : Nat), tree_depth k.mem d p → d ≤ fuel →
      thrd_list_thrd C cpu_usage k fuel p
        = Except.ok ((preorder k.mem d p).map (thrd_list_row C cpu_usage k)) := by
  intro d
  induction d with
  | zero => intro fuel p h; exact absurd h (by simp [tree_depth])
  | succ d ih =>
    intro fuel p ht hd
    obtain ⟨f, rfl⟩ : ∃ f, fuel = f + 1 := ⟨fuel - 1, by omega⟩
    have hdf : d ≤ f := by omega
    have hloop : ∀ cs : List Nat, (∀ c ∈ cs, tree_depth k.mem d c) →
        thrd_list_thrd_children (thrd_list_thrd C cpu_usage k f) cs
          = Except.ok ((cs.foldr (fun c acc => preorder k.mem d c ++ acc) []).map
              (thrd_list_row C cpu_usage k)) := by
      intro cs
      induction cs with
      | nil => intro _; rfl
      | cons c cs ihc =>
        intro hcs
        have h1 := ih f c (hcs c (List.mem_cons_self c cs)) hdf
        have h2 := ihc (fun x hx => hcs x (List.mem_cons_of_mem c hx))
        simp only [thrd_list_thrd_children, h1, h2, List.foldr_cons, List.map_append]
    have hcs : ∀ c ∈ (k.mem p).children, tree_depth k.mem d c := ht
    simp only [thrd_list_thrd, hloop _ hcs, preorder, List.map_cons]

/-- On a finite tree `update_cpu_usage`, given fuel for its depth, samples the
threads of the pre-order walk, in that order. -/
theorem update_cpu_usage_spec (mem : Nat → thrd_t) (print : Int) :
    ∀ (d fuel p : Nat) (s : cpu_t), tree_depth mem d p → d ≤ fuel →
      update_cpu_usage mem print fuel p s
        = Except.ok ((preorder mem d p).foldl (update_cpu_usage_visit mem print) s) := by
  intro d
  induction d with
  | zero => intro fuel p s h; exact absurd h (by simp [tree_depth])
  | succ d ih =>
    intro fuel p s ht hd
    obtain ⟨f, rfl⟩ : ∃ f, fuel = f + 1 := ⟨fuel - 1, by omega⟩
    have hdf : d ≤ f := by omega
    have hloop : ∀ (cs : List Nat) (s1 : cpu_t), (∀ c ∈ cs, tree_depth mem d c) →
        update_cpu_usage_children (update_cpu_usage mem print f) cs s1
          = Except.ok ((cs.foldr (fun c acc => preorder mem d c ++ acc) []).foldl
              (update_cpu_usage_visit mem print) s1) := by
      intro cs
      induction cs with
      | nil => intro s1 _; rfl
      | cons c cs ihc =>
        intro s1 hcs
        have h1 := ih f c s1 (hcs c (List.mem_cons_self c cs)) hdf
        simp only [update_cpu_usage_children, h1, List.foldr_cons, List.foldl_append]
        exact ihc _ (fun x hx => hcs x (List.mem_cons_of_mem c hx))
    have hcs : ∀ c ∈ (mem p).children, tree_depth mem d c := ht
    simp only [update_cpu_usage, hloop _ _ hcs, preorder, List.foldl_cons]

/-- Sampling pairwise distinct threads one after the other stores for each of
them the usage the port had accounted, resets the port's account of each and
leaves the other threads alone. -/
theorem foldl_visit_spec (mem : Nat → thrd_t) (print : Int) :
    ∀ (l : List Nat) (s : cpu_t), l.Nodup →
      (∀ x, ((l.foldl (update_cpu_usage_visit mem print) s).usage x
          = if x ∈ l then s.port_usage x else s.usage x) ∧
        ((l.foldl (update_cpu_usage_visit mem print) s).port_usage x
          = if x ∈ l then 0 else s.port_usage x)) := by
  intro l
  induction l with
  | nil => intro s _ x; simp
  | cons a l ih =>
    intro s hnd x
    have hal : a ∉ l := (List.nodup_cons.1 hnd).1
    obtain ⟨h1, h2⟩ := ih (update_cpu_usage_visit mem print s a) (List.nodup_cons.1 hnd).2 x
    simp only [List.foldl_cons, h1, h2, List.mem_cons]
    have hu : (update_cpu_usage_visit mem print s a).usage x
        = if x = a then s.port_usage a else s.usage x := by
      unfold update_cpu_usage_visit
      by_cases hp : print = 1 <;> simp [hp]
    have hp : (update_cpu_usage_visit mem print s a).port_usage x
        = if x = a then 0 else s.port_usage x := by
      unfold update_cpu_usage_visit
      by_cases hp : print = 1 <;> simp [hp]
    rw [hu, hp]
    by_cases hxa : x = a
    · have hxl : x ∉ l := hxa ▸ hal
      simp [hxa, hal]
    · by_cases hxl : x ∈ l <;> simp [hxa, hxl]

/-- C33: the introspection walks are pre-order traversals.  In every state
reachable from `thrd_module_init`, with fuel for as many levels as there are
threads in use, `thrd_list_thrd` and `update_cpu_usage` started at `main_thrd`
return; the threads they visit, in the order of the visits, are the pre-order
walk `order` of the tree.  It starts with `main_thrd`, holds every thread in
use exactly once, every thread before its children and these in list order.
`thrd_list_thrd` prints for each visited thread its own name with its
parent's name, the empty string for `main_thrd`; `update_cpu_usage` stores for
each thread in use the usage the port had accounted for it. -/
theorem introspection_walk_preorder (E : errno_t) (C : config_t) (poll : Bool) (k : Kernel)
    (live : List Nat) (cpu_usage : Nat → Nat) (print : Int) (s : cpu_t) (fuel : Nat)
    (hC : layout_ok C) (h : reachable E C poll k live) (hf : live.length ≤ fuel) :
    ∃ order : List Nat,
      order = preorder k.mem live.length C.main_thrd ∧
      (∀ e, live.length ≤ e → preorder k.mem e C.main_thrd = order) ∧
      List.Perm order live ∧ order.Nodup ∧
      order.head? = some C.main_thrd ∧
      (∀ P ∈ live, List.Sublist (P :: (k.mem P).children) order) ∧
      thrd_list_thrd C cpu_usage k fuel C.main_thrd
        = Except.ok (order.map (thrd_list_row C cpu_usage k)) ∧
      (∀ x, (thrd_list_row C cpu_usage k x).name = (k.mem x).name_p) ∧
      (∀ x P, (k.mem x).parent = some P →
        (thrd_list_row C cpu_usage k x).parent_name = (k.mem P).name_p) ∧
      (thrd_list_row C cpu_usage k C.main_thrd).parent_name = "" ∧
      update_cpu_usage k.mem print fuel C.main_thrd s
        = Except.ok (order.foldl (update_cpu_usage_visit k.mem print) s) ∧
      (∀ x, ((order.foldl (update_cpu_usage_visit k.mem print) s).usage x
          = if x ∈ live then s.port_usage x else s.usage x) ∧
        ((order.foldl (update_cpu_usage_visit k.mem print) s).port_usage x
          = if x ∈ live then 0 else s.port_usage x)) := by
  have hinv := reachable_tree_inv E C hC poll k live h
  obtain ⟨hnd, hrk⟩ := reachable_tree_ranked E C hC poll k live h
  obtain ⟨hd, hn, hperm⟩ := tree_walk_spec C k live hinv hnd hrk
  have hpos := tree_depth_pos k.mem live.length C.main_thrd hd
  refine ⟨_, rfl, fun e he => preorder_stable k.mem live.length e C.main_thrd hd he, hperm, hn,
    ?_, ?_, thrd_list_thrd_spec C cpu_usage k live.length fuel C.main_thrd hd hf,
    fun _ => rfl, ?_, ?_, update_cpu_usage_spec k.mem print live.length fuel C.main_thrd s hd hf,
    ?_⟩
  · obtain ⟨e, he⟩ : ∃ e, live.length = e + 1 := ⟨live.length - 1, by omega⟩
    rw [he]
    rfl
  · intro P hP
    exact preorder_order k.mem live.length C.main_thrd hd P (hperm.mem_iff.2 hP)
  · intro x P hx
    simp [thrd_list_row, hx]
  · simp [thrd_list_row, hinv.2.2.1]
  · intro x
    obtain ⟨h1, h2⟩ := foldl_visit_spec k.mem print _ s hn x
    rw [h1, h2]
    simp [hperm.mem_iff]

/-- Witness for `introspection_walk_preorder`: the state `ex_poll6` of the
sample run, where thread 3 is a child of the monitor thread 1. -/
theorem introspection_walk_preorder_witness :
    layout_ok ex_config ∧ reachable ex_errno ex_config true ex_poll6 [0, 2, 1, 3] ∧
    [0, 2, 1, 3].length ≤ 4 ∧
    preorder ex_poll6.mem 4 0 = [0, 2, 1, 3] ∧
    (thrd_list_thrd ex_config (fun _ => 0) ex_poll6 4 0).toOption.map
        (fun rows => rows.map (fun r => (r.name, r.parent_name)))
      = some [("main", ""), ("", "main"), ("", "main"), ("", "")] ∧
    ∃ order : List Nat,
      order = preorder ex_poll6.mem [0, 2, 1, 3].length ex_config.main_thrd ∧
      List.Perm order [0, 2, 1, 3] ∧ order.Nodup ∧
      thrd_list_thrd ex_config (fun _ => 0) ex_poll6 4 ex_config.main_thrd
        = Except.ok (order.map (thrd_list_row ex_config (fun _ => 0) ex_poll6)) ∧
      update_cpu_usage ex_poll6.mem 1 4 ex_config.main_thrd ex_cpu
        = Except.ok (order.foldl (update_cpu_usage_visit ex_poll6.mem 1) ex_cpu) :=
  ⟨by decide, ex_poll6_reachable, by decide, by decide, by decide,
    match introspection_walk_preorder ex_errno ex_config true ex_poll6 [0, 2, 1, 3]
      (fun _ => 0) 1 ex_cpu 4 (by decide) ex_poll6_reachable (by decide) with
    | ⟨o, h1, _, h3, h4, _, _, h7, _, _, _, h11, _⟩ => ⟨o, h1, h3, h4, h7, h11⟩⟩

/-! ## Terminated threads -/

theorem pop_links_only (k k1 : Kernel) (t : Nat)
    (h : scheduler_ready_pop k = Except.ok (k1, t)) :
    links_only k k1 ∧ k.ready_p = some t := by
  cases hr : k.ready_p with
  | none => simp [scheduler_ready_pop, hr] at h
  | some a =>
    cases hn : (k.mem a).next_p with
    | none =>
      simp only [scheduler_ready_pop, hr, hn] at h
      cases h
      exact ⟨links_only_trans (links_only_ready k _)
        (links_only_trans (links_only_set_prev _ _ _) (links_only_set_next _ _ _)), rfl⟩
    | some b =>
      simp only [scheduler_ready_pop, hr, hn] at h
      cases h
      exact ⟨links_only_trans (links_only_ready k _)
        (links_only_trans (links_only_set_prev _ _ _)
          (links_only_trans (links_only_set_prev _ _ _) (links_only_set_next _ _ _))), rfl⟩

theorem push_loop_head (t : Nat) :
    ∀ (fuel : Nat) (k : Kernel) (a : Nat) (k1 : Kernel),
      scheduler_ready_push_loop t fuel k a = Except.ok k1 →
      k1.ready_p = some t ∨ k1.ready_p = k.ready_p := by
  intro fuel
  induction fuel with
  | zero => intro k a k1 h; simp [scheduler_ready_push_loop] at h
  | succ f ih =>
    intro k a k1 h
    by_cases hp : (k.mem t).prio < (k.mem a).prio
    · simp only [scheduler_ready_push_loop, if_pos hp] at h
      cases h
      cases hv : (k.mem a).prev_p with
      | none => exact Or.inl rfl
      | some b => exact Or.inr rfl
    · cases hn : (k.mem a).next_p with
      | none =>
        simp only [scheduler_ready_push_loop, if_neg hp, hn] at h
        cases h
        exact Or.inr rfl
      | some b =>
        simp only [scheduler_ready_push_loop, if_neg hp, hn] at h
        exact ih k b k1 h

/-- After a push the head of the ready list is the pushed thread or the head
as it was. -/
theorem push_head (t : Nat) (fuel : Nat) (k k1 : Kernel)
    (h : scheduler_ready_push fuel k t = Except.ok k1) :
    k1.ready_p = some t ∨ k1.ready_p = k.ready_p := by
  cases hr : k.ready_p with
  | none =>
    simp only [scheduler_ready_push, hr] at h
    cases h
    exact Or.inl rfl
  | some a =>
    simp only [scheduler_ready_push, hr] at h
    rcases push_loop_head t fuel k a k1 h with h1 | h1
    · exact Or.inl h1
    · exact Or.inr (h1.trans hr)

/-- `thrd_reschedule` writes the state of the head of the ready list only. -/
theorem reschedule_state_frame (E : errno_t) (k k1 : Kernel) (b : Bool) (x : Nat)
    (hx : k.ready_p ≠ some x) (h : thrd_reschedule E k = Except.ok (k1, b)) :
    (k1.mem x).state = (k.mem x).state := by
  unfold thrd_reschedule at h
  cases hc : thrd_self k with
  | none => rw [hc] at h; simp at h
  | some out =>
    rw [hc] at h
    simp only at h
    by_cases hm : (k.mem out).stack_low_magic ≠ THRD_STACK_LOW_MAGIC
    · rw [if_pos hm] at h; simp at h
    · rw [if_neg hm] at h
      cases hp : scheduler_ready_pop k with
      | error f => rw [hp] at h; simp at h
      | ok p =>
        obtain ⟨k0, t⟩ := p
        rw [hp] at h
        simp only at h
        obtain ⟨hlk, hhead⟩ := pop_links_only k k0 t hp
        have hxt : x ≠ t := fun e => hx (e ▸ hhead)
        have e0 : ((k0.set_state t THRD_STATE_CURRENT).mem x).state = (k.mem x).state := by
          rw [set_state_state_other k0 t THRD_STATE_CURRENT x hxt, links_only_state hlk]
        by_cases hio : t ≠ out
        · rw [if_pos hio] at h
          cases h
          exact e0
        · rw [if_neg hio] at h
          cases h
          exact e0

/-- `thrd_resume_isr` leaves the state of every thread other than its target
alone, and that of a Terminated target as well. -/
theorem resume_state_frame (fuel : Nat) (k k1 : Kernel) (t : Nat) (err r : Int) (x : Nat)
    (hx : x ≠ t ∨ (k.mem x).state = THRD_STATE_TERMINATED)
    (h : thrd_resume_isr fuel k t err = Except.ok (k1, r)) :
    (k1.mem x).state = (k.mem x).state := by
  unfold thrd_resume_isr at h
  simp only at h
  by_cases hxt : x = t
  · have hT : (k.mem t).state = THRD_STATE_TERMINATED := by
      rcases hx with h1 | h1
      · exact absurd hxt h1
      · rw [← hxt]; exact h1
    have hT1 : ((k.set_err t err).mem t).state = THRD_STATE_TERMINATED := by
      rw [set_err_state]; exact hT
    rw [if_neg (by rw [hT1]; decide), if_neg (by rw [hT1]; decide)] at h
    cases h
    rw [set_err_state]
  · by_cases h1 : ((k.set_err t err).mem t).state = THRD_STATE_SUSPENDED
    · rw [if_pos h1] at h
      cases hp : scheduler_ready_push fuel ((k.set_err t err).set_state t THRD_STATE_READY) t with
      | error f => rw [hp] at h; simp at h
      | ok k3 =>
        rw [hp] at h
        simp only [Except.ok.injEq, Prod.mk.injEq] at h
        rw [← h.1, links_only_state (push_links_only t fuel _ k3 hp),
          set_state_state_other _ t _ x hxt, set_err_state]
    · rw [if_neg h1] at h
      by_cases h2 : ((k.set_err t err).mem t).state ≠ THRD_STATE_TERMINATED
      · rw [if_pos h2] at h
        cases h
        rw [set_state_state_other _ t _ x hxt, set_err_state]
      · rw [if_neg h2] at h
        cases h
        rw [set_err_state]

theorem suspend_finish_state_frame (E : errno_t) (k k1 : Kernel) (t : Nat) (r : suspend_result)
    (x : Nat) (hx : k.ready_p ≠ some x)
    (h : thrd_suspend_isr_finish E k t = Except.ok (k1, r)) :
    (k1.mem x).state = (k.mem x).state := by
  unfold thrd_suspend_isr_finish at h
  cases hr : thrd_reschedule E k with
  | error f => rw [hr] at h; simp at h
  | ok p =>
    obtain ⟨k0, b⟩ := p
    rw [hr] at h
    have s := reschedule_state_frame E k k0 b x hx hr
    cases b with
    | true =>
      simp only [Except.ok.injEq, Prod.mk.injEq] at h
      rw [← h.1]
      exact s
    | false =>
      simp only [Except.ok.injEq, Prod.mk.injEq] at h
      rw [← h.1]
      exact s

/-- `thrd_suspend_isr` writes the state of the caller and of the head of the
ready list only. -/
theorem suspend_state_frame (E : errno_t) (fuel : Nat) (k k1 : Kernel)
    (timeout_p : Option time_t) (r : suspend_result) (x : Nat)
    (hxc : k.current_p ≠ some x) (hx : k.ready_p ≠ some x)
    (h : thrd_suspend_isr E fuel k timeout_p = Except.ok (k1, r)) :
    (k1.mem x).state = (k.mem x).state := by
  unfold thrd_suspend_isr at h
  cases hc : thrd_self k with
  | none => rw [hc] at h; simp at h
  | some t =>
    have hxt : x ≠ t := fun e => hxc (e ▸ hc)
    rw [hc] at h
    simp only at h
    by_cases h1 : (k.mem t).state = THRD_STATE_RESUMED
    · rw [if_pos h1] at h
      cases hp : scheduler_ready_push fuel (k.set_state t THRD_STATE_READY) t with
      | error f => rw [hp] at h; simp at h
      | ok k2 =>
        rw [hp] at h
        simp only at h
        have hhead : k2.ready_p ≠ some x := by
          rcases push_head t fuel _ k2 hp with e | e
          · rw [e]
            exact fun e1 => hxt (Option.some.inj e1).symm
          · rw [e]
            exact hx
        rw [suspend_finish_state_frame E k2 k1 t r x hhead h,
          links_only_state (push_links_only t fuel _ k2 hp),
          set_state_state_other _ t _ x hxt]
    · rw [if_neg h1] at h
      cases timeout_p with
      | none =>
        simp only at h
        rw [suspend_finish_state_frame E (k.set_state t THRD_STATE_SUSPENDED) k1 t r x hx h,
          set_state_state_other _ t _ x hxt]
      | some timeout =>
        simp only at h
        by_cases hz : timeout.seconds = 0 ∧ timeout.nanoseconds = 0
        · rw [if_pos hz] at h
          simp only [Except.ok.injEq, Prod.mk.injEq] at h
          rw [← h.1, set_state_state_other _ t _ x hxt]
        · rw [if_neg hz] at h
          have e := suspend_finish_state_frame E _ k1 t r x
            (show (timer_set_isr (k.set_state t THRD_STATE_SUSPENDED) timeout t).ready_p
              ≠ some x from hx) h
          rw [e]
          exact set_state_state_other _ t _ x hxt

/-- `terminate` writes the state of the caller and of the head of the ready
list only. -/
theorem terminate_state_frame (E : errno_t) (k k1 : Kernel) (b : Bool) (x : Nat)
    (hxc : k.current_p ≠ some x) (hx : k.ready_p ≠ some x)
    (h : terminate E k = Except.ok (k1, b)) :
    (k1.mem x).state = (k.mem x).state := by
  unfold terminate at h
  cases hc : thrd_self k with
  | none => rw [hc] at h; simp at h
  | some t =>
    have hxt : x ≠ t := fun e => hxc (e ▸ hc)
    rw [hc] at h
    simp only at h
    rw [reschedule_state_frame E (k.set_state t THRD_STATE_TERMINATED) k1 b x hx h,
      set_state_state_other _ t _ x hxt]

/-- Without a poll with a zero-valued timeout, Terminated is absorbing: in a
state reachable from `thrd_module_init` a Terminated thread in use is neither
`scheduler.current` nor on the ready list, and it is still Terminated after a
`thrd_spawn` of a fresh control block, a `thrd_suspend`, a `thrd_resume` of
any thread and a `terminate`; the caller of `terminate` is Terminated
afterwards and no longer `scheduler.current`. -/
theorem terminated_absorbing_without_poll (E : errno_t) (C : config_t) (k : Kernel)
    (live : List Nat) (T : Nat) (hC : layout_ok C) (hr : reachable E C false k live)
    (hTl : T ∈ live) (hT : (k.mem T).state = THRD_STATE_TERMINATED) :
    k.current_p ≠ some T ∧ (∃ l, ready_queue k l ∧ T ∉ l) ∧
    (∀ (fuel : Nat) (port_err prio : Int) (stack_p stack_size : Nat) (k1 : Kernel)
        (r : Option Nat), stack_p ∉ live →
      thrd_spawn C fuel k port_err prio stack_p stack_size = Except.ok (k1, r) →
      (k1.mem T).state = THRD_STATE_TERMINATED) ∧
    (∀ (fuel : Nat) (timeout_p : Option time_t) (k1 : Kernel) (r : suspend_result),
      thrd_suspend E fuel k timeout_p = Except.ok (k1, r) →
      (k1.mem T).state = THRD_STATE_TERMINATED) ∧
    (∀ (fuel t : Nat) (err : Int) (k1 : Kernel) (r : Int),
      thrd_resume fuel k t err = Except.ok (k1, r) →
      (k1.mem T).state = THRD_STATE_TERMINATED) ∧
    (∀ (k1 : Kernel) (b : Bool), terminate E k = Except.ok (k1, b) →
      (k1.mem T).state = THRD_STATE_TERMINATED ∧
      ∀ c, k.current_p = some c →
        (k1.mem c).state = THRD_STATE_TERMINATED ∧ k1.current_p ≠ some c) := by
  have hinv := reachable_sched_inv E C hC k live hr
  obtain ⟨c, l, hc, hcl, hq, hcn, hl, hcs, hon, hoff⟩ := hinv
  have hTc : T ≠ c := by
    intro e
    rw [e] at hT
    rcases hcs with h1 | h1 <;> rw [hT] at h1 <;> exact absurd h1 (by decide)
  have hTnl : T ∉ l := by
    intro hm
    rcases hon T hm with h1 | h1 <;> rw [hT] at h1 <;> exact absurd h1 (by decide)
  have hhead : ∀ x, x ∉ l → k.ready_p ≠ some x := by
    intro x hx e
    cases l with
    | nil =>
      have h0 : k.ready_p = none := hq.1
      rw [h0] at e
      cases e
    | cons a l1 =>
      have h0 : k.ready_p = some a := hq.1.1
      rw [h0] at e
      exact hx (by rw [← Option.some.inj e]; exact List.mem_cons_self a l1)
  have hcur : k.current_p ≠ some T := by
    rw [hc]
    exact fun e => hTc (Option.some.inj e).symm
  refine ⟨hcur, ⟨l, hq, hTnl⟩, ?_, ?_, ?_, ?_⟩
  · intro fuel port_err prio stack_p stack_size k1 r hfresh hs
    obtain ⟨c1, _, _, hp⟩ := spawn_ok_spec C fuel k k1 port_err prio stack_p stack_size r hs
    have hTs : T ≠ stack_p := fun e => hfresh (e ▸ hTl)
    rw [links_only_state (push_links_only stack_p fuel _ k1 hp),
      (spawn_pre_links C k c1 prio stack_p stack_size T hTs).2.2.2]
    exact hT
  · intro fuel timeout_p k1 r hs
    rw [suspend_state_frame E fuel k k1 timeout_p r T hcur (hhead T hTnl) hs]
    exact hT
  · intro fuel t err k1 r hs
    unfold thrd_resume at hs
    cases hi : thrd_resume_isr fuel k t err with
    | error f => rw [hi] at hs; simp at hs
    | ok p =>
      obtain ⟨k0, r0⟩ := p
      rw [hi] at hs
      simp only [Except.ok.injEq, Prod.mk.injEq] at hs
      rw [← hs.1, resume_state_frame fuel k k0 t err r0 T (Or.inr hT) hi]
      exact hT
  · intro k1 b ht
    refine ⟨?_, ?_⟩
    · rw [terminate_state_frame E k k1 b T hcur (hhead T hTnl) ht]
      exact hT
    · intro c2 hc2
      have e : c2 = c := by
        rw [hc] at hc2
        exact (Option.some.inj hc2).symm
      rw [e]
      have hst : (k1.mem c).state = THRD_STATE_TERMINATED := by
        have ht1 := ht
        simp only [terminate, thrd_self, hc] at ht1
        rw [reschedule_state_frame E (k.set_state c THRD_STATE_TERMINATED) k1 b c
          (hhead c hcn) ht1]
        simp [Kernel.set_state, mem_set]
      refine ⟨hst, ?_⟩
      obtain ⟨c3, l3, hc3, _, _, _, _, hcs3, _, _⟩ :=
        terminate_inv E k k1 live b ⟨c, l, hc, hcl, hq, hcn, hl, hcs, hon, hoff⟩ ht
      rw [hc3]
      intro e3
      rw [Option.some.inj e3, hst] at hcs3
      rcases hcs3 with h1 | h1 <;> exact absurd h1 (by decide)

/-- Witness for `terminated_absorbing_without_poll`: in the sample system
thread 0 (main) terminates; it is Terminated afterwards and thread 1 runs. -/
theorem terminated_absorbing_without_poll_witness :
    ∃ k1, terminate ex_errno ex_init = Except.ok (k1, true) ∧
      (k1.mem 0).state = THRD_STATE_TERMINATED ∧ k1.current_p = some 1 ∧
      reachable ex_errno ex_config false k1 [0, 2, 1] ∧
      k1.current_p ≠ some 0 ∧ ∃ l, ready_queue k1 l ∧ 0 ∉ l :=
  ⟨_, rfl, by decide, rfl,
    reachable.terminate ex_init [0, 2, 1] _ true
      (reachable.init 4 (fun _ => tcb none none 0 0 0) 0 0 ex_init 0 rfl) rfl,
    (terminated_absorbing_without_poll ex_errno ex_config _ [0, 2, 1] 0 (by decide)
      (reachable.terminate ex_init [0, 2, 1] _ true
        (reachable.init 4 (fun _ => tcb none none 0 0 0) 0 0 ex_init 0 rfl) rfl)
      (by decide) (by decide)).1,
    (terminated_absorbing_without_poll ex_errno ex_config _ [0, 2, 1] 0 (by decide)
      (reachable.terminate ex_init [0, 2, 1] _ true
        (reachable.init 4 (fun _ => tcb none none 0 0 0) 0 0 ex_init 0 rfl) rfl)
      (by decide) (by decide)).2.1⟩

/-- C36 fails on the code.  In the sample system thread 0 (main) spawns a
worker, thread 3, of priority 10; main and the monitor suspend, so the worker
runs.  The worker polls with the timeout `{0, 0}` and keeps running marked
Suspended; a resume pushes it onto the ready list, as its head, while it runs.
Its entry function returns: `terminate` marks it Terminated, and
`thrd_reschedule` pops it, sets its state to Current and performs no swap.
After `terminate` the caller is in state Current and still
`scheduler.current`. -/
theorem poll_run_revives_terminated :
    thrd_module_init ex_config 4 (boot_kernel (fun _ => tcb none none 0 0 0)) 0 0
        = Except.ok (ex_init, 0) ∧
    thrd_spawn ex_config 8 ex_init 0 10 3 256 = Except.ok (ex_term1, some 3) ∧
    thrd_suspend ex_errno 8 ex_term1 none = Except.ok (ex_term2, suspend_result.switched) ∧
    thrd_suspend ex_errno 8 ex_term2 none = Except.ok (ex_term3, suspend_result.switched) ∧
    ex_term3.current_p = some 3 ∧
    thrd_suspend ex_errno 8 ex_term3 (some ⟨0, 0⟩)
        = Except.ok (ex_term4, suspend_result.returned (-110)) ∧
    thrd_resume 8 ex_term4 3 0 = Except.ok (ex_term5, 0) ∧
    ex_term5.current_p = some 3 ∧ ready_queue ex_term5 [3, 2] ∧
    terminate ex_errno ex_term5 = Except.ok (ex_term6, false) ∧
    reachable ex_errno ex_config true ex_term6 [0, 2, 1, 3] ∧
    ex_term6.current_p = some 3 ∧ (ex_term6.mem 3).state = THRD_STATE_CURRENT ∧
    (ex_term6.mem 3).state ≠ THRD_STATE_TERMINATED :=
  ⟨rfl, rfl, rfl, rfl, rfl, rfl, rfl, rfl, by decide, rfl,
    reachable.terminate ex_term5 [0, 2, 1, 3] ex_term6 false
      (reachable.resume 8 ex_term4 [0, 2, 1, 3] 3 0 ex_term5 0
        (reachable.suspend 8 ex_term3 [0, 2, 1, 3] (some ⟨0, 0⟩) ex_term4
          (suspend_result.returned (-110))
          (reachable.suspend 8 ex_term2 [0, 2, 1, 3] none ex_term3 suspend_result.switched
            (reachable.suspend 8 ex_term1 [0, 2, 1, 3] none ex_term2 suspend_result.switched
              (reachable.spawn 8 ex_init [0, 2, 1] 0 10 3 256 ex_term1 (some 3)
                (reachable.init 4 (fun _ => tcb none none 0 0 0) 0 0 ex_init 0 rfl)
                (by decide) rfl)
              (Or.inl rfl) rfl)
            (Or.inl rfl) rfl)
          (Or.inl rfl) rfl)
        (by decide) rfl)
      rfl,
    rfl, by decide, by decide⟩

end Simba
